import Mathlib

/-! Landmark discovery (RHW / RPG-SAS+) : shallow embedding and verified properties.

The definitions below embed `src/search/landmarks/landmark_factory_rpg_sasp.cc`.
C++ containers are embedded as lists:

* `vector<T>`              : `List T`, indexed with `getD` (an index outside the
                             vector, undefined in C++, reads the default);
* `unordered_set<int>`     : `List Nat`, only membership is observed;
* `unordered_map<int,int>` : association list `List (Nat × Nat)` whose keys are
                             kept unique by `emplace`;
* `set<FactPair>`          : list of facts kept sorted and duplicate free.

`while` loops carry an explicit fuel argument and return `none` when the fuel is
exhausted; the theorems show that the fuel supplied by the callers suffices.
-/

namespace Downward

/-! ## Planning task model -/

/-- Modelled from the spec: `FactPair` (declared in `abstract_task.h`): "a
(variable-id, value) pair identifying one proposition". Variable ids and values
index vectors, they are natural numbers. -/
structure FactPair where
  var : Nat
  value : Nat
deriving DecidableEq, Repr

/-- Modelled from the spec: `EffectProxy` (declared in `task_proxy.h`): an effect
has a target fact and per-effect conditions. -/
structure Effect where
  conditions : List FactPair
  fact : FactPair
deriving DecidableEq, Repr

/-- Modelled from the spec: `OperatorProxy` (declared in `task_proxy.h`):
"operators/axioms (preconditions, effects with per-effect conditions, cost)". -/
structure Operator where
  preconditions : List FactPair
  effects : List Effect
  cost : Int
deriving DecidableEq, Repr

/-- Modelled from the spec: `VariableProxy` (declared in `task_proxy.h`):
"variables (id, domain size, human-readable per-value fact names)"; the id of a
variable is its position in `Task.vars`. -/
structure Variable where
  domain_size : Nat
  fact_names : List String
deriving DecidableEq, Repr

/-- Modelled from the spec: `TaskProxy` (declared in `task_proxy.h`): "read-only
access to variables, operators, goal condition, initial state". The initial state
is the vector of the initial values of the variables. -/
structure Task where
  vars : List Variable
  operators : List Operator
  initial_state : List Nat
  goals : List FactPair
deriving DecidableEq, Repr

/-- The value `numeric_limits<int>::max()`. -/
def INT_MAX : Int := 2147483647

/-- The value `initial_state[var].get_value()`. -/
def initial_value (initial_state : List Nat) (var : Nat) : Nat :=
  initial_state.getD var 0

/-- The value `variables[var].get_domain_size()`. -/
def get_domain_size (vars : List Variable) (var : Nat) : Nat :=
  (vars.getD var ⟨0, []⟩).domain_size

/-! ## Domain transition graphs : `domain_connectivity` -/

/-- The type of `dtg_successors` : `vector<vector<unordered_set<int>>>`. -/
abbrev DtgSuccessors := List (List (List Nat))

/-- Body of the `for (int val : successors[c])` loop of `domain_connectivity`,
on the pair `(open, closed)`. -/
def domain_connectivity_visit (oc : List Nat × List Nat) (val : Nat) :
    List Nat × List Nat :=
  if val ∈ oc.2 then oc else (oc.1 ++ [val], val :: oc.2)

/-- The `while (closed.find(landmark.value) == closed.end())` loop of
`domain_connectivity`; `none` when the fuel runs out. -/
def domain_connectivity_loop (successors : List (List Nat)) (value : Nat) :
    Nat → List Nat → List Nat → Option Bool
  | 0, _, _ => none
  | fuel + 1, open_, closed =>
    if value ∈ closed then some true
    else
      match open_ with
      | [] => some false
      | c :: rest =>
        let oc := (successors.getD c []).foldl domain_connectivity_visit (rest, closed)
        domain_connectivity_loop successors value fuel oc.1 oc.2

/-- Fuel for the loop of `domain_connectivity` : every iteration pops one value,
and a value is pushed at most once, when it enters `closed`. -/
def domain_connectivity_fuel (successors : List (List Nat)) : Nat :=
  successors.flatten.length + 2

/-- The function `LandmarkFactoryRpgSasp::domain_connectivity`. The two `assert`s
(the landmark value differs from the initial value and is not excluded) are
preconditions of the callers and do not influence the returned value. -/
def domain_connectivity (dtg_successors : DtgSuccessors) (initial_state : List Nat)
    (landmark : FactPair) (exclude : List Nat) : Option Bool :=
  let var := landmark.var
  if initial_value initial_state var ∈ exclude then some false
  else
    let open_ := [initial_value initial_state var]
    let closed := initial_value initial_state var :: exclude
    let successors := dtg_successors.getD var []
    domain_connectivity_loop successors landmark.value
      (domain_connectivity_fuel successors) open_ closed

/-- An edge `a → b` of the domain transition graph `successors`. -/
def dtg_edge (successors : List (List Nat)) (a b : Nat) : Prop :=
  b ∈ successors.getD a []

/-- The list `p` is a path `i = v0 → v1 → ... → vk = g` of `successors` none of
whose vertices is in `exclude`. -/
def AvoidingPath (successors : List (List Nat)) (exclude : List Nat) (i g : Nat)
    (p : List Nat) : Prop :=
  p.head? = some i ∧ p.getLast? = some g ∧ List.Chain' (dtg_edge successors) p ∧
    ∀ v ∈ p, v ∉ exclude

/-! ## Notions of the correctness proof of `domain_connectivity` -/

/-- One transition that does not enter `exclude`. -/
def avoid_step (successors : List (List Nat)) (exclude : List Nat) (a b : Nat) : Prop :=
  dtg_edge successors a b ∧ b ∉ exclude

/-- Reachability from `i` without entering `exclude` (`i` included). -/
def AvoidReach (successors : List (List Nat)) (exclude : List Nat) (i v : Nat) : Prop :=
  i ∉ exclude ∧ Relation.ReflTransGen (avoid_step successors exclude) i v

/-- Number of entries of `univ` that are not in `closed`. -/
def dc_unseen (univ closed : List Nat) : Nat :=
  (univ.filter (fun v => decide (v ∉ closed))).length

/-- Invariant of the loop of `domain_connectivity`. -/
structure DcInv (successors : List (List Nat)) (exclude : List Nat) (i : Nat)
    (op cl : List Nat) : Prop where
  excl : ∀ v ∈ exclude, v ∈ cl
  sound : ∀ v ∈ cl, v ∈ exclude ∨ AvoidReach successors exclude i v
  opn : ∀ v ∈ op, AvoidReach successors exclude i v
  start : i ∈ cl ∧ i ∉ exclude
  done : ∀ u ∈ cl, u ∉ exclude → u ∉ op → ∀ w ∈ successors.getD u [], w ∈ cl

/-! ## Maps `unordered_map<int, int>` -/

/-- The type `unordered_map<int, int>` as an association list with unique keys. -/
abbrev IntMap := List (Nat × Nat)

/-- The assignment `m[k] = v` (`operator[]`) : overwrites the value of a present key. -/
def IntMap.assign (m : IntMap) (k v : Nat) : IntMap :=
  match m with
  | [] => [(k, v)]
  | (k', v') :: rest => if k' = k then (k, v) :: rest else (k', v') :: IntMap.assign rest k v

/-- The call `m.emplace(k, v)` : inserts only when the key is absent. -/
def IntMap.emplace (m : IntMap) (k v : Nat) : IntMap :=
  match m with
  | [] => [(k, v)]
  | (k', v') :: rest => if k' = k then (k', v') :: rest else (k', v') :: IntMap.emplace rest k v

/-- The lookup `m.find(k)` : the value of key `k`, if present. -/
def IntMap.find (m : IntMap) (k : Nat) : Option Nat :=
  match m with
  | [] => none
  | (k', v') :: rest => if k' = k then some v' else IntMap.find rest k

/-! ## Domain transition graphs : `build_dtg_successors` -/

/-- The set `dtg_successors[var_id][pre]`. -/
def dtg_get (dtg : DtgSuccessors) (var_id pre : Nat) : List Nat :=
  (dtg.getD var_id []).getD pre []

/-- The call `s.insert(x)` on an `unordered_set<int>`. -/
def set_insert (s : List Nat) (x : Nat) : List Nat :=
  if x ∈ s then s else s ++ [x]

/-- The function `LandmarkFactoryRpgSasp::add_dtg_successor`. -/
def add_dtg_successor (dtg : DtgSuccessors) (var_id pre post : Nat) : DtgSuccessors :=
  if pre ≠ post then
    dtg.set var_id ((dtg.getD var_id []).set pre (set_insert (dtg_get dtg var_id pre) post))
  else dtg

/-- The map built by `for (FactProxy f : facts) map[f.var] = f.value`. -/
def fact_map (facts : List FactPair) : IntMap :=
  facts.foldl (fun m f => IntMap.assign m f.var f.value) []

/-- Body of the loop over the effects of an operator in `build_dtg_successors`. -/
def build_dtg_effect (vars : List Variable) (precondition_map : IntMap)
    (dtg : DtgSuccessors) (effect : Effect) : DtgSuccessors :=
  let eff_condition := fact_map effect.conditions
  let var_id := effect.fact.var
  let post := effect.fact.value
  match IntMap.find precondition_map var_id with
  | some pre =>
    match IntMap.find eff_condition var_id with
    | some c => if c ≠ pre then dtg else add_dtg_successor dtg var_id pre post
    | none => add_dtg_successor dtg var_id pre post
  | none =>
    match IntMap.find eff_condition var_id with
    | some c => add_dtg_successor dtg var_id c post
    | none =>
      (List.range (get_domain_size vars var_id)).foldl
        (fun d pre => add_dtg_successor d var_id pre post) dtg

/-- Body of the loop over the operators in `build_dtg_successors`. -/
def build_dtg_operator (vars : List Variable) (dtg : DtgSuccessors) (op : Operator) :
    DtgSuccessors :=
  op.effects.foldl (build_dtg_effect vars (fact_map op.preconditions)) dtg

/-- The function `LandmarkFactoryRpgSasp::build_dtg_successors`, run on the empty
member `dtg_successors` : the resized structure holds one empty set per value. -/
def build_dtg_successors (task : Task) : DtgSuccessors :=
  task.operators.foldl (build_dtg_operator task.vars)
    (task.vars.map (fun v => List.replicate v.domain_size []))

/-- The facts `facts` hold at most one value per variable. -/
def one_value_per_var (facts : List FactPair) : Prop :=
  ∀ p ∈ facts, ∀ q ∈ facts, p.var = q.var → p.value = q.value

/-- The effect `effect` of operator `op` induces the transition `pre → post` of
variable `v` : the three cases of the guarded precondition. -/
def induces_transition (op : Operator) (effect : Effect) (v pre post : Nat) : Prop :=
  effect.fact = ⟨v, post⟩ ∧
  ((⟨v, pre⟩ ∈ op.preconditions ∧
      ((∀ c ∈ effect.conditions, c.var ≠ v) ∨ ⟨v, pre⟩ ∈ effect.conditions)) ∨
   ((∀ p ∈ op.preconditions, p.var ≠ v) ∧ ⟨v, pre⟩ ∈ effect.conditions) ∨
   ((∀ p ∈ op.preconditions, p.var ≠ v) ∧ (∀ c ∈ effect.conditions, c.var ≠ v)))

/-- The row lengths of a domain transition graph : `dtg_successors[v].size()`. -/
def dtg_shape (dtg : DtgSuccessors) : List Nat := dtg.map List.length

/-- The transition `pre → post` of variable `v` is inserted by the loop body for
`effect`, in terms of the two lookup maps. -/
def effect_transition (vars : List Variable) (precondition_map : IntMap)
    (effect : Effect) (v pre post : Nat) : Prop :=
  effect.fact = ⟨v, post⟩ ∧ pre ≠ post ∧
  ((IntMap.find precondition_map v = some pre ∧
      (IntMap.find (fact_map effect.conditions) v = none ∨
       IntMap.find (fact_map effect.conditions) v = some pre)) ∨
   (IntMap.find precondition_map v = none ∧
      IntMap.find (fact_map effect.conditions) v = some pre) ∨
   (IntMap.find precondition_map v = none ∧
      IntMap.find (fact_map effect.conditions) v = none ∧
      pre < get_domain_size vars v))

/-! ## Landmarks and greedy preconditions -/

/-- Modelled from the spec: `Landmark` (declared in `landmark.h`): "an ordered
sequence of Facts, a `disjunctive` flag, a `conjunctive` flag, an `is_goal` flag,
and a `cost`". -/
structure Landmark where
  facts : List FactPair
  disjunctive : Bool
  conjunctive : Bool
  is_goal : Bool
  cost : Int
deriving DecidableEq, Repr

/-- Modelled from the spec: the constructor `Landmark(facts, disjunctive,
conjunctive, is_goal = false)` (declared in `landmark.h`): the cost is
"initialized to unknown/infinite until computed". -/
def Landmark.new (facts : List FactPair) (disjunctive conjunctive : Bool)
    (is_goal : Bool) : Landmark :=
  ⟨facts, disjunctive, conjunctive, is_goal, INT_MAX⟩

/-- Modelled from the spec: `_intersect` (declared in `landmarks/util.h`): the
intersection of two maps, as variable-value pairs. -/
def _intersect (a b : IntMap) : IntMap :=
  a.filter (fun p => decide (IntMap.find b p.1 = some p.2))

/-- The map built by `for (FactProxy f : facts) map.emplace(f.var, f.value)`,
starting from `m`. -/
def emplace_facts (m : IntMap) (facts : List FactPair) : IntMap :=
  facts.foldl (fun m f => IntMap.emplace m f.var f.value) m

/-- The call `result.insert(other.begin(), other.end())` on maps : keys that are
already present keep their value. -/
def IntMap.insert_all (m other : IntMap) : IntMap :=
  other.foldl (fun m p => IntMap.emplace m p.1 p.2) m

/-- The vector `has_precondition_on_var` of `get_greedy_preconditions_for_lm`. -/
def has_precondition_on_var (num_vars : Nat) (preconditions : List FactPair) : List Bool :=
  preconditions.foldl (fun hp p => hp.set p.var true) (List.replicate num_vars false)

/-- Second loop of `get_greedy_preconditions_for_lm` (one effect) : a two-valued
variable without precondition that the landmark pins to a value other than the
initial one gets its initial value as inferred precondition. The inner `for` with
`break` emplaces once, when some landmark fact qualifies. -/
def greedy_infer_effect (task : Task) (landmark : Landmark) (has_pre : List Bool)
    (result : IntMap) (effect : Effect) : IntMap :=
  let var_id := effect.fact.var
  if !has_pre.getD var_id false && get_domain_size task.vars var_id == 2 then
    if landmark.facts.any (fun lm_fact =>
        lm_fact.var == var_id &&
          initial_value task.initial_state var_id != lm_fact.value) then
      IntMap.emplace result var_id (initial_value task.initial_state var_id)
    else result
  else result

/-- The set `lm_props_achievable` : the indices `j` with `landmark.facts[j]` equal
to the fact of some effect, in increasing order (iteration order of `set<int>`). -/
def lm_props_achievable (landmark : Landmark) (effects : List Effect) : List Nat :=
  (List.range landmark.facts.length).filter
    (fun j => effects.any (fun e => landmark.facts.getD j ⟨0, 0⟩ == e.fact))

/-- Inner loop `for (EffectProxy effect : effects)` of the intersection phase, for
the landmark fact `lm_fact = landmark.facts[lm_prop]`, on the state
`(init, intersection)`; returning the state is the `break`. -/
def greedy_intersect_effects (lm_fact : FactPair) :
    List Effect → Bool × IntMap → Bool × IntMap
  | [], st => st
  | effect :: rest, (init, intersection) =>
    if !init && intersection.isEmpty then (init, intersection)
    else if lm_fact = effect.fact then
      if effect.conditions.isEmpty then (init, [])
      else
        let current_cond := emplace_facts [] effect.conditions
        greedy_intersect_effects lm_fact rest
          (false, if init then current_cond else _intersect intersection current_cond)
    else
      greedy_intersect_effects lm_fact rest
        (false, if init then [] else _intersect intersection [])

/-- The intersection phase of `get_greedy_preconditions_for_lm` : the final value
of `intersection`. -/
def greedy_intersection (landmark : Landmark) (effects : List Effect) : IntMap :=
  ((lm_props_achievable landmark effects).foldl
    (fun st lm_prop =>
      greedy_intersect_effects (landmark.facts.getD lm_prop ⟨0, 0⟩) effects st)
    (true, [])).2

/-- The function `LandmarkFactoryRpgSasp::get_greedy_preconditions_for_lm`; the
out-parameter `result` is passed in and returned. -/
def get_greedy_preconditions_for_lm (task : Task) (landmark : Landmark) (op : Operator)
    (result : IntMap) : IntMap :=
  let has_pre := has_precondition_on_var task.vars.length op.preconditions
  let result := emplace_facts result op.preconditions
  let result := op.effects.foldl (greedy_infer_effect task landmark has_pre) result
  IntMap.insert_all result (greedy_intersection landmark op.effects)

/-- The map `m` holds each key once. -/
def IntMap.keys_nodup (m : IntMap) : Prop := (m.map Prod.fst).Nodup

/-- Invariant of the loop over `lm_props_achievable` in the intersection phase of
`get_greedy_preconditions_for_lm`, after the passes for the indices `J`. -/
def GreedyInv (landmark : Landmark) (es : List Effect) (J : List Nat)
    (st : Bool × IntMap) : Prop :=
  (∀ p ∈ st.2, ∀ j ∈ J, ∀ e ∈ es, landmark.facts.getD j ⟨0, 0⟩ = e.fact →
    (⟨p.1, p.2⟩ : FactPair) ∈ e.conditions) ∧
  (st.1 = true → st.2 = [] ∧ (J = [] ∨ ∀ e0 ∈ es.head?, e0.conditions = []))

/-! ## Achieving operators, shared preconditions and landmark cost -/

/-- The type of `lvl_var` : `vector<vector<int>>`, the reachability level of each
fact (`INT_MAX` for a fact that is not reached). -/
abbrev LvlVar := List (List Int)

/-- Modelled from the spec: `_possibly_reaches_lm` (declared in
`landmarks/util.h`) belongs to the Reachability Oracle, an external collaborator
consumed as `possibly_reaches(operator, levels, landmark) -> bool`; it is a
parameter of the functions that call it. -/
abbrev ReachOracle := Operator → LvlVar → Landmark → Bool

/-- Modelled from the spec: `get_operator_or_axiom` (declared in
`landmarks/util.h`): the operator with the given id, its position in
`Task.operators`. -/
def get_operator_or_axiom (task : Task) (op_or_axiom_id : Nat) : Operator :=
  task.operators.getD op_or_axiom_id ⟨[], [], 0⟩

/-- Modelled from the spec: `get_operators_including_eff` (declared in
`landmark_factory.h`): the "achieving-operator set" of a fact, the ids of the
operators that have an effect on the fact. -/
def get_operators_including_eff (task : Task) (fact : FactPair) : List Nat :=
  (List.range task.operators.length).filter
    (fun id => ( get_operator_or_axiom task id).effects.any (fun e => e.fact == fact))

/-- Inner loop `for (int op_or_axiom_id : op_ids)` of
`compute_shared_preconditions` on the state `(init, shared_pre)`; returning the
state is the `break`. -/
def shared_pre_operators (task : Task) (_possibly_reaches_lm : ReachOracle)
    (lvl_var : LvlVar) (landmark : Landmark) :
    List Nat → Bool × IntMap → Bool × IntMap
  | [], st => st
  | op_or_axiom_id :: rest, (init, shared_pre) =>
    if !init && shared_pre.isEmpty then (init, shared_pre)
    else
      if _possibly_reaches_lm ( get_operator_or_axiom task op_or_axiom_id) lvl_var landmark
      then
        let next_pre := get_greedy_preconditions_for_lm task landmark
          ( get_operator_or_axiom task op_or_axiom_id) []
        shared_pre_operators task _possibly_reaches_lm lvl_var landmark rest
          (false, if init then next_pre else _intersect shared_pre next_pre)
      else
        shared_pre_operators task _possibly_reaches_lm lvl_var landmark rest
          (init, shared_pre)

/-- The function `LandmarkFactoryRpgSasp::compute_shared_preconditions`; the
out-parameter `shared_pre` is passed in and returned. -/
def compute_shared_preconditions (task : Task) (_possibly_reaches_lm : ReachOracle)
    (shared_pre : IntMap) (lvl_var : LvlVar) (landmark : Landmark) : IntMap :=
  (landmark.facts.foldl
    (fun st lm_fact =>
      shared_pre_operators task _possibly_reaches_lm lvl_var landmark
        (get_operators_including_eff task lm_fact) st)
    (true, shared_pre)).2

/-- The inner loop of `compute_shared_preconditions` with the early `break`
removed : the reference against which the `break` is compared. -/
def shared_pre_operators_no_break (task : Task) (_possibly_reaches_lm : ReachOracle)
    (lvl_var : LvlVar) (landmark : Landmark) :
    List Nat → Bool × IntMap → Bool × IntMap
  | [], st => st
  | op_or_axiom_id :: rest, (init, shared_pre) =>
    if _possibly_reaches_lm ( get_operator_or_axiom task op_or_axiom_id) lvl_var landmark
    then
      let next_pre := get_greedy_preconditions_for_lm task landmark
        ( get_operator_or_axiom task op_or_axiom_id) []
      shared_pre_operators_no_break task _possibly_reaches_lm lvl_var landmark rest
        (false, if init then next_pre else _intersect shared_pre next_pre)
    else
      shared_pre_operators_no_break task _possibly_reaches_lm lvl_var landmark rest
        (init, shared_pre)

/-- The function `compute_shared_preconditions` with the early `break` removed. -/
def compute_shared_preconditions_no_break (task : Task)
    (_possibly_reaches_lm : ReachOracle) (shared_pre : IntMap) (lvl_var : LvlVar)
    (landmark : Landmark) : IntMap :=
  (landmark.facts.foldl
    (fun st lm_fact =>
      shared_pre_operators_no_break task _possibly_reaches_lm lvl_var landmark
        (get_operators_including_eff task lm_fact) st)
    (true, shared_pre)).2

/-- The function `LandmarkFactoryRpgSasp::min_cost_for_landmark` in a build with
assertions disabled : the final `assert(min_cost < INT_MAX)` is not evaluated. -/
def min_cost_for_landmark (task : Task) (_possibly_reaches_lm : ReachOracle)
    (landmark : Landmark) (lvl_var : LvlVar) : Int :=
  landmark.facts.foldl
    (fun min_cost lm_fact =>
      (get_operators_including_eff task lm_fact).foldl
        (fun min_cost op_or_axiom_id =>
          if _possibly_reaches_lm ( get_operator_or_axiom task op_or_axiom_id) lvl_var
              landmark
          then min min_cost ( get_operator_or_axiom task op_or_axiom_id).cost
          else min_cost)
        min_cost)
    INT_MAX

/-- The operator `op` of the task has an effect on some fact of the landmark and
possibly reaches it : it may achieve the landmark for the first time. -/
def first_achiever (task : Task) (_possibly_reaches_lm : ReachOracle) (lvl_var : LvlVar)
    (landmark : Landmark) (op : Operator) : Prop :=
  op ∈ task.operators ∧ (∃ e ∈ op.effects, e.fact ∈ landmark.facts) ∧
    _possibly_reaches_lm op lvl_var landmark = true

/-- The ids looked at by the loops over the achieving operators of a landmark. -/
def achiever_ids (task : Task) (landmark : Landmark) : List Nat :=
  landmark.facts.flatMap (get_operators_including_eff task)

/-! ## The landmark graph -/

/-- Modelled from the spec: `EdgeType` (declared in `landmark_graph.h`): "ordered
by strength, `NATURAL` (weaker) and `GREEDY_NECESSARY`". -/
inductive EdgeType where
  | NATURAL
  | GREEDY_NECESSARY
deriving DecidableEq, Repr

/-- Modelled from the spec: the strength order of `EdgeType`. -/
def EdgeType.strength : EdgeType → Nat
  | EdgeType.NATURAL => 0
  | EdgeType.GREEDY_NECESSARY => 1

/-- The type `unordered_map<LandmarkNode *, EdgeType>` : node handles with the type
of the edge to or from that node. -/
abbrev EdgeMap := List (Nat × EdgeType)

/-- The lookup `m.find(node)`. -/
def EdgeMap.find (m : EdgeMap) (k : Nat) : Option EdgeType :=
  match m with
  | [] => none
  | (k', t) :: rest => if k' = k then some t else EdgeMap.find rest k

/-- The call `m.erase(node)`. -/
def EdgeMap.erase (m : EdgeMap) (k : Nat) : EdgeMap :=
  m.filter (fun p => decide (p.1 ≠ k))

/-- Modelled from the spec: one side of `edge_add` : "when an edge between the
same pair is added twice, the stronger type wins; adding a weaker edge where a
stronger one exists is a no-op". -/
def EdgeMap.add (m : EdgeMap) (k : Nat) (t : EdgeType) : EdgeMap :=
  match EdgeMap.find m k with
  | some t' => if t'.strength < t.strength then EdgeMap.erase m k ++ [(k, t)] else m
  | none => m ++ [(k, t)]

/-- Modelled from the spec: `LandmarkNode` (declared in `landmark_graph.h`): "owns
one Landmark, plus adjacency: a mapping from parent node to edge type (incoming)
and from child node to edge type (outgoing)". The field `id` is the stable handle
that stands for the address of the node. -/
structure LandmarkNode where
  id : Nat
  landmark : Landmark
  parents : EdgeMap
  children : EdgeMap
deriving DecidableEq, Repr

/-- Modelled from the spec: `LandmarkGraph` (declared in `landmark_graph.h`):
"owns all Landmark Nodes"; `next_id` is the handle of the next node to create. -/
structure LandmarkGraph where
  nodes : List LandmarkNode
  next_id : Nat
deriving DecidableEq, Repr

/-- A landmark is simple when it is neither disjunctive nor conjunctive. -/
def Landmark.is_simple (lm : Landmark) : Bool := !lm.disjunctive && !lm.conjunctive

/-- The node with handle `id`, when it is in the graph. -/
def LandmarkGraph.get_node (g : LandmarkGraph) (id : Nat) : Option LandmarkNode :=
  g.nodes.find? (fun n => n.id == id)

/-- Modelled from the spec: `LandmarkGraph::get_simple_landmark` (declared in
`landmark_graph.h`): the graph "indexes facts → their containing simple-landmark
node"; `none` when the fact is not a simple landmark. -/
def LandmarkGraph.get_simple_landmark (g : LandmarkGraph) (fact : FactPair) :
    Option LandmarkNode :=
  g.nodes.find? (fun n => n.landmark.is_simple && decide (fact ∈ n.landmark.facts))

/-- Modelled from the spec: `LandmarkGraph::contains_simple_landmark` : "this fact
is already a simple landmark". -/
def LandmarkGraph.contains_simple_landmark (g : LandmarkGraph) (fact : FactPair) : Bool :=
  (g.get_simple_landmark fact).isSome

/-- Modelled from the spec: `LandmarkGraph::get_disjunctive_landmark` (declared in
`landmark_graph.h`): the disjunctive landmark node that contains the fact. -/
def LandmarkGraph.get_disjunctive_landmark (g : LandmarkGraph) (fact : FactPair) :
    Option LandmarkNode :=
  g.nodes.find? (fun n => n.landmark.disjunctive && decide (fact ∈ n.landmark.facts))

/-- Modelled from the spec: `LandmarkGraph::contains_disjunctive_landmark` : the
fact is part of an existing disjunctive landmark. -/
def LandmarkGraph.contains_disjunctive_landmark (g : LandmarkGraph) (fact : FactPair) :
    Bool :=
  (g.get_disjunctive_landmark fact).isSome

/-- Modelled from the spec: `LandmarkGraph::contains_overlapping_disjunctive_landmark`
: "this fact-set overlaps an existing disjunctive landmark". -/
def LandmarkGraph.contains_overlapping_disjunctive_landmark (g : LandmarkGraph)
    (a : List FactPair) : Bool :=
  a.any (fun fact => g.contains_disjunctive_landmark fact)

/-- Modelled from the spec: `LandmarkGraph::contains_identical_disjunctive_landmark`
: "this exact disjunctive fact-set already exists". -/
def LandmarkGraph.contains_identical_disjunctive_landmark (g : LandmarkGraph)
    (a : List FactPair) : Bool :=
  g.nodes.any (fun n => n.landmark.disjunctive &&
    a.all (fun fact => decide (fact ∈ n.landmark.facts)) &&
    n.landmark.facts.all (fun fact => decide (fact ∈ a)))

/-- Modelled from the spec: `LandmarkGraph::add_landmark` (declared in
`landmark_graph.h`): creates a node without edges that owns the landmark; returns
the graph and the handle of the new node. -/
def LandmarkGraph.add_landmark (g : LandmarkGraph) (landmark : Landmark) :
    LandmarkGraph × Nat :=
  (⟨g.nodes ++ [⟨g.next_id, landmark, [], []⟩], g.next_id + 1⟩, g.next_id)

/-- Modelled from the spec: `LandmarkGraph::remove_node` (declared in
`landmark_graph.h`): "removing a node also removes all its incident edges". -/
def LandmarkGraph.remove_node (g : LandmarkGraph) (id : Nat) : LandmarkGraph :=
  ⟨(g.nodes.filter (fun n => n.id != id)).map
      (fun n => { n with parents := EdgeMap.erase n.parents id,
                         children := EdgeMap.erase n.children id }),
    g.next_id⟩

/-- Modelled from the spec: `LandmarkFactory::edge_add` (declared in
`landmark_factory.h`): records the edge `from → to` in the children of `from` and
in the parents of `to`; "the stronger type wins", "self-loops are never
inserted". -/
def edge_add (g : LandmarkGraph) (from_ to_ : Nat) (type : EdgeType) : LandmarkGraph :=
  if from_ = to_ then g
  else
    ⟨g.nodes.map (fun n =>
        if n.id = from_ then { n with children := EdgeMap.add n.children to_ type }
        else if n.id = to_ then { n with parents := EdgeMap.add n.parents from_ type }
        else n),
      g.next_id⟩

/-- The type of an edge `from → to` as recorded in the children of `from`. -/
def LandmarkGraph.child_edge (g : LandmarkGraph) (from_ to_ : Nat) : Option EdgeType :=
  (g.get_node from_).bind (fun n => EdgeMap.find n.children to_)

/-- The type of an edge `from → to` as recorded in the parents of `to`. -/
def LandmarkGraph.parent_edge (g : LandmarkGraph) (from_ to_ : Nat) : Option EdgeType :=
  (g.get_node to_).bind (fun n => EdgeMap.find n.parents from_)

/-! ## Landmark node creation and merge -/

/-- The members of `LandmarkFactoryRpgSasp` that the node creation functions read
and write : the landmark graph, the worklist `open_landmarks` (a `deque` of node
handles) and the pending `forward_orders` (a map from node handles to fact
sets). -/
structure FactoryState where
  lm_graph : LandmarkGraph
  open_landmarks : List Nat
  forward_orders : List (Nat × List FactPair)
deriving DecidableEq, Repr

/-- The function `LandmarkFactoryRpgSasp::found_simple_lm_and_order`; the node `b`
is given by its handle. The test `contains_...` followed by the call `get_...` is
the lookup returning a node. -/
def found_simple_lm_and_order (st : FactoryState) (a : FactPair) (b : Nat)
    (t : EdgeType) : FactoryState :=
  match st.lm_graph.get_simple_landmark a with
  | some simple_lm => { st with lm_graph := edge_add st.lm_graph simple_lm.id b t }
  | none =>
    let landmark := Landmark.new [a] false false false
    match st.lm_graph.get_disjunctive_landmark a with
    | some disj_lm =>
      let open_landmarks := st.open_landmarks.erase disj_lm.id
      let forward_orders := st.forward_orders.filter (fun p => p.1 != disj_lm.id)
      let predecessors := disj_lm.parents.map (fun pred => pred.1)
      let g := st.lm_graph.remove_node disj_lm.id
      let (g, simple_lm) := g.add_landmark landmark
      let open_landmarks := open_landmarks ++ [simple_lm]
      let g := edge_add g simple_lm b t
      let g := predecessors.foldl (fun g pred => edge_add g pred simple_lm EdgeType.NATURAL) g
      ⟨g, open_landmarks, forward_orders⟩
    | none =>
      let (g, simple_lm) := st.lm_graph.add_landmark landmark
      ⟨edge_add g simple_lm b t, st.open_landmarks ++ [simple_lm], st.forward_orders⟩

/-- The first loop of `found_disj_lm_and_order` over the facts of `a` : `some true`
for the early `return` (a fact holds initially), `some false` for the `break` (a
fact is a simple landmark), `none` when the loop runs to its end. -/
def found_disj_scan (task : Task) (g : LandmarkGraph) : List FactPair → Option Bool
  | [] => none
  | lm :: rest =>
    if initial_value task.initial_state lm.var = lm.value then some true
    else if g.contains_simple_landmark lm then some false
    else found_disj_scan task g rest

/-- The function `LandmarkFactoryRpgSasp::found_disj_lm_and_order`; the set `a` is
given by its elements in increasing order. -/
def found_disj_lm_and_order (task : Task) (st : FactoryState) (a : List FactPair)
    (b : Nat) (t : EdgeType) : FactoryState :=
  match found_disj_scan task st.lm_graph a with
  | some _ => st
  | none =>
    if st.lm_graph.contains_overlapping_disjunctive_landmark a then
      if st.lm_graph.contains_identical_disjunctive_landmark a then
        match st.lm_graph.get_disjunctive_landmark (a.headD ⟨0, 0⟩) with
        | some new_lm => { st with lm_graph := edge_add st.lm_graph new_lm.id b t }
        | none => st
      else st
    else
      let landmark := Landmark.new a true false false
      let (g, new_lm) := st.lm_graph.add_landmark landmark
      ⟨edge_add g new_lm b t, st.open_landmarks ++ [new_lm], st.forward_orders⟩

/-- Distinct disjunctive landmark nodes of the graph have disjoint fact sets. -/
def disjunctive_disjoint (g : LandmarkGraph) : Prop :=
  ∀ n ∈ g.nodes, ∀ m ∈ g.nodes, n.landmark.disjunctive = true →
    m.landmark.disjunctive = true →
    (∃ f, f ∈ n.landmark.facts ∧ f ∈ m.landmark.facts) → n = m

/-- The handles in use are below `next_id` : the handle of a new node is fresh. -/
def fresh_handles (g : LandmarkGraph) : Prop :=
  ∀ n ∈ g.nodes, n.id < g.next_id ∧ (∀ p ∈ n.children, p.1 < g.next_id) ∧
    (∀ p ∈ n.parents, p.1 < g.next_id)

/-- No node of the graph has the handle `d`, and no node records an edge to or
from `d`. -/
def no_reference (g : LandmarkGraph) (d : Nat) : Prop :=
  ∀ n ∈ g.nodes, n.id ≠ d ∧ EdgeMap.find n.parents d = none ∧
    EdgeMap.find n.children d = none

/-! ## Disjunctive preconditions -/

/-- The type of `disjunction_classes` : `vector<vector<int>>`, the predicate class
of each fact, `-1` for a fact that takes part in no disjunctive landmark. -/
abbrev DisjunctionClasses := List (List Int)

/-- The value `disjunction_classes[var][value]`. -/
def disjunction_class (disjunction_classes : DisjunctionClasses) (var value : Nat) : Int :=
  (disjunction_classes.getD var []).getD value (-1)

/-- Modelled from the spec: the order of `FactPair` (declared in
`abstract_task.h`): facts are "totally ordered for use as set/map keys", by
variable and then by value. -/
def FactPair.lt (a b : FactPair) : Bool :=
  decide (a.var < b.var) || (a.var == b.var && decide (a.value < b.value))

/-- The call `s.insert(x)` on a `set<FactPair>` kept in increasing order. -/
def fact_set_insert (s : List FactPair) (x : FactPair) : List FactPair :=
  if x ∈ s then s
  else s.takeWhile (fun y => FactPair.lt y x) ++ [x] ++ s.dropWhile (fun y => FactPair.lt y x)

/-- The set built by `pre_set.insert(facts.begin(), facts.end())`. -/
def fact_set (facts : List FactPair) : List FactPair :=
  facts.foldl fact_set_insert []

/-- The value `m[k]` of a map from classes to containers, empty when absent. -/
def bucket_get {β : Type} (m : List (Int × List β)) (k : Int) : List β :=
  match m with
  | [] => []
  | (k', xs) :: rest => if k' = k then xs else bucket_get rest k

/-- The update `m[k] := f(m[k])` of a map from classes to containers; a missing key
is created with the empty container first. -/
def bucket_update {β : Type} (m : List (Int × List β)) (k : Int) (f : List β → List β) :
    List (Int × List β) :=
  match m with
  | [] => [(k, f [])]
  | (k', xs) :: rest =>
    if k' = k then (k', f xs) :: rest else (k', xs) :: bucket_update rest k f

/-- Body of the loop `for (const auto &pre : next_pre)` of
`compute_disjunctive_preconditions`, for the operator at position `i`, on the pair
`(preconditions, used_operators)`. -/
def disj_pre_collect (disjunction_classes : DisjunctionClasses) (lm_graph : LandmarkGraph)
    (i : Nat) (st : List (Int × List FactPair) × List (Int × List Nat)) (pre : Nat × Nat) :
    List (Int × List FactPair) × List (Int × List Nat) :=
  let disj_class := disjunction_class disjunction_classes pre.1 pre.2
  if disj_class = -1 then st
  else
    let pre_fact : FactPair := ⟨pre.1, pre.2⟩
    if !lm_graph.contains_simple_landmark pre_fact then
      (bucket_update st.1 disj_class (fun v => v ++ [pre_fact]),
       bucket_update st.2 disj_class (fun s => set_insert s i))
    else st

/-- The loop `for (size_t i = 0; i < op_or_axiom_ids.size(); ++i)` of
`compute_disjunctive_preconditions`, from position `i` on, on the state
`(num_ops, preconditions, used_operators)`. -/
def disj_pre_operators (task : Task) (_possibly_reaches_lm : ReachOracle)
    (disjunction_classes : DisjunctionClasses) (lm_graph : LandmarkGraph)
    (lvl_var : LvlVar) (landmark : Landmark) :
    List Nat → Nat → Nat × List (Int × List FactPair) × List (Int × List Nat) →
      Nat × List (Int × List FactPair) × List (Int × List Nat)
  | [], _, st => st
  | op_or_axiom_id :: rest, i, (num_ops, preconditions, used_operators) =>
    if _possibly_reaches_lm ( get_operator_or_axiom task op_or_axiom_id) lvl_var landmark
    then
      let next_pre := get_greedy_preconditions_for_lm task landmark
        ( get_operator_or_axiom task op_or_axiom_id) []
      let pu := next_pre.foldl (disj_pre_collect disjunction_classes lm_graph i)
        (preconditions, used_operators)
      disj_pre_operators task _possibly_reaches_lm disjunction_classes lm_graph lvl_var
        landmark rest (i + 1) (num_ops + 1, pu.1, pu.2)
    else
      disj_pre_operators task _possibly_reaches_lm disjunction_classes lm_graph lvl_var
        landmark rest (i + 1) (num_ops, preconditions, used_operators)

/-- Body of the final loop `for (const auto &pre : preconditions)` of
`compute_disjunctive_preconditions`. -/
def disj_pre_select (num_ops : Nat) (used_operators : List (Int × List Nat))
    (disjunctive_pre : List (List FactPair)) (pre : Int × List FactPair) :
    List (List FactPair) :=
  if (bucket_get used_operators pre.1).length = num_ops then
    let pre_set := fact_set pre.2
    if pre_set.length > 1 then disjunctive_pre ++ [pre_set] else disjunctive_pre
  else disjunctive_pre

/-- The function `LandmarkFactoryRpgSasp::compute_disjunctive_preconditions`; the
out-parameter `disjunctive_pre` is passed in and returned. The vector
`op_or_axiom_ids` of the first loop is `achiever_ids`. -/
def compute_disjunctive_preconditions (task : Task) (_possibly_reaches_lm : ReachOracle)
    (disjunction_classes : DisjunctionClasses) (lm_graph : LandmarkGraph)
    (disjunctive_pre : List (List FactPair)) (lvl_var : LvlVar) (landmark : Landmark) :
    List (List FactPair) :=
  let st := disj_pre_operators task _possibly_reaches_lm disjunction_classes lm_graph
    lvl_var landmark (achiever_ids task landmark) 0 (0, [], [])
  st.2.1.foldl (disj_pre_select st.1 st.2.2) disjunctive_pre

/-- Invariant of the loop over the achieving operators in
`compute_disjunctive_preconditions`, before position `i` of the id vector `all` :
`num_ops` counts the positions whose operator possibly reaches the landmark, each
`used_operators[c]` holds such positions without repetition, an operator recorded
for a class has a greedy precondition in the bucket of that class, and the facts
of a bucket have the class of the bucket, which is not `-1`. -/
def DisjPreInv (task : Task) (pr : ReachOracle) (dc : DisjunctionClasses)
    (lvl_var : LvlVar) (landmark : Landmark) (all : List Nat) (i : Nat)
    (st : Nat × List (Int × List FactPair) × List (Int × List Nat)) : Prop :=
  st.1 = ((List.range i).filter
    (fun j => pr ( get_operator_or_axiom task (all.getD j 0)) lvl_var landmark)).length ∧
  (∀ c, (bucket_get st.2.2 c).Nodup) ∧
  (∀ c j, j ∈ bucket_get st.2.2 c →
    j < i ∧ pr ( get_operator_or_axiom task (all.getD j 0)) lvl_var landmark = true ∧
    ∃ p ∈ get_greedy_preconditions_for_lm task landmark
        ( get_operator_or_axiom task (all.getD j 0)) [],
      (⟨p.1, p.2⟩ : FactPair) ∈ bucket_get st.2.1 c) ∧
  (∀ c x, x ∈ bucket_get st.2.1 c → disjunction_class dc x.var x.value = c ∧ c ≠ -1) ∧
  (st.2.1.map Prod.fst).Nodup

/-! ## Predicate disjunction classes : `build_disjunction_classes` -/

/-- Modelled from the spec: `utils::ExitCode` (declared in `utils/system.h`): the
exit code of the fatal input-format error. -/
inductive ExitCode where
  | SEARCH_INPUT_ERROR
deriving DecidableEq, Repr

/-- The call `fact_name.find('(', pos)` : the position of the first `'('` at or
after `pos`, `none` for `string::npos`. -/
def find_paren (fact_name : List Char) (pos : Nat) : Option Nat :=
  if (fact_name.drop pos).indexOf '(' < (fact_name.drop pos).length then
    some (pos + (fact_name.drop pos).indexOf '(')
  else none

/-- The function `get_predicate_for_fact`; `utils::exit_with` is the error
result. -/
def get_predicate_for_fact (vars : List Variable) (var_no value : Nat) :
    Except ExitCode String :=
  let fact_name := ((vars.getD var_no ⟨0, []⟩).fact_names.getD value "").data
  if fact_name = "<none of those>".data then Except.ok ""
  else
    let predicate_pos :=
      if fact_name.take 5 = "Atom ".data then 5
      else if fact_name.take 12 = "NegatedAtom ".data then 12
      else 0
    match find_paren fact_name predicate_pos with
    | none => Except.error ExitCode.SEARCH_INPUT_ERROR
    | some paren_pos =>
      if predicate_pos = 0 then Except.error ExitCode.SEARCH_INPUT_ERROR
      else Except.ok (String.mk ((fact_name.drop predicate_pos).take (paren_pos - predicate_pos)))

/-- The expression `predicate_to_index.insert(entry).first->second` with
`entry = (predicate, predicate_to_index.size())` : the index already stored for
the predicate, or the new index, with the updated map. -/
def predicate_index_insert (predicate_to_index : List (String × Int)) (predicate : String) :
    List (String × Int) × Int :=
  match predicate_to_index.find? (fun e => e.1 == predicate) with
  | some e => (predicate_to_index, e.2)
  | none =>
    (predicate_to_index ++ [(predicate, (predicate_to_index.length : Int))],
     (predicate_to_index.length : Int))

/-- The loop over the values of one variable in `build_disjunction_classes`, on
the state `(predicate_to_index, disjunction_classes[var_id])`. -/
def build_disjunction_classes_values (vars : List Variable) (var_id : Nat) :
    List Nat → List (String × Int) × List Int →
      Except ExitCode (List (String × Int) × List Int)
  | [], st => Except.ok st
  | value :: rest, (predicate_to_index, row) =>
    match get_predicate_for_fact vars var_id value with
    | Except.error e => Except.error e
    | Except.ok predicate =>
      if predicate.data.isEmpty then
        build_disjunction_classes_values vars var_id rest (predicate_to_index, row ++ [-1])
      else
        build_disjunction_classes_values vars var_id rest
          ((predicate_index_insert predicate_to_index predicate).1,
           row ++ [(predicate_index_insert predicate_to_index predicate).2])

/-- The loop over the variables in `build_disjunction_classes`, on the state
`(predicate_to_index, disjunction_classes)`. -/
def build_disjunction_classes_vars (vars : List Variable) :
    List Nat → List (String × Int) × DisjunctionClasses →
      Except ExitCode (List (String × Int) × DisjunctionClasses)
  | [], st => Except.ok st
  | var_id :: rest, (predicate_to_index, classes) =>
    match build_disjunction_classes_values vars var_id
        (List.range (get_domain_size vars var_id))
        (predicate_to_index, classes.getD var_id []) with
    | Except.error e => Except.error e
    | Except.ok r =>
      build_disjunction_classes_vars vars rest (r.1, classes.set var_id r.2)

/-- The function `LandmarkFactoryRpgSasp::build_disjunction_classes`, run on the
empty member `disjunction_classes`. -/
def build_disjunction_classes (task : Task) : Except ExitCode DisjunctionClasses :=
  match build_disjunction_classes_vars task.vars (List.range task.vars.length)
      ([], List.replicate task.vars.length []) with
  | Except.error e => Except.error e
  | Except.ok r => Except.ok r.2

/-! ## Ordering discovery -/

/-- The value `lvl_var[var][value]`. -/
def lvl_var_get (lvl_var : LvlVar) (var value : Nat) : Int :=
  (lvl_var.getD var []).getD value 0

/-- The flag `intersection_empty` of `find_forward_orders` : no operator id occurs
in both vectors. -/
def intersection_empty (reach_fact reach_lm : List Nat) : Bool :=
  reach_fact.all (fun j => reach_lm.all (fun k => j != k))

/-- The flag `insert` of `find_forward_orders` for the fact `fact` : every fact of
the landmark differs from `fact` and shares no achieving operator with it. -/
def forward_order_insert (task : Task) (landmark : Landmark) (fact : FactPair) : Bool :=
  landmark.facts.all (fun lm_fact =>
    fact != lm_fact &&
      intersection_empty (get_operators_including_eff task fact)
        (get_operators_including_eff task lm_fact))

/-- The call `forward_orders[lmp].insert(fact)`. -/
def forward_orders_insert (forward_orders : List (Nat × List FactPair)) (lmp : Nat)
    (fact : FactPair) : List (Nat × List FactPair) :=
  match forward_orders with
  | [] => [(lmp, [fact])]
  | (n, s) :: rest =>
    if n = lmp then (n, fact_set_insert s fact) :: rest
    else (n, s) :: forward_orders_insert rest lmp fact

/-- All facts of the task, by increasing variable and value : the iteration of the
two nested loops of `find_forward_orders`. -/
def all_facts (vars : List Variable) : List FactPair :=
  (List.range vars.length).flatMap (fun var =>
    (List.range (get_domain_size vars var)).map (fun value => (⟨var, value⟩ : FactPair)))

/-- The function `LandmarkFactoryRpgSasp::find_forward_orders`, for the node
`lmp` with landmark `landmark`. -/
def find_forward_orders (task : Task) (lvl_var : LvlVar)
    (forward_orders : List (Nat × List FactPair)) (lmp : Nat) (landmark : Landmark) :
    List (Nat × List FactPair) :=
  (all_facts task.vars).foldl
    (fun fo fact =>
      if lvl_var_get lvl_var fact.var fact.value ≠ INT_MAX then fo
      else if forward_order_insert task landmark fact then forward_orders_insert fo lmp fact
      else fo)
    forward_orders

/-- Body of the second loop over the values in `approximate_lookahead_orders`;
`none` when `domain_connectivity` runs out of fuel. -/
def approximate_lookahead_value (task : Task) (dtg_successors : DtgSuccessors)
    (unreached : List Nat) (lmk : FactPair) (lmp : Nat)
    (st : Option FactoryState) (value : Nat) : Option FactoryState :=
  match st with
  | none => none
  | some st =>
    if value ∉ unreached ∧ lmk.value ≠ value then
      match domain_connectivity dtg_successors task.initial_state lmk
          (set_insert unreached value) with
      | none => none
      | some connected =>
        if !connected then
          some (found_simple_lm_and_order st ⟨lmk.var, value⟩ lmp EdgeType.NATURAL)
        else some st
    else some st

/-- The function `LandmarkFactoryRpgSasp::approximate_lookahead_orders`; the node
`lmp` is given by its handle, a handle that is not in the graph leaves the state
unchanged. -/
def approximate_lookahead_orders (task : Task) (dtg_successors : DtgSuccessors)
    (lvl_var : LvlVar) (st : FactoryState) (lmp : Nat) : Option FactoryState :=
  match st.lm_graph.get_node lmp with
  | none => some st
  | some node =>
    let st := { st with
      forward_orders := find_forward_orders task lvl_var st.forward_orders lmp node.landmark }
    let landmark := node.landmark
    if landmark.disjunctive then some st
    else
      let lmk := landmark.facts.headD ⟨0, 0⟩
      let domain_size := get_domain_size task.vars lmk.var
      let unreached := (List.range domain_size).filter (fun value =>
        decide (lvl_var_get lvl_var lmk.var value = INT_MAX) && decide (lmk.value ≠ value))
      (List.range domain_size).foldl
        (approximate_lookahead_value task dtg_successors unreached lmk lmp) (some st)

/-! ## The worklist loop of `generate_relaxed_landmarks` -/

/-- Modelled from the spec: the earliest-level part of the Reachability Oracle
(`relaxed_task_solvable`, declared in `landmark_factory_relaxation.h`): "given the
task and a landmark, returns, for every fact, the earliest relaxed-plan step at
which it becomes reachable". It is a parameter of the loop. -/
abbrev LevelOracle := Landmark → LvlVar

/-- Modelled from the spec: `Landmark::is_true_in_state` (declared in
`landmark.h`): a disjunctive landmark holds when one of its facts holds, any other
landmark when all its facts hold. -/
def Landmark.is_true_in_state (landmark : Landmark) (state : List Nat) : Bool :=
  if landmark.disjunctive then
    landmark.facts.any (fun fact => initial_value state fact.var == fact.value)
  else
    landmark.facts.all (fun fact => initial_value state fact.var == fact.value)

/-- The assignment `landmark.cost = cost` through the reference to the landmark of
the node `bp`. -/
def LandmarkGraph.set_cost (g : LandmarkGraph) (bp : Nat) (cost : Int) : LandmarkGraph :=
  ⟨g.nodes.map (fun n =>
      if n.id = bp then { n with landmark := { n.landmark with cost := cost } } else n),
    g.next_id⟩

/-- The seeding loop of `generate_relaxed_landmarks` : every goal fact becomes a
simple landmark marked as goal and is appended to the worklist. -/
def generate_relaxed_landmarks_seed (task : Task) (st : FactoryState) : FactoryState :=
  task.goals.foldl
    (fun st goal =>
      ⟨(st.lm_graph.add_landmark (Landmark.new [goal] false false true)).1,
       st.open_landmarks ++ [(st.lm_graph.add_landmark (Landmark.new [goal] false false true)).2],
       st.forward_orders⟩)
    st

/-- One iteration of the loop `while (!open_landmarks.empty())` of
`generate_relaxed_landmarks`; `none` when `domain_connectivity` runs out of
fuel. -/
def generate_relaxed_landmarks_step (task : Task) (relaxed_task_solvable : LevelOracle)
    (_possibly_reaches_lm : ReachOracle) (dtg_successors : DtgSuccessors)
    (disjunction_classes : DisjunctionClasses) (st : FactoryState) : Option FactoryState :=
  match st.open_landmarks with
  | [] => some st
  | bp :: rest =>
    match st.lm_graph.get_node bp with
    | none => some { st with open_landmarks := rest }
    | some node =>
      if node.landmark.is_true_in_state task.initial_state then
        some { st with open_landmarks := rest }
      else
        let lvl_var := relaxed_task_solvable node.landmark
        let shared_pre :=
          compute_shared_preconditions task _possibly_reaches_lm [] lvl_var node.landmark
        match approximate_lookahead_orders task dtg_successors lvl_var
            (shared_pre.foldl
              (fun st pre =>
                found_simple_lm_and_order st ⟨pre.1, pre.2⟩ bp EdgeType.GREEDY_NECESSARY)
              { st with open_landmarks := rest })
            bp with
        | none => none
        | some st =>
          let cost := min_cost_for_landmark task _possibly_reaches_lm node.landmark lvl_var
          let st := { st with lm_graph := st.lm_graph.set_cost bp cost }
          let disjunctive_pre :=
            compute_disjunctive_preconditions task _possibly_reaches_lm disjunction_classes
              st.lm_graph [] lvl_var { node.landmark with cost := cost }
          some (disjunctive_pre.foldl
            (fun st preconditions =>
              if preconditions.length < 5 then
                found_disj_lm_and_order task st preconditions bp EdgeType.GREEDY_NECESSARY
              else st)
            st)

/-- The state of `generate_relaxed_landmarks` after at most `n` iterations of the
worklist loop, started in the state `st`. -/
def generate_relaxed_landmarks_iterate (task : Task) (relaxed_task_solvable : LevelOracle)
    (_possibly_reaches_lm : ReachOracle) (dtg_successors : DtgSuccessors)
    (disjunction_classes : DisjunctionClasses) : Nat → FactoryState → Option FactoryState
  | 0, st => some st
  | n + 1, st =>
    match generate_relaxed_landmarks_step task relaxed_task_solvable _possibly_reaches_lm
        dtg_successors disjunction_classes st with
    | none => none
    | some st =>
      generate_relaxed_landmarks_iterate task relaxed_task_solvable _possibly_reaches_lm
        dtg_successors disjunction_classes n st

/-- The state of a freshly constructed factory : empty graph, empty worklist, no
pending forward orders. -/
def FactoryState.empty : FactoryState := ⟨⟨[], 0⟩, [], []⟩

/-- A disjunctive landmark has between 2 and 4 distinct facts, all of the same
predicate disjunction class, which is not `-1`. -/
def disjunctive_well_formed (disjunction_classes : DisjunctionClasses) (lm : Landmark) :
    Prop :=
  lm.disjunctive = true →
    lm.facts.Nodup ∧ 2 ≤ lm.facts.length ∧ lm.facts.length ≤ 4 ∧
    ∃ c : Int, c ≠ -1 ∧ ∀ f ∈ lm.facts, disjunction_class disjunction_classes f.var f.value = c

/-- Every disjunctive landmark of the graph is well formed. -/
def graph_disjunctive_well_formed (disjunction_classes : DisjunctionClasses)
    (g : LandmarkGraph) : Prop :=
  ∀ n ∈ g.nodes, disjunctive_well_formed disjunction_classes n.landmark

/-! ## Notions used to state the effect of node creation on the graph -/

/-- The type recorded for an edge after `edge_add` with type `t`, when `old` was
recorded before : the stronger of the two. -/
def strengthen (old : Option EdgeType) (t : EdgeType) : EdgeType :=
  match old with
  | some t' => if t'.strength < t.strength then t else t'
  | none => t

/-- The handles and landmarks of the nodes of the graph, in creation order. -/
def LandmarkGraph.node_landmarks (g : LandmarkGraph) : List (Nat × Landmark) :=
  g.nodes.map (fun n => (n.id, n.landmark))

/-! ## Sample data -/

/-- A task with six variables, all `0` initially, without operators. -/
def sample_task : Task := ⟨[], [], [0, 0, 0, 0, 0, 0], []⟩

/-- A landmark graph with the goal landmark `v0 = 1` (node 0), the disjunctive
landmark `{v1 = 1, v2 = 1}` (node 1, greedy-necessarily ordered before node 0) and
the simple landmark `v3 = 1` (node 2, naturally ordered before node 0). -/
def sample_graph : LandmarkGraph :=
  ⟨[⟨0, Landmark.new [⟨0, 1⟩] false false true,
      [(1, EdgeType.GREEDY_NECESSARY), (2, EdgeType.NATURAL)], []⟩,
    ⟨1, Landmark.new [⟨1, 1⟩, ⟨2, 1⟩] true false false, [],
      [(0, EdgeType.GREEDY_NECESSARY)]⟩,
    ⟨2, Landmark.new [⟨3, 1⟩] false false false, [], [(0, EdgeType.NATURAL)]⟩], 3⟩

/-- A factory state over `sample_graph` with the worklist `[1, 2]`. -/
def sample_state : FactoryState := ⟨sample_graph, [1, 2], []⟩

/-! ## The flush of the forward orders and the function `generate_relaxed_landmarks` -/

/-- The set `forward_orders[node]` : empty for a node without entry. -/
def forward_orders_get (forward_orders : List (Nat × List FactPair)) (node : Nat) :
    List FactPair :=
  match forward_orders.find? (fun p => p.1 == node) with
  | some p => p.2
  | none => []

/-- The call `forward_orders[node].clear()` : the entry of the node, created by
`operator[]` when it is missing, is the empty set afterwards. -/
def forward_orders_clear (forward_orders : List (Nat × List FactPair)) (node : Nat) :
    List (Nat × List FactPair) :=
  if forward_orders.any (fun p => p.1 == node) then
    forward_orders.map (fun p => if p.1 = node then (p.1, []) else p)
  else forward_orders ++ [(node, [])]

/-- Body of the outer loop of `add_lm_forward_orders` for the node `node`. -/
def add_lm_forward_orders_node (st : FactoryState) (node : Nat) : FactoryState :=
  { st with
    lm_graph := (forward_orders_get st.forward_orders node).foldl
      (fun g node2_pair =>
        match g.get_simple_landmark node2_pair with
        | some node2 => edge_add g node node2.id EdgeType.NATURAL
        | none => g)
      st.lm_graph
    forward_orders := forward_orders_clear st.forward_orders node }

/-- The function `LandmarkFactoryRpgSasp::add_lm_forward_orders`. -/
def add_lm_forward_orders (st : FactoryState) : FactoryState :=
  (st.lm_graph.nodes.map (fun n => n.id)).foldl add_lm_forward_orders_node st

/-- Modelled from the spec: `LandmarkGraph::remove_node_if` (declared in
`landmark_graph.h`), the "bulk conditional removal", as called by
`discard_disjunctive_landmarks` : "drop all disjunctive-landmark nodes (and their
edges)". -/
def discard_disjunctive_landmarks (g : LandmarkGraph) : LandmarkGraph :=
  ((g.nodes.filter (fun n => n.landmark.disjunctive)).map (fun n => n.id)).foldl
    (fun g id => g.remove_node id) g

/-- Modelled from the spec: `LandmarkFactory::discard_all_orderings` (declared in
`landmark_factory.h`): "drop all edges (keep nodes only)". -/
def discard_all_orderings (g : LandmarkGraph) : LandmarkGraph :=
  ⟨g.nodes.map (fun n => { n with parents := [], children := [] }), g.next_id⟩

/-- The options of the factory read by `generate_relaxed_landmarks`. -/
structure FactoryOptions where
  disjunctive_landmarks : Bool
  use_orders : Bool
  only_causal_landmarks : Bool
deriving DecidableEq, Repr

/-- The loop `while (!open_landmarks.empty())` of `generate_relaxed_landmarks`
with fuel : `none` when the fuel runs out before the worklist is empty (or when
`domain_connectivity` runs out of fuel). -/
def generate_relaxed_landmarks_loop (task : Task) (relaxed_task_solvable : LevelOracle)
    (_possibly_reaches_lm : ReachOracle) (dtg_successors : DtgSuccessors)
    (disjunction_classes : DisjunctionClasses) : Nat → FactoryState → Option FactoryState
  | 0, st => if st.open_landmarks.isEmpty then some st else none
  | n + 1, st =>
    if st.open_landmarks.isEmpty then some st
    else
      match generate_relaxed_landmarks_step task relaxed_task_solvable _possibly_reaches_lm
          dtg_successors disjunction_classes st with
      | none => none
      | some st =>
        generate_relaxed_landmarks_loop task relaxed_task_solvable _possibly_reaches_lm
          dtg_successors disjunction_classes n st

/-- The function `LandmarkFactoryRpgSasp::generate_relaxed_landmarks` on a fresh
factory. The Reachability Oracle (`relaxed_task_solvable`, `_possibly_reaches_lm`)
and the causal-necessity filter (`discard_noncausal_landmarks`) are external
collaborators and parameters; `fuel` bounds the number of iterations of the
worklist loop. The result is the exit code of `build_disjunction_classes` when it
aborts, `none` when the fuel runs out. -/
def generate_relaxed_landmarks (task : Task) (options : FactoryOptions)
    (relaxed_task_solvable : LevelOracle) (_possibly_reaches_lm : ReachOracle)
    (discard_noncausal_landmarks : LandmarkGraph → LandmarkGraph) (fuel : Nat) :
    Except ExitCode (Option FactoryState) :=
  let dtg_successors := build_dtg_successors task
  match build_disjunction_classes task with
  | Except.error code => Except.error code
  | Except.ok disjunction_classes =>
    match generate_relaxed_landmarks_loop task relaxed_task_solvable _possibly_reaches_lm
        dtg_successors disjunction_classes fuel
        (generate_relaxed_landmarks_seed task FactoryState.empty) with
    | none => Except.ok none
    | some st =>
      let st := add_lm_forward_orders st
      let st := if !options.disjunctive_landmarks then
        { st with lm_graph := discard_disjunctive_landmarks st.lm_graph } else st
      let st := if !options.use_orders then
        { st with lm_graph := discard_all_orderings st.lm_graph } else st
      let st := if options.only_causal_landmarks then
        { st with lm_graph := discard_noncausal_landmarks st.lm_graph } else st
      Except.ok (some st)

/-- The landmark graph computed by `generate_relaxed_landmarks`, when the
function returns one. -/
def generated_graph (r : Except ExitCode (Option FactoryState)) : Option LandmarkGraph :=
  match r with
  | Except.ok (some st) => some st.lm_graph
  | _ => none

/-- The options with all filters off : disjunctive landmarks and orderings are
kept, the causal filter is not applied. -/
def all_filters_off : FactoryOptions := ⟨true, true, false⟩

/-! ## The two end-to-end scenarios -/

/-- The variables `x` (variable 0) and `y` (variable 1) of the scenarios : two
values each, value `1` named by the atom, value `0` by the negated atom. -/
def scenario_vars : List Variable :=
  [⟨2, ["NegatedAtom x()", "Atom x()"]⟩, ⟨2, ["NegatedAtom y()", "Atom y()"]⟩]

/-- The operator of both scenarios : precondition `y = 1`, effect `x := 1`,
cost 1. -/
def scenario_op_x : Operator := ⟨[⟨1, 1⟩], [⟨[], ⟨0, 1⟩⟩], 1⟩

/-- The second operator of scenario 2 : no precondition, effect `y := 1`, cost 2. -/
def scenario_op_y : Operator := ⟨[], [⟨[], ⟨1, 1⟩⟩], 2⟩

/-- Scenario 1 : initial state `x = 0, y = 1`, goal `x = 1`, the operator
`scenario_op_x`. -/
def scenario1 : Task := ⟨scenario_vars, [scenario_op_x], [0, 1], [⟨0, 1⟩]⟩

/-- Scenario 2 : initial state `x = 0, y = 0`, goal `x = 1`, the operators
`scenario_op_x` and `scenario_op_y`. -/
def scenario2 : Task := ⟨scenario_vars, [scenario_op_x, scenario_op_y], [0, 0], [⟨0, 1⟩]⟩

/-- The goal landmark `x = 1` of the scenarios, as seeded. -/
def landmark_x1 : Landmark := Landmark.new [⟨0, 1⟩] false false true

/-- The simple landmark `y = 1`, as created by `found_simple_lm_and_order`. -/
def landmark_y1 : Landmark := Landmark.new [⟨1, 1⟩] false false false

/-- A level table for two boolean variables : the level of a fact is `INT_MAX`
when its flag is set and `0` otherwise. -/
def scenario_levels (x0 x1 y0 y1 : Bool) : LvlVar :=
  [[if x0 then INT_MAX else 0, if x1 then INT_MAX else 0],
   [if y0 then INT_MAX else 0, if y1 then INT_MAX else 0]]

/-- Two level tables have the value `INT_MAX` for the same facts of the task. -/
def same_unreached (vars : List Variable) (lvl lvl' : LvlVar) : Prop :=
  ∀ f ∈ all_facts vars,
    (lvl_var_get lvl f.var f.value = INT_MAX ↔ lvl_var_get lvl' f.var f.value = INT_MAX)

/-- The landmark that the next iteration of the worklist loop backchains from :
the landmark of the node at the front of the worklist, unless it holds in the
initial state. -/
def processed_landmark (task : Task) (st : FactoryState) : Option Landmark :=
  match st.open_landmarks with
  | [] => none
  | bp :: _ =>
    match st.lm_graph.get_node bp with
    | none => none
    | some node =>
      if node.landmark.is_true_in_state task.initial_state then none else some node.landmark

/-- The two oracles give the same answers for the landmark : their level tables
have the value `INT_MAX` for the same facts of the task, and an operator of the
task with an effect on a fact of the landmark possibly reaches the landmark
(whatever cost is recorded for it) for the one iff for the other. -/
def oracles_agree (task : Task) (o o' : LevelOracle) (pr pr' : ReachOracle)
    (landmark : Landmark) : Prop :=
  same_unreached task.vars (o landmark) (o' landmark) ∧
  ∀ op ∈ task.operators, (∃ e ∈ op.effects, e.fact ∈ landmark.facts) → ∀ c,
    pr op (o landmark) { landmark with cost := c } =
      pr' op (o' landmark) { landmark with cost := c }

/-- The graph of scenario 1 : the goal landmark `x = 1` with cost 1 (node 0), and
the simple landmarks `y = 1` (node 1) and `x = 0` (node 2), both greedy-necessarily
ordered before node 0 and both with the cost `INT_MAX` of a landmark that is not
backchained from. -/
def scenario1_graph : LandmarkGraph :=
  ⟨[⟨0, ⟨[⟨0, 1⟩], false, false, true, 1⟩,
      [(1, EdgeType.GREEDY_NECESSARY), (2, EdgeType.GREEDY_NECESSARY)], []⟩,
    ⟨1, ⟨[⟨1, 1⟩], false, false, false, INT_MAX⟩, [], [(0, EdgeType.GREEDY_NECESSARY)]⟩,
    ⟨2, ⟨[⟨0, 0⟩], false, false, false, INT_MAX⟩, [], [(0, EdgeType.GREEDY_NECESSARY)]⟩], 3⟩

/-- The graph of scenario 2 : the goal landmark `x = 1` with cost 1 (node 0), the
landmark `y = 1` with cost 2 (node 1), and the landmarks `x = 0` (node 2) and
`y = 0` (node 3) that hold initially; `y = 1` and `x = 0` are greedy-necessarily
ordered before `x = 1`, and `y = 0` before `y = 1`. -/
def scenario2_graph : LandmarkGraph :=
  ⟨[⟨0, ⟨[⟨0, 1⟩], false, false, true, 1⟩,
      [(1, EdgeType.GREEDY_NECESSARY), (2, EdgeType.GREEDY_NECESSARY)], []⟩,
    ⟨1, ⟨[⟨1, 1⟩], false, false, false, 2⟩, [(3, EdgeType.GREEDY_NECESSARY)],
      [(0, EdgeType.GREEDY_NECESSARY)]⟩,
    ⟨2, ⟨[⟨0, 0⟩], false, false, false, INT_MAX⟩, [], [(0, EdgeType.GREEDY_NECESSARY)]⟩,
    ⟨3, ⟨[⟨1, 0⟩], false, false, false, INT_MAX⟩, [], [(1, EdgeType.GREEDY_NECESSARY)]⟩], 4⟩

/-- Levels of the relaxed planning graph of scenario 1 when the landmark `x = 1`
is left out : `x = 0` and `y = 1` hold initially (level 0), `x = 1` and `y = 0` are
not reached. -/
def scenario1_levels : LevelOracle := fun _ => scenario_levels false true true false

/-- Unreached facts of the relaxed planning graph of scenario 2 : when the
landmark `x = 1` is left out only `x = 1` is not reached; when the landmark
`y = 1` is left out, `y = 1` and `x = 1` are not reached. -/
def scenario2_levels : LevelOracle := fun landmark =>
  if landmark.facts = [⟨0, 1⟩] then scenario_levels false true false false
  else scenario_levels false true false true

/-- The answer of `_possibly_reaches_lm` in the scenarios : the preconditions of
each operator are reached, so each operator possibly reaches the landmark it has
an effect on. -/
def scenario_reaches : ReachOracle := fun _ _ _ => true

/-! ## Notions used to state the predicate classes -/

/-- The name `variables[var].get_fact(value).get_name()`, as a list of
characters. -/
def fact_name (vars : List Variable) (var value : Nat) : List Char :=
  ((vars.getD var ⟨0, []⟩).fact_names.getD value "").data

/-- The name has the form `Atom p(...)` or `NegatedAtom p(...)` with the predicate
name `p` : a marker prefix, then `p` without `'('`, then `'('` and any text. -/
def has_predicate_name (name p : List Char) : Prop :=
  '(' ∉ p ∧ ∃ args : List Char,
    name = ['A', 't', 'o', 'm', ' '] ++ (p ++ '(' :: args) ∨
    name = ['N', 'e', 'g', 'a', 't', 'e', 'd', 'A', 't', 'o', 'm', ' '] ++ (p ++ '(' :: args)

/-- The map `predicate_to_index` holds each predicate once and gives the
predicates the indices `0, 1, 2, ...` in insertion order. -/
def PredicateIndexInv (predicate_to_index : List (String × Int)) : Prop :=
  (predicate_to_index.map Prod.fst).Nodup ∧
  predicate_to_index.map Prod.snd = (List.range predicate_to_index.length).map Int.ofNat

/-- The class `c` is the one the classifier gives to the fact `(var, value)` with
the map `predicate_to_index` : `-1` for the empty predicate, the index of the
predicate otherwise. -/
def Classified (predicate_to_index : List (String × Int)) (vars : List Variable)
    (var value : Nat) (c : Int) : Prop :=
  ∃ predicate, get_predicate_for_fact vars var value = Except.ok predicate ∧
    (predicate.data = [] → c = -1) ∧
    (predicate.data ≠ [] → (predicate, c) ∈ predicate_to_index)

/-- A task with two variables whose facts are named `Atom p(a)`,
`NegatedAtom p(b)` and `Atom q(a)`, `<none of those>`. -/
def sample_named_task : Task :=
  ⟨[⟨2, ["Atom p(a)", "NegatedAtom p(b)"]⟩, ⟨2, ["Atom q(a)", "<none of those>"]⟩],
   [], [0, 0], []⟩

/-- The name starts with the marker prefix `Atom ` or `NegatedAtom `, followed by
`rest`. -/
def has_marker (name rest : List Char) : Prop :=
  name = ['A', 't', 'o', 'm', ' '] ++ rest ∨
  name = ['N', 'e', 'g', 'a', 't', 'e', 'd', 'A', 't', 'o', 'm', ' '] ++ rest

/-- A task whose first fact is named `foo(a)` (no marker prefix), the second
`bar` (no marker prefix, no parenthesis) and the third `Atom p(a)`. -/
def sample_unmarked_task : Task :=
  ⟨[⟨3, ["foo(a)", "bar", "Atom p(a)"]⟩], [], [0], []⟩

/-- A task whose first fact is named `Atom p` (marker prefix, no parenthesis) and
the second `NegatedAtom q(a)`. -/
def sample_marked_task : Task :=
  ⟨[⟨2, ["Atom p", "NegatedAtom q(a)"]⟩], [], [0], []⟩

/-- A task in which the goal `v0 = 1` is achieved by two operators, one with the
preconditions `v1 = 1, v2 = 1, v3 = 1` and one with `v4 = 1, v5 = 1`; the facts
`v1 = 1, ..., v5 = 1` are atoms of the same predicate `p`. -/
def sample_wide_task : Task :=
  ⟨[⟨3, ["Atom g(a)", "Atom g(b)", "Atom g(c)"]⟩,
    ⟨2, ["<none of those>", "Atom p(a)"]⟩, ⟨2, ["<none of those>", "Atom p(b)"]⟩,
    ⟨2, ["<none of those>", "Atom p(c)"]⟩, ⟨2, ["<none of those>", "Atom p(d)"]⟩,
    ⟨2, ["<none of those>", "Atom p(e)"]⟩],
   [⟨[⟨1, 1⟩, ⟨2, 1⟩, ⟨3, 1⟩], [⟨[], ⟨0, 1⟩⟩], 1⟩,
    ⟨[⟨4, 1⟩, ⟨5, 1⟩], [⟨[], ⟨0, 1⟩⟩], 1⟩],
   [0, 0, 0, 0, 0, 0], [⟨0, 1⟩]⟩

/-! ## The order of the predicate classes -/

/-- The predicate of the fact `(var, value)` when `get_predicate_for_fact` returns
a non-empty one. -/
def nonempty_predicate (vars : List Variable) (var value : Nat) : Option String :=
  match get_predicate_for_fact vars var value with
  | Except.ok predicate => if predicate.data.isEmpty then none else some predicate
  | Except.error _ => none

/-- The non-empty predicate names of the facts of the task, in the order of the
scan by increasing variable id and, within a variable, by increasing value. -/
def scanned_predicates (vars : List Variable) : List String :=
  (List.range vars.length).flatMap (fun var =>
    (List.range (get_domain_size vars var)).filterMap (nonempty_predicate vars var))

/-- The update of the key list of `predicate_to_index` by the insertion of a
predicate : a new key is appended, a known key changes nothing. -/
def first_occurrence_step (keys : List String) (predicate : String) : List String :=
  if predicate ∈ keys then keys else keys ++ [predicate]

/-- The distinct names of a list, in the order of their first occurrence. -/
def first_occurrences (names : List String) : List String :=
  names.foldl first_occurrence_step []

/-! ## Invariants of the worklist loop -/

/-- A property of factory states that each operation of the worklist loop keeps :
taking the front node from the worklist, `found_simple_lm_and_order`,
`found_disj_lm_and_order`, an update of the pending forward orders, and the
assignment of a cost. -/
structure LoopInvariant (task : Task) (P : FactoryState → Prop) : Prop where
  pop : ∀ st bp rest, P st → st.open_landmarks = bp :: rest →
    P { st with open_landmarks := rest }
  simple : ∀ st f b t, P st → P (found_simple_lm_and_order st f b t)
  disj : ∀ st a b t, P st → P (found_disj_lm_and_order task st a b t)
  orders : ∀ st fo, P st → P { st with forward_orders := fo }
  cost : ∀ st bp c, P st → P { st with lm_graph := st.lm_graph.set_cost bp c }

/-- The handles of the nodes are pairwise distinct and below `next_id`. -/
def handles_distinct (g : LandmarkGraph) : Prop :=
  (g.nodes.map (fun n => n.id)).Nodup ∧ ∀ n ∈ g.nodes, n.id < g.next_id

/-- The goal facts are simple landmarks of the graph; no landmark is conjunctive;
a landmark that is not disjunctive has one fact and is marked as goal exactly
when this fact is a goal; a disjunctive landmark is not marked as goal and holds
no goal fact. -/
def goal_invariant (task : Task) (g : LandmarkGraph) : Prop :=
  handles_distinct g ∧
  (∀ goal ∈ task.goals, g.contains_simple_landmark goal = true) ∧
  (∀ n ∈ g.nodes, n.landmark.conjunctive = false) ∧
  (∀ n ∈ g.nodes, n.landmark.disjunctive = false →
    ∃ f, n.landmark.facts = [f] ∧ (n.landmark.is_goal = true ↔ f ∈ task.goals)) ∧
  (∀ n ∈ g.nodes, n.landmark.disjunctive = true →
    n.landmark.is_goal = false ∧ ∀ goal ∈ task.goals, goal ∉ n.landmark.facts)

/-- The goal facts are simple landmarks of the graph; a node is marked as goal
exactly when it holds the simple landmark of a goal fact; a disjunctive landmark
is not marked as goal and holds no goal fact. -/
def goals_are_landmarks (task : Task) (g : LandmarkGraph) : Prop :=
  (∀ goal ∈ task.goals, g.contains_simple_landmark goal = true) ∧
  (∀ n ∈ g.nodes, n.landmark.is_goal = true ↔
    (n.landmark.is_simple = true ∧ ∃ goal ∈ task.goals, n.landmark.facts = [goal])) ∧
  (∀ n ∈ g.nodes, n.landmark.disjunctive = true →
    n.landmark.is_goal = false ∧ ∀ goal ∈ task.goals, goal ∉ n.landmark.facts)

/-- A task in which the goal `v0 = 1` is achieved by two operators, one with the
precondition `v1 = 1` and one with `v2 = 1`, two atoms of the predicate `p`; each
of these facts has an achiever without precondition. -/
def sample_disjunctive_task : Task :=
  ⟨[⟨2, ["NegatedAtom g()", "Atom g()"]⟩, ⟨2, ["NegatedAtom p(a)", "Atom p(a)"]⟩,
    ⟨2, ["NegatedAtom p(b)", "Atom p(b)"]⟩],
   [⟨[⟨1, 1⟩], [⟨[], ⟨0, 1⟩⟩], 1⟩, ⟨[⟨2, 1⟩], [⟨[], ⟨0, 1⟩⟩], 1⟩,
    ⟨[], [⟨[], ⟨1, 1⟩⟩], 1⟩, ⟨[], [⟨[], ⟨2, 1⟩⟩], 1⟩],
   [0, 0, 0], [⟨0, 1⟩]⟩

/-- The state that `generate_relaxed_landmarks` returns for
`sample_disjunctive_task` with the option `disjunctive_landmarks = false` : the
goal landmark `v0 = 1` and the landmark `v0 = 0`. -/
def sample_disjunctive_result : FactoryState :=
  ⟨⟨[⟨0, ⟨[⟨0, 1⟩], false, false, true, 1⟩, [(1, EdgeType.GREEDY_NECESSARY)], []⟩,
      ⟨1, ⟨[⟨0, 0⟩], false, false, false, INT_MAX⟩, [],
        [(0, EdgeType.GREEDY_NECESSARY)]⟩], 3⟩, [],
    [(0, []), (1, []), (2, [])]⟩

/-! ## Notions used to state the flush of the forward orders -/

/-- The handle of the simple landmark node of a fact, if the fact is a simple
landmark of the graph. -/
def LandmarkGraph.simple_landmark_id (g : LandmarkGraph) (fact : FactPair) : Option Nat :=
  (g.get_simple_landmark fact).map (fun n => n.id)

/-- The flush orders the node `x` before the node `y` : `x` is a node of the
graph, some fact pending for `x` is a simple landmark whose node is `y`, and
`x ≠ y`. -/
def flush_edge (st : FactoryState) (x y : Nat) : Prop :=
  x ≠ y ∧ x ∈ st.lm_graph.nodes.map (fun n => n.id) ∧
    ∃ f ∈ forward_orders_get st.forward_orders x, st.lm_graph.simple_landmark_id f = some y

/-! ## Notions for the later properties -/

/-- The state of the intersection phase after which every pass leaves the
intersection empty : the intersection is empty and either `init` is already
`false`, or `init` is still `true` and the first effect has no conditions. -/
def greedy_dead (effects : List Effect) (st : Bool × IntMap) : Prop :=
  st.2 = [] ∧ (st.1 = true → ∃ e0 rest, effects = e0 :: rest ∧ e0.conditions = [])


/-! ## Lazy search : `LazySearch::generate_successors`

The definitions below embed `src/search/search_engines/lazy_search.cc` and
`src/search/search_engine.cc`. The open list, the evaluation contexts and the
random number generator are collaborators that are not part of these files : their
types and operations are parameters. -/

/-- The value of the `int` that a two's complement machine computes for the
mathematical integer `x`. -/
def int_wrap (x : Int) : Int := (x + 2147483648) % 4294967296 - 2147483648

/-- The sum `a + b` of two `int`s. -/
def int_add (a b : Int) : Int := int_wrap (a + b)

/-- The call `s.insert(x)` on an `ordered_set::OrderedSet<OperatorID>` : a new
element is appended, a known element leaves the set unchanged. -/
def ordered_set_insert (s : List Nat) (op_id : Nat) : List Nat :=
  if op_id ∈ s then s else s ++ [op_id]

/-- What an evaluation context answers about one preferred operator evaluator :
`is_evaluator_value_infinite` and `get_preferred_operators`. -/
structure PreferredEvaluation where
  value_infinite : Bool
  preferred_operators : List Nat
deriving DecidableEq, Repr

/-- The function `collect_preferred_operators` of `search_engine.cc`; the answers
of the evaluation context about the evaluator are given. -/
def collect_preferred_operators (evaluation : PreferredEvaluation)
    (preferred_operators : List Nat) : List Nat :=
  if !evaluation.value_infinite then
    evaluation.preferred_operators.foldl ordered_set_insert preferred_operators
  else preferred_operators

/-- The members of `LazySearch` that `generate_successors` reads and writes. The
field `evaluations` holds the answers of `current_eval_context` about the
evaluators in `preferred_operator_evaluators`, `applicable_operators` the result of
`successor_generator.generate_applicable_ops` for `current_state`, `generated` the
counter of `statistics` that `inc_generated` increases. -/
structure LazySearch (OpenList Context Rng : Type) where
  open_list : OpenList
  randomize_successors : Bool
  preferred_successors_first : Bool
  rng : Rng
  current_state_id : Nat
  current_g : Int
  current_real_g : Int
  current_eval_context : Context
  evaluations : List PreferredEvaluation
  applicable_operators : List Nat
  generated : Nat
  bound : Int

/-- The function `LazySearch::get_successor_operators`; returns the operators and
the state of the random number generator. -/
def get_successor_operators {Rng : Type} (shuffle : Rng → List Nat → List Nat × Rng)
    (randomize_successors preferred_successors_first : Bool) (rng : Rng)
    (applicable_operators preferred_operators : List Nat) : List Nat × Rng :=
  let shuffled :=
    if randomize_successors then shuffle rng applicable_operators
    else (applicable_operators, rng)
  if preferred_successors_first then
    let successor_operators := preferred_operators.foldl ordered_set_insert []
    (shuffled.1.foldl ordered_set_insert successor_operators, shuffled.2)
  else shuffled

/-- Body of the loop `for (OperatorID op_id : successor_operators)` of
`LazySearch::generate_successors`, on the open list. -/
def generate_successors_insert {OpenList Context Rng : Type} (task : Task)
    (get_adjusted_cost : Operator → Int)
    (new_context : Context → Int → Bool → Context)
    (insert : OpenList → Context → Nat × Nat → OpenList)
    (search : LazySearch OpenList Context Rng) (preferred_operators : List Nat)
    (open_list : OpenList) (op_id : Nat) : OpenList :=
  let op := task.operators.getD op_id ⟨[], [], 0⟩
  let new_g := int_add search.current_g (get_adjusted_cost op)
  let new_real_g := int_add search.current_real_g op.cost
  let is_preferred := decide (op_id ∈ preferred_operators)
  if new_real_g < search.bound then
    insert open_list (new_context search.current_eval_context new_g is_preferred)
      (search.current_state_id, op_id)
  else open_list

/-- The set `preferred_operators` of `LazySearch::generate_successors` and the
state of the random number generator after its shuffle. -/
def generate_successors_preferred {OpenList Context Rng : Type}
    (shuffle : Rng → List Nat → List Nat × Rng)
    (search : LazySearch OpenList Context Rng) : List Nat × Rng :=
  let preferred_operators :=
    search.evaluations.foldl (fun acc e => collect_preferred_operators e acc) []
  if search.randomize_successors then shuffle search.rng preferred_operators
  else (preferred_operators, search.rng)

/-- The vector `successor_operators` of `LazySearch::generate_successors`. -/
def generate_successors_operators {OpenList Context Rng : Type}
    (shuffle : Rng → List Nat → List Nat × Rng)
    (search : LazySearch OpenList Context Rng) : List Nat × Rng :=
  let preferred := generate_successors_preferred shuffle search
  get_successor_operators shuffle search.randomize_successors
    search.preferred_successors_first preferred.2 search.applicable_operators preferred.1

/-- The function `LazySearch::generate_successors`. The cost type adjusted cost
`get_adjusted_cost`, the constructor `new_context` of an evaluation context from
`current_eval_context`, the operation `insert` of the open list and the operation
`shuffle` of the random number generator are parameters. -/
def generate_successors {OpenList Context Rng : Type} (task : Task)
    (get_adjusted_cost : Operator → Int)
    (new_context : Context → Int → Bool → Context)
    (insert : OpenList → Context → Nat × Nat → OpenList)
    (shuffle : Rng → List Nat → List Nat × Rng)
    (search : LazySearch OpenList Context Rng) : LazySearch OpenList Context Rng :=
  let preferred := generate_successors_preferred shuffle search
  let successors := generate_successors_operators shuffle search
  { search with
    rng := successors.2
    generated := search.generated + successors.1.length
    open_list := successors.1.foldl
      (generate_successors_insert task get_adjusted_cost new_context insert search
        preferred.1)
      search.open_list }

/-- The successor operators whose edge `generate_successors` hands to the open
list : those within the bound on the real cost. -/
def within_bound {OpenList Context Rng : Type} (task : Task)
    (search : LazySearch OpenList Context Rng) (op_id : Nat) : Bool :=
  decide (int_add search.current_real_g (task.operators.getD op_id ⟨[], [], 0⟩).cost <
    search.bound)

/-- An open list that records the edges handed to `insert`, in order. -/
def record_edge {Context : Type} (open_list : List (Nat × Nat)) (_ : Context)
    (edge : Nat × Nat) : List (Nat × Nat) :=
  open_list ++ [edge]

/-! ## The goal test of `SearchEngine` -/

/-- The members of `SearchEngine` that `check_goal_and_set_plan` reads and writes;
`previous_states_set` is the set in shared memory that the pointer of this name
refers to. -/
structure SearchEngine where
  solution_found : Bool
  plan : List Nat
  shared_memory_name : String
  no_cache : Bool
  previous_states_set : List (List Int)
deriving DecidableEq, Repr

/-- The function `SearchEngine::set_plan`. -/
def set_plan (engine : SearchEngine) (p : List Nat) : SearchEngine :=
  { engine with solution_found := true, plan := p }

/-- Modelled from the spec: `task_properties::is_goal_state` (declared in
`task_utils/task_properties.h`) : the state satisfies the "goal condition" of the
task, every goal fact holds in it. -/
def is_goal_state (task : Task) (state : List Nat) : Bool :=
  task.goals.all (fun goal => state.getD goal.var 0 == goal.value)

/-- The vector `state_vec` assigned from `state.get_unpacked_values()`. -/
def unpacked_values (state : List Nat) : List Int := state.map Int.ofNat

/-- The call `previous_states_set->insert(state_vec)` on the `unordered_set`. -/
def previous_states_insert (s : List (List Int)) (state_vec : List Int) :
    List (List Int) :=
  if state_vec ∈ s then s else s ++ [state_vec]

/-- The function `SearchEngine::check_goal_and_set_plan`; returns the result and
the engine. The functions `trace_path` and `trace_path_state` of the search space
and `lookup_state` of the state registry are parameters. -/
def check_goal_and_set_plan (task : Task) (trace_path : List Nat → List Nat)
    (trace_path_state : List Nat → List Nat) (lookup_state : Nat → List Nat)
    (engine : SearchEngine) (state : List Nat) : Bool × SearchEngine :=
  let normal_goal_test := is_goal_state task state
  let logan_goal_test :=
    if !engine.shared_memory_name.isEmpty then
      decide (unpacked_values state ∈ engine.previous_states_set)
    else false
  if normal_goal_test || logan_goal_test then
    let engine := set_plan engine (trace_path state)
    let engine :=
      if !engine.shared_memory_name.isEmpty && !engine.no_cache then
        { engine with
          previous_states_set := (trace_path_state state).foldl
            (fun s state_path_id =>
              previous_states_insert s (unpacked_values (lookup_state state_path_id)))
            engine.previous_states_set }
      else engine
    (true, engine)
  else (false, engine)

/-! ## The values tested by `approximate_lookahead_orders` -/

/-- The set `unreached` of `approximate_lookahead_orders` for the landmark fact
`lmk` : the values of its variable other than its own with level `INT_MAX`. -/
def lookahead_unreached (task : Task) (lvl_var : LvlVar) (lmk : FactPair) : List Nat :=
  (List.range (get_domain_size task.vars lmk.var)).filter (fun value =>
    decide (lvl_var_get lvl_var lmk.var value = INT_MAX) && decide (lmk.value ≠ value))

/-- The values of the variable of `lmk`, in increasing order, that pass the tests
of the second loop of `approximate_lookahead_orders` : the value is not in
`unreached`, differs from the landmark value, and `domain_connectivity` with the
value excluded returns `false`. -/
def lookahead_values (task : Task) (dtg_successors : DtgSuccessors) (lvl_var : LvlVar)
    (lmk : FactPair) : List Nat :=
  (List.range (get_domain_size task.vars lmk.var)).filter (fun value =>
    decide (value ∉ lookahead_unreached task lvl_var lmk ∧ lmk.value ≠ value) &&
      (domain_connectivity dtg_successors task.initial_state lmk
        (set_insert (lookahead_unreached task lvl_var lmk) value) == some false))

/-- A task with one variable of three values, initially `0`, goal value `2`, and
two operators that change the value from `0` to `1` and from `1` to `2`. -/
def sample_chain_task : Task :=
  ⟨[⟨3, ["Atom at(a)", "Atom at(b)", "Atom at(c)"]⟩],
   [⟨[⟨0, 0⟩], [⟨[], ⟨0, 1⟩⟩], 1⟩, ⟨[⟨0, 1⟩], [⟨[], ⟨0, 2⟩⟩], 1⟩],
   [0], [⟨0, 2⟩]⟩

/-- The fact `f` is a simple landmark of the graph whose node is ordered before
the node `b` : the edge from that node to `b` is recorded on both endpoints. -/
def ordered_before (g : LandmarkGraph) (f : FactPair) (b : Nat) : Prop :=
  ∃ a, g.simple_landmark_id f = some a ∧ a ≠ b ∧ (g.child_edge a b).isSome = true ∧
    (g.parent_edge a b).isSome = true

/-! ## Invariants of a run of the worklist loop -/

/-- The property `P` of the factory state is kept by the operations that the body
of the worklist loop applies after it has taken a node from the worklist :
`found_simple_lm_and_order` for a fact with the property `F`,
`found_disj_lm_and_order` for a fact set with the property `S`, the recording of
the forward orders of a node of the graph, and the assignment of a cost. -/
structure RunInvariant (task : Task) (F : FactPair → Prop) (S : List FactPair → Prop)
    (P : FactoryState → Prop) : Prop where
  simple : ∀ st f b t, F f → P st → P (found_simple_lm_and_order st f b t)
  disj : ∀ st a b t, S a → P st → P (found_disj_lm_and_order task st a b t)
  orders : ∀ st lvl_var lmp node, st.lm_graph.get_node lmp = some node → P st →
    P { st with forward_orders :=
      find_forward_orders task lvl_var st.forward_orders lmp node.landmark }
  cost : ∀ st bp c, P st → P { st with lm_graph := st.lm_graph.set_cost bp c }

/-- The facts that the body of the worklist loop hands to
`found_simple_lm_and_order` (the shared preconditions and the values of the
variable of the landmark) have the property `F`, the fact sets that it hands to
`found_disj_lm_and_order` have the property `S`. -/
structure RunFacts (task : Task) (F : FactPair → Prop) (S : List FactPair → Prop) :
    Prop where
  shared : ∀ pr lvl_var landmark,
    ∀ pre ∈ compute_shared_preconditions task pr [] lvl_var landmark, F ⟨pre.1, pre.2⟩
  lookahead : ∀ v x, x < get_domain_size task.vars v → F ⟨v, x⟩
  sets : ∀ pr dc g lvl_var landmark,
    ∀ a ∈ compute_disjunctive_preconditions task pr dc g [] lvl_var landmark,
      a.length < 5 → S a

/-! ## The partition of the facts among the landmark nodes -/

/-- No fact is at the same time the fact of a simple landmark node and a member of
a disjunctive landmark node. -/
def simple_disjoint_disjunctive (g : LandmarkGraph) : Prop :=
  ∀ n ∈ g.nodes, ∀ m ∈ g.nodes, n.landmark.is_simple = true →
    m.landmark.disjunctive = true → ∀ f ∈ n.landmark.facts, f ∉ m.landmark.facts

/-- No two nodes hold the same simple fact. -/
def simple_unique (g : LandmarkGraph) : Prop :=
  ∀ n ∈ g.nodes, ∀ m ∈ g.nodes, n.landmark.is_simple = true →
    m.landmark.is_simple = true →
    (∃ f, f ∈ n.landmark.facts ∧ f ∈ m.landmark.facts) → n = m

/-- The graph invariant of the fixed point : a fact is a simple landmark or a
member of a disjunctive landmark but not both, distinct disjunctive landmark nodes
have disjoint fact sets, and no two nodes hold the same simple fact. -/
def landmark_partition (g : LandmarkGraph) : Prop :=
  simple_disjoint_disjunctive g ∧ disjunctive_disjoint g ∧ simple_unique g

/-! ## The worklist -/

/-- The handles of the nodes of the graph, in creation order. -/
def LandmarkGraph.handles (g : LandmarkGraph) : List Nat := g.nodes.map (fun n => n.id)

/-- Invariant of the worklist : the node handles are pairwise distinct, no handle
occurs twice in the worklist, and every worklist entry and every key of the
pending forward orders is the handle of a node of the graph. -/
def worklist_invariant (st : FactoryState) : Prop :=
  handles_distinct st.lm_graph ∧ st.open_landmarks.Nodup ∧
  (∀ h ∈ st.open_landmarks, h ∈ st.lm_graph.handles) ∧
  (∀ p ∈ st.forward_orders, p.1 ∈ st.lm_graph.handles)

/-- The handle `h` has been taken from the front of the worklist in one of the
first `n` iterations of the worklist loop of `generate_relaxed_landmarks`. -/
def dequeued (task : Task) (relaxed_task_solvable : LevelOracle)
    (_possibly_reaches_lm : ReachOracle) (dtg_successors : DtgSuccessors)
    (disjunction_classes : DisjunctionClasses) (n : Nat) (h : Nat) : Prop :=
  ∃ j, j < n ∧ ∃ st, generate_relaxed_landmarks_iterate task relaxed_task_solvable
      _possibly_reaches_lm dtg_successors disjunction_classes j
      (generate_relaxed_landmarks_seed task FactoryState.empty) = some st ∧
    st.open_landmarks.head? = some h

/-- The bookkeeping of the worklist with respect to a set `X` of handles that have
been taken from it : the worklist invariant holds, every node of the graph is in
the worklist or in `X`, and a handle in `X` is in use and not in the worklist. -/
def worklist_progress (X : Nat → Prop) (st : FactoryState) : Prop :=
  worklist_invariant st ∧
  (∀ h ∈ st.lm_graph.handles, h ∈ st.open_landmarks ∨ X h) ∧
  (∀ h, X h → h < st.lm_graph.next_id ∧ h ∉ st.open_landmarks)

/-- The bookkeeping of `worklist_progress` on the lists involved : the handles
`hs` in use are below `nid`, the worklist `ws` has no repetition and holds
handles in use, every handle in use is in the worklist or in `X`, and a handle in
`X` is below `nid` and not in the worklist. -/
def progress_lists (X : Nat → Prop) (hs ws : List Nat) (nid : Nat) : Prop :=
  (∀ h ∈ hs, h < nid) ∧ ws.Nodup ∧ (∀ h ∈ ws, h ∈ hs) ∧ (∀ h ∈ hs, h ∈ ws ∨ X h) ∧
  (∀ h, X h → h < nid ∧ h ∉ ws)

/-! ## Pending forward orders -/

/-- Invariant of the pending forward orders : the node handles are pairwise
distinct, every key of `forward_orders` is a handle below `next_id`, and no fact
pending for a node of the graph is a fact of the landmark of that node. -/
def pending_invariant (st : FactoryState) : Prop :=
  handles_distinct st.lm_graph ∧
  (∀ p ∈ st.forward_orders, p.1 < st.lm_graph.next_id) ∧
  (∀ n ∈ st.lm_graph.nodes, ∀ f ∈ forward_orders_get st.forward_orders n.id,
    f ∉ n.landmark.facts)

/-! ## Termination of the worklist loop -/

/-- Every fact that the task mentions is a fact of its variables : the goal facts
(which are pairwise distinct), the initial value of every variable, the
preconditions and the effect conditions of the operators. -/
def Task.facts_in_domain (task : Task) : Prop :=
  (∀ goal ∈ task.goals, goal ∈ all_facts task.vars) ∧ task.goals.Nodup ∧
  (∀ var, var < task.vars.length →
    initial_value task.initial_state var < get_domain_size task.vars var) ∧
  (∀ op ∈ task.operators, (∀ p ∈ op.preconditions, p ∈ all_facts task.vars) ∧
    ∀ e ∈ op.effects, ∀ c ∈ e.conditions, c ∈ all_facts task.vars)

/-- The bound on the number of iterations of the worklist loop : the number of
facts plus the number of fact sets of size 2, 3 and 4. -/
def iteration_bound (task : Task) : Nat :=
  (all_facts task.vars).length + (all_facts task.vars).length.choose 2 +
    (all_facts task.vars).length.choose 3 + (all_facts task.vars).length.choose 4

/-- A fact set that `found_disj_lm_and_order` is called with : between 2 and 4
pairwise distinct facts of the task. -/
def small_fact_set (task : Task) (a : List FactPair) : Prop :=
  a.Nodup ∧ 2 ≤ a.length ∧ a.length ≤ 4 ∧ ∀ f ∈ a, f ∈ all_facts task.vars

/-- The facts of the task that are not simple landmarks of the graph. -/
def unfound_facts (task : Task) (g : LandmarkGraph) : Finset FactPair :=
  (all_facts task.vars).toFinset.filter (fun f => g.contains_simple_landmark f = false)

/-- The fact sets of size 2, 3 and 4 over the facts of the task. -/
def fact_sets (task : Task) : Finset (Finset FactPair) :=
  Finset.powersetCard 2 (all_facts task.vars).toFinset ∪
    Finset.powersetCard 3 (all_facts task.vars).toFinset ∪
    Finset.powersetCard 4 (all_facts task.vars).toFinset

/-- The fact set `s` can still become a disjunctive landmark node : none of its
facts is a simple landmark and it is not the fact set of a disjunctive node. -/
def creatable (g : LandmarkGraph) (s : Finset FactPair) : Bool :=
  decide (∀ f ∈ s, g.contains_simple_landmark f = false) &&
    g.nodes.all (fun n => !(n.landmark.disjunctive && decide (n.landmark.facts.toFinset = s)))

/-- The fact sets of the task that can still become a disjunctive landmark node. -/
def creatable_sets (task : Task) (g : LandmarkGraph) : Finset (Finset FactPair) :=
  (fact_sets task).filter (fun s => creatable g s = true)

/-- The measure that decreases with every iteration of the worklist loop : the
length of the worklist, plus the number of facts that are not yet simple
landmarks, plus the number of fact sets that can still become a disjunctive
landmark node. -/
def run_measure (task : Task) (st : FactoryState) : Nat :=
  st.open_landmarks.length + (unfound_facts task st.lm_graph).card +
    (creatable_sets task st.lm_graph).card

/-- The graph `g'` extends `g` : a simple landmark of `g` is one of `g'`, and a
disjunctive node of `g` has a disjunctive node with the same facts in `g'` unless
one of its facts is a simple landmark of `g'`. -/
def graph_extends (g g' : LandmarkGraph) : Prop :=
  (∀ x, g.contains_simple_landmark x = true → g'.contains_simple_landmark x = true) ∧
  (∀ n ∈ g.nodes, n.landmark.disjunctive = true →
    (∃ n' ∈ g'.nodes, n'.landmark.disjunctive = true ∧
      n'.landmark.facts = n.landmark.facts) ∨
    (∃ f ∈ n.landmark.facts, g'.contains_simple_landmark f = true))

/-- A task with the two goals `v0 = 1` and `v3 = 1`. The first is achieved by two
operators, one with the precondition `v1 = 1` and one with `v2 = 1`, two atoms of
the predicate `p`; the second by two operators with the preconditions `v4 = 1` and
`v5 = 1`, two atoms of the predicate `q`. Each of these four facts has an achiever
without precondition. -/
def sample_two_disjunctive_task : Task :=
  ⟨[⟨2, ["NegatedAtom g()", "Atom g()"]⟩, ⟨2, ["NegatedAtom p(a)", "Atom p(a)"]⟩,
    ⟨2, ["NegatedAtom p(b)", "Atom p(b)"]⟩, ⟨2, ["NegatedAtom h()", "Atom h()"]⟩,
    ⟨2, ["NegatedAtom q(a)", "Atom q(a)"]⟩, ⟨2, ["NegatedAtom q(b)", "Atom q(b)"]⟩],
   [⟨[⟨1, 1⟩], [⟨[], ⟨0, 1⟩⟩], 1⟩, ⟨[⟨2, 1⟩], [⟨[], ⟨0, 1⟩⟩], 1⟩,
    ⟨[], [⟨[], ⟨1, 1⟩⟩], 1⟩, ⟨[], [⟨[], ⟨2, 1⟩⟩], 1⟩,
    ⟨[⟨4, 1⟩], [⟨[], ⟨3, 1⟩⟩], 1⟩, ⟨[⟨5, 1⟩], [⟨[], ⟨3, 1⟩⟩], 1⟩,
    ⟨[], [⟨[], ⟨4, 1⟩⟩], 1⟩, ⟨[], [⟨[], ⟨5, 1⟩⟩], 1⟩],
   [0, 0, 0, 0, 0, 0], [⟨0, 1⟩, ⟨3, 1⟩]⟩

/-! # Verified properties -/

/-! ## Correctness of the breadth-first search of `domain_connectivity` -/

lemma avoidReach_of_path {successors : List (List Nat)} {exclude : List Nat} :
    ∀ (p : List Nat) (i g : Nat), AvoidingPath successors exclude i g p →
      AvoidReach successors exclude i g := by
  intro p
  induction p with
  | nil => intro i g h; simp [AvoidingPath] at h
  | cons a p ih =>
    intro i g ⟨hh, hl, hc, hE⟩
    simp only [List.head?_cons, Option.some.injEq] at hh
    subst hh
    cases p with
    | nil =>
      simp only [List.getLast?_singleton, Option.some.injEq] at hl
      subst hl
      exact ⟨hE a (by simp), Relation.ReflTransGen.refl⟩
    | cons b q =>
      have hab : dtg_edge successors a b := (List.chain'_cons.mp hc).1
      have hrec : AvoidReach successors exclude b g := by
        apply ih b g
        refine ⟨rfl, ?_, (List.chain'_cons.mp hc).2, fun v hv => hE v (List.mem_cons_of_mem _ hv)⟩
        simpa [List.getLast?_cons_cons] using hl
      exact ⟨hE a (by simp), Relation.ReflTransGen.head ⟨hab, hrec.1⟩ hrec.2⟩

lemma path_of_avoidReach {successors : List (List Nat)} {exclude : List Nat} {i g : Nat}
    (h : AvoidReach successors exclude i g) :
    ∃ p, AvoidingPath successors exclude i g p := by
  obtain ⟨hi, hr⟩ := h
  induction hr using Relation.ReflTransGen.head_induction_on with
  | refl => exact ⟨[g], rfl, rfl, List.chain'_singleton _, by simpa using hi⟩
  | @head a b hab _ ih =>
    obtain ⟨p, hh, hl, hc, hE⟩ := ih hab.2
    cases p with
    | nil => simp at hh
    | cons x q =>
      simp only [List.head?_cons, Option.some.injEq] at hh
      subst hh
      refine ⟨a :: x :: q, rfl, ?_, List.chain'_cons.mpr ⟨hab.1, hc⟩, ?_⟩
      · simpa [List.getLast?_cons_cons] using hl
      · intro v hv
        rcases List.mem_cons.mp hv with rfl | hv
        · exact hi
        · exact hE v hv

lemma dc_unseen_cons_le (univ closed : List Nat) (a : Nat) :
    dc_unseen univ (a :: closed) ≤ dc_unseen univ closed := by
  induction univ with
  | nil => simp [dc_unseen]
  | cons x xs ih =>
    unfold dc_unseen at ih ⊢
    by_cases hx : x ∈ closed
    · simp [List.filter_cons, hx] at ih ⊢
      exact ih
    · by_cases hxa : x = a
      · simp [List.filter_cons, hx, hxa] at ih ⊢
        subst hxa
        simp [hx]
        omega
      · simp [List.filter_cons, hx, hxa] at ih ⊢
        exact ih

lemma dc_unseen_cons_lt (univ closed : List Nat) (a : Nat) (ha : a ∈ univ)
    (hc : a ∉ closed) : dc_unseen univ (a :: closed) < dc_unseen univ closed := by
  induction univ with
  | nil => simp at ha
  | cons x xs ih =>
    by_cases hxa : x = a
    · subst hxa
      have h := dc_unseen_cons_le xs closed x
      unfold dc_unseen at h ⊢
      simp [List.filter_cons, hc] at h ⊢
      omega
    · have hmem : a ∈ xs := by
        rcases List.mem_cons.mp ha with h | h
        · exact absurd h.symm hxa
        · exact h
      have h := ih hmem
      unfold dc_unseen at h ⊢
      by_cases hx : x ∈ closed
      · simp [List.filter_cons, hx, hxa] at h ⊢
        exact h
      · simp [List.filter_cons, hx, hxa] at h ⊢
        exact h

lemma dc_visit_fold_spec (l : List Nat) : ∀ (op cl : List Nat),
    (∀ v, v ∈ (l.foldl domain_connectivity_visit (op, cl)).2 ↔ v ∈ cl ∨ v ∈ l) ∧
    (∀ v, v ∈ (l.foldl domain_connectivity_visit (op, cl)).1 ↔ v ∈ op ∨ (v ∈ l ∧ v ∉ cl)) ∧
    (∀ univ : List Nat, (∀ v ∈ l, v ∈ univ) →
      (l.foldl domain_connectivity_visit (op, cl)).1.length +
        dc_unseen univ (l.foldl domain_connectivity_visit (op, cl)).2 ≤
      op.length + dc_unseen univ cl) := by
  induction l with
  | nil => intro op cl; simp
  | cons a l ih =>
    intro op cl
    simp only [List.foldl_cons]
    by_cases ha : a ∈ cl
    · have hv : domain_connectivity_visit (op, cl) a = (op, cl) := by
        simp [domain_connectivity_visit, ha]
      rw [hv]
      obtain ⟨h1, h2, h3⟩ := ih op cl
      refine ⟨?_, ?_, ?_⟩
      · intro v
        rw [h1 v]
        constructor
        · rintro (h | h)
          · exact Or.inl h
          · exact Or.inr (List.mem_cons_of_mem _ h)
        · rintro (h | h)
          · exact Or.inl h
          · rcases List.mem_cons.mp h with rfl | h
            · exact Or.inl ha
            · exact Or.inr h
      · intro v
        rw [h2 v]
        constructor
        · rintro (h | ⟨h, h'⟩)
          · exact Or.inl h
          · exact Or.inr ⟨List.mem_cons_of_mem _ h, h'⟩
        · rintro (h | ⟨h, h'⟩)
          · exact Or.inl h
          · rcases List.mem_cons.mp h with rfl | h
            · exact absurd ha h'
            · exact Or.inr ⟨h, h'⟩
      · intro univ hu
        exact h3 univ (fun v hv => hu v (List.mem_cons_of_mem _ hv))
    · have hv : domain_connectivity_visit (op, cl) a = (op ++ [a], a :: cl) := by
        simp [domain_connectivity_visit, ha]
      rw [hv]
      obtain ⟨h1, h2, h3⟩ := ih (op ++ [a]) (a :: cl)
      refine ⟨?_, ?_, ?_⟩
      · intro v
        rw [h1 v]
        simp only [List.mem_cons]
        tauto
      · intro v
        rw [h2 v]
        simp only [List.mem_cons, List.mem_append, List.mem_singleton, not_or]
        by_cases hva : v = a
        · subst hva
          simp [ha]
        · simp [hva]
      · intro univ hu
        have h := h3 univ (fun v hv => hu v (List.mem_cons_of_mem _ hv))
        have hlt := dc_unseen_cons_lt univ cl a (hu a (List.mem_cons_self _ _)) ha
        simp only [List.length_append, List.length_singleton] at h ⊢
        omega

lemma mem_flatten_of_getD {successors : List (List Nat)} {c v : Nat}
    (hv : v ∈ successors.getD c []) : v ∈ successors.flatten := by
  by_cases hc : c < successors.length
  · rw [List.getD_eq_getElem _ _ hc] at hv
    exact List.mem_flatten.mpr ⟨successors[c], List.getElem_mem hc, hv⟩
  · rw [List.getD_eq_default _ _ (by omega)] at hv
    simp at hv

lemma domain_connectivity_loop_spec (successors : List (List Nat)) (exclude : List Nat)
    (i g : Nat) (hg : g ∉ exclude) : ∀ (fuel : Nat) (op cl : List Nat),
    DcInv successors exclude i op cl →
    op.length + dc_unseen successors.flatten cl < fuel →
    ∃ b, domain_connectivity_loop successors g fuel op cl = some b ∧
      (b = true ↔ AvoidReach successors exclude i g) := by
  intro fuel
  induction fuel with
  | zero => intro op cl _ h; omega
  | succ fuel ih =>
    intro op cl inv hfuel
    unfold domain_connectivity_loop
    by_cases hgc : g ∈ cl
    · refine ⟨true, by simp [hgc], ?_⟩
      simp only [true_iff]
      rcases inv.sound g hgc with h | h
      · exact absurd h hg
      · exact h
    · simp only [hgc, if_false]
      cases op with
      | nil =>
        refine ⟨false, rfl, ?_⟩
        simp only [Bool.false_eq_true, false_iff]
        intro ⟨_, hr⟩
        have hall : ∀ v, Relation.ReflTransGen (avoid_step successors exclude) i v →
            v ∈ cl ∧ v ∉ exclude := by
          intro v hv
          induction hv with
          | refl => exact inv.start
          | tail _ hstep ih2 =>
            exact ⟨inv.done _ ih2.1 ih2.2 (by simp) _ hstep.1, hstep.2⟩
        exact hgc (hall g hr).1
      | cons c rest =>
        simp only []
        obtain ⟨h1, h2, h3⟩ := dc_visit_fold_spec (successors.getD c []) rest cl
        have hc : AvoidReach successors exclude i c := inv.opn c (List.mem_cons_self _ _)
        have hnew : ∀ v, v ∈ successors.getD c [] → v ∉ cl →
            AvoidReach successors exclude i v := by
          intro v hv hvc
          have hvE : v ∉ exclude := fun h => hvc (inv.excl v h)
          exact ⟨hc.1, Relation.ReflTransGen.tail hc.2 ⟨hv, hvE⟩⟩
        apply ih
        · constructor
          · intro v hv
            exact (h1 v).mpr (Or.inl (inv.excl v hv))
          · intro v hv
            rcases (h1 v).mp hv with h | h
            · exact inv.sound v h
            · by_cases hvc : v ∈ cl
              · exact inv.sound v hvc
              · exact Or.inr (hnew v h hvc)
          · intro v hv
            rcases (h2 v).mp hv with h | ⟨h, h'⟩
            · exact inv.opn v (List.mem_cons_of_mem _ h)
            · exact hnew v h h'
          · exact ⟨(h1 i).mpr (Or.inl inv.start.1), inv.start.2⟩
          · intro u hu huE huop w hw
            by_cases hucl : u ∈ cl
            · by_cases huc : u = c
              · subst huc
                exact (h1 w).mpr (Or.inr hw)
              · have hurest : u ∉ rest := fun h => huop ((h2 u).mpr (Or.inl h))
                have : u ∉ c :: rest := by
                  intro h
                  rcases List.mem_cons.mp h with h | h
                  · exact huc h
                  · exact hurest h
                exact (h1 w).mpr (Or.inl (inv.done u hucl huE this w hw))
            · rcases (h1 u).mp hu with h | h
              · exact absurd h hucl
              · exact absurd ((h2 u).mpr (Or.inr ⟨h, hucl⟩)) huop
        · have h := h3 successors.flatten (fun v hv => mem_flatten_of_getD hv)
          simp only [List.length_cons] at hfuel
          omega

/-- C1: for every domain transition graph, initial value `i`, target value
`g ≠ i` and exclude set `E` with `g ∉ E`, `domain_connectivity` returns a value,
and that value is `true` if and only if `dtg_successors` of the landmark
variable contains a path `i = v0 → v1 → ... → vk = g` none of whose vertices
(`i` included) is in `E`. -/
theorem domain_connectivity_iff_avoiding_path (dtg_successors : DtgSuccessors)
    (initial_state : List Nat) (landmark : FactPair) (exclude : List Nat)
    (_hne : landmark.value ≠ initial_value initial_state landmark.var)
    (hexcl : landmark.value ∉ exclude) :
    ∃ b, domain_connectivity dtg_successors initial_state landmark exclude = some b ∧
      (b = true ↔ ∃ p, AvoidingPath (dtg_successors.getD landmark.var []) exclude
        (initial_value initial_state landmark.var) landmark.value p) := by
  have hiff : AvoidReach (dtg_successors.getD landmark.var []) exclude
        (initial_value initial_state landmark.var) landmark.value ↔
      ∃ p, AvoidingPath (dtg_successors.getD landmark.var []) exclude
        (initial_value initial_state landmark.var) landmark.value p :=
    ⟨path_of_avoidReach, fun ⟨p, hp⟩ => avoidReach_of_path p _ _ hp⟩
  unfold domain_connectivity
  by_cases hi : initial_value initial_state landmark.var ∈ exclude
  · refine ⟨false, by simp [hi], ?_⟩
    rw [← hiff]
    simp only [Bool.false_eq_true, false_iff]
    exact fun h => h.1 hi
  · simp only [hi, if_false]
    rw [← hiff]
    apply domain_connectivity_loop_spec _ exclude _ _ hexcl
    · constructor
      · intro v hv
        exact List.mem_cons_of_mem _ hv
      · intro v hv
        rcases List.mem_cons.mp hv with rfl | h
        · exact Or.inr ⟨hi, Relation.ReflTransGen.refl⟩
        · exact Or.inl h
      · intro v hv
        rw [List.mem_singleton] at hv
        subst hv
        exact ⟨hi, Relation.ReflTransGen.refl⟩
      · exact ⟨List.mem_cons_self _ _, hi⟩
      · intro u hu huE huop
        rcases List.mem_cons.mp hu with rfl | h
        · exact absurd (List.mem_singleton_self _) huop
        · exact absurd h huE
    · have h1 : dc_unseen (dtg_successors.getD landmark.var []).flatten
          (initial_value initial_state landmark.var :: exclude) ≤
          (dtg_successors.getD landmark.var []).flatten.length := by
        unfold dc_unseen
        exact List.length_filter_le _ _
      simp only [domain_connectivity_fuel, List.length_singleton]
      omega

/-- C1 (witness): on the path graph `0 → 1 → 2 → 3` with `i = 0` and `g = 3`,
`domain_connectivity` returns `false` for `E = {1}` and `true` for `E = {}`, and
the characterisation by avoiding paths applies to both calls. -/
theorem domain_connectivity_iff_avoiding_path_witness :
    domain_connectivity [[[1], [2], [3], []]] [0] ⟨0, 3⟩ [1] = some false ∧
    domain_connectivity [[[1], [2], [3], []]] [0] ⟨0, 3⟩ [] = some true ∧
    (∃ b, domain_connectivity [[[1], [2], [3], []]] [0] ⟨0, 3⟩ [1] = some b ∧
      (b = true ↔ ∃ p, AvoidingPath [[1], [2], [3], []] [1] 0 3 p)) ∧
    (∃ b, domain_connectivity [[[1], [2], [3], []]] [0] ⟨0, 3⟩ [] = some b ∧
      (b = true ↔ ∃ p, AvoidingPath [[1], [2], [3], []] [] 0 3 p)) :=
  ⟨by decide, by decide,
   domain_connectivity_iff_avoiding_path [[[1], [2], [3], []]] [0] ⟨0, 3⟩ [1]
     (by decide) (by decide),
   domain_connectivity_iff_avoiding_path [[[1], [2], [3], []]] [0] ⟨0, 3⟩ []
     (by decide) (by decide)⟩

/-! ## The domain transition graph built by `build_dtg_successors` -/

lemma getD_set_eq {α : Type} (l : List α) (i j : Nat) (a d : α) :
    (l.set i a).getD j d = if i = j ∧ i < l.length then a else l.getD j d := by
  induction l generalizing i j with
  | nil => simp
  | cons x xs ih =>
    cases i with
    | zero =>
      cases j with
      | zero => simp
      | succ j => simp
    | succ i =>
      cases j with
      | zero => simp
      | succ j =>
        simp only [List.set_cons_succ, List.getD_cons_succ, ih, List.length_cons]
        simp

lemma getD_map_length (dtg : DtgSuccessors) (v : Nat) :
    (dtg_shape dtg).getD v 0 = (dtg.getD v []).length := by
  unfold dtg_shape
  induction dtg generalizing v with
  | nil => simp
  | cons x xs ih =>
    cases v with
    | zero => simp
    | succ v => simpa using ih v

lemma lt_length_of_in_range {dtg : DtgSuccessors} {v pre : Nat}
    (h : pre < (dtg_shape dtg).getD v 0) : v < dtg.length := by
  by_contra hv
  have : (dtg_shape dtg).getD v 0 = 0 := by
    apply List.getD_eq_default
    simp [dtg_shape]
    omega
  omega

lemma add_dtg_successor_shape (dtg : DtgSuccessors) (a b c : Nat) :
    dtg_shape (add_dtg_successor dtg a b c) = dtg_shape dtg := by
  unfold add_dtg_successor
  by_cases hbc : b = c
  · simp [hbc]
  · simp only [ne_eq, hbc, not_false_eq_true, if_true]
    apply List.ext_getElem
    · simp [dtg_shape]
    · intro n h1 h2
      simp only [dtg_shape, List.getElem_map, List.getElem_set]
      by_cases han : a = n
      · subst han
        simp only [if_true, List.length_set]
        have : a < dtg.length := by simpa [dtg_shape] using h2
        rw [List.getD_eq_getElem _ _ this]
      · simp [han]

lemma mem_dtg_get_add (dtg : DtgSuccessors) (a b c v pre x : Nat)
    (h : pre < (dtg_shape dtg).getD v 0) :
    x ∈ dtg_get (add_dtg_successor dtg a b c) v pre ↔
      x ∈ dtg_get dtg v pre ∨ (a = v ∧ b = pre ∧ c = x ∧ b ≠ c) := by
  have hv : v < dtg.length := lt_length_of_in_range h
  rw [getD_map_length] at h
  unfold add_dtg_successor
  by_cases hbc : b = c
  · simp [hbc]
  · simp only [ne_eq, hbc, not_false_eq_true, if_true]
    unfold dtg_get
    rw [getD_set_eq]
    by_cases hav : a = v
    · subst hav
      simp only [hv, and_self, if_true, true_and]
      rw [getD_set_eq]
      by_cases hbp : b = pre
      · subst hbp
        simp only [h, and_self, if_true, true_and, set_insert, dtg_get]
        by_cases hc : c ∈ (dtg.getD a []).getD b []
        · simp only [hc, if_true]
          constructor
          · exact fun hx => Or.inl hx
          · rintro (hx | ⟨hx, _⟩)
            · exact hx
            · exact hx ▸ hc
        · simp only [hc, if_false, List.mem_append, List.mem_singleton]
          constructor
          · rintro (hx | hx)
            · exact Or.inl hx
            · exact Or.inr ⟨hx.symm, trivial⟩
          · rintro (hx | ⟨hx, _⟩)
            · exact Or.inl hx
            · exact Or.inr hx.symm
      · simp [hbp]
    · simp [hav]

lemma range_fold_shape (dtg : DtgSuccessors) (var post n : Nat) :
    dtg_shape ((List.range n).foldl (fun d pre => add_dtg_successor d var pre post) dtg) =
      dtg_shape dtg := by
  induction n with
  | zero => simp
  | succ n ih =>
    rw [List.range_succ, List.foldl_append]
    simp only [List.foldl_cons, List.foldl_nil]
    rw [add_dtg_successor_shape, ih]

lemma mem_range_fold (dtg : DtgSuccessors) (var post n v pre x : Nat)
    (h : pre < (dtg_shape dtg).getD v 0) :
    x ∈ dtg_get ((List.range n).foldl (fun d p => add_dtg_successor d var p post) dtg) v pre ↔
      x ∈ dtg_get dtg v pre ∨ (var = v ∧ pre < n ∧ post = x ∧ pre ≠ post) := by
  induction n with
  | zero => simp
  | succ n ih =>
    rw [List.range_succ, List.foldl_append]
    simp only [List.foldl_cons, List.foldl_nil]
    rw [mem_dtg_get_add _ _ _ _ _ _ _ (by rw [range_fold_shape]; exact h), ih]
    constructor
    · rintro ((hx | ⟨h1, h2, h3, h4⟩) | ⟨h1, h2, h3, h4⟩)
      · exact Or.inl hx
      · exact Or.inr ⟨h1, by omega, h3, h4⟩
      · subst h2
        exact Or.inr ⟨h1, by omega, h3, h4⟩
    · rintro (hx | ⟨h1, h2, h3, h4⟩)
      · exact Or.inl (Or.inl hx)
      · by_cases hn : pre = n
        · exact Or.inr ⟨h1, hn.symm, h3, by rw [← hn]; exact h4⟩
        · exact Or.inl (Or.inr ⟨h1, by omega, h3, h4⟩)

lemma build_dtg_effect_shape (vars : List Variable) (pm : IntMap) (dtg : DtgSuccessors)
    (effect : Effect) : dtg_shape (build_dtg_effect vars pm dtg effect) = dtg_shape dtg := by
  unfold build_dtg_effect
  simp only []
  split
  · split
    · split
      · rfl
      · exact add_dtg_successor_shape _ _ _ _
    · exact add_dtg_successor_shape _ _ _ _
  · split
    · exact add_dtg_successor_shape _ _ _ _
    · exact range_fold_shape _ _ _ _

lemma mem_build_dtg_effect (vars : List Variable) (pm : IntMap) (dtg : DtgSuccessors)
    (effect : Effect) (v pre x : Nat) (h : pre < (dtg_shape dtg).getD v 0) :
    x ∈ dtg_get (build_dtg_effect vars pm dtg effect) v pre ↔
      x ∈ dtg_get dtg v pre ∨ effect_transition vars pm effect v pre x := by
  unfold build_dtg_effect effect_transition
  simp only []
  rcases hpm : IntMap.find pm effect.fact.var with _ | p
  · rcases hec : IntMap.find (fact_map effect.conditions) effect.fact.var with _ | c
    · simp only []
      rw [mem_range_fold _ _ _ _ _ _ _ h]
      constructor
      · rintro (hx | ⟨h1, h2, h3, h4⟩)
        · exact Or.inl hx
        · refine Or.inr ⟨?_, ?_, ?_⟩
          · cases hf : effect.fact
            simp only [hf] at h1 h3
            simp [h1, h3]
          · rw [← h3]; exact h4
          · subst h1
            exact Or.inr (Or.inr ⟨hpm, hec, h2⟩)
      · rintro (hx | ⟨h1, h2, h3⟩)
        · exact Or.inl hx
        · have hvar : effect.fact.var = v := by rw [h1]
          have hval : effect.fact.value = x := by rw [h1]
          subst hvar
          rcases h3 with ⟨h3, _⟩ | ⟨_, h3⟩ | ⟨_, _, h3⟩
          · rw [hpm] at h3; cases h3
          · rw [hec] at h3; cases h3
          · exact Or.inr ⟨rfl, h3, hval, by rw [hval]; exact h2⟩
    · simp only []
      rw [mem_dtg_get_add _ _ _ _ _ _ _ h]
      constructor
      · rintro (hx | ⟨h1, h2, h3, h4⟩)
        · exact Or.inl hx
        · refine Or.inr ⟨?_, ?_, ?_⟩
          · cases hf : effect.fact
            simp only [hf] at h1 h3
            simp [h1, h3]
          · rw [← h3, ← h2]; exact h4
          · subst h1 h2
            exact Or.inr (Or.inl ⟨hpm, hec⟩)
      · rintro (hx | ⟨h1, h2, h3⟩)
        · exact Or.inl hx
        · have hvar : effect.fact.var = v := by rw [h1]
          have hval : effect.fact.value = x := by rw [h1]
          subst hvar
          rcases h3 with ⟨h3, _⟩ | ⟨_, h3⟩ | ⟨_, h3, _⟩
          · rw [hpm] at h3; cases h3
          · rw [hec] at h3
            cases h3
            exact Or.inr ⟨rfl, rfl, hval, by rw [hval]; exact h2⟩
          · rw [hec] at h3; cases h3
  · rcases hec : IntMap.find (fact_map effect.conditions) effect.fact.var with _ | c
    · simp only []
      rw [mem_dtg_get_add _ _ _ _ _ _ _ h]
      constructor
      · rintro (hx | ⟨h1, h2, h3, h4⟩)
        · exact Or.inl hx
        · refine Or.inr ⟨?_, ?_, ?_⟩
          · cases hf : effect.fact
            simp only [hf] at h1 h3
            simp [h1, h3]
          · rw [← h3, ← h2]; exact h4
          · subst h1 h2
            exact Or.inl ⟨hpm, Or.inl hec⟩
      · rintro (hx | ⟨h1, h2, h3⟩)
        · exact Or.inl hx
        · have hvar : effect.fact.var = v := by rw [h1]
          have hval : effect.fact.value = x := by rw [h1]
          subst hvar
          rcases h3 with ⟨h3, _⟩ | ⟨h3, _⟩ | ⟨h3, _, _⟩
          · rw [hpm] at h3
            cases h3
            exact Or.inr ⟨rfl, rfl, hval, by rw [hval]; exact h2⟩
          · rw [hpm] at h3; cases h3
          · rw [hpm] at h3; cases h3
    · simp only []
      by_cases hcp : c = p
      · subst hcp
        simp only [ne_eq, not_true_eq_false, if_false]
        rw [mem_dtg_get_add _ _ _ _ _ _ _ h]
        constructor
        · rintro (hx | ⟨h1, h2, h3, h4⟩)
          · exact Or.inl hx
          · refine Or.inr ⟨?_, ?_, ?_⟩
            · cases hf : effect.fact
              simp only [hf] at h1 h3
              simp [h1, h3]
            · rw [← h3, ← h2]; exact h4
            · subst h1 h2
              exact Or.inl ⟨hpm, Or.inr hec⟩
        · rintro (hx | ⟨h1, h2, h3⟩)
          · exact Or.inl hx
          · have hvar : effect.fact.var = v := by rw [h1]
            have hval : effect.fact.value = x := by rw [h1]
            subst hvar
            rcases h3 with ⟨h3, _⟩ | ⟨h3, _⟩ | ⟨h3, _, _⟩
            · rw [hpm] at h3
              cases h3
              exact Or.inr ⟨rfl, rfl, hval, by rw [hval]; exact h2⟩
            · rw [hpm] at h3; cases h3
            · rw [hpm] at h3; cases h3
      · simp only [ne_eq, hcp, not_false_eq_true, if_true]
        constructor
        · exact fun hx => Or.inl hx
        · rintro (hx | ⟨h1, h2, h3⟩)
          · exact hx
          · have hvar : effect.fact.var = v := by rw [h1]
            subst hvar
            rcases h3 with ⟨h3, h3' | h3'⟩ | ⟨h3, _⟩ | ⟨h3, _, _⟩
            · rw [hec] at h3'; cases h3'
            · rw [hpm] at h3
              rw [hec] at h3'
              cases h3
              cases h3'
              exact absurd rfl hcp
            · rw [hpm] at h3; cases h3
            · rw [hpm] at h3; cases h3

lemma find_assign (m : IntMap) (k v k' : Nat) :
    IntMap.find (IntMap.assign m k v) k' = if k = k' then some v else IntMap.find m k' := by
  induction m with
  | nil => simp [IntMap.assign, IntMap.find]
  | cons x rest ih =>
    obtain ⟨a, b⟩ := x
    unfold IntMap.assign
    by_cases hak : a = k
    · subst hak
      by_cases hk : a = k'
      · simp [IntMap.find, hk]
      · simp [IntMap.find, hk]
    · by_cases hk : k = k'
      · subst hk
        simp [IntMap.find, hak, ih]
      · by_cases hak' : a = k'
        · subst hak'
          simp [IntMap.find, hak, hk]
        · simp [IntMap.find, hak, hk, hak', ih]

lemma find_fold_assign_none (l : List FactPair) (m : IntMap) (k : Nat) :
    IntMap.find (l.foldl (fun m f => IntMap.assign m f.var f.value) m) k = none ↔
      (∀ p ∈ l, p.var ≠ k) ∧ IntMap.find m k = none := by
  induction l generalizing m with
  | nil => simp
  | cons a l ih =>
    simp only [List.foldl_cons, ih, find_assign, List.mem_cons, forall_eq_or_imp]
    by_cases hak : a.var = k
    · simp [hak]
    · simp [hak]

lemma find_fold_assign_some (l : List FactPair) (hl : one_value_per_var l) (m : IntMap)
    (k v : Nat) :
    IntMap.find (l.foldl (fun m f => IntMap.assign m f.var f.value) m) k = some v ↔
      ⟨k, v⟩ ∈ l ∨ ((∀ p ∈ l, p.var ≠ k) ∧ IntMap.find m k = some v) := by
  induction l generalizing m with
  | nil => simp
  | cons a l ih =>
    have hl' : one_value_per_var l := fun p hp q hq h =>
      hl p (List.mem_cons_of_mem _ hp) q (List.mem_cons_of_mem _ hq) h
    simp only [List.foldl_cons, ih hl', find_assign, List.mem_cons, forall_eq_or_imp]
    by_cases hak : a.var = k
    · simp only [hak, if_true, Option.some.injEq, ne_eq, not_true_eq_false, false_and,
        or_false]
      constructor
      · rintro (h | ⟨_, h⟩)
        · exact Or.inr h
        · left
          cases a
          simp only at hak h
          simp [hak, h]
      · rintro (h | h)
        · by_cases hex : ∃ p ∈ l, p.var = k
          · obtain ⟨p, hp, hpk⟩ := hex
            have := hl a (List.mem_cons_self _ _) p (List.mem_cons_of_mem _ hp)
              (by rw [hak, hpk])
            left
            have hpe : p = ⟨k, v⟩ := by
              cases p
              simp only at hpk this
              rw [← h] at this
              simp only at this
              simp [hpk, this]
            exact hpe ▸ hp
          · right
            push_neg at hex
            exact ⟨hex, by rw [← h]⟩
        · exact Or.inl h
    · simp only [hak, if_false, ne_eq, not_false_eq_true, true_and]
      constructor
      · rintro (h | h)
        · exact Or.inl (Or.inr h)
        · exact Or.inr h
      · rintro ((h | h) | h)
        · exact absurd (by rw [← h]) hak
        · exact Or.inl h
        · exact Or.inr h

lemma find_fact_map_none (l : List FactPair) (k : Nat) :
    IntMap.find (fact_map l) k = none ↔ ∀ p ∈ l, p.var ≠ k := by
  unfold fact_map
  rw [find_fold_assign_none]
  simp [IntMap.find]

lemma find_fact_map_some (l : List FactPair) (hl : one_value_per_var l) (k v : Nat) :
    IntMap.find (fact_map l) k = some v ↔ ⟨k, v⟩ ∈ l := by
  unfold fact_map
  rw [find_fold_assign_some l hl]
  simp [IntMap.find]

lemma effect_transition_iff (vars : List Variable) (op : Operator) (effect : Effect)
    (hp : one_value_per_var op.preconditions) (hc : one_value_per_var effect.conditions)
    (v pre post : Nat) (hdom : pre < get_domain_size vars v) :
    effect_transition vars (fact_map op.preconditions) effect v pre post ↔
      pre ≠ post ∧ induces_transition op effect v pre post := by
  unfold effect_transition induces_transition
  rw [find_fact_map_none, find_fact_map_none, find_fact_map_some _ hp,
    find_fact_map_some _ hc]
  constructor
  · rintro ⟨h1, h2, h3⟩
    refine ⟨h2, h1, ?_⟩
    rcases h3 with h3 | h3 | ⟨h3, h4, _⟩
    · exact Or.inl h3
    · exact Or.inr (Or.inl h3)
    · exact Or.inr (Or.inr ⟨h3, h4⟩)
  · rintro ⟨h2, h1, h3⟩
    refine ⟨h1, h2, ?_⟩
    rcases h3 with h3 | h3 | ⟨h3, h4⟩
    · exact Or.inl h3
    · exact Or.inr (Or.inl h3)
    · exact Or.inr (Or.inr ⟨h3, h4, hdom⟩)

lemma effects_fold_spec (vars : List Variable) (pm : IntMap) (effects : List Effect) :
    ∀ (dtg : DtgSuccessors),
      dtg_shape (effects.foldl (build_dtg_effect vars pm) dtg) = dtg_shape dtg ∧
      ∀ v pre x, pre < (dtg_shape dtg).getD v 0 →
        (x ∈ dtg_get (effects.foldl (build_dtg_effect vars pm) dtg) v pre ↔
          x ∈ dtg_get dtg v pre ∨ ∃ e ∈ effects, effect_transition vars pm e v pre x) := by
  induction effects with
  | nil => intro dtg; simp
  | cons e es ih =>
    intro dtg
    simp only [List.foldl_cons]
    obtain ⟨hs, hm⟩ := ih (build_dtg_effect vars pm dtg e)
    refine ⟨by rw [hs, build_dtg_effect_shape], ?_⟩
    intro v pre x h
    rw [hm v pre x (by rw [build_dtg_effect_shape]; exact h),
      mem_build_dtg_effect _ _ _ _ _ _ _ h]
    constructor
    · rintro ((h1 | ht) | ⟨e', he, ht⟩)
      · exact Or.inl h1
      · exact Or.inr ⟨e, List.mem_cons_self _ _, ht⟩
      · exact Or.inr ⟨e', List.mem_cons_of_mem _ he, ht⟩
    · rintro (h1 | ⟨e', he, ht⟩)
      · exact Or.inl (Or.inl h1)
      · rcases List.mem_cons.mp he with rfl | he
        · exact Or.inl (Or.inr ht)
        · exact Or.inr ⟨e', he, ht⟩

lemma operators_fold_spec (vars : List Variable) (ops : List Operator) :
    ∀ (dtg : DtgSuccessors),
      dtg_shape (ops.foldl (build_dtg_operator vars) dtg) = dtg_shape dtg ∧
      ∀ v pre x, pre < (dtg_shape dtg).getD v 0 →
        (x ∈ dtg_get (ops.foldl (build_dtg_operator vars) dtg) v pre ↔
          x ∈ dtg_get dtg v pre ∨ ∃ op ∈ ops, ∃ e ∈ op.effects,
            effect_transition vars (fact_map op.preconditions) e v pre x) := by
  induction ops with
  | nil => intro dtg; simp
  | cons o os ih =>
    intro dtg
    simp only [List.foldl_cons]
    obtain ⟨hs, hm⟩ := ih (build_dtg_operator vars dtg o)
    obtain ⟨hs1, hm1⟩ := effects_fold_spec vars (fact_map o.preconditions) o.effects dtg
    have hso : dtg_shape (build_dtg_operator vars dtg o) = dtg_shape dtg := hs1
    refine ⟨by rw [hs, hso], ?_⟩
    intro v pre x h
    have hx : x ∈ dtg_get (build_dtg_operator vars dtg o) v pre ↔
        x ∈ dtg_get dtg v pre ∨
          ∃ e ∈ o.effects, effect_transition vars (fact_map o.preconditions) e v pre x :=
      hm1 v pre x h
    rw [hm v pre x (by rw [hso]; exact h), hx]
    constructor
    · rintro ((h1 | ⟨e, he, ht⟩) | ⟨op, hop, e, he, ht⟩)
      · exact Or.inl h1
      · exact Or.inr ⟨o, List.mem_cons_self _ _, e, he, ht⟩
      · exact Or.inr ⟨op, List.mem_cons_of_mem _ hop, e, he, ht⟩
    · rintro (h1 | ⟨op, hop, e, he, ht⟩)
      · exact Or.inl (Or.inl h1)
      · rcases List.mem_cons.mp hop with rfl | hop
        · exact Or.inl (Or.inr ⟨e, he, ht⟩)
        · exact Or.inr ⟨op, hop, e, he, ht⟩

lemma initial_dtg_shape (vars : List Variable) (v : Nat) :
    (dtg_shape (vars.map (fun x => List.replicate x.domain_size ([] : List Nat)))).getD v 0 =
      get_domain_size vars v := by
  unfold dtg_shape get_domain_size
  induction vars generalizing v with
  | nil => simp
  | cons a l ih =>
    cases v with
    | zero => simp
    | succ v => simpa using ih v

lemma initial_dtg_get (vars : List Variable) (v pre : Nat) :
    dtg_get (vars.map (fun x => List.replicate x.domain_size ([] : List Nat))) v pre = [] := by
  unfold dtg_get
  induction vars generalizing v with
  | nil => simp
  | cons a l ih =>
    cases v with
    | zero =>
      simp only [List.map_cons, List.getD_cons_zero]
      by_cases h : pre < a.domain_size
      · rw [List.getD_eq_getElem _ _ (by simpa using h)]
        simp
      · rw [List.getD_eq_default _ _ (by simp; omega)]
    | succ v => simpa using ih v

/-- C9: assuming each operator has at most one precondition per variable and each
effect at most one condition per variable, after `build_dtg_successors` the value
`post` is in `dtg_successors[v][pre]` (for a value `pre` of the domain of `v`) if
and only if `pre ≠ post` and some operator has an effect `v := post` such that
(i) the operator has the precondition `v = pre` and the effect has no condition
on `v` or the condition `v = pre`, or (ii) the operator has no precondition on
`v` and the effect has the condition `v = pre`, or (iii) neither constrains `v`.
In particular the loop body leaves the graph unchanged for an effect whose
condition on its variable disagrees with the precondition of the operator. -/
theorem build_dtg_successors_characterisation (task : Task)
    (hpre : ∀ op ∈ task.operators, one_value_per_var op.preconditions)
    (hcond : ∀ op ∈ task.operators, ∀ e ∈ op.effects, one_value_per_var e.conditions)
    (v pre post : Nat) (hdom : pre < get_domain_size task.vars v) :
    (post ∈ dtg_get (build_dtg_successors task) v pre ↔
      pre ≠ post ∧ ∃ op ∈ task.operators, ∃ e ∈ op.effects,
        induces_transition op e v pre post) ∧
    (∀ op ∈ task.operators, ∀ e ∈ op.effects, ∀ p c : Nat,
      ⟨e.fact.var, p⟩ ∈ op.preconditions → ⟨e.fact.var, c⟩ ∈ e.conditions → c ≠ p →
      ∀ dtg, build_dtg_effect task.vars (fact_map op.preconditions) dtg e = dtg) := by
  constructor
  · unfold build_dtg_successors
    obtain ⟨_, hm⟩ := operators_fold_spec task.vars task.operators
      (task.vars.map (fun x => List.replicate x.domain_size ([] : List Nat)))
    rw [hm v pre post (by rw [initial_dtg_shape]; exact hdom), initial_dtg_get]
    simp only [List.not_mem_nil, false_or]
    constructor
    · rintro ⟨op, hop, e, he, ht⟩
      have := (effect_transition_iff task.vars op e (hpre op hop) (hcond op hop e he)
        v pre post hdom).mp ht
      exact ⟨this.1, op, hop, e, he, this.2⟩
    · rintro ⟨hne, op, hop, e, he, ht⟩
      exact ⟨op, hop, e, he, (effect_transition_iff task.vars op e (hpre op hop)
        (hcond op hop e he) v pre post hdom).mpr ⟨hne, ht⟩⟩
  · intro op hop e he p c hp hc hcp dtg
    have h1 := (find_fact_map_some _ (hpre op hop) e.fact.var p).mpr hp
    have h2 := (find_fact_map_some _ (hcond op hop e he) e.fact.var c).mpr hc
    unfold build_dtg_effect
    simp only [h1, h2]
    simp [hcp]

/-- C9 (witness): an operator with precondition `v0 = 0` and the effects
`v1 := 2` (unconstrained), `v0 := 1 if v0 = 1` (conflicting, skipped) and
`v0 := 1` yields exactly the transitions `0 → 2`, `1 → 2` of `v1` and `0 → 1`
of `v0`. -/
theorem build_dtg_successors_characterisation_witness :
    build_dtg_successors ⟨[⟨2, []⟩, ⟨3, []⟩],
        [⟨[⟨0, 0⟩], [⟨[], ⟨1, 2⟩⟩, ⟨[⟨0, 1⟩], ⟨0, 1⟩⟩, ⟨[], ⟨0, 1⟩⟩], 1⟩], [0, 0], []⟩ =
      [[[1], []], [[2], [2], []]] ∧
    ((1 ∈ dtg_get (build_dtg_successors ⟨[⟨2, []⟩, ⟨3, []⟩],
        [⟨[⟨0, 0⟩], [⟨[], ⟨1, 2⟩⟩, ⟨[⟨0, 1⟩], ⟨0, 1⟩⟩, ⟨[], ⟨0, 1⟩⟩], 1⟩], [0, 0], []⟩) 0 0 ↔
      0 ≠ 1 ∧ ∃ op ∈ [(⟨[⟨0, 0⟩], [⟨[], ⟨1, 2⟩⟩, ⟨[⟨0, 1⟩], ⟨0, 1⟩⟩, ⟨[], ⟨0, 1⟩⟩], 1⟩ :
          Operator)], ∃ e ∈ op.effects, induces_transition op e 0 0 1) ∧
     (∀ op ∈ [(⟨[⟨0, 0⟩], [⟨[], ⟨1, 2⟩⟩, ⟨[⟨0, 1⟩], ⟨0, 1⟩⟩, ⟨[], ⟨0, 1⟩⟩], 1⟩ : Operator)],
       ∀ e ∈ op.effects, ∀ p c : Nat,
       ⟨e.fact.var, p⟩ ∈ op.preconditions → ⟨e.fact.var, c⟩ ∈ e.conditions → c ≠ p →
       ∀ dtg, build_dtg_effect [⟨2, []⟩, ⟨3, []⟩] (fact_map op.preconditions) dtg e = dtg)) :=
  ⟨by decide,
   build_dtg_successors_characterisation ⟨[⟨2, []⟩, ⟨3, []⟩],
        [⟨[⟨0, 0⟩], [⟨[], ⟨1, 2⟩⟩, ⟨[⟨0, 1⟩], ⟨0, 1⟩⟩, ⟨[], ⟨0, 1⟩⟩], 1⟩], [0, 0], []⟩
     (by
       intro op hop
       simp only [List.mem_singleton] at hop
       subst hop
       intro p hp q hq _
       simp only [List.mem_singleton] at hp hq
       rw [hp, hq])
     (by
       intro op hop e he
       simp only [List.mem_singleton] at hop
       subst hop
       intro p hp q hq _
       simp only [List.mem_cons, List.mem_singleton, List.not_mem_nil, or_false] at he
       rcases he with rfl | rfl | rfl
       · simp at hp
       · simp only [List.mem_singleton] at hp hq
         rw [hp, hq]
       · simp at hp)
     0 0 1 (by decide)⟩

/-! ## Maps : membership and lookup -/

lemma mem_emplace (m : IntMap) (k v : Nat) (p : Nat × Nat) :
    p ∈ IntMap.emplace m k v ↔ p ∈ m ∨ (p = (k, v) ∧ IntMap.find m k = none) := by
  induction m with
  | nil => simp [IntMap.emplace, IntMap.find]
  | cons x rest ih =>
    obtain ⟨a, b⟩ := x
    unfold IntMap.emplace
    by_cases hak : a = k
    · simp [hak, IntMap.find]
    · simp only [hak, if_false, List.mem_cons, ih, IntMap.find]
      tauto

lemma find_emplace (m : IntMap) (k v k' : Nat) :
    IntMap.find (IntMap.emplace m k v) k' =
      match IntMap.find m k' with
      | some w => some w
      | none => if k = k' then some v else none := by
  induction m with
  | nil => simp [IntMap.emplace, IntMap.find]
  | cons x rest ih =>
    obtain ⟨a, b⟩ := x
    unfold IntMap.emplace
    by_cases hak : a = k
    · subst hak
      by_cases hk : a = k'
      · simp [IntMap.find, hk]
      · simp only [if_true, IntMap.find, hk, if_false]
        cases IntMap.find rest k' <;> simp
    · by_cases hk : a = k'
      · subst hk
        simp [IntMap.find, hak]
      · simp only [hak, if_false, IntMap.find, hk, ih]

lemma mem_of_find {m : IntMap} {k v : Nat} (h : IntMap.find m k = some v) : (k, v) ∈ m := by
  induction m with
  | nil => simp [IntMap.find] at h
  | cons x rest ih =>
    obtain ⟨a, b⟩ := x
    unfold IntMap.find at h
    by_cases hak : a = k
    · simp only [hak, if_true, Option.some.injEq] at h
      simp [hak, h]
    · simp only [hak, if_false] at h
      exact List.mem_cons_of_mem _ (ih h)

lemma find_eq_none_iff (m : IntMap) (k : Nat) :
    IntMap.find m k = none ↔ ∀ p ∈ m, p.1 ≠ k := by
  induction m with
  | nil => simp [IntMap.find]
  | cons x rest ih =>
    obtain ⟨a, b⟩ := x
    unfold IntMap.find
    by_cases hak : a = k
    · simp [hak]
    · simp [hak, ih]

lemma find_of_mem {m : IntMap} (hm : IntMap.keys_nodup m) {k v : Nat} (h : (k, v) ∈ m) :
    IntMap.find m k = some v := by
  induction m with
  | nil => simp at h
  | cons x rest ih =>
    obtain ⟨a, b⟩ := x
    unfold IntMap.keys_nodup at hm
    simp only [List.map_cons, List.nodup_cons, List.mem_map, Prod.exists, exists_and_right,
      exists_eq_right, not_exists] at hm
    unfold IntMap.find
    rcases List.mem_cons.mp h with h | h
    · cases h
      simp
    · by_cases hak : a = k
      · subst hak
        exact absurd h (hm.1 v)
      · simp only [hak, if_false]
        exact ih hm.2 h

lemma keys_nodup_emplace (m : IntMap) (k v : Nat) (hm : IntMap.keys_nodup m) :
    IntMap.keys_nodup (IntMap.emplace m k v) := by
  induction m with
  | nil => simp [IntMap.emplace, IntMap.keys_nodup]
  | cons x rest ih =>
    obtain ⟨a, b⟩ := x
    unfold IntMap.keys_nodup at hm ⊢
    simp only [List.map_cons, List.nodup_cons] at hm
    unfold IntMap.emplace
    by_cases hak : a = k
    · simp only [hak, if_true, List.map_cons, List.nodup_cons]
      rw [← hak]
      exact hm
    · simp only [hak, if_false, List.map_cons, List.nodup_cons]
      refine ⟨?_, ih hm.2⟩
      intro hmem
      obtain ⟨p, hp, hpa⟩ := List.mem_map.mp hmem
      rcases (mem_emplace rest k v p).mp hp with h | ⟨h, _⟩
      · exact hm.1 (List.mem_map.mpr ⟨p, h, hpa⟩)
      · rw [h] at hpa
        exact hak hpa.symm

lemma mem_intersect (a b : IntMap) (p : Nat × Nat) :
    p ∈ _intersect a b ↔ p ∈ a ∧ IntMap.find b p.1 = some p.2 := by
  simp [_intersect, List.mem_filter]

lemma intersect_nil (a : IntMap) : _intersect a [] = [] := by
  simp [_intersect, IntMap.find]

lemma mem_emplace_facts (facts : List FactPair) : ∀ (m : IntMap) (p : Nat × Nat),
    p ∈ emplace_facts m facts → p ∈ m ∨ (⟨p.1, p.2⟩ : FactPair) ∈ facts := by
  induction facts with
  | nil => intro m p h; exact Or.inl h
  | cons f fs ih =>
    intro m p h
    rcases ih (IntMap.emplace m f.var f.value) p h with h | h
    · rcases (mem_emplace m f.var f.value p).mp h with h | ⟨h, _⟩
      · exact Or.inl h
      · right
        rw [h]
        exact List.mem_cons_self _ _
    · exact Or.inr (List.mem_cons_of_mem _ h)

lemma keys_nodup_emplace_facts (facts : List FactPair) : ∀ (m : IntMap),
    IntMap.keys_nodup m → IntMap.keys_nodup (emplace_facts m facts) := by
  induction facts with
  | nil => intro m h; exact h
  | cons f fs ih => intro m h; exact ih _ (keys_nodup_emplace m _ _ h)

lemma mem_insert_all (other : IntMap) : ∀ (m : IntMap) (p : Nat × Nat),
    p ∈ IntMap.insert_all m other → p ∈ m ∨ p ∈ other := by
  induction other with
  | nil => intro m p h; exact Or.inl h
  | cons x xs ih =>
    intro m p h
    rcases ih (IntMap.emplace m x.1 x.2) p h with h | h
    · rcases (mem_emplace m x.1 x.2 p).mp h with h | ⟨h, _⟩
      · exact Or.inl h
      · right
        rw [h]
        exact List.mem_cons_self _ _
    · exact Or.inr (List.mem_cons_of_mem _ h)

lemma keys_nodup_insert_all (other : IntMap) : ∀ (m : IntMap),
    IntMap.keys_nodup m → IntMap.keys_nodup (IntMap.insert_all m other) := by
  induction other with
  | nil => intro m h; exact h
  | cons x xs ih => intro m h; exact ih _ (keys_nodup_emplace m _ _ h)

/-! ## Greedy preconditions : `get_greedy_preconditions_for_lm` -/

lemma has_precondition_fold (pre : List FactPair) : ∀ (hp : List Bool) (v : Nat),
    (pre.foldl (fun hp p => hp.set p.var true) hp).getD v false = true ↔
      hp.getD v false = true ∨ (v < hp.length ∧ ∃ p ∈ pre, p.var = v) := by
  induction pre with
  | nil => intro hp v; simp
  | cons a l ih =>
    intro hp v
    simp only [List.foldl_cons]
    rw [ih, getD_set_eq, List.length_set]
    by_cases hav : a.var = v
    · by_cases hlt : v < hp.length
      · simp [hav, hlt]
      · have : hp.getD v false = false := List.getD_eq_default _ _ (by omega)
        simp [hav, hlt, this]
    · simp only [hav, false_and, if_false, List.mem_cons, exists_eq_or_imp, false_or]

lemma has_precondition_on_var_false {n : Nat} {pre : List FactPair} {v : Nat} (hv : v < n)
    (h : (has_precondition_on_var n pre).getD v false = false) : ∀ p ∈ pre, p.var ≠ v := by
  intro p hp hpv
  have : (has_precondition_on_var n pre).getD v false = true := by
    unfold has_precondition_on_var
    rw [has_precondition_fold]
    exact Or.inr ⟨by simpa using hv, p, hp, hpv⟩
  rw [h] at this
  cases this

lemma lt_of_domain_size {vars : List Variable} {v : Nat} (h : get_domain_size vars v = 2) :
    v < vars.length := by
  by_contra hv
  unfold get_domain_size at h
  rw [List.getD_eq_default _ _ (by omega)] at h
  cases h

lemma mem_greedy_infer_effect (task : Task) (landmark : Landmark) (has_pre : List Bool)
    (result : IntMap) (effect : Effect) (p : Nat × Nat)
    (h : p ∈ greedy_infer_effect task landmark has_pre result effect) :
    p ∈ result ∨
      (p = (effect.fact.var, initial_value task.initial_state effect.fact.var) ∧
        has_pre.getD effect.fact.var false = false ∧
        get_domain_size task.vars effect.fact.var = 2 ∧
        ∃ f ∈ landmark.facts, f.var = effect.fact.var ∧
          f.value ≠ initial_value task.initial_state effect.fact.var) := by
  unfold greedy_infer_effect at h
  simp only [] at h
  split at h
  · rename_i hc
    split at h
    · rename_i hany
      rcases (mem_emplace _ _ _ _).mp h with h | ⟨h, _⟩
      · exact Or.inl h
      · right
        simp only [Bool.and_eq_true, Bool.not_eq_true', beq_iff_eq] at hc
        refine ⟨h, hc.1, hc.2, ?_⟩
        rw [List.any_eq_true] at hany
        obtain ⟨f, hf, hcond⟩ := hany
        simp only [Bool.and_eq_true, beq_iff_eq, bne_iff_ne, ne_eq] at hcond
        exact ⟨f, hf, hcond.1, fun h => hcond.2 h.symm⟩
    · exact Or.inl h
  · exact Or.inl h

lemma mem_greedy_infer_fold (task : Task) (landmark : Landmark) (has_pre : List Bool)
    (effects : List Effect) : ∀ (result : IntMap) (p : Nat × Nat),
    p ∈ effects.foldl (greedy_infer_effect task landmark has_pre) result →
    p ∈ result ∨ ∃ e ∈ effects,
      (p = (e.fact.var, initial_value task.initial_state e.fact.var) ∧
        has_pre.getD e.fact.var false = false ∧
        get_domain_size task.vars e.fact.var = 2 ∧
        ∃ f ∈ landmark.facts, f.var = e.fact.var ∧
          f.value ≠ initial_value task.initial_state e.fact.var) := by
  induction effects with
  | nil => intro result p h; exact Or.inl h
  | cons e es ih =>
    intro result p h
    rcases ih _ p h with h | ⟨e', he', h⟩
    · rcases mem_greedy_infer_effect _ _ _ _ _ _ h with h | h
      · exact Or.inl h
      · exact Or.inr ⟨e, List.mem_cons_self _ _, h⟩
    · exact Or.inr ⟨e', List.mem_cons_of_mem _ he', h⟩

lemma greedy_intersect_effects_false (f : FactPair) (es : List Effect) :
    ∀ (inter : IntMap),
      (greedy_intersect_effects f es (false, inter)).1 = false ∧
      (∀ p ∈ (greedy_intersect_effects f es (false, inter)).2, p ∈ inter) ∧
      (∀ p ∈ (greedy_intersect_effects f es (false, inter)).2, ∀ e ∈ es, f = e.fact →
        (⟨p.1, p.2⟩ : FactPair) ∈ e.conditions) := by
  induction es with
  | nil => intro inter; simp [greedy_intersect_effects]
  | cons e rest ih =>
    intro inter
    unfold greedy_intersect_effects
    by_cases hemp : inter.isEmpty = true
    · have : inter = [] := List.isEmpty_iff.mp hemp
      subst this
      simp
    · simp only [Bool.not_false, Bool.true_and, hemp, if_false, Bool.false_eq_true]
      by_cases hf : f = e.fact
      · simp only [hf, if_true]
        by_cases hce : e.conditions.isEmpty = true
        · simp [hce]
        · simp only [hce, if_false, Bool.false_eq_true]
          obtain ⟨h1, h2, h3⟩ := ih (_intersect inter (emplace_facts [] e.conditions))
          rw [← hf]
          refine ⟨h1, fun p hp => ((mem_intersect _ _ _).mp (h2 p hp)).1, ?_⟩
          intro p hp e' he' hfe'
          rcases List.mem_cons.mp he' with rfl | he'
          · have := ((mem_intersect _ _ _).mp (h2 p hp)).2
            rcases mem_emplace_facts _ _ _ (mem_of_find this) with h | h
            · simp at h
            · exact h
          · exact h3 p hp e' he' hfe'
      · simp only [hf, if_false]
        obtain ⟨h1, h2, _⟩ := ih (_intersect inter [])
        rw [intersect_nil] at h1 h2 ⊢
        refine ⟨h1, fun p hp => absurd (h2 p hp) (by simp), ?_⟩
        intro p hp
        exact absurd (h2 p hp) (by simp)

lemma greedy_intersect_effects_true (f : FactPair) (es : List Effect) :
    ((greedy_intersect_effects f es (true, [])).1 = true →
      (greedy_intersect_effects f es (true, [])).2 = [] ∧
        ∀ e0 ∈ es.head?, e0.conditions = []) ∧
    ((greedy_intersect_effects f es (true, [])).1 = false →
      (∀ p ∈ (greedy_intersect_effects f es (true, [])).2, ∀ e ∈ es, f = e.fact →
        (⟨p.1, p.2⟩ : FactPair) ∈ e.conditions) ∧
      ((greedy_intersect_effects f es (true, [])).2 ≠ [] →
        ∃ e0 ∈ es.head?, e0.conditions ≠ [])) := by
  cases es with
  | nil => simp [greedy_intersect_effects]
  | cons e rest =>
    unfold greedy_intersect_effects
    simp only [Bool.not_true, Bool.false_and, Bool.false_eq_true, if_false, if_true,
      List.head?_cons, Option.mem_def, Option.some.injEq, forall_eq', exists_eq_left']
    by_cases hf : f = e.fact
    · simp only [hf, if_true]
      by_cases hce : e.conditions.isEmpty = true
      · simp only [hce, if_true, true_implies, Bool.true_eq_false, false_implies, and_true,
          true_and]
        exact List.isEmpty_iff.mp hce
      · simp only [hce, if_false, Bool.false_eq_true]
        obtain ⟨h1, h2, h3⟩ := greedy_intersect_effects_false e.fact rest
          (emplace_facts [] e.conditions)
        refine ⟨fun h => (by rw [h1] at h; cases h), fun _ => ⟨?_, fun _ => ?_⟩⟩
        · intro p hp e' he' hfe'
          rcases List.mem_cons.mp he' with rfl | he'
          · rcases mem_emplace_facts _ _ _ (h2 p hp) with h | h
            · simp at h
            · exact h
          · exact h3 p hp e' he' hfe'
        · intro hnil
          rw [hnil] at hce
          simp at hce
    · simp only [hf, if_false]
      obtain ⟨h1, h2, _⟩ := greedy_intersect_effects_false f rest []
      have hnil : (greedy_intersect_effects f rest (false, [])).2 = [] := by
        apply List.eq_nil_iff_forall_not_mem.mpr
        intro p hp
        exact absurd (h2 p hp) (by simp)
      refine ⟨fun h => (by rw [h1] at h; cases h), fun _ => ⟨?_, fun h => absurd hnil h⟩⟩
      intro p hp
      rw [hnil] at hp
      simp at hp

lemma greedyInv_step (landmark : Landmark) (es : List Effect) (J : List Nat) (j : Nat)
    (st : Bool × IntMap) (h : GreedyInv landmark es J st) :
    GreedyInv landmark es (J ++ [j])
      (greedy_intersect_effects (landmark.facts.getD j ⟨0, 0⟩) es st) := by
  obtain ⟨init, inter⟩ := st
  obtain ⟨hA, hB⟩ := h
  cases init with
  | false =>
    obtain ⟨h1, h2, h3⟩ := greedy_intersect_effects_false (landmark.facts.getD j ⟨0, 0⟩) es inter
    refine ⟨?_, fun h => (by rw [h1] at h; cases h)⟩
    intro p hp j' hj' e he hfe
    rcases List.mem_append.mp hj' with hj' | hj'
    · exact hA p (h2 p hp) j' hj' e he hfe
    · rw [List.mem_singleton] at hj'
      subst hj'
      exact h3 p hp e he hfe
  | true =>
    obtain ⟨hnil, hJ⟩ := hB rfl
    simp only at hnil
    subst hnil
    obtain ⟨ht, hf⟩ := greedy_intersect_effects_true (landmark.facts.getD j ⟨0, 0⟩) es
    cases hr : (greedy_intersect_effects (landmark.facts.getD j ⟨0, 0⟩) es (true, [])).1 with
    | true =>
      obtain ⟨h1, h2⟩ := ht hr
      refine ⟨?_, fun _ => ⟨h1, Or.inr h2⟩⟩
      intro p hp
      rw [h1] at hp
      simp at hp
    | false =>
      obtain ⟨h1, h2⟩ := hf hr
      refine ⟨?_, fun h => (by rw [hr] at h; cases h)⟩
      intro p hp j' hj' e he hfe
      rcases List.mem_append.mp hj' with hj' | hj'
      · rcases hJ with hJ | hJ
        · rw [hJ] at hj'
          simp at hj'
        · have hne : (greedy_intersect_effects (landmark.facts.getD j ⟨0, 0⟩) es
              (true, [])).2 ≠ [] := List.ne_nil_of_mem hp
          obtain ⟨e0, he0, hc0⟩ := h2 hne
          exact absurd (hJ e0 he0) hc0
      · rw [List.mem_singleton] at hj'
        subst hj'
        exact h1 p hp e he hfe

lemma greedyInv_fold (landmark : Landmark) (es : List Effect) (js : List Nat) :
    ∀ (J : List Nat) (st : Bool × IntMap), GreedyInv landmark es J st →
      GreedyInv landmark es (J ++ js)
        (js.foldl (fun st j =>
          greedy_intersect_effects (landmark.facts.getD j ⟨0, 0⟩) es st) st) := by
  induction js with
  | nil => intro J st h; simpa using h
  | cons j js ih =>
    intro J st h
    have := ih (J ++ [j]) _ (greedyInv_step landmark es J j st h)
    simpa using this

lemma mem_lm_props_achievable {landmark : Landmark} {es : List Effect} {e : Effect}
    (he : e ∈ es) (hf : e.fact ∈ landmark.facts) :
    ∃ j ∈ lm_props_achievable landmark es, landmark.facts.getD j ⟨0, 0⟩ = e.fact := by
  obtain ⟨j, hj, hje⟩ := List.getElem_of_mem hf
  refine ⟨j, ?_, ?_⟩
  · unfold lm_props_achievable
    rw [List.mem_filter]
    refine ⟨List.mem_range.mpr hj, ?_⟩
    rw [List.any_eq_true]
    refine ⟨e, he, ?_⟩
    rw [List.getD_eq_getElem _ _ hj, hje]
    simp
  · rw [List.getD_eq_getElem _ _ hj, hje]

lemma mem_greedy_intersection (landmark : Landmark) (es : List Effect) (p : Nat × Nat)
    (hp : p ∈ greedy_intersection landmark es) :
    ∀ e ∈ es, e.fact ∈ landmark.facts → (⟨p.1, p.2⟩ : FactPair) ∈ e.conditions := by
  intro e he hf
  have hinv : GreedyInv landmark es [] (true, []) :=
    ⟨fun p hp => by simp at hp, fun _ => ⟨rfl, Or.inl rfl⟩⟩
  have := greedyInv_fold landmark es (lm_props_achievable landmark es) [] _ hinv
  obtain ⟨j, hj, hje⟩ := mem_lm_props_achievable he hf
  exact this.1 p hp j (by simpa using hj) e he hje

/-- C4: no false positives, structurally : with the result map initially empty,
every `(variable, value)` entry in the result of `get_greedy_preconditions_for_lm`
is (i) an explicit precondition of `op`, or (ii) the initial-state value of a
two-valued variable that `op` affects without a precondition on it and that the
landmark pins to the other value, or (iii) a condition that occurs in the
condition set of every effect of `op` whose effect fact is a fact of the
landmark. -/
theorem greedy_preconditions_no_false_positive (task : Task) (landmark : Landmark)
    (op : Operator) (v d : Nat)
    (h : (v, d) ∈ get_greedy_preconditions_for_lm task landmark op []) :
    (⟨v, d⟩ : FactPair) ∈ op.preconditions ∨
    (get_domain_size task.vars v = 2 ∧ (∃ e ∈ op.effects, e.fact.var = v) ∧
      (∀ p ∈ op.preconditions, p.var ≠ v) ∧ d = initial_value task.initial_state v ∧
      ∃ f ∈ landmark.facts, f.var = v ∧ f.value ≠ d) ∨
    (∀ e ∈ op.effects, e.fact ∈ landmark.facts → (⟨v, d⟩ : FactPair) ∈ e.conditions) := by
  unfold get_greedy_preconditions_for_lm at h
  simp only [] at h
  rcases mem_insert_all _ _ _ h with h | h
  · rcases mem_greedy_infer_fold _ _ _ _ _ _ h with h | ⟨e, he, hp, hhas, hdom, f, hf, hfv, hfd⟩
    · rcases mem_emplace_facts _ _ _ h with h | h
      · simp at h
      · exact Or.inl h
    · right; left
      simp only [Prod.mk.injEq] at hp
      obtain ⟨hv, hd⟩ := hp
      subst hv
      refine ⟨hdom, ⟨e, he, rfl⟩, ?_, hd, f, hf, hfv, by rw [hd]; exact hfd⟩
      exact has_precondition_on_var_false (lt_of_domain_size hdom) hhas
  · right; right
    exact mem_greedy_intersection landmark op.effects (v, d) h

/-- C4 (witness): an operator with the precondition `v1 = 2` and two effects
`v0 := 1`, under the conditions `{v2 = 1, v1 = 1}` and `{v2 = 1, v1 = 0}`, for the
landmark `v0 = 1` of a two-valued `v0` initially `0` : the result holds the
precondition, the inferred `v0 = 0` and the common condition `v2 = 1`, which is a
condition of every effect achieving the landmark. -/
theorem greedy_preconditions_no_false_positive_witness :
    get_greedy_preconditions_for_lm ⟨[⟨2, []⟩, ⟨3, []⟩, ⟨3, []⟩], [], [0, 0, 0], []⟩
        (Landmark.new [⟨0, 1⟩] false false false)
        ⟨[⟨1, 2⟩], [⟨[⟨2, 1⟩, ⟨1, 1⟩], ⟨0, 1⟩⟩, ⟨[⟨2, 1⟩, ⟨1, 0⟩], ⟨0, 1⟩⟩], 1⟩ [] =
      [(1, 2), (0, 0), (2, 1)] ∧
    ((⟨2, 1⟩ : FactPair) ∈ [(⟨1, 2⟩ : FactPair)] ∨
     (get_domain_size [⟨2, []⟩, ⟨3, []⟩, ⟨3, []⟩] 2 = 2 ∧
       (∃ e ∈ [(⟨[⟨2, 1⟩, ⟨1, 1⟩], ⟨0, 1⟩⟩ : Effect), ⟨[⟨2, 1⟩, ⟨1, 0⟩], ⟨0, 1⟩⟩],
         e.fact.var = 2) ∧
       (∀ p ∈ [(⟨1, 2⟩ : FactPair)], p.var ≠ 2) ∧ 1 = initial_value [0, 0, 0] 2 ∧
       ∃ f ∈ (Landmark.new [⟨0, 1⟩] false false false).facts, f.var = 2 ∧ f.value ≠ 1) ∨
     (∀ e ∈ [(⟨[⟨2, 1⟩, ⟨1, 1⟩], ⟨0, 1⟩⟩ : Effect), ⟨[⟨2, 1⟩, ⟨1, 0⟩], ⟨0, 1⟩⟩],
       e.fact ∈ (Landmark.new [⟨0, 1⟩] false false false).facts →
         (⟨2, 1⟩ : FactPair) ∈ e.conditions)) :=
  ⟨by decide,
   greedy_preconditions_no_false_positive ⟨[⟨2, []⟩, ⟨3, []⟩, ⟨3, []⟩], [], [0, 0, 0], []⟩
     (Landmark.new [⟨0, 1⟩] false false false)
     ⟨[⟨1, 2⟩], [⟨[⟨2, 1⟩, ⟨1, 1⟩], ⟨0, 1⟩⟩, ⟨[⟨2, 1⟩, ⟨1, 0⟩], ⟨0, 1⟩⟩], 1⟩ 2 1
     (by decide)⟩

/-- C3 (evaluation at the failing input): the operator has the effects
`v0 := 1 if v2 = 1` and `v1 := 1 if v2 = 1`, the landmark is `v0 = 1`. The only
effect achieving the landmark has the condition `v2 = 1`, so the intersection of
the conditions of all landmark-achieving effects is `{v2 = 1}`; the code returns
the empty map, because the effect on `v1`, which does not achieve the landmark,
is intersected as an empty condition set. Without that effect the entry is
reported. -/
theorem greedy_preconditions_drops_common_condition :
    get_greedy_preconditions_for_lm ⟨[⟨3, []⟩, ⟨3, []⟩, ⟨3, []⟩], [], [0, 0, 0], []⟩
        (Landmark.new [⟨0, 1⟩] false false false)
        ⟨[], [⟨[⟨2, 1⟩], ⟨0, 1⟩⟩, ⟨[⟨2, 1⟩], ⟨1, 1⟩⟩], 1⟩ [] = [] ∧
    (∃ e ∈ [(⟨[⟨2, 1⟩], ⟨0, 1⟩⟩ : Effect), ⟨[⟨2, 1⟩], ⟨1, 1⟩⟩],
      e.fact ∈ (Landmark.new [⟨0, 1⟩] false false false).facts) ∧
    (∀ e ∈ [(⟨[⟨2, 1⟩], ⟨0, 1⟩⟩ : Effect), ⟨[⟨2, 1⟩], ⟨1, 1⟩⟩],
      e.fact ∈ (Landmark.new [⟨0, 1⟩] false false false).facts →
        (⟨2, 1⟩ : FactPair) ∈ e.conditions) ∧
    get_greedy_preconditions_for_lm ⟨[⟨3, []⟩, ⟨3, []⟩, ⟨3, []⟩], [], [0, 0, 0], []⟩
        (Landmark.new [⟨0, 1⟩] false false false)
        ⟨[], [⟨[⟨2, 1⟩], ⟨0, 1⟩⟩], 1⟩ [] = [(2, 1)] := by
  decide

/-! ## Achieving operators -/

lemma foldl_flatMap_eq {α β γ : Type} (g : α → List β) (f : γ → β → γ) (l : List α) :
    ∀ init : γ, l.foldl (fun acc a => (g a).foldl f acc) init = (l.flatMap g).foldl f init := by
  induction l with
  | nil => intro init; rfl
  | cons a l ih =>
    intro init
    simp only [List.foldl_cons, List.flatMap_cons, List.foldl_append]
    exact ih _

lemma mem_get_operators_including_eff (task : Task) (fact : FactPair) (id : Nat) :
    id ∈ get_operators_including_eff task fact ↔
      id < task.operators.length ∧
        ∃ e ∈ ( get_operator_or_axiom task id).effects, e.fact = fact := by
  unfold get_operators_including_eff
  rw [List.mem_filter, List.mem_range, List.any_eq_true]
  simp only [beq_iff_eq]

lemma mem_achiever_ids (task : Task) (landmark : Landmark) (id : Nat) :
    id ∈ achiever_ids task landmark ↔
      id < task.operators.length ∧
        ∃ e ∈ ( get_operator_or_axiom task id).effects, e.fact ∈ landmark.facts := by
  unfold achiever_ids
  rw [List.mem_flatMap]
  constructor
  · rintro ⟨f, hf, hid⟩
    obtain ⟨h1, e, he, hef⟩ := (mem_get_operators_including_eff task f id).mp hid
    exact ⟨h1, e, he, hef ▸ hf⟩
  · rintro ⟨h1, e, he, hef⟩
    exact ⟨e.fact, hef, (mem_get_operators_including_eff task e.fact id).mpr ⟨h1, e, he, rfl⟩⟩

lemma first_achiever_iff (task : Task) (pr : ReachOracle) (lvl_var : LvlVar)
    (landmark : Landmark) (op : Operator) :
    first_achiever task pr lvl_var landmark op ↔
      ∃ id ∈ achiever_ids task landmark, get_operator_or_axiom task id = op ∧
        pr ( get_operator_or_axiom task id) lvl_var landmark = true := by
  unfold first_achiever
  constructor
  · rintro ⟨hop, hach, hpr⟩
    obtain ⟨id, hid, hget⟩ := List.getElem_of_mem hop
    have hg : get_operator_or_axiom task id = op := by
      unfold get_operator_or_axiom
      rw [List.getD_eq_getElem _ _ hid, hget]
    refine ⟨id, (mem_achiever_ids task landmark id).mpr ⟨hid, ?_⟩, hg, by rw [hg]; exact hpr⟩
    rw [hg]
    exact hach
  · rintro ⟨id, hid, hg, hpr⟩
    obtain ⟨hlt, hach⟩ := (mem_achiever_ids task landmark id).mp hid
    rw [hg] at hach hpr
    refine ⟨?_, hach, hpr⟩
    rw [← hg]
    unfold get_operator_or_axiom
    rw [List.getD_eq_getElem _ _ hlt]
    exact List.getElem_mem hlt

/-! ## Landmark cost : `min_cost_for_landmark` -/

lemma min_cost_fold (task : Task) (pr : ReachOracle) (lvl_var : LvlVar) (landmark : Landmark)
    (ids : List Nat) : ∀ m : Int,
    (ids.foldl (fun min_cost id =>
        if pr ( get_operator_or_axiom task id) lvl_var landmark
        then min min_cost ( get_operator_or_axiom task id).cost else min_cost) m ≤ m) ∧
    (∀ id ∈ ids, pr ( get_operator_or_axiom task id) lvl_var landmark = true →
      ids.foldl (fun min_cost id =>
        if pr ( get_operator_or_axiom task id) lvl_var landmark
        then min min_cost ( get_operator_or_axiom task id).cost else min_cost) m ≤
        ( get_operator_or_axiom task id).cost) ∧
    (ids.foldl (fun min_cost id =>
        if pr ( get_operator_or_axiom task id) lvl_var landmark
        then min min_cost ( get_operator_or_axiom task id).cost else min_cost) m = m ∨
      ∃ id ∈ ids, pr ( get_operator_or_axiom task id) lvl_var landmark = true ∧
        ids.foldl (fun min_cost id =>
          if pr ( get_operator_or_axiom task id) lvl_var landmark
          then min min_cost ( get_operator_or_axiom task id).cost else min_cost) m =
          ( get_operator_or_axiom task id).cost) := by
  induction ids with
  | nil => intro m; simp
  | cons a l ih =>
    intro m
    simp only [List.foldl_cons]
    by_cases hq : pr ( get_operator_or_axiom task a) lvl_var landmark = true
    · simp only [hq, if_true]
      obtain ⟨h1, h2, h3⟩ := ih (min m ( get_operator_or_axiom task a).cost)
      refine ⟨le_trans h1 (min_le_left _ _), ?_, ?_⟩
      · intro id hid hpr
        rcases List.mem_cons.mp hid with rfl | hid
        · exact le_trans h1 (min_le_right _ _)
        · exact h2 id hid hpr
      · rcases h3 with h3 | ⟨id, hid, hpr, h3⟩
        · rcases min_choice m ( get_operator_or_axiom task a).cost with hm | hm
          · left; rw [h3, hm]
          · right
            exact ⟨a, List.mem_cons_self _ _, hq, by rw [h3, hm]⟩
        · right
          exact ⟨id, List.mem_cons_of_mem _ hid, hpr, h3⟩
    · simp only [hq, if_false, Bool.false_eq_true]
      obtain ⟨h1, h2, h3⟩ := ih m
      refine ⟨h1, ?_, ?_⟩
      · intro id hid hpr
        rcases List.mem_cons.mp hid with rfl | hid
        · exact absurd hpr hq
        · exact h2 id hid hpr
      · rcases h3 with h3 | ⟨id, hid, hpr, h3⟩
        · exact Or.inl h3
        · exact Or.inr ⟨id, List.mem_cons_of_mem _ hid, hpr, h3⟩

/-- C8: for every landmark and levels such that at least one operator with an
effect on a fact of the landmark satisfies `_possibly_reaches_lm`,
`min_cost_for_landmark` returns the minimum cost over exactly those operators :
the returned value is the cost of one such operator and is less than or equal to
the cost of every such operator. Operator costs are `int` values, at most
`INT_MAX`. -/
theorem min_cost_for_landmark_is_minimum (task : Task) (_possibly_reaches_lm : ReachOracle)
    (landmark : Landmark) (lvl_var : LvlVar)
    (hcost : ∀ op ∈ task.operators, op.cost ≤ INT_MAX)
    (hex : ∃ op, first_achiever task _possibly_reaches_lm lvl_var landmark op) :
    (∃ op, first_achiever task _possibly_reaches_lm lvl_var landmark op ∧
      min_cost_for_landmark task _possibly_reaches_lm landmark lvl_var = op.cost) ∧
    (∀ op, first_achiever task _possibly_reaches_lm lvl_var landmark op →
      min_cost_for_landmark task _possibly_reaches_lm landmark lvl_var ≤ op.cost) := by
  have hflat : min_cost_for_landmark task _possibly_reaches_lm landmark lvl_var =
      (achiever_ids task landmark).foldl (fun min_cost id =>
        if _possibly_reaches_lm ( get_operator_or_axiom task id) lvl_var landmark
        then min min_cost ( get_operator_or_axiom task id).cost else min_cost) INT_MAX := by
    unfold min_cost_for_landmark achiever_ids
    exact foldl_flatMap_eq _ _ _ _
  obtain ⟨h1, h2, h3⟩ := min_cost_fold task _possibly_reaches_lm lvl_var landmark
    (achiever_ids task landmark) INT_MAX
  rw [← hflat] at h1 h2 h3
  have hle : ∀ op, first_achiever task _possibly_reaches_lm lvl_var landmark op →
      min_cost_for_landmark task _possibly_reaches_lm landmark lvl_var ≤ op.cost := by
    intro op hop
    obtain ⟨id, hid, hg, hpr⟩ := (first_achiever_iff _ _ _ _ _).mp hop
    rw [← hg]
    exact h2 id hid hpr
  refine ⟨?_, hle⟩
  rcases h3 with h3 | ⟨id, hid, hpr, h3⟩
  · obtain ⟨op, hop⟩ := hex
    refine ⟨op, hop, ?_⟩
    have := hle op hop
    have := hcost op hop.1
    omega
  · exact ⟨ get_operator_or_axiom task id,
      (first_achiever_iff _ _ _ _ _).mpr ⟨id, hid, rfl, hpr⟩, h3⟩

/-- C8 (witness): two operators of cost 5 and 3 achieve `v0 = 1` and both possibly
reach it; the landmark cost is 3. -/
theorem min_cost_for_landmark_is_minimum_witness :
    min_cost_for_landmark
      ⟨[⟨2, []⟩], [⟨[], [⟨[], ⟨0, 1⟩⟩], 5⟩, ⟨[], [⟨[], ⟨0, 1⟩⟩], 3⟩], [0], [⟨0, 1⟩]⟩
      (fun _ _ _ => true) (Landmark.new [⟨0, 1⟩] false false true) [[0, 1]] = 3 ∧
    ((∃ op, first_achiever
        ⟨[⟨2, []⟩], [⟨[], [⟨[], ⟨0, 1⟩⟩], 5⟩, ⟨[], [⟨[], ⟨0, 1⟩⟩], 3⟩], [0], [⟨0, 1⟩]⟩
        (fun _ _ _ => true) [[0, 1]] (Landmark.new [⟨0, 1⟩] false false true) op ∧
      min_cost_for_landmark
        ⟨[⟨2, []⟩], [⟨[], [⟨[], ⟨0, 1⟩⟩], 5⟩, ⟨[], [⟨[], ⟨0, 1⟩⟩], 3⟩], [0], [⟨0, 1⟩]⟩
        (fun _ _ _ => true) (Landmark.new [⟨0, 1⟩] false false true) [[0, 1]] = op.cost) ∧
     (∀ op, first_achiever
        ⟨[⟨2, []⟩], [⟨[], [⟨[], ⟨0, 1⟩⟩], 5⟩, ⟨[], [⟨[], ⟨0, 1⟩⟩], 3⟩], [0], [⟨0, 1⟩]⟩
        (fun _ _ _ => true) [[0, 1]] (Landmark.new [⟨0, 1⟩] false false true) op →
      min_cost_for_landmark
        ⟨[⟨2, []⟩], [⟨[], [⟨[], ⟨0, 1⟩⟩], 5⟩, ⟨[], [⟨[], ⟨0, 1⟩⟩], 3⟩], [0], [⟨0, 1⟩]⟩
        (fun _ _ _ => true) (Landmark.new [⟨0, 1⟩] false false true) [[0, 1]] ≤ op.cost)) :=
  ⟨by decide,
   min_cost_for_landmark_is_minimum
     ⟨[⟨2, []⟩], [⟨[], [⟨[], ⟨0, 1⟩⟩], 5⟩, ⟨[], [⟨[], ⟨0, 1⟩⟩], 3⟩], [0], [⟨0, 1⟩]⟩
     (fun _ _ _ => true) (Landmark.new [⟨0, 1⟩] false false true) [[0, 1]]
     (by
       intro op hop
       simp only [List.mem_cons, List.mem_singleton, List.not_mem_nil, or_false] at hop
       rcases hop with rfl | rfl <;> decide)
     ⟨⟨[], [⟨[], ⟨0, 1⟩⟩], 5⟩, by simp [first_achiever, Landmark.new]⟩⟩

/-! ## Shared preconditions : `compute_shared_preconditions` -/

lemma keys_nodup_greedy_infer_fold (task : Task) (landmark : Landmark) (has_pre : List Bool)
    (effects : List Effect) : ∀ (result : IntMap), IntMap.keys_nodup result →
    IntMap.keys_nodup (effects.foldl (greedy_infer_effect task landmark has_pre) result) := by
  induction effects with
  | nil => intro result h; exact h
  | cons e es ih =>
    intro result h
    apply ih
    unfold greedy_infer_effect
    simp only []
    split
    · split
      · exact keys_nodup_emplace _ _ _ h
      · exact h
    · exact h

lemma keys_nodup_greedy (task : Task) (landmark : Landmark) (op : Operator) :
    IntMap.keys_nodup (get_greedy_preconditions_for_lm task landmark op []) := by
  unfold get_greedy_preconditions_for_lm
  simp only []
  apply keys_nodup_insert_all
  apply keys_nodup_greedy_infer_fold
  apply keys_nodup_emplace_facts
  simp [IntMap.keys_nodup]

lemma mem_intersect_greedy (task : Task) (landmark : Landmark) (op : Operator) (a : IntMap)
    (p : Nat × Nat) :
    p ∈ _intersect a (get_greedy_preconditions_for_lm task landmark op []) ↔
      p ∈ a ∧ p ∈ get_greedy_preconditions_for_lm task landmark op [] := by
  rw [mem_intersect]
  constructor
  · rintro ⟨h1, h2⟩
    exact ⟨h1, mem_of_find h2⟩
  · rintro ⟨h1, h2⟩
    exact ⟨h1, find_of_mem (keys_nodup_greedy task landmark op) h2⟩

lemma shared_pre_operators_false (task : Task) (pr : ReachOracle) (lvl_var : LvlVar)
    (landmark : Landmark) (ids : List Nat) : ∀ (sp : IntMap),
    (shared_pre_operators task pr lvl_var landmark ids (false, sp)).1 = false ∧
    ∀ p, p ∈ (shared_pre_operators task pr lvl_var landmark ids (false, sp)).2 ↔
      p ∈ sp ∧ ∀ id ∈ ids, pr ( get_operator_or_axiom task id) lvl_var landmark = true →
        p ∈ get_greedy_preconditions_for_lm task landmark ( get_operator_or_axiom task id) [] := by
  induction ids with
  | nil => intro sp; simp [shared_pre_operators]
  | cons a l ih =>
    intro sp
    unfold shared_pre_operators
    by_cases hemp : sp.isEmpty = true
    · have : sp = [] := List.isEmpty_iff.mp hemp
      subst this
      simp
    · simp only [Bool.not_false, Bool.true_and, hemp, if_false, Bool.false_eq_true]
      by_cases hq : pr ( get_operator_or_axiom task a) lvl_var landmark = true
      · simp only [hq, if_true]
        obtain ⟨h1, h2⟩ := ih (_intersect sp
          (get_greedy_preconditions_for_lm task landmark ( get_operator_or_axiom task a) []))
        refine ⟨h1, fun p => ?_⟩
        rw [h2 p, mem_intersect_greedy]
        simp only [List.mem_cons, forall_eq_or_imp, hq, true_implies]
        tauto
      · simp only [hq, if_false, Bool.false_eq_true]
        obtain ⟨h1, h2⟩ := ih sp
        refine ⟨h1, fun p => ?_⟩
        rw [h2 p]
        simp [hq]

lemma shared_pre_operators_true (task : Task) (pr : ReachOracle) (lvl_var : LvlVar)
    (landmark : Landmark) (ids : List Nat) :
    ((∀ id ∈ ids, pr ( get_operator_or_axiom task id) lvl_var landmark ≠ true) →
      shared_pre_operators task pr lvl_var landmark ids (true, []) = (true, [])) ∧
    ((∃ id ∈ ids, pr ( get_operator_or_axiom task id) lvl_var landmark = true) →
      (shared_pre_operators task pr lvl_var landmark ids (true, [])).1 = false ∧
      ∀ p, p ∈ (shared_pre_operators task pr lvl_var landmark ids (true, [])).2 ↔
        ∀ id ∈ ids, pr ( get_operator_or_axiom task id) lvl_var landmark = true →
          p ∈ get_greedy_preconditions_for_lm task landmark
            ( get_operator_or_axiom task id) []) := by
  induction ids with
  | nil => simp [shared_pre_operators]
  | cons a l ih =>
    unfold shared_pre_operators
    simp only [Bool.not_true, Bool.false_and, Bool.false_eq_true, if_false, if_true]
    by_cases hq : pr ( get_operator_or_axiom task a) lvl_var landmark = true
    · simp only [hq, if_true]
      obtain ⟨h1, h2⟩ := shared_pre_operators_false task pr lvl_var landmark l
        (get_greedy_preconditions_for_lm task landmark ( get_operator_or_axiom task a) [])
      constructor
      · intro hall
        exact absurd hq (hall a (List.mem_cons_self _ _))
      · intro _
        refine ⟨h1, fun p => ?_⟩
        rw [h2 p]
        simp only [List.mem_cons, forall_eq_or_imp, hq, true_implies]
    · simp only [hq, if_false, Bool.false_eq_true]
      obtain ⟨ih1, ih2⟩ := ih
      constructor
      · intro hall
        exact ih1 (fun id hid => hall id (List.mem_cons_of_mem _ hid))
      · rintro ⟨id, hid, hpr⟩
        rcases List.mem_cons.mp hid with rfl | hid
        · exact absurd hpr hq
        · obtain ⟨h1, h2⟩ := ih2 ⟨id, hid, hpr⟩
          refine ⟨h1, fun p => ?_⟩
          rw [h2 p]
          simp [hq]

lemma shared_pre_operators_cons (task : Task) (pr : ReachOracle) (lvl_var : LvlVar)
    (landmark : Landmark) (x : Nat) (xs : List Nat) (init : Bool) (sp : IntMap) :
    shared_pre_operators task pr lvl_var landmark (x :: xs) (init, sp) =
      if !init && sp.isEmpty then (init, sp)
      else
        if pr ( get_operator_or_axiom task x) lvl_var landmark
        then
          shared_pre_operators task pr lvl_var landmark xs
            (false, if init then get_greedy_preconditions_for_lm task landmark
                ( get_operator_or_axiom task x) []
              else _intersect sp (get_greedy_preconditions_for_lm task landmark
                ( get_operator_or_axiom task x) []))
        else shared_pre_operators task pr lvl_var landmark xs (init, sp) := by
  rw [shared_pre_operators]

lemma shared_pre_operators_stop (task : Task) (pr : ReachOracle) (lvl_var : LvlVar)
    (landmark : Landmark) (ids : List Nat) :
    shared_pre_operators task pr lvl_var landmark ids (false, []) = (false, []) := by
  cases ids with
  | nil => rw [shared_pre_operators]
  | cons y ys => rw [shared_pre_operators_cons]; simp

lemma shared_pre_operators_append (task : Task) (pr : ReachOracle) (lvl_var : LvlVar)
    (landmark : Landmark) (a b : List Nat) : ∀ st : Bool × IntMap,
    shared_pre_operators task pr lvl_var landmark (a ++ b) st =
      shared_pre_operators task pr lvl_var landmark b
        (shared_pre_operators task pr lvl_var landmark a st) := by
  induction a with
  | nil => intro st; simp [shared_pre_operators]
  | cons x xs ih =>
    intro st
    obtain ⟨init, sp⟩ := st
    rw [List.cons_append, shared_pre_operators_cons, shared_pre_operators_cons]
    by_cases hbrk : (!init && sp.isEmpty) = true
    · simp only [hbrk, if_true]
      simp only [Bool.and_eq_true, Bool.not_eq_true', List.isEmpty_iff] at hbrk
      obtain ⟨hi, hs⟩ := hbrk
      subst hi hs
      rw [shared_pre_operators_stop]
    · simp only [hbrk, if_false, Bool.false_eq_true]
      split
      · exact ih _
      · exact ih _

lemma shared_pre_flatten (task : Task) (pr : ReachOracle) (lvl_var : LvlVar)
    (landmark : Landmark) (facts : List FactPair) : ∀ st : Bool × IntMap,
    facts.foldl (fun st lm_fact => shared_pre_operators task pr lvl_var landmark
        (get_operators_including_eff task lm_fact) st) st =
      shared_pre_operators task pr lvl_var landmark
        (facts.flatMap (get_operators_including_eff task)) st := by
  induction facts with
  | nil => intro st; simp [shared_pre_operators]
  | cons f fs ih =>
    intro st
    simp only [List.foldl_cons, List.flatMap_cons]
    rw [ih, shared_pre_operators_append]

lemma shared_pre_no_break_cons (task : Task) (pr : ReachOracle) (lvl_var : LvlVar)
    (landmark : Landmark) (x : Nat) (xs : List Nat) (init : Bool) (sp : IntMap) :
    shared_pre_operators_no_break task pr lvl_var landmark (x :: xs) (init, sp) =
      if pr ( get_operator_or_axiom task x) lvl_var landmark
      then
        shared_pre_operators_no_break task pr lvl_var landmark xs
          (false, if init then get_greedy_preconditions_for_lm task landmark
              ( get_operator_or_axiom task x) []
            else _intersect sp (get_greedy_preconditions_for_lm task landmark
              ( get_operator_or_axiom task x) []))
      else shared_pre_operators_no_break task pr lvl_var landmark xs (init, sp) := by
  rw [shared_pre_operators_no_break]

lemma shared_pre_no_break_eq (task : Task) (pr : ReachOracle) (lvl_var : LvlVar)
    (landmark : Landmark) (ids : List Nat) : ∀ st : Bool × IntMap,
    shared_pre_operators_no_break task pr lvl_var landmark ids st =
      shared_pre_operators task pr lvl_var landmark ids st := by
  induction ids with
  | nil => intro st; rw [shared_pre_operators, shared_pre_operators_no_break]
  | cons x xs ih =>
    intro st
    obtain ⟨init, sp⟩ := st
    rw [shared_pre_operators_cons, shared_pre_no_break_cons]
    by_cases hbrk : (!init && sp.isEmpty) = true
    · simp only [hbrk, if_true]
      simp only [Bool.and_eq_true, Bool.not_eq_true', List.isEmpty_iff] at hbrk
      obtain ⟨hi, hs⟩ := hbrk
      subst hi hs
      split
      · simp only [Bool.false_eq_true, if_false]
        rw [ih]
        have : _intersect [] (get_greedy_preconditions_for_lm task landmark
            ( get_operator_or_axiom task x) []) = [] := by simp [_intersect]
        rw [this, shared_pre_operators_stop]
      · rw [ih, shared_pre_operators_stop]
    · simp only [hbrk, if_false, Bool.false_eq_true]
      split
      · exact ih _
      · exact ih _

/-- C5: with `shared_pre` initially empty, `compute_shared_preconditions` returns
exactly the intersection (as variable-value pairs) of
`get_greedy_preconditions_for_lm(L, op)` over all operators `op` that have an
effect on some fact of `L` and satisfy `_possibly_reaches_lm`; the result is empty
when no such operator exists, and the early `break` on an empty intermediate
intersection does not change the result. -/
theorem compute_shared_preconditions_is_intersection (task : Task)
    (_possibly_reaches_lm : ReachOracle) (lvl_var : LvlVar) (landmark : Landmark) :
    (∀ v d : Nat,
      (v, d) ∈ compute_shared_preconditions task _possibly_reaches_lm [] lvl_var landmark ↔
        (∃ op, first_achiever task _possibly_reaches_lm lvl_var landmark op) ∧
        ∀ op, first_achiever task _possibly_reaches_lm lvl_var landmark op →
          (v, d) ∈ get_greedy_preconditions_for_lm task landmark op []) ∧
    ((¬ ∃ op, first_achiever task _possibly_reaches_lm lvl_var landmark op) →
      compute_shared_preconditions task _possibly_reaches_lm [] lvl_var landmark = []) ∧
    compute_shared_preconditions task _possibly_reaches_lm [] lvl_var landmark =
      compute_shared_preconditions_no_break task _possibly_reaches_lm [] lvl_var landmark := by
  have hflat : compute_shared_preconditions task _possibly_reaches_lm [] lvl_var landmark =
      (shared_pre_operators task _possibly_reaches_lm lvl_var landmark
        (achiever_ids task landmark) (true, [])).2 := by
    unfold compute_shared_preconditions achiever_ids
    rw [shared_pre_flatten]
  obtain ⟨hnone, hsome⟩ := shared_pre_operators_true task _possibly_reaches_lm lvl_var
    landmark (achiever_ids task landmark)
  have hex_iff : (∃ op, first_achiever task _possibly_reaches_lm lvl_var landmark op) ↔
      ∃ id ∈ achiever_ids task landmark,
        _possibly_reaches_lm ( get_operator_or_axiom task id) lvl_var landmark = true := by
    constructor
    · rintro ⟨op, hop⟩
      obtain ⟨id, hid, _, hpr⟩ := (first_achiever_iff _ _ _ _ _).mp hop
      exact ⟨id, hid, hpr⟩
    · rintro ⟨id, hid, hpr⟩
      exact ⟨_, (first_achiever_iff _ _ _ _ _).mpr ⟨id, hid, rfl, hpr⟩⟩
  have hempty : (¬ ∃ op, first_achiever task _possibly_reaches_lm lvl_var landmark op) →
      compute_shared_preconditions task _possibly_reaches_lm [] lvl_var landmark = [] := by
    intro hno
    rw [hflat, hnone]
    intro id hid hpr
    exact hno (hex_iff.mpr ⟨id, hid, hpr⟩)
  refine ⟨?_, hempty, ?_⟩
  · intro v d
    by_cases hex : ∃ op, first_achiever task _possibly_reaches_lm lvl_var landmark op
    · obtain ⟨_, hmem⟩ := hsome (hex_iff.mp hex)
      rw [hflat, hmem (v, d)]
      constructor
      · intro h
        refine ⟨hex, fun op hop => ?_⟩
        obtain ⟨id, hid, hg, hpr⟩ := (first_achiever_iff _ _ _ _ _).mp hop
        rw [← hg]
        exact h id hid hpr
      · rintro ⟨_, h⟩ id hid hpr
        exact h _ ((first_achiever_iff _ _ _ _ _).mpr ⟨id, hid, rfl, hpr⟩)
    · rw [hempty hex]
      simp [hex]
  · unfold compute_shared_preconditions compute_shared_preconditions_no_break
    congr 1
    have : ∀ (facts : List FactPair) (st : Bool × IntMap),
        facts.foldl (fun st lm_fact => shared_pre_operators task _possibly_reaches_lm lvl_var
          landmark (get_operators_including_eff task lm_fact) st) st =
        facts.foldl (fun st lm_fact => shared_pre_operators_no_break task
          _possibly_reaches_lm lvl_var landmark (get_operators_including_eff task lm_fact) st)
          st := by
      intro facts
      induction facts with
      | nil => intro st; rfl
      | cons f fs ih =>
        intro st
        simp only [List.foldl_cons]
        rw [shared_pre_no_break_eq]
        exact ih _
    exact this _ _

/-! ## Disjunctive landmark candidates : `found_disj_lm_and_order` -/

lemma found_disj_scan_some (task : Task) (g : LandmarkGraph) (a : List FactPair)
    (h : (∃ f ∈ a, initial_value task.initial_state f.var = f.value) ∨
      (∃ f ∈ a, g.contains_simple_landmark f = true)) :
    ∃ r, found_disj_scan task g a = some r := by
  induction a with
  | nil => simp at h
  | cons x xs ih =>
    unfold found_disj_scan
    by_cases h1 : initial_value task.initial_state x.var = x.value
    · exact ⟨true, by simp [h1]⟩
    · by_cases h2 : g.contains_simple_landmark x = true
      · exact ⟨false, by simp [h1, h2]⟩
      · simp only [h1, h2, if_false, Bool.false_eq_true]
        apply ih
        rcases h with ⟨f, hf, hv⟩ | ⟨f, hf, hv⟩
        · rcases List.mem_cons.mp hf with rfl | hf
          · exact absurd hv h1
          · exact Or.inl ⟨f, hf, hv⟩
        · rcases List.mem_cons.mp hf with rfl | hf
          · exact absurd hv h2
          · exact Or.inr ⟨f, hf, hv⟩

lemma contains_disjunctive_of_mem {g : LandmarkGraph} {n : LandmarkNode} {f : FactPair}
    (hn : n ∈ g.nodes) (hd : n.landmark.disjunctive = true) (hf : f ∈ n.landmark.facts) :
    g.contains_disjunctive_landmark f = true := by
  unfold LandmarkGraph.contains_disjunctive_landmark LandmarkGraph.get_disjunctive_landmark
  rw [List.find?_isSome]
  exact ⟨n, hn, by simp [hd, hf]⟩

lemma found_disj_unchanged_of_overlap (task : Task) (st : FactoryState) (a : List FactPair)
    (b : Nat) (t : EdgeType)
    (h : st.lm_graph.contains_overlapping_disjunctive_landmark a = true ∧
      st.lm_graph.contains_identical_disjunctive_landmark a = false) :
    found_disj_lm_and_order task st a b t = st := by
  unfold found_disj_lm_and_order
  cases found_disj_scan task st.lm_graph a with
  | some r => rfl
  | none => simp [h.1, h.2]

/-- C10: `found_disj_lm_and_order(A, b, t)` leaves the landmark graph (nodes and
edges), the worklist and the pending forward orders unchanged whenever some fact
of `A` holds in the initial state, or some fact of `A` is already a simple
landmark, or `A` overlaps an existing disjunctive landmark and no disjunctive
landmark is identical to `A`. In a graph whose disjunctive landmarks are pairwise
disjoint the last case is : `A` overlaps a disjunctive landmark node without
having the same fact set as that node. -/
theorem found_disj_lm_and_order_discards (task : Task) (st : FactoryState)
    (a : List FactPair) (b : Nat) (t : EdgeType) :
    ((∃ f ∈ a, initial_value task.initial_state f.var = f.value) ∨
      (∃ f ∈ a, st.lm_graph.contains_simple_landmark f = true) ∨
      (st.lm_graph.contains_overlapping_disjunctive_landmark a = true ∧
        st.lm_graph.contains_identical_disjunctive_landmark a = false) →
      found_disj_lm_and_order task st a b t = st) ∧
    (disjunctive_disjoint st.lm_graph →
      (∃ n ∈ st.lm_graph.nodes, n.landmark.disjunctive = true ∧
        (∃ f ∈ a, f ∈ n.landmark.facts) ∧ ¬ (∀ f, f ∈ a ↔ f ∈ n.landmark.facts)) →
      found_disj_lm_and_order task st a b t = st) := by
  constructor
  · rintro (h | h | h)
    · obtain ⟨r, hr⟩ := found_disj_scan_some task st.lm_graph a (Or.inl h)
      unfold found_disj_lm_and_order
      rw [hr]
    · obtain ⟨r, hr⟩ := found_disj_scan_some task st.lm_graph a (Or.inr h)
      unfold found_disj_lm_and_order
      rw [hr]
    · exact found_disj_unchanged_of_overlap task st a b t h
  · rintro hdis ⟨n, hn, hnd, ⟨f, hfa, hfn⟩, hne⟩
    apply found_disj_unchanged_of_overlap
    constructor
    · unfold LandmarkGraph.contains_overlapping_disjunctive_landmark
      rw [List.any_eq_true]
      exact ⟨f, hfa, contains_disjunctive_of_mem hn hnd hfn⟩
    · by_contra hid
      rw [Bool.not_eq_false] at hid
      unfold LandmarkGraph.contains_identical_disjunctive_landmark at hid
      rw [List.any_eq_true] at hid
      obtain ⟨m, hm, hcond⟩ := hid
      simp only [Bool.and_eq_true, List.all_eq_true, decide_eq_true_eq] at hcond
      obtain ⟨⟨hmd, h1⟩, h2⟩ := hcond
      have hmn : m = n := hdis m hm n hn hmd hnd ⟨f, h1 f hfa, hfn⟩
      subst hmn
      exact hne (fun f' => ⟨h1 f', h2 f'⟩)

/-- C10 (witness): in a graph with the goal landmark `v0 = 1`, the disjunctive
landmark `{v1 = 1, v2 = 1}` and the simple landmark `v3 = 1`, the candidates
`{v1 = 1, v4 = 1}` (overlapping, not identical), `{v3 = 1, v4 = 1}` (a simple
landmark), `{v4 = 1, v5 = 0}` (a fact true initially) and `{v2 = 1, v4 = 1}`
(overlapping node 1 with another fact set) are discarded. -/
theorem found_disj_lm_and_order_discards_witness :
    found_disj_lm_and_order ⟨[], [], [0, 0, 0, 0, 0, 0], []⟩
      ⟨⟨[⟨0, Landmark.new [⟨0, 1⟩] false false true, [(1, EdgeType.GREEDY_NECESSARY)], []⟩,
         ⟨1, Landmark.new [⟨1, 1⟩, ⟨2, 1⟩] true false false, [],
           [(0, EdgeType.GREEDY_NECESSARY)]⟩,
         ⟨2, Landmark.new [⟨3, 1⟩] false false false, [], []⟩], 3⟩, [1, 2], []⟩
      [⟨1, 1⟩, ⟨4, 1⟩] 0 EdgeType.GREEDY_NECESSARY =
      ⟨⟨[⟨0, Landmark.new [⟨0, 1⟩] false false true, [(1, EdgeType.GREEDY_NECESSARY)], []⟩,
         ⟨1, Landmark.new [⟨1, 1⟩, ⟨2, 1⟩] true false false, [],
           [(0, EdgeType.GREEDY_NECESSARY)]⟩,
         ⟨2, Landmark.new [⟨3, 1⟩] false false false, [], []⟩], 3⟩, [1, 2], []⟩ ∧
    found_disj_lm_and_order ⟨[], [], [0, 0, 0, 0, 0, 0], []⟩
      ⟨⟨[⟨0, Landmark.new [⟨0, 1⟩] false false true, [(1, EdgeType.GREEDY_NECESSARY)], []⟩,
         ⟨1, Landmark.new [⟨1, 1⟩, ⟨2, 1⟩] true false false, [],
           [(0, EdgeType.GREEDY_NECESSARY)]⟩,
         ⟨2, Landmark.new [⟨3, 1⟩] false false false, [], []⟩], 3⟩, [1, 2], []⟩
      [⟨3, 1⟩, ⟨4, 1⟩] 0 EdgeType.GREEDY_NECESSARY =
      ⟨⟨[⟨0, Landmark.new [⟨0, 1⟩] false false true, [(1, EdgeType.GREEDY_NECESSARY)], []⟩,
         ⟨1, Landmark.new [⟨1, 1⟩, ⟨2, 1⟩] true false false, [],
           [(0, EdgeType.GREEDY_NECESSARY)]⟩,
         ⟨2, Landmark.new [⟨3, 1⟩] false false false, [], []⟩], 3⟩, [1, 2], []⟩ ∧
    found_disj_lm_and_order ⟨[], [], [0, 0, 0, 0, 0, 0], []⟩
      ⟨⟨[⟨0, Landmark.new [⟨0, 1⟩] false false true, [(1, EdgeType.GREEDY_NECESSARY)], []⟩,
         ⟨1, Landmark.new [⟨1, 1⟩, ⟨2, 1⟩] true false false, [],
           [(0, EdgeType.GREEDY_NECESSARY)]⟩,
         ⟨2, Landmark.new [⟨3, 1⟩] false false false, [], []⟩], 3⟩, [1, 2], []⟩
      [⟨4, 1⟩, ⟨5, 0⟩] 0 EdgeType.GREEDY_NECESSARY =
      ⟨⟨[⟨0, Landmark.new [⟨0, 1⟩] false false true, [(1, EdgeType.GREEDY_NECESSARY)], []⟩,
         ⟨1, Landmark.new [⟨1, 1⟩, ⟨2, 1⟩] true false false, [],
           [(0, EdgeType.GREEDY_NECESSARY)]⟩,
         ⟨2, Landmark.new [⟨3, 1⟩] false false false, [], []⟩], 3⟩, [1, 2], []⟩ ∧
    found_disj_lm_and_order ⟨[], [], [0, 0, 0, 0, 0, 0], []⟩
      ⟨⟨[⟨0, Landmark.new [⟨0, 1⟩] false false true, [(1, EdgeType.GREEDY_NECESSARY)], []⟩,
         ⟨1, Landmark.new [⟨1, 1⟩, ⟨2, 1⟩] true false false, [],
           [(0, EdgeType.GREEDY_NECESSARY)]⟩,
         ⟨2, Landmark.new [⟨3, 1⟩] false false false, [], []⟩], 3⟩, [1, 2], []⟩
      [⟨2, 1⟩, ⟨4, 1⟩] 0 EdgeType.NATURAL =
      ⟨⟨[⟨0, Landmark.new [⟨0, 1⟩] false false true, [(1, EdgeType.GREEDY_NECESSARY)], []⟩,
         ⟨1, Landmark.new [⟨1, 1⟩, ⟨2, 1⟩] true false false, [],
           [(0, EdgeType.GREEDY_NECESSARY)]⟩,
         ⟨2, Landmark.new [⟨3, 1⟩] false false false, [], []⟩], 3⟩, [1, 2], []⟩ :=
  ⟨(found_disj_lm_and_order_discards _ _ _ _ _).1 (Or.inr (Or.inr (by decide))),
   (found_disj_lm_and_order_discards _ _ _ _ _).1
     (Or.inr (Or.inl ⟨⟨3, 1⟩, by decide, by decide⟩)),
   (found_disj_lm_and_order_discards _ _ _ _ _).1
     (Or.inl ⟨⟨5, 0⟩, by decide, by decide⟩),
   (found_disj_lm_and_order_discards _ _ _ _ _).2
     (by unfold disjunctive_disjoint; decide)
     ⟨⟨1, Landmark.new [⟨1, 1⟩, ⟨2, 1⟩] true false false, [],
         [(0, EdgeType.GREEDY_NECESSARY)]⟩, by decide, by decide,
       ⟨⟨2, 1⟩, by decide, by decide⟩,
       fun h => absurd ((h ⟨4, 1⟩).mp (by decide)) (by decide)⟩⟩

/-! ## Edge maps -/

lemma edge_find_append (m : EdgeMap) (k k' : Nat) (t : EdgeType) :
    EdgeMap.find (m ++ [(k, t)]) k' =
      match EdgeMap.find m k' with
      | some x => some x
      | none => if k = k' then some t else none := by
  induction m with
  | nil => simp [EdgeMap.find]
  | cons x rest ih =>
    obtain ⟨a, b⟩ := x
    simp only [List.cons_append, EdgeMap.find]
    by_cases hak : a = k'
    · simp [hak]
    · simp only [hak, if_false]
      exact ih

lemma edge_find_erase (m : EdgeMap) (k k' : Nat) :
    EdgeMap.find (EdgeMap.erase m k) k' = if k = k' then none else EdgeMap.find m k' := by
  induction m with
  | nil => simp [EdgeMap.erase, EdgeMap.find]
  | cons x rest ih =>
    obtain ⟨a, b⟩ := x
    unfold EdgeMap.erase at ih ⊢
    by_cases hak : a = k
    · subst hak
      simp only [ne_eq, not_true_eq_false, decide_False, Bool.false_eq_true,
        not_false_eq_true, List.filter_cons_of_neg, ih, EdgeMap.find]
      by_cases hk : a = k'
      · simp [hk]
      · simp [hk]
    · simp only [ne_eq, hak, not_false_eq_true, decide_True, List.filter_cons_of_pos,
        EdgeMap.find, ih]
      by_cases hk : a = k'
      · subst hk
        simp [Ne.symm hak]
      · simp [hk]

lemma edge_find_add_ne (m : EdgeMap) (k k' : Nat) (t : EdgeType) (h : k ≠ k') :
    EdgeMap.find (EdgeMap.add m k t) k' = EdgeMap.find m k' := by
  unfold EdgeMap.add
  cases hf : EdgeMap.find m k with
  | none =>
    simp only []
    rw [edge_find_append]
    simp only [h, if_false]
    cases EdgeMap.find m k' <;> rfl
  | some t' =>
    simp only []
    split
    · rw [edge_find_append, edge_find_erase]
      simp only [h, if_false]
      cases EdgeMap.find m k' <;> rfl
    · rfl

lemma edge_find_add_natural (m : EdgeMap) (k : Nat) :
    EdgeMap.find (EdgeMap.add m k EdgeType.NATURAL) k =
      match EdgeMap.find m k with
      | some t' => some t'
      | none => some EdgeType.NATURAL := by
  unfold EdgeMap.add
  cases hf : EdgeMap.find m k with
  | none =>
    simp only []
    rw [edge_find_append, hf]
    simp
  | some t' =>
    simp only [EdgeType.strength, Nat.not_lt_zero, if_false]
    exact hf

lemma edge_find_eq_none_of_keys (m : EdgeMap) (k : Nat) (h : ∀ p ∈ m, p.1 ≠ k) :
    EdgeMap.find m k = none := by
  induction m with
  | nil => rfl
  | cons x rest ih =>
    obtain ⟨a, b⟩ := x
    unfold EdgeMap.find
    have hak : a ≠ k := h (a, b) (List.mem_cons_self _ _)
    simp only [hak, if_false]
    exact ih (fun p hp => h p (List.mem_cons_of_mem _ hp))

lemma mem_edge_erase {m : EdgeMap} {k : Nat} {p : Nat × EdgeType}
    (h : p ∈ EdgeMap.erase m k) : p ∈ m := by
  unfold EdgeMap.erase at h
  exact (List.mem_filter.mp h).1

/-! ## Nodes of the landmark graph -/

lemma find_id_map (f : LandmarkNode → LandmarkNode) (hf : ∀ n, (f n).id = n.id)
    (nodes : List LandmarkNode) (x : Nat) :
    (nodes.map f).find? (fun n => n.id == x) =
      (nodes.find? (fun n => n.id == x)).map f := by
  rw [List.find?_map]
  congr 2
  funext n
  simp [hf n]

lemma get_node_id {g : LandmarkGraph} {x : Nat} {n : LandmarkNode}
    (h : g.get_node x = some n) : n.id = x := by
  have := List.find?_some h
  simpa using this

lemma get_node_isSome_of_mem {g : LandmarkGraph} {n : LandmarkNode} (h : n ∈ g.nodes) :
    (g.get_node n.id).isSome = true := by
  unfold LandmarkGraph.get_node
  rw [List.find?_isSome]
  exact ⟨n, h, by simp⟩

lemma get_node_edge_add (g : LandmarkGraph) (a c : Nat) (ty : EdgeType) (x : Nat)
    (hac : a ≠ c) :
    (edge_add g a c ty).get_node x =
      (g.get_node x).map (fun n =>
        if n.id = a then { n with children := EdgeMap.add n.children c ty }
        else if n.id = c then { n with parents := EdgeMap.add n.parents a ty }
        else n) := by
  unfold edge_add LandmarkGraph.get_node
  simp only [hac, if_false]
  apply find_id_map
  intro n
  split
  · rfl
  · split <;> rfl

lemma get_node_isSome_edge_add (g : LandmarkGraph) (a c : Nat) (ty : EdgeType) (x : Nat) :
    ((edge_add g a c ty).get_node x).isSome = (g.get_node x).isSome := by
  by_cases hac : a = c
  · simp [edge_add, hac]
  · rw [get_node_edge_add g a c ty x hac]
    simp

lemma child_edge_edge_add_ne (g : LandmarkGraph) (a c : Nat) (ty : EdgeType) (x y : Nat)
    (h : x ≠ a ∨ y ≠ c) :
    (edge_add g a c ty).child_edge x y = g.child_edge x y := by
  by_cases hac : a = c
  · simp [edge_add, hac]
  · unfold LandmarkGraph.child_edge
    rw [get_node_edge_add g a c ty x hac]
    cases hn : g.get_node x with
    | none => rfl
    | some n =>
      have hid := get_node_id hn
      simp only [Option.map_some', Option.some_bind]
      by_cases hxa : n.id = a
      · simp only [hxa, if_true]
        rcases h with h | h
        · exact absurd (hid ▸ hxa) h
        · exact edge_find_add_ne _ _ _ _ (Ne.symm h)
      · simp only [hxa, if_false]
        split <;> rfl

lemma child_edge_edge_add_natural (g : LandmarkGraph) (a c : Nat) (hac : a ≠ c) :
    (edge_add g a c EdgeType.NATURAL).child_edge a c =
      (g.get_node a).bind (fun n =>
        match EdgeMap.find n.children c with
        | some t' => some t'
        | none => some EdgeType.NATURAL) := by
  unfold LandmarkGraph.child_edge
  rw [get_node_edge_add g a c _ a hac]
  cases hn : g.get_node a with
  | none => rfl
  | some n =>
    have hid := get_node_id hn
    simp only [Option.map_some', Option.some_bind, hid, if_true]
    exact edge_find_add_natural _ _

lemma parent_edge_edge_add_ne (g : LandmarkGraph) (a c : Nat) (ty : EdgeType) (x y : Nat)
    (h : x ≠ a ∨ y ≠ c) :
    (edge_add g a c ty).parent_edge x y = g.parent_edge x y := by
  by_cases hac : a = c
  · simp [edge_add, hac]
  · unfold LandmarkGraph.parent_edge
    rw [get_node_edge_add g a c ty y hac]
    cases hn : g.get_node y with
    | none => rfl
    | some n =>
      have hid := get_node_id hn
      simp only [Option.map_some', Option.some_bind]
      by_cases hya : n.id = a
      · simp only [hya, if_true]
      · simp only [hya, if_false]
        by_cases hyc : n.id = c
        · simp only [hyc, if_true]
          rcases h with h | h
          · exact edge_find_add_ne _ _ _ _ (Ne.symm h)
          · exact absurd (hid ▸ hyc) h
        · simp only [hyc, if_false]

lemma parent_edge_edge_add_natural (g : LandmarkGraph) (a c : Nat) (hac : a ≠ c) :
    (edge_add g a c EdgeType.NATURAL).parent_edge a c =
      (g.get_node c).bind (fun n =>
        match EdgeMap.find n.parents a with
        | some t' => some t'
        | none => some EdgeType.NATURAL) := by
  unfold LandmarkGraph.parent_edge
  rw [get_node_edge_add g a c _ c hac]
  cases hn : g.get_node c with
  | none => rfl
  | some n =>
    have hid := get_node_id hn
    have hca : ¬ c = a := fun h => hac h.symm
    simp only [Option.map_some', Option.some_bind, hid, hca, if_false, if_true]
    exact edge_find_add_natural _ _

lemma child_edge_fold_natural (new x : Nat) (hx : x ≠ new) : ∀ (preds : List Nat)
    (g : LandmarkGraph), (g.get_node x).isSome = true →
    (g.child_edge x new = some EdgeType.NATURAL ∨ (g.child_edge x new = none ∧ x ∈ preds)) →
    (preds.foldl (fun g p => edge_add g p new EdgeType.NATURAL) g).child_edge x new =
      some EdgeType.NATURAL := by
  intro preds
  induction preds with
  | nil =>
    intro g _ h
    rcases h with h | ⟨_, h⟩
    · exact h
    · simp at h
  | cons p ps ih =>
    intro g hsome h
    simp only [List.foldl_cons]
    apply ih
    · rw [get_node_isSome_edge_add]; exact hsome
    · by_cases hpx : p = x
      · subst hpx
        left
        rw [child_edge_edge_add_natural g p new hx]
        obtain ⟨n, hn⟩ := Option.isSome_iff_exists.mp hsome
        unfold LandmarkGraph.child_edge at h
        rw [hn] at h ⊢
        simp only [Option.some_bind] at h ⊢
        rcases h with h | ⟨h, _⟩
        · rw [h]
        · rw [h]
      · rw [child_edge_edge_add_ne g p new _ x new (Or.inl (Ne.symm hpx))]
        rcases h with h | ⟨h, hmem⟩
        · exact Or.inl h
        · right
          refine ⟨h, ?_⟩
          rcases List.mem_cons.mp hmem with h' | h'
          · exact absurd h'.symm hpx
          · exact h'

lemma parent_edge_fold_natural (new x : Nat) (hx : x ≠ new) : ∀ (preds : List Nat)
    (g : LandmarkGraph), (g.get_node new).isSome = true →
    (g.parent_edge x new = some EdgeType.NATURAL ∨ (g.parent_edge x new = none ∧ x ∈ preds)) →
    (preds.foldl (fun g p => edge_add g p new EdgeType.NATURAL) g).parent_edge x new =
      some EdgeType.NATURAL := by
  intro preds
  induction preds with
  | nil =>
    intro g _ h
    rcases h with h | ⟨_, h⟩
    · exact h
    · simp at h
  | cons p ps ih =>
    intro g hsome h
    simp only [List.foldl_cons]
    apply ih
    · rw [get_node_isSome_edge_add]; exact hsome
    · by_cases hpx : p = x
      · subst hpx
        left
        rw [parent_edge_edge_add_natural g p new hx]
        obtain ⟨n, hn⟩ := Option.isSome_iff_exists.mp hsome
        unfold LandmarkGraph.parent_edge at h
        rw [hn] at h ⊢
        simp only [Option.some_bind] at h ⊢
        rcases h with h | ⟨h, _⟩
        · rw [h]
        · rw [h]
      · rw [parent_edge_edge_add_ne g p new _ x new (Or.inl (Ne.symm hpx))]
        rcases h with h | ⟨h, hmem⟩
        · exact Or.inl h
        · right
          refine ⟨h, ?_⟩
          rcases List.mem_cons.mp hmem with h' | h'
          · exact absurd h'.symm hpx
          · exact h'

lemma no_reference_remove_node (g : LandmarkGraph) (d : Nat) :
    no_reference (g.remove_node d) d := by
  intro n hn
  unfold LandmarkGraph.remove_node at hn
  simp only [List.mem_map, List.mem_filter, bne_iff_ne, ne_eq] at hn
  obtain ⟨m, ⟨_, hmd⟩, rfl⟩ := hn
  refine ⟨hmd, ?_, ?_⟩
  · simp [edge_find_erase]
  · simp [edge_find_erase]

lemma no_reference_add_landmark (g : LandmarkGraph) (d : Nat) (lm : Landmark)
    (h : no_reference g d) (hd : g.next_id ≠ d) : no_reference (g.add_landmark lm).1 d := by
  intro n hn
  unfold LandmarkGraph.add_landmark at hn
  simp only [List.mem_append, List.mem_singleton] at hn
  rcases hn with hn | rfl
  · exact h n hn
  · exact ⟨hd, rfl, rfl⟩

lemma no_reference_edge_add (g : LandmarkGraph) (d a c : Nat) (ty : EdgeType)
    (h : no_reference g d) (ha : a ≠ d) (hc : c ≠ d) :
    no_reference (edge_add g a c ty) d := by
  unfold edge_add
  by_cases hac : a = c
  · simpa [hac] using h
  · simp only [hac, if_false]
    intro n hn
    simp only [List.mem_map] at hn
    obtain ⟨m, hm, rfl⟩ := hn
    obtain ⟨h1, h2, h3⟩ := h m hm
    split
    · exact ⟨h1, h2, by simp only; rw [edge_find_add_ne _ _ _ _ hc]; exact h3⟩
    · split
      · exact ⟨h1, by simp only; rw [edge_find_add_ne _ _ _ _ ha]; exact h2, h3⟩
      · exact ⟨h1, h2, h3⟩

lemma no_reference_fold (d new : Nat) (hnew : new ≠ d) : ∀ (preds : List Nat)
    (g : LandmarkGraph), no_reference g d → (∀ p ∈ preds, p ≠ d) →
    no_reference (preds.foldl (fun g p => edge_add g p new EdgeType.NATURAL) g) d := by
  intro preds
  induction preds with
  | nil => intro g h _; exact h
  | cons p ps ih =>
    intro g h hp
    simp only [List.foldl_cons]
    apply ih
    · exact no_reference_edge_add g d p new _ h (hp p (List.mem_cons_self _ _)) hnew
    · exact fun q hq => hp q (List.mem_cons_of_mem _ hq)

lemma contains_simple_iff (g : LandmarkGraph) (f : FactPair) :
    g.contains_simple_landmark f = true ↔
      ∃ n ∈ g.nodes, n.landmark.is_simple = true ∧ f ∈ n.landmark.facts := by
  unfold LandmarkGraph.contains_simple_landmark LandmarkGraph.get_simple_landmark
  rw [List.find?_isSome]
  simp only [Bool.and_eq_true, decide_eq_true_eq]

lemma contains_simple_edge_add (g : LandmarkGraph) (a c : Nat) (ty : EdgeType)
    (f : FactPair) :
    (edge_add g a c ty).contains_simple_landmark f = g.contains_simple_landmark f := by
  rw [Bool.eq_iff_iff, contains_simple_iff, contains_simple_iff]
  unfold edge_add
  by_cases hac : a = c
  · simp [hac]
  · simp only [hac, if_false, List.mem_map]
    constructor
    · rintro ⟨n, ⟨m, hm, rfl⟩, h⟩
      refine ⟨m, hm, ?_⟩
      split at h
      · exact h
      · split at h <;> exact h
    · rintro ⟨m, hm, h⟩
      refine ⟨_, ⟨m, hm, rfl⟩, ?_⟩
      split
      · exact h
      · split <;> exact h

lemma contains_simple_fold (new : Nat) (f : FactPair) : ∀ (preds : List Nat)
    (g : LandmarkGraph),
    (preds.foldl (fun g p => edge_add g p new EdgeType.NATURAL) g).contains_simple_landmark f =
      g.contains_simple_landmark f := by
  intro preds
  induction preds with
  | nil => intro g; rfl
  | cons p ps ih =>
    intro g
    simp only [List.foldl_cons]
    rw [ih, contains_simple_edge_add]

lemma fresh_handles_remove_node (g : LandmarkGraph) (d : Nat) (h : fresh_handles g) :
    fresh_handles (g.remove_node d) := by
  intro n hn
  unfold LandmarkGraph.remove_node at hn
  simp only [List.mem_map, List.mem_filter] at hn
  obtain ⟨m, ⟨hm, _⟩, rfl⟩ := hn
  obtain ⟨h1, h2, h3⟩ := h m hm
  exact ⟨h1, fun p hp => h2 p (mem_edge_erase hp), fun p hp => h3 p (mem_edge_erase hp)⟩

lemma get_node_next_id_eq_none (g : LandmarkGraph) (h : fresh_handles g) :
    g.get_node g.next_id = none := by
  unfold LandmarkGraph.get_node
  rw [List.find?_eq_none]
  intro n hn
  have := (h n hn).1
  simp only [beq_iff_eq]
  omega

lemma child_edge_next_id_eq_none (g : LandmarkGraph) (h : fresh_handles g) (x : Nat) :
    g.child_edge x g.next_id = none := by
  unfold LandmarkGraph.child_edge
  cases hn : g.get_node x with
  | none => rfl
  | some n =>
    simp only [Option.some_bind]
    apply edge_find_eq_none_of_keys
    intro p hp
    have := (h n (List.mem_of_find?_eq_some hn)).2.1 p hp
    omega

lemma get_node_add_landmark_old (g : LandmarkGraph) (lm : Landmark) (x : Nat)
    (hx : (g.get_node x).isSome = true) :
    (g.add_landmark lm).1.get_node x = g.get_node x := by
  unfold LandmarkGraph.get_node at hx ⊢
  unfold LandmarkGraph.add_landmark
  simp only [List.find?_append]
  obtain ⟨n, hn⟩ := Option.isSome_iff_exists.mp hx
  rw [hn]
  rfl

lemma get_node_add_landmark_new (g : LandmarkGraph) (lm : Landmark) (h : fresh_handles g) :
    (g.add_landmark lm).1.get_node g.next_id = some ⟨g.next_id, lm, [], []⟩ := by
  have hnone := get_node_next_id_eq_none g h
  unfold LandmarkGraph.get_node at hnone ⊢
  unfold LandmarkGraph.add_landmark
  simp only [List.find?_append, hnone]
  simp

lemma get_node_isSome_remove_node (g : LandmarkGraph) (d : Nat) (n : LandmarkNode)
    (hn : n ∈ g.nodes) (hd : n.id ≠ d) : ((g.remove_node d).get_node n.id).isSome = true := by
  unfold LandmarkGraph.get_node LandmarkGraph.remove_node
  rw [List.find?_isSome]
  refine ⟨{ n with parents := EdgeMap.erase n.parents d,
                   children := EdgeMap.erase n.children d }, ?_, by simp⟩
  simp only [List.mem_map, List.mem_filter, bne_iff_ne, ne_eq]
  exact ⟨n, ⟨hn, hd⟩, rfl⟩

lemma edge_find_ne_none_of_mem_keys {m : EdgeMap} {k : Nat}
    (h : k ∈ m.map (fun pred => pred.1)) : EdgeMap.find m k ≠ none := by
  induction m with
  | nil => simp at h
  | cons x rest ih =>
    obtain ⟨a, b⟩ := x
    unfold EdgeMap.find
    by_cases hak : a = k
    · simp [hak]
    · simp only [hak, if_false]
      apply ih
      simp only [List.map_cons, List.mem_cons] at h
      rcases h with h | h
      · exact absurd h.symm hak
      · exact h

/-! ## Simple landmark candidates : `found_simple_lm_and_order` -/

/-- C2: merge correctness. In a graph in which the fact `a` is not a simple
landmark and is a member of the disjunctive landmark node `D` (the node the graph
returns for `a`), and `D` has a parent `P` (an edge `P → D` of any type),
`found_simple_lm_and_order(a, b, t)` with `b ≠ D` yields a graph that contains a
simple landmark node for `a` (the new node, created with the handle `next_id`),
no longer contains the node `D` or any edge to or from `D`, and contains the edge
`P → a` with type `NATURAL`, in the children of `P` and in the parents of the new
node. The graph is well formed : handles in use are below `next_id`, and `D` is
not its own parent. -/
theorem found_simple_lm_and_order_merge (st : FactoryState) (a : FactPair) (b : Nat)
    (t : EdgeType) (D P : LandmarkNode)
    (hfresh : fresh_handles st.lm_graph)
    (hns : st.lm_graph.contains_simple_landmark a = false)
    (hD : st.lm_graph.get_disjunctive_landmark a = some D)
    (hself : EdgeMap.find D.parents D.id = none)
    (hP : P ∈ st.lm_graph.nodes) (hPD : P.id ≠ D.id)
    (hpar : P.id ∈ D.parents.map (fun pred => pred.1))
    (hb : b ≠ D.id) :
    (found_simple_lm_and_order st a b t).lm_graph.contains_simple_landmark a = true ∧
    no_reference (found_simple_lm_and_order st a b t).lm_graph D.id ∧
    (found_simple_lm_and_order st a b t).lm_graph.child_edge P.id st.lm_graph.next_id =
      some EdgeType.NATURAL ∧
    (found_simple_lm_and_order st a b t).lm_graph.parent_edge P.id st.lm_graph.next_id =
      some EdgeType.NATURAL ∧
    ((found_simple_lm_and_order st a b t).lm_graph.get_node st.lm_graph.next_id).map
      (fun n => n.landmark) = some (Landmark.new [a] false false false) := by
  have hDmem : D ∈ st.lm_graph.nodes := List.mem_of_find?_eq_some hD
  have hDlt : D.id < st.lm_graph.next_id := (hfresh D hDmem).1
  have hPlt : P.id < st.lm_graph.next_id := (hfresh P hP).1
  have hnewD : st.lm_graph.next_id ≠ D.id := by omega
  have hPnew : P.id ≠ st.lm_graph.next_id := by omega
  have hnone : st.lm_graph.get_simple_landmark a = none := by
    unfold LandmarkGraph.contains_simple_landmark at hns
    cases h : st.lm_graph.get_simple_landmark a with
    | none => rfl
    | some n => rw [h] at hns; cases hns
  have hpreds : ∀ p ∈ D.parents.map (fun pred => pred.1), p ≠ D.id := by
    intro p hp hpd
    exact edge_find_ne_none_of_mem_keys (hpd ▸ hp) hself
  have hfresh1 : fresh_handles (st.lm_graph.remove_node D.id) :=
    fresh_handles_remove_node _ _ hfresh
  have hnext1 : (st.lm_graph.remove_node D.id).next_id = st.lm_graph.next_id := rfl
  have hPsome1 : ((st.lm_graph.remove_node D.id).get_node P.id).isSome = true :=
    get_node_isSome_remove_node _ _ P hP hPD
  -- the state computed by the merge branch
  have hst : found_simple_lm_and_order st a b t =
      ⟨(D.parents.map (fun pred => pred.1)).foldl
          (fun g pred => edge_add g pred st.lm_graph.next_id EdgeType.NATURAL)
          (edge_add ((st.lm_graph.remove_node D.id).add_landmark
            (Landmark.new [a] false false false)).1 st.lm_graph.next_id b t),
        st.open_landmarks.erase D.id ++ [st.lm_graph.next_id],
        st.forward_orders.filter (fun p => p.1 != D.id)⟩ := by
    unfold found_simple_lm_and_order
    rw [hnone, hD]
    rfl
  rw [hst]
  simp only []
  refine ⟨?_, ?_, ?_, ?_, ?_⟩
  · rw [contains_simple_fold, contains_simple_edge_add, contains_simple_iff]
    refine ⟨⟨st.lm_graph.next_id, Landmark.new [a] false false false, [], []⟩, ?_, ?_, ?_⟩
    · simp [LandmarkGraph.add_landmark, LandmarkGraph.remove_node]
    · rfl
    · simp [Landmark.new]
  · apply no_reference_fold _ _ hnewD _ _ _ hpreds
    apply no_reference_edge_add _ _ _ _ _ _ hnewD hb
    exact no_reference_add_landmark _ _ _ (no_reference_remove_node _ _) hnewD
  · apply child_edge_fold_natural _ _ hPnew
    · rw [get_node_isSome_edge_add, get_node_add_landmark_old _ _ _ hPsome1]
      exact hPsome1
    · right
      refine ⟨?_, hpar⟩
      rw [child_edge_edge_add_ne _ _ _ _ _ _ (Or.inl hPnew)]
      unfold LandmarkGraph.child_edge
      rw [get_node_add_landmark_old _ _ _ hPsome1]
      exact child_edge_next_id_eq_none _ hfresh1 P.id
  · apply parent_edge_fold_natural _ _ hPnew
    · rw [get_node_isSome_edge_add, ← hnext1, get_node_add_landmark_new _ _ hfresh1]
      rfl
    · right
      refine ⟨?_, hpar⟩
      rw [parent_edge_edge_add_ne _ _ _ _ _ _ (Or.inl hPnew)]
      unfold LandmarkGraph.parent_edge
      rw [← hnext1, get_node_add_landmark_new _ _ hfresh1]
      rfl
  · have hkeep : ∀ (g : LandmarkGraph) (a' c : Nat) (ty : EdgeType) (x : Nat),
        ((edge_add g a' c ty).get_node x).map (fun n => n.landmark) =
          (g.get_node x).map (fun n => n.landmark) := by
      intro g a' c ty x
      by_cases hac : a' = c
      · simp [edge_add, hac]
      · rw [get_node_edge_add g a' c ty x hac]
        cases g.get_node x with
        | none => rfl
        | some n =>
          simp only [Option.map_some', Option.some.injEq]
          split
          · rfl
          · split <;> rfl
    have hfold : ∀ (preds : List Nat) (g : LandmarkGraph) (x : Nat),
        ((preds.foldl (fun g p => edge_add g p st.lm_graph.next_id EdgeType.NATURAL)
          g).get_node x).map (fun n => n.landmark) = (g.get_node x).map (fun n => n.landmark) := by
      intro preds
      induction preds with
      | nil => intro g x; rfl
      | cons p ps ih =>
        intro g x
        simp only [List.foldl_cons]
        rw [ih, hkeep]
    rw [hfold, hkeep, ← hnext1, get_node_add_landmark_new _ _ hfresh1]
    rfl

/-- C2 (witness): the graph holds the goal landmark `v0 = 1` (node 0), the
disjunctive landmark `{v1 = 1, v2 = 1}` (node 1) with the greedy-necessary parent
`v3 = 1` (node 2). Finding `v1 = 1` as a simple landmark ordered before node 0
removes node 1, creates node 3 for `v1 = 1` and orders node 2 before it with a
natural edge. -/
theorem found_simple_lm_and_order_merge_witness :
    found_simple_lm_and_order
      ⟨⟨[⟨0, Landmark.new [⟨0, 1⟩] false false true, [(1, EdgeType.GREEDY_NECESSARY)], []⟩,
         ⟨1, Landmark.new [⟨1, 1⟩, ⟨2, 1⟩] true false false,
           [(2, EdgeType.GREEDY_NECESSARY)], [(0, EdgeType.GREEDY_NECESSARY)]⟩,
         ⟨2, Landmark.new [⟨3, 1⟩] false false false, [],
           [(1, EdgeType.GREEDY_NECESSARY)]⟩], 3⟩, [1, 2], []⟩
      ⟨1, 1⟩ 0 EdgeType.GREEDY_NECESSARY =
      ⟨⟨[⟨0, Landmark.new [⟨0, 1⟩] false false true, [(3, EdgeType.GREEDY_NECESSARY)], []⟩,
         ⟨2, Landmark.new [⟨3, 1⟩] false false false, [], [(3, EdgeType.NATURAL)]⟩,
         ⟨3, Landmark.new [⟨1, 1⟩] false false false, [(2, EdgeType.NATURAL)],
           [(0, EdgeType.GREEDY_NECESSARY)]⟩], 4⟩, [2, 3], []⟩ ∧
    ((found_simple_lm_and_order
      ⟨⟨[⟨0, Landmark.new [⟨0, 1⟩] false false true, [(1, EdgeType.GREEDY_NECESSARY)], []⟩,
         ⟨1, Landmark.new [⟨1, 1⟩, ⟨2, 1⟩] true false false,
           [(2, EdgeType.GREEDY_NECESSARY)], [(0, EdgeType.GREEDY_NECESSARY)]⟩,
         ⟨2, Landmark.new [⟨3, 1⟩] false false false, [],
           [(1, EdgeType.GREEDY_NECESSARY)]⟩], 3⟩, [1, 2], []⟩
      ⟨1, 1⟩ 0 EdgeType.GREEDY_NECESSARY).lm_graph.contains_simple_landmark ⟨1, 1⟩ = true ∧
     no_reference (found_simple_lm_and_order
      ⟨⟨[⟨0, Landmark.new [⟨0, 1⟩] false false true, [(1, EdgeType.GREEDY_NECESSARY)], []⟩,
         ⟨1, Landmark.new [⟨1, 1⟩, ⟨2, 1⟩] true false false,
           [(2, EdgeType.GREEDY_NECESSARY)], [(0, EdgeType.GREEDY_NECESSARY)]⟩,
         ⟨2, Landmark.new [⟨3, 1⟩] false false false, [],
           [(1, EdgeType.GREEDY_NECESSARY)]⟩], 3⟩, [1, 2], []⟩
      ⟨1, 1⟩ 0 EdgeType.GREEDY_NECESSARY).lm_graph 1 ∧
     (found_simple_lm_and_order
      ⟨⟨[⟨0, Landmark.new [⟨0, 1⟩] false false true, [(1, EdgeType.GREEDY_NECESSARY)], []⟩,
         ⟨1, Landmark.new [⟨1, 1⟩, ⟨2, 1⟩] true false false,
           [(2, EdgeType.GREEDY_NECESSARY)], [(0, EdgeType.GREEDY_NECESSARY)]⟩,
         ⟨2, Landmark.new [⟨3, 1⟩] false false false, [],
           [(1, EdgeType.GREEDY_NECESSARY)]⟩], 3⟩, [1, 2], []⟩
      ⟨1, 1⟩ 0 EdgeType.GREEDY_NECESSARY).lm_graph.child_edge 2 3 =
        some EdgeType.NATURAL ∧
     (found_simple_lm_and_order
      ⟨⟨[⟨0, Landmark.new [⟨0, 1⟩] false false true, [(1, EdgeType.GREEDY_NECESSARY)], []⟩,
         ⟨1, Landmark.new [⟨1, 1⟩, ⟨2, 1⟩] true false false,
           [(2, EdgeType.GREEDY_NECESSARY)], [(0, EdgeType.GREEDY_NECESSARY)]⟩,
         ⟨2, Landmark.new [⟨3, 1⟩] false false false, [],
           [(1, EdgeType.GREEDY_NECESSARY)]⟩], 3⟩, [1, 2], []⟩
      ⟨1, 1⟩ 0 EdgeType.GREEDY_NECESSARY).lm_graph.parent_edge 2 3 =
        some EdgeType.NATURAL ∧
     ((found_simple_lm_and_order
      ⟨⟨[⟨0, Landmark.new [⟨0, 1⟩] false false true, [(1, EdgeType.GREEDY_NECESSARY)], []⟩,
         ⟨1, Landmark.new [⟨1, 1⟩, ⟨2, 1⟩] true false false,
           [(2, EdgeType.GREEDY_NECESSARY)], [(0, EdgeType.GREEDY_NECESSARY)]⟩,
         ⟨2, Landmark.new [⟨3, 1⟩] false false false, [],
           [(1, EdgeType.GREEDY_NECESSARY)]⟩], 3⟩, [1, 2], []⟩
      ⟨1, 1⟩ 0 EdgeType.GREEDY_NECESSARY).lm_graph.get_node 3).map (fun n => n.landmark) =
        some (Landmark.new [⟨1, 1⟩] false false false)) :=
  ⟨by decide,
   found_simple_lm_and_order_merge
      ⟨⟨[⟨0, Landmark.new [⟨0, 1⟩] false false true, [(1, EdgeType.GREEDY_NECESSARY)], []⟩,
         ⟨1, Landmark.new [⟨1, 1⟩, ⟨2, 1⟩] true false false,
           [(2, EdgeType.GREEDY_NECESSARY)], [(0, EdgeType.GREEDY_NECESSARY)]⟩,
         ⟨2, Landmark.new [⟨3, 1⟩] false false false, [],
           [(1, EdgeType.GREEDY_NECESSARY)]⟩], 3⟩, [1, 2], []⟩
      ⟨1, 1⟩ 0 EdgeType.GREEDY_NECESSARY
      ⟨1, Landmark.new [⟨1, 1⟩, ⟨2, 1⟩] true false false,
        [(2, EdgeType.GREEDY_NECESSARY)], [(0, EdgeType.GREEDY_NECESSARY)]⟩
      ⟨2, Landmark.new [⟨3, 1⟩] false false false, [], [(1, EdgeType.GREEDY_NECESSARY)]⟩
      (by unfold fresh_handles; decide) (by decide) (by decide) (by decide) (by decide)
      (by decide) (by decide) (by decide)⟩

/-! ## Disjunctive preconditions : `compute_disjunctive_preconditions` -/

lemma bucket_get_update {β : Type} (m : List (Int × List β)) (k : Int)
    (f : List β → List β) (k' : Int) :
    bucket_get (bucket_update m k f) k' =
      if k = k' then f (bucket_get m k) else bucket_get m k' := by
  induction m with
  | nil =>
    simp only [bucket_update, bucket_get]
  | cons x rest ih =>
    obtain ⟨a, xs⟩ := x
    unfold bucket_update
    by_cases hak : a = k
    · subst hak
      by_cases hk : a = k'
      · simp [bucket_get, hk]
      · simp [bucket_get, hk]
    · simp only [hak, if_false]
      by_cases hk : a = k'
      · subst hk
        have : ¬ k = a := fun h => hak h.symm
        simp [bucket_get, this]
      · simp only [bucket_get, hk, if_false, ih, hak]

lemma mem_keys_bucket_update {β : Type} (m : List (Int × List β)) (k : Int)
    (f : List β → List β) (c : Int) (h : c ∈ (bucket_update m k f).map Prod.fst) :
    c ∈ m.map Prod.fst ∨ c = k := by
  induction m with
  | nil =>
    simp only [bucket_update, List.map_cons, List.map_nil, List.mem_singleton] at h
    exact Or.inr h
  | cons x rest ih =>
    obtain ⟨a, xs⟩ := x
    unfold bucket_update at h
    by_cases hak : a = k
    · simp only [hak, if_true, List.map_cons, List.mem_cons] at h ⊢
      rcases h with h | h
      · exact Or.inr h
      · exact Or.inl (Or.inr h)
    · simp only [hak, if_false, List.map_cons, List.mem_cons] at h ⊢
      rcases h with h | h
      · exact Or.inl (Or.inl h)
      · rcases ih h with h | h
        · exact Or.inl (Or.inr h)
        · exact Or.inr h

lemma keys_nodup_bucket_update {β : Type} (m : List (Int × List β)) (k : Int)
    (f : List β → List β) (h : (m.map Prod.fst).Nodup) :
    ((bucket_update m k f).map Prod.fst).Nodup := by
  induction m with
  | nil => simp [bucket_update]
  | cons x rest ih =>
    obtain ⟨a, xs⟩ := x
    simp only [List.map_cons, List.nodup_cons] at h
    unfold bucket_update
    by_cases hak : a = k
    · simp only [hak, if_true, List.map_cons, List.nodup_cons]
      rw [← hak]
      exact h
    · simp only [hak, if_false, List.map_cons, List.nodup_cons]
      refine ⟨?_, ih h.2⟩
      intro hmem
      rcases mem_keys_bucket_update rest k f a hmem with h' | h'
      · exact h.1 h'
      · exact hak h'

lemma bucket_get_of_mem {β : Type} (m : List (Int × List β)) (h : (m.map Prod.fst).Nodup)
    (c : Int) (xs : List β) (hm : (c, xs) ∈ m) : bucket_get m c = xs := by
  induction m with
  | nil => simp at hm
  | cons x rest ih =>
    obtain ⟨a, ys⟩ := x
    simp only [List.map_cons, List.nodup_cons] at h
    unfold bucket_get
    rcases List.mem_cons.mp hm with hm | hm
    · cases hm
      simp
    · by_cases hak : a = c
      · subst hak
        exact absurd (List.mem_map.mpr ⟨(a, xs), hm, rfl⟩) h.1
      · simp only [hak, if_false]
        exact ih h.2 hm

lemma mem_fact_set_insert (s : List FactPair) (x y : FactPair) :
    y ∈ fact_set_insert s x ↔ y ∈ s ∨ y = x := by
  unfold fact_set_insert
  by_cases hx : x ∈ s
  · simp only [hx, if_true]
    constructor
    · exact fun h => Or.inl h
    · rintro (h | h)
      · exact h
      · exact h ▸ hx
  · simp only [hx, if_false, List.mem_append, List.mem_singleton]
    have := List.takeWhile_append_dropWhile (fun y => FactPair.lt y x) s
    constructor
    · rintro ((h | h) | h)
      · exact Or.inl (this ▸ List.mem_append_left _ h)
      · exact Or.inr h
      · exact Or.inl (this ▸ List.mem_append_right _ h)
    · rintro (h | h)
      · rw [← this, List.mem_append] at h
        rcases h with h | h
        · exact Or.inl (Or.inl h)
        · exact Or.inr h
      · exact Or.inl (Or.inr h)

lemma nodup_fact_set_insert (s : List FactPair) (x : FactPair) (h : s.Nodup) :
    (fact_set_insert s x).Nodup := by
  unfold fact_set_insert
  by_cases hx : x ∈ s
  · simpa [hx] using h
  · simp only [hx, if_false]
    have hperm : (s.takeWhile (fun y => FactPair.lt y x) ++ [x] ++
        s.dropWhile (fun y => FactPair.lt y x)).Perm (x :: s) := by
      have := List.takeWhile_append_dropWhile (fun y => FactPair.lt y x) s
      rw [List.append_assoc, List.singleton_append]
      exact List.perm_middle.trans (by rw [this])
    exact hperm.nodup_iff.mpr (List.nodup_cons.mpr ⟨hx, h⟩)

lemma fact_set_spec (facts : List FactPair) : ∀ (s : List FactPair), s.Nodup →
    (facts.foldl fact_set_insert s).Nodup ∧
    ∀ y, y ∈ facts.foldl fact_set_insert s ↔ y ∈ s ∨ y ∈ facts := by
  induction facts with
  | nil => intro s h; simp [h]
  | cons x xs ih =>
    intro s h
    obtain ⟨h1, h2⟩ := ih (fact_set_insert s x) (nodup_fact_set_insert s x h)
    refine ⟨h1, fun y => ?_⟩
    simp only [List.foldl_cons]
    rw [h2 y, mem_fact_set_insert]
    simp only [List.mem_cons]
    tauto

lemma mem_fact_set (facts : List FactPair) (y : FactPair) : y ∈ fact_set facts ↔ y ∈ facts := by
  unfold fact_set
  rw [(fact_set_spec facts [] List.nodup_nil).2 y]
  simp

lemma nodup_fact_set (facts : List FactPair) : (fact_set facts).Nodup :=
  (fact_set_spec facts [] List.nodup_nil).1

lemma nodup_set_insert (s : List Nat) (x : Nat) (h : s.Nodup) : (set_insert s x).Nodup := by
  unfold set_insert
  by_cases hx : x ∈ s
  · simpa [hx] using h
  · simp only [hx, if_false]
    exact List.Nodup.append h (List.nodup_singleton x) (by simpa using hx)

lemma mem_set_insert (s : List Nat) (x y : Nat) : y ∈ set_insert s x ↔ y ∈ s ∨ y = x := by
  unfold set_insert
  by_cases hx : x ∈ s
  · simp only [hx, if_true]
    constructor
    · exact fun h => Or.inl h
    · rintro (h | h)
      · exact h
      · exact h ▸ hx
  · simp [hx]

lemma disj_pre_collect_fold (dc : DisjunctionClasses) (g : LandmarkGraph) (i : Nat)
    (l : List (Nat × Nat)) : ∀ (P : List (Int × List FactPair)) (U : List (Int × List Nat)),
    (∀ c x, x ∈ bucket_get P c → x ∈ bucket_get (l.foldl (disj_pre_collect dc g i) (P, U)).1 c) ∧
    ((∀ c, (bucket_get U c).Nodup) →
      ∀ c, (bucket_get (l.foldl (disj_pre_collect dc g i) (P, U)).2 c).Nodup) ∧
    (∀ c j, j ∈ bucket_get (l.foldl (disj_pre_collect dc g i) (P, U)).2 c →
      j ∈ bucket_get U c ∨ (j = i ∧ ∃ p ∈ l, (⟨p.1, p.2⟩ : FactPair) ∈
        bucket_get (l.foldl (disj_pre_collect dc g i) (P, U)).1 c)) ∧
    (∀ c x, x ∈ bucket_get (l.foldl (disj_pre_collect dc g i) (P, U)).1 c →
      x ∈ bucket_get P c ∨ (disjunction_class dc x.var x.value = c ∧ c ≠ -1)) ∧
    ((P.map Prod.fst).Nodup →
      ((l.foldl (disj_pre_collect dc g i) (P, U)).1.map Prod.fst).Nodup) := by
  induction l with
  | nil =>
    intro P U
    simp only [List.foldl_nil]
    exact ⟨fun c x h => h, fun h => h, fun c j h => Or.inl h, fun c x h => Or.inl h, fun h => h⟩
  | cons p ps ih =>
    intro P U
    simp only [List.foldl_cons]
    by_cases hskip : disjunction_class dc p.1 p.2 = -1 ∨
        g.contains_simple_landmark ⟨p.1, p.2⟩ = true
    · have hst : disj_pre_collect dc g i (P, U) p = (P, U) := by
        unfold disj_pre_collect
        rcases hskip with h | h
        · simp [h]
        · simp [h]
      rw [hst]
      obtain ⟨h1, h2, h3, h4, h5⟩ := ih P U
      refine ⟨h1, h2, ?_, h4, h5⟩
      intro c j hj
      rcases h3 c j hj with h | ⟨h, q, hq, hmem⟩
      · exact Or.inl h
      · exact Or.inr ⟨h, q, List.mem_cons_of_mem _ hq, hmem⟩
    · push_neg at hskip
      obtain ⟨hcls, hsimple⟩ := hskip
      have hst : disj_pre_collect dc g i (P, U) p =
          (bucket_update P (disjunction_class dc p.1 p.2) (fun v => v ++ [⟨p.1, p.2⟩]),
           bucket_update U (disjunction_class dc p.1 p.2) (fun s => set_insert s i)) := by
        unfold disj_pre_collect
        simp [hcls, hsimple]
      rw [hst]
      obtain ⟨h1, h2, h3, h4, h5⟩ := ih
        (bucket_update P (disjunction_class dc p.1 p.2) (fun v => v ++ [⟨p.1, p.2⟩]))
        (bucket_update U (disjunction_class dc p.1 p.2) (fun s => set_insert s i))
      refine ⟨?_, ?_, ?_, ?_, ?_⟩
      · intro c x hx
        apply h1
        rw [bucket_get_update]
        split
        · rename_i hc
          subst hc
          exact List.mem_append_left _ hx
        · exact hx
      · intro hU
        apply h2
        intro c
        rw [bucket_get_update]
        split
        · exact nodup_set_insert _ _ (hU _)
        · exact hU c
      · intro c j hj
        rcases h3 c j hj with h | ⟨h, q, hq, hmem⟩
        · rw [bucket_get_update] at h
          split at h
          · rename_i hc
            rcases (mem_set_insert _ _ _).mp h with h | h
            · exact Or.inl (hc ▸ h)
            · right
              refine ⟨h, p, List.mem_cons_self _ _, ?_⟩
              apply h1
              rw [bucket_get_update]
              simp [hc]
          · exact Or.inl h
        · exact Or.inr ⟨h, q, List.mem_cons_of_mem _ hq, hmem⟩
      · intro c x hx
        rcases h4 c x hx with h | h
        · rw [bucket_get_update] at h
          split at h
          · rename_i hc
            rcases List.mem_append.mp h with h | h
            · exact Or.inl (hc ▸ h)
            · right
              rw [List.mem_singleton] at h
              subst h
              exact ⟨hc, hc ▸ hcls⟩
          · exact Or.inl h
        · exact Or.inr h
      · intro hP
        exact h5 (keys_nodup_bucket_update _ _ _ hP)

lemma getD_append_cons_length (pre rest : List Nat) (id : Nat) :
    (pre ++ id :: rest).getD pre.length 0 = id := by
  induction pre with
  | nil => simp
  | cons x xs ih => simpa using ih

lemma disjPreInv_operators (task : Task) (pr : ReachOracle) (dc : DisjunctionClasses)
    (g : LandmarkGraph) (lvl_var : LvlVar) (landmark : Landmark) (all : List Nat) :
    ∀ (rest pre : List Nat) (st : Nat × List (Int × List FactPair) × List (Int × List Nat)),
      all = pre ++ rest →
      DisjPreInv task pr dc lvl_var landmark all pre.length st →
      DisjPreInv task pr dc lvl_var landmark all all.length
        (disj_pre_operators task pr dc g lvl_var landmark rest pre.length st) := by
  intro rest
  induction rest with
  | nil =>
    intro pre st hall h
    rw [disj_pre_operators]
    simpa [hall] using h
  | cons id rest ih =>
    intro pre st hall h
    obtain ⟨num, P, U⟩ := st
    obtain ⟨h1, h2, h3, h4, h5⟩ := h
    simp only at h1 h2 h3 h4 h5
    have hall' : all = (pre ++ [id]) ++ rest := by simp [hall]
    have hlen : (pre ++ [id]).length = pre.length + 1 := by simp
    have hget : all.getD pre.length 0 = id := by
      rw [hall]; exact getD_append_cons_length pre rest id
    rw [disj_pre_operators]
    by_cases hq : pr ( get_operator_or_axiom task id) lvl_var landmark = true
    · simp only [hq, if_true]
      obtain ⟨f1, f2, f3, f4, f5⟩ := disj_pre_collect_fold dc g pre.length
        (get_greedy_preconditions_for_lm task landmark ( get_operator_or_axiom task id) []) P U
      have := ih (pre ++ [id]) (num + 1,
        ((get_greedy_preconditions_for_lm task landmark ( get_operator_or_axiom task id)
          []).foldl (disj_pre_collect dc g pre.length) (P, U)).1,
        ((get_greedy_preconditions_for_lm task landmark ( get_operator_or_axiom task id)
          []).foldl (disj_pre_collect dc g pre.length) (P, U)).2) hall'
      rw [hlen] at this
      apply this
      refine ⟨?_, f2 h2, ?_, ?_, f5 h5⟩
      · simp only
        rw [List.range_succ, List.filter_append, List.length_append, ← h1]
        have hfil : List.filter (fun j => pr ( get_operator_or_axiom task (all.getD j 0))
            lvl_var landmark) [pre.length] = [pre.length] := by
          rw [List.filter_cons_of_pos (by rw [hget]; exact hq), List.filter_nil]
        rw [hfil]
        rfl
      · intro c j hj
        rcases f3 c j hj with hj | ⟨hj, p, hp, hmem⟩
        · obtain ⟨a1, a2, p, hp, hmem⟩ := h3 c j hj
          exact ⟨by omega, a2, p, hp, f1 c _ hmem⟩
        · subst hj
          rw [hget]
          exact ⟨by omega, hq, p, hp, hmem⟩
      · intro c x hx
        rcases f4 c x hx with hx | hx
        · exact h4 c x hx
        · exact hx
    · simp only [hq, if_false, Bool.false_eq_true]
      have := ih (pre ++ [id]) (num, P, U) hall'
      rw [hlen] at this
      apply this
      refine ⟨?_, h2, ?_, h4, h5⟩
      · simp only
        rw [List.range_succ, List.filter_append, List.length_append, ← h1]
        have hfil : List.filter (fun j => pr ( get_operator_or_axiom task (all.getD j 0))
            lvl_var landmark) [pre.length] = [] := by
          rw [List.filter_cons_of_neg (by rw [hget]; exact hq), List.filter_nil]
        rw [hfil]
        rfl
      · intro c j hj
        obtain ⟨a1, a2, a3⟩ := h3 c j hj
        exact ⟨by omega, a2, a3⟩

lemma mem_select_fold (num : Nat) (U : List (Int × List Nat))
    (P : List (Int × List FactPair)) : ∀ (out : List (List FactPair)) (S : List FactPair),
    S ∈ P.foldl (disj_pre_select num U) out →
    S ∈ out ∨ ∃ pre ∈ P, (bucket_get U pre.1).length = num ∧ S = fact_set pre.2 ∧
      1 < S.length := by
  induction P with
  | nil => intro out S h; exact Or.inl h
  | cons x xs ih =>
    intro out S h
    simp only [List.foldl_cons] at h
    rcases ih _ S h with h | ⟨pre, hpre, h⟩
    · unfold disj_pre_select at h
      split at h
      · rename_i hlen
        simp only [gt_iff_lt] at h
        split at h
        · rename_i hsz
          rcases List.mem_append.mp h with h | h
          · exact Or.inl h
          · rw [List.mem_singleton] at h
            exact Or.inr ⟨x, List.mem_cons_self _ _, hlen, h, h ▸ hsz⟩
        · exact Or.inl h
      · exact Or.inl h
    · exact Or.inr ⟨pre, List.mem_cons_of_mem _ hpre, h⟩

lemma compute_disjunctive_preconditions_sets (task : Task) (pr : ReachOracle)
    (dc : DisjunctionClasses) (g : LandmarkGraph) (lvl_var : LvlVar) (landmark : Landmark)
    (S : List FactPair)
    (hS : S ∈ compute_disjunctive_preconditions task pr dc g [] lvl_var landmark) :
    S.Nodup ∧ 1 < S.length ∧
    (∃ c : Int, c ≠ -1 ∧ ∀ x ∈ S, disjunction_class dc x.var x.value = c) ∧
    ∀ op, first_achiever task pr lvl_var landmark op →
      ∃ p ∈ get_greedy_preconditions_for_lm task landmark op [],
        (⟨p.1, p.2⟩ : FactPair) ∈ S := by
  have hinv := disjPreInv_operators task pr dc g lvl_var landmark
    (achiever_ids task landmark) (achiever_ids task landmark) [] (0, [], []) rfl
    (by
      refine ⟨by simp, ?_, ?_, ?_, by simp⟩
      · intro c; simp [bucket_get]
      · intro c j hj; simp [bucket_get] at hj
      · intro c x hx; simp [bucket_get] at hx)
  simp only [List.length_nil] at hinv
  unfold compute_disjunctive_preconditions at hS
  simp only [] at hS
  generalize disj_pre_operators task pr dc g lvl_var landmark (achiever_ids task landmark)
    0 (0, [], []) = st at hinv hS
  obtain ⟨num, P, U⟩ := st
  obtain ⟨h1, h2, h3, h4, h5⟩ := hinv
  simp only at h1 h2 h3 h4 h5 hS
  rcases mem_select_fold num U P [] S hS with h | ⟨pre, hpre, hlen, hSeq, hsz⟩
  · simp at h
  obtain ⟨c, facts⟩ := pre
  simp only at hlen hSeq
  have hbucket : bucket_get P c = facts := bucket_get_of_mem P h5 c facts hpre
  subst hSeq
  refine ⟨nodup_fact_set facts, hsz, ?_, ?_⟩
  · have hne : fact_set facts ≠ [] := by
      intro h
      rw [h] at hsz
      simp at hsz
    obtain ⟨x, hx⟩ := List.exists_mem_of_ne_nil _ hne
    have hxc := h4 c x (by rw [hbucket]; exact (mem_fact_set facts x).mp hx)
    refine ⟨c, hxc.2, fun y hy => ?_⟩
    exact (h4 c y (by rw [hbucket]; exact (mem_fact_set facts y).mp hy)).1
  · intro op hop
    obtain ⟨id, hid, hg, hpr⟩ := (first_achiever_iff _ _ _ _ _).mp hop
    obtain ⟨j, hj, hje⟩ := List.getElem_of_mem hid
    have hgetD : (achiever_ids task landmark).getD j 0 = id := by
      rw [List.getD_eq_getElem _ _ hj, hje]
    have hjmem : j ∈ (List.range (achiever_ids task landmark).length).filter
        (fun j => pr ( get_operator_or_axiom task ((achiever_ids task landmark).getD j 0))
          lvl_var landmark) := by
      rw [List.mem_filter, List.mem_range]
      exact ⟨hj, by rw [hgetD]; exact hpr⟩
    have hsub : bucket_get U c ⊆ (List.range (achiever_ids task landmark).length).filter
        (fun j => pr ( get_operator_or_axiom task ((achiever_ids task landmark).getD j 0))
          lvl_var landmark) := by
      intro k hk
      obtain ⟨a1, a2, _⟩ := h3 c k hk
      rw [List.mem_filter, List.mem_range]
      exact ⟨a1, a2⟩
    have hperm := (List.subperm_of_subset (h2 c) hsub).perm_of_length_le
      (by rw [hlen, h1])
    have hju : j ∈ bucket_get U c := hperm.mem_iff.mpr hjmem
    obtain ⟨_, _, p, hp, hmem⟩ := h3 c j hju
    rw [hgetD, hg] at hp
    exact ⟨p, hp, (mem_fact_set facts _).mpr (hbucket ▸ hmem)⟩

/-- C6: for every fact set `S` that `compute_disjunctive_preconditions` returns for
the landmark, every operator that has an effect on a fact of the landmark and
possibly reaches it has at least one greedy precondition (per
`get_greedy_preconditions_for_lm`) that is a member of `S` : a bucket that some
such operator does not contribute to is never returned. -/
theorem compute_disjunctive_preconditions_covers (task : Task)
    (_possibly_reaches_lm : ReachOracle) (disjunction_classes : DisjunctionClasses)
    (lm_graph : LandmarkGraph) (lvl_var : LvlVar) (landmark : Landmark)
    (S : List FactPair)
    (hS : S ∈ compute_disjunctive_preconditions task _possibly_reaches_lm
      disjunction_classes lm_graph [] lvl_var landmark)
    (op : Operator) (hop : first_achiever task _possibly_reaches_lm lvl_var landmark op) :
    ∃ p ∈ get_greedy_preconditions_for_lm task landmark op [],
      (⟨p.1, p.2⟩ : FactPair) ∈ S :=
  (compute_disjunctive_preconditions_sets task _possibly_reaches_lm disjunction_classes
    lm_graph lvl_var landmark S hS).2.2.2 op hop

/-- C6 (witness): two operators achieve `v0 = 1`, one requires `v1 = 1` and the
other `v2 = 1`, facts of the same class; the set `{v1 = 1, v2 = 1}` is returned
and holds a greedy precondition of the first operator. -/
theorem compute_disjunctive_preconditions_covers_witness :
    compute_disjunctive_preconditions
      ⟨[⟨2, []⟩, ⟨2, []⟩, ⟨2, []⟩],
        [⟨[⟨1, 1⟩], [⟨[], ⟨0, 1⟩⟩], 1⟩, ⟨[⟨2, 1⟩], [⟨[], ⟨0, 1⟩⟩], 1⟩], [0, 0, 0], [⟨0, 1⟩]⟩
      (fun _ _ _ => true) [[1, 1], [0, 0], [0, 0]] ⟨[], 0⟩ [] []
      (Landmark.new [⟨0, 1⟩] false false true) = [[⟨1, 1⟩, ⟨2, 1⟩]] ∧
    ∃ p ∈ get_greedy_preconditions_for_lm
        ⟨[⟨2, []⟩, ⟨2, []⟩, ⟨2, []⟩],
          [⟨[⟨1, 1⟩], [⟨[], ⟨0, 1⟩⟩], 1⟩, ⟨[⟨2, 1⟩], [⟨[], ⟨0, 1⟩⟩], 1⟩], [0, 0, 0],
          [⟨0, 1⟩]⟩
        (Landmark.new [⟨0, 1⟩] false false true) ⟨[⟨1, 1⟩], [⟨[], ⟨0, 1⟩⟩], 1⟩ [],
      (⟨p.1, p.2⟩ : FactPair) ∈ [(⟨1, 1⟩ : FactPair), ⟨2, 1⟩] :=
  ⟨by decide,
   compute_disjunctive_preconditions_covers
      ⟨[⟨2, []⟩, ⟨2, []⟩, ⟨2, []⟩],
        [⟨[⟨1, 1⟩], [⟨[], ⟨0, 1⟩⟩], 1⟩, ⟨[⟨2, 1⟩], [⟨[], ⟨0, 1⟩⟩], 1⟩], [0, 0, 0], [⟨0, 1⟩]⟩
      (fun _ _ _ => true) [[1, 1], [0, 0], [0, 0]] ⟨[], 0⟩ []
      (Landmark.new [⟨0, 1⟩] false false true) [⟨1, 1⟩, ⟨2, 1⟩] (by decide)
      ⟨[⟨1, 1⟩], [⟨[], ⟨0, 1⟩⟩], 1⟩ (by simp [first_achiever, Landmark.new])⟩

/-! ## The worklist loop never runs out of fuel -/

lemma domain_connectivity_loop_isSome (successors : List (List Nat)) (g : Nat) :
    ∀ (fuel : Nat) (op cl : List Nat),
    op.length + dc_unseen successors.flatten cl < fuel →
    (domain_connectivity_loop successors g fuel op cl).isSome = true := by
  intro fuel
  induction fuel with
  | zero => intro op cl h; omega
  | succ fuel ih =>
    intro op cl hfuel
    unfold domain_connectivity_loop
    by_cases hgc : g ∈ cl
    · simp [hgc]
    · simp only [hgc, if_false]
      cases op with
      | nil => rfl
      | cons c rest =>
        simp only []
        apply ih
        obtain ⟨_, _, h3⟩ := dc_visit_fold_spec (successors.getD c []) rest cl
        have h := h3 successors.flatten (fun v hv => mem_flatten_of_getD hv)
        simp only [List.length_cons] at hfuel
        omega

lemma domain_connectivity_isSome (dtg_successors : DtgSuccessors) (initial_state : List Nat)
    (landmark : FactPair) (exclude : List Nat) :
    (domain_connectivity dtg_successors initial_state landmark exclude).isSome = true := by
  unfold domain_connectivity
  simp only []
  split
  · rfl
  · apply domain_connectivity_loop_isSome
    have h1 : dc_unseen (dtg_successors.getD landmark.var []).flatten
        (initial_value initial_state landmark.var :: exclude) ≤
        (dtg_successors.getD landmark.var []).flatten.length := by
      unfold dc_unseen
      exact List.length_filter_le _ _
    simp only [domain_connectivity_fuel, List.length_singleton]
    omega

/-! ## Disjunctive landmarks of the graph are well formed -/

lemma edge_add_landmarks (g : LandmarkGraph) (a c : Nat) (ty : EdgeType) :
    (edge_add g a c ty).nodes.map (fun n => n.landmark) =
      g.nodes.map (fun n => n.landmark) := by
  unfold edge_add
  by_cases hac : a = c
  · simp [hac]
  · simp only [hac, if_false, List.map_map]
    apply List.map_congr_left
    intro n _
    simp only [Function.comp]
    split
    · rfl
    · split <;> rfl

lemma graph_wf_of_landmarks {dc : DisjunctionClasses} {g g' : LandmarkGraph}
    (h : ∀ n' ∈ g'.nodes, ∃ n ∈ g.nodes, n'.landmark.facts = n.landmark.facts ∧
      n'.landmark.disjunctive = n.landmark.disjunctive)
    (hg : graph_disjunctive_well_formed dc g) : graph_disjunctive_well_formed dc g' := by
  intro n' hn' hd
  obtain ⟨n, hn, hf, hdis⟩ := h n' hn'
  have := hg n hn (hdis ▸ hd)
  rw [hf]
  exact this

lemma graph_wf_edge_add {dc : DisjunctionClasses} {g : LandmarkGraph} (a c : Nat)
    (ty : EdgeType) (hg : graph_disjunctive_well_formed dc g) :
    graph_disjunctive_well_formed dc (edge_add g a c ty) := by
  apply graph_wf_of_landmarks _ hg
  intro n' hn'
  have : n'.landmark ∈ (edge_add g a c ty).nodes.map (fun n => n.landmark) :=
    List.mem_map.mpr ⟨n', hn', rfl⟩
  rw [edge_add_landmarks] at this
  obtain ⟨n, hn, hnl⟩ := List.mem_map.mp this
  exact ⟨n, hn, by rw [← hnl], by rw [← hnl]⟩

lemma graph_wf_edge_add_fold {dc : DisjunctionClasses} (new : Nat) :
    ∀ (preds : List Nat) (g : LandmarkGraph), graph_disjunctive_well_formed dc g →
    graph_disjunctive_well_formed dc
      (preds.foldl (fun g p => edge_add g p new EdgeType.NATURAL) g) := by
  intro preds
  induction preds with
  | nil => intro g h; exact h
  | cons p ps ih => intro g h; exact ih _ (graph_wf_edge_add _ _ _ h)

lemma graph_wf_remove_node {dc : DisjunctionClasses} {g : LandmarkGraph} (d : Nat)
    (hg : graph_disjunctive_well_formed dc g) :
    graph_disjunctive_well_formed dc (g.remove_node d) := by
  apply graph_wf_of_landmarks _ hg
  intro n' hn'
  unfold LandmarkGraph.remove_node at hn'
  simp only [List.mem_map, List.mem_filter] at hn'
  obtain ⟨m, ⟨hm, _⟩, rfl⟩ := hn'
  exact ⟨m, hm, rfl, rfl⟩

lemma graph_wf_add_landmark {dc : DisjunctionClasses} {g : LandmarkGraph} (lm : Landmark)
    (hg : graph_disjunctive_well_formed dc g) (hlm : disjunctive_well_formed dc lm) :
    graph_disjunctive_well_formed dc (g.add_landmark lm).1 := by
  intro n hn
  unfold LandmarkGraph.add_landmark at hn
  simp only [List.mem_append, List.mem_singleton] at hn
  rcases hn with hn | rfl
  · exact hg n hn
  · exact hlm

lemma graph_wf_set_cost {dc : DisjunctionClasses} {g : LandmarkGraph} (bp : Nat) (cost : Int)
    (hg : graph_disjunctive_well_formed dc g) :
    graph_disjunctive_well_formed dc (g.set_cost bp cost) := by
  apply graph_wf_of_landmarks _ hg
  intro n' hn'
  unfold LandmarkGraph.set_cost at hn'
  simp only [List.mem_map] at hn'
  obtain ⟨m, hm, rfl⟩ := hn'
  refine ⟨m, hm, ?_, ?_⟩ <;> split <;> rfl

lemma simple_landmark_wf (dc : DisjunctionClasses) (facts : List FactPair) (is_goal : Bool) :
    disjunctive_well_formed dc (Landmark.new facts false false is_goal) := by
  intro h
  simp [Landmark.new] at h

lemma graph_wf_found_simple {dc : DisjunctionClasses} (st : FactoryState) (a : FactPair)
    (b : Nat) (t : EdgeType) (hg : graph_disjunctive_well_formed dc st.lm_graph) :
    graph_disjunctive_well_formed dc (found_simple_lm_and_order st a b t).lm_graph := by
  unfold found_simple_lm_and_order
  cases st.lm_graph.get_simple_landmark a with
  | some simple_lm => exact graph_wf_edge_add _ _ _ hg
  | none =>
    simp only []
    cases st.lm_graph.get_disjunctive_landmark a with
    | some disj_lm =>
      simp only []
      apply graph_wf_edge_add_fold
      apply graph_wf_edge_add
      exact graph_wf_add_landmark _ (graph_wf_remove_node _ hg) (simple_landmark_wf dc _ _)
    | none =>
      simp only []
      apply graph_wf_edge_add
      exact graph_wf_add_landmark _ hg (simple_landmark_wf dc _ _)

lemma graph_wf_found_disj {dc : DisjunctionClasses} (task : Task) (st : FactoryState)
    (a : List FactPair) (b : Nat) (t : EdgeType)
    (hg : graph_disjunctive_well_formed dc st.lm_graph)
    (ha : disjunctive_well_formed dc (Landmark.new a true false false)) :
    graph_disjunctive_well_formed dc (found_disj_lm_and_order task st a b t).lm_graph := by
  unfold found_disj_lm_and_order
  cases found_disj_scan task st.lm_graph a with
  | some r => exact hg
  | none =>
    simp only []
    split
    · split
      · cases st.lm_graph.get_disjunctive_landmark (a.headD ⟨0, 0⟩) with
        | some new_lm => exact graph_wf_edge_add _ _ _ hg
        | none => exact hg
      · exact hg
    · apply graph_wf_edge_add
      exact graph_wf_add_landmark _ hg ha

lemma approximate_lookahead_fold (dc : DisjunctionClasses) (task : Task)
    (dtg : DtgSuccessors) (unreached : List Nat) (lmk : FactPair) (lmp : Nat)
    (values : List Nat) : ∀ (st : FactoryState),
    graph_disjunctive_well_formed dc st.lm_graph →
    ∃ st', values.foldl (approximate_lookahead_value task dtg unreached lmk lmp) (some st) =
        some st' ∧ graph_disjunctive_well_formed dc st'.lm_graph := by
  induction values with
  | nil => intro st h; exact ⟨st, rfl, h⟩
  | cons v vs ih =>
    intro st h
    simp only [List.foldl_cons]
    unfold approximate_lookahead_value
    simp only []
    split
    · obtain ⟨c, hc⟩ := Option.isSome_iff_exists.mp
        (domain_connectivity_isSome dtg task.initial_state lmk (set_insert unreached v))
      rw [hc]
      simp only []
      split
      · exact ih _ (graph_wf_found_simple _ _ _ _ h)
      · exact ih _ h
    · exact ih _ h

lemma approximate_lookahead_orders_spec (dc : DisjunctionClasses) (task : Task)
    (dtg : DtgSuccessors) (lvl_var : LvlVar) (st : FactoryState) (lmp : Nat)
    (h : graph_disjunctive_well_formed dc st.lm_graph) :
    ∃ st', approximate_lookahead_orders task dtg lvl_var st lmp = some st' ∧
      graph_disjunctive_well_formed dc st'.lm_graph := by
  unfold approximate_lookahead_orders
  cases st.lm_graph.get_node lmp with
  | none => exact ⟨st, rfl, h⟩
  | some node =>
    simp only []
    split
    · exact ⟨_, rfl, h⟩
    · exact approximate_lookahead_fold dc task dtg _ _ _ _ _ h

lemma graph_wf_found_simple_fold {dc : DisjunctionClasses} (bp : Nat) (t : EdgeType)
    (pres : IntMap) : ∀ (st : FactoryState), graph_disjunctive_well_formed dc st.lm_graph →
    graph_disjunctive_well_formed dc
      (pres.foldl (fun st pre => found_simple_lm_and_order st ⟨pre.1, pre.2⟩ bp t) st).lm_graph := by
  induction pres with
  | nil => intro st h; exact h
  | cons p ps ih => intro st h; exact ih _ (graph_wf_found_simple _ _ _ _ h)

lemma graph_wf_found_disj_fold {dc : DisjunctionClasses} (task : Task) (bp : Nat)
    (t : EdgeType) (sets : List (List FactPair))
    (hsets : ∀ S ∈ sets, S.Nodup ∧ 1 < S.length ∧
      ∃ c : Int, c ≠ -1 ∧ ∀ x ∈ S, disjunction_class dc x.var x.value = c) :
    ∀ (st : FactoryState), graph_disjunctive_well_formed dc st.lm_graph →
    graph_disjunctive_well_formed dc
      (sets.foldl (fun st preconditions =>
        if preconditions.length < 5 then found_disj_lm_and_order task st preconditions bp t
        else st) st).lm_graph := by
  induction sets with
  | nil => intro st h; exact h
  | cons S rest ih =>
    intro st h
    simp only [List.foldl_cons]
    apply ih (fun S' hS' => hsets S' (List.mem_cons_of_mem _ hS'))
    split
    · rename_i hlt
      apply graph_wf_found_disj _ _ _ _ _ h
      intro _
      obtain ⟨h1, h2, h3⟩ := hsets S (List.mem_cons_self _ _)
      simp only [Landmark.new]
      exact ⟨h1, by omega, by omega, h3⟩
    · exact h

lemma generate_relaxed_landmarks_step_spec (task : Task) (oracle : LevelOracle)
    (pr : ReachOracle) (dtg : DtgSuccessors) (dc : DisjunctionClasses) (st : FactoryState)
    (h : graph_disjunctive_well_formed dc st.lm_graph) :
    ∃ st', generate_relaxed_landmarks_step task oracle pr dtg dc st = some st' ∧
      graph_disjunctive_well_formed dc st'.lm_graph := by
  unfold generate_relaxed_landmarks_step
  cases st.open_landmarks with
  | nil => exact ⟨st, rfl, h⟩
  | cons bp rest =>
    simp only []
    cases st.lm_graph.get_node bp with
    | none => exact ⟨_, rfl, h⟩
    | some node =>
      simp only []
      split
      · exact ⟨_, rfl, h⟩
      · obtain ⟨st1, hst1, hwf1⟩ := approximate_lookahead_orders_spec dc task dtg
          (oracle node.landmark)
          ((compute_shared_preconditions task pr [] (oracle node.landmark) node.landmark).foldl
            (fun st pre =>
              found_simple_lm_and_order st ⟨pre.1, pre.2⟩ bp EdgeType.GREEDY_NECESSARY)
            { st with open_landmarks := rest })
          bp (graph_wf_found_simple_fold _ _ _ { st with open_landmarks := rest } h)
        rw [hst1]
        refine ⟨_, rfl, ?_⟩
        apply graph_wf_found_disj_fold
        · intro S hS
          obtain ⟨h1, h2, h3, _⟩ := compute_disjunctive_preconditions_sets task pr dc _ _ _ S hS
          exact ⟨h1, h2, h3⟩
        · exact graph_wf_set_cost _ _ hwf1

lemma graph_wf_seed (dc : DisjunctionClasses) (goals : List FactPair) :
    ∀ (st : FactoryState), graph_disjunctive_well_formed dc st.lm_graph →
    graph_disjunctive_well_formed dc
      (goals.foldl
        (fun st goal =>
          (⟨(st.lm_graph.add_landmark (Landmark.new [goal] false false true)).1,
            st.open_landmarks ++
              [(st.lm_graph.add_landmark (Landmark.new [goal] false false true)).2],
            st.forward_orders⟩ : FactoryState))
        st).lm_graph := by
  induction goals with
  | nil => intro st h; exact h
  | cons x xs ih =>
    intro st h
    exact ih _ (graph_wf_add_landmark _ h (simple_landmark_wf dc _ _))

lemma generate_relaxed_landmarks_iterate_spec (task : Task) (oracle : LevelOracle)
    (pr : ReachOracle) (dtg : DtgSuccessors) (dc : DisjunctionClasses) (n : Nat) :
    ∀ (st : FactoryState), graph_disjunctive_well_formed dc st.lm_graph →
    ∃ st', generate_relaxed_landmarks_iterate task oracle pr dtg dc n st = some st' ∧
      graph_disjunctive_well_formed dc st'.lm_graph := by
  induction n with
  | zero => intro st h; exact ⟨st, rfl, h⟩
  | succ n ih =>
    intro st h
    obtain ⟨st1, hst1, hwf1⟩ := generate_relaxed_landmarks_step_spec task oracle pr dtg dc st h
    rw [generate_relaxed_landmarks_iterate, hst1]
    exact ih st1 hwf1

/-- C7: every disjunctive landmark node that `generate_relaxed_landmarks` adds to
the graph has between 2 and 4 distinct facts, and all of its facts have the same
predicate disjunction class, which is not `-1` : after the seeding and any number
`n` of iterations of the worklist loop the state exists (no fuel is exhausted)
and every disjunctive landmark of its graph is of that form, whatever the
reachability oracle, the domain transition graph and the class table are. -/
theorem generate_relaxed_landmarks_disjunctive_nodes (task : Task)
    (relaxed_task_solvable : LevelOracle) (_possibly_reaches_lm : ReachOracle)
    (dtg_successors : DtgSuccessors) (disjunction_classes : DisjunctionClasses) (n : Nat) :
    ∃ st, generate_relaxed_landmarks_iterate task relaxed_task_solvable _possibly_reaches_lm
        dtg_successors disjunction_classes n
        (generate_relaxed_landmarks_seed task FactoryState.empty) = some st ∧
      ∀ node ∈ st.lm_graph.nodes, node.landmark.disjunctive = true →
        node.landmark.facts.Nodup ∧ 2 ≤ node.landmark.facts.length ∧
        node.landmark.facts.length ≤ 4 ∧
        ∃ c : Int, c ≠ -1 ∧ ∀ f ∈ node.landmark.facts,
          disjunction_class disjunction_classes f.var f.value = c := by
  obtain ⟨st, hst, hwf⟩ := generate_relaxed_landmarks_iterate_spec task relaxed_task_solvable
    _possibly_reaches_lm dtg_successors disjunction_classes n
    (generate_relaxed_landmarks_seed task FactoryState.empty)
    (graph_wf_seed disjunction_classes task.goals FactoryState.empty
      (by intro n hn; simp [FactoryState.empty] at hn))
  exact ⟨st, hst, fun node hnode hd => hwf node hnode hd⟩

/-- C7 (witness): the goal `v0 = 1` is achieved by two operators, one requires
`v1 = 1` and the other `v2 = 1`, facts of the same class 1. The first iteration of
the worklist loop adds the disjunctive landmark `{v1 = 1, v2 = 1}`, and all
disjunctive landmarks of the resulting graph are well formed. -/
theorem generate_relaxed_landmarks_disjunctive_nodes_witness :
    (∃ st, generate_relaxed_landmarks_iterate
        ⟨[⟨2, []⟩, ⟨2, []⟩, ⟨2, []⟩],
          [⟨[⟨1, 1⟩], [⟨[], ⟨0, 1⟩⟩], 1⟩, ⟨[⟨2, 1⟩], [⟨[], ⟨0, 1⟩⟩], 1⟩,
           ⟨[], [⟨[], ⟨1, 1⟩⟩], 1⟩, ⟨[], [⟨[], ⟨2, 1⟩⟩], 1⟩], [0, 0, 0], [⟨0, 1⟩]⟩
        (fun _ => [[0, 2], [0, 1], [0, 1]]) (fun _ _ _ => true) [] [[0, 0], [1, 1], [1, 1]] 1
        (generate_relaxed_landmarks_seed
          ⟨[⟨2, []⟩, ⟨2, []⟩, ⟨2, []⟩],
            [⟨[⟨1, 1⟩], [⟨[], ⟨0, 1⟩⟩], 1⟩, ⟨[⟨2, 1⟩], [⟨[], ⟨0, 1⟩⟩], 1⟩,
             ⟨[], [⟨[], ⟨1, 1⟩⟩], 1⟩, ⟨[], [⟨[], ⟨2, 1⟩⟩], 1⟩], [0, 0, 0], [⟨0, 1⟩]⟩
          FactoryState.empty) = some st ∧
      ∀ node ∈ st.lm_graph.nodes, node.landmark.disjunctive = true →
        node.landmark.facts.Nodup ∧ 2 ≤ node.landmark.facts.length ∧
        node.landmark.facts.length ≤ 4 ∧
        ∃ c : Int, c ≠ -1 ∧ ∀ f ∈ node.landmark.facts,
          disjunction_class [[0, 0], [1, 1], [1, 1]] f.var f.value = c) ∧
    ((generate_relaxed_landmarks_iterate
        ⟨[⟨2, []⟩, ⟨2, []⟩, ⟨2, []⟩],
          [⟨[⟨1, 1⟩], [⟨[], ⟨0, 1⟩⟩], 1⟩, ⟨[⟨2, 1⟩], [⟨[], ⟨0, 1⟩⟩], 1⟩,
           ⟨[], [⟨[], ⟨1, 1⟩⟩], 1⟩, ⟨[], [⟨[], ⟨2, 1⟩⟩], 1⟩], [0, 0, 0], [⟨0, 1⟩]⟩
        (fun _ => [[0, 2], [0, 1], [0, 1]]) (fun _ _ _ => true) [] [[0, 0], [1, 1], [1, 1]] 1
        (generate_relaxed_landmarks_seed
          ⟨[⟨2, []⟩, ⟨2, []⟩, ⟨2, []⟩],
            [⟨[⟨1, 1⟩], [⟨[], ⟨0, 1⟩⟩], 1⟩, ⟨[⟨2, 1⟩], [⟨[], ⟨0, 1⟩⟩], 1⟩,
             ⟨[], [⟨[], ⟨1, 1⟩⟩], 1⟩, ⟨[], [⟨[], ⟨2, 1⟩⟩], 1⟩], [0, 0, 0], [⟨0, 1⟩]⟩
          FactoryState.empty)).map
      (fun st => st.lm_graph.nodes.map (fun n => (n.landmark.facts, n.landmark.disjunctive)))) =
      some [([⟨0, 1⟩], false), ([⟨0, 0⟩], false), ([⟨1, 1⟩, ⟨2, 1⟩], true)] :=
  ⟨generate_relaxed_landmarks_disjunctive_nodes _ _ _ _ _ _, by decide⟩

/-! ## Frame of `edge_add` and of node creation -/

lemma edge_find_add_self (m : EdgeMap) (k : Nat) (t : EdgeType) :
    EdgeMap.find (EdgeMap.add m k t) k = some (strengthen (EdgeMap.find m k) t) := by
  unfold EdgeMap.add strengthen
  cases hf : EdgeMap.find m k with
  | none =>
    simp only []
    rw [edge_find_append, hf]
    simp
  | some t' =>
    simp only []
    split
    · rw [edge_find_append, edge_find_erase]
      simp
    · exact hf

lemma edge_add_node_landmarks (g : LandmarkGraph) (a c : Nat) (ty : EdgeType) :
    (edge_add g a c ty).node_landmarks = g.node_landmarks := by
  unfold LandmarkGraph.node_landmarks edge_add
  by_cases hac : a = c
  · simp [hac]
  · simp only [hac, if_false, List.map_map]
    apply List.map_congr_left
    intro n _
    simp only [Function.comp]
    split
    · rfl
    · split <;> rfl

lemma edge_add_next_id (g : LandmarkGraph) (a c : Nat) (ty : EdgeType) :
    (edge_add g a c ty).next_id = g.next_id := by
  unfold edge_add
  split <;> rfl

lemma child_edge_edge_add_self (g : LandmarkGraph) (a c : Nat) (ty : EdgeType)
    (hac : a ≠ c) (ha : (g.get_node a).isSome = true) :
    (edge_add g a c ty).child_edge a c = some (strengthen (g.child_edge a c) ty) := by
  unfold LandmarkGraph.child_edge
  rw [get_node_edge_add g a c ty a hac]
  obtain ⟨n, hn⟩ := Option.isSome_iff_exists.mp ha
  have hid := get_node_id hn
  rw [hn]
  simp only [Option.map_some', Option.some_bind, hid, if_true]
  exact edge_find_add_self _ _ _

lemma parent_edge_edge_add_self (g : LandmarkGraph) (a c : Nat) (ty : EdgeType)
    (hac : a ≠ c) (hc : (g.get_node c).isSome = true) :
    (edge_add g a c ty).parent_edge a c = some (strengthen (g.parent_edge a c) ty) := by
  unfold LandmarkGraph.parent_edge
  rw [get_node_edge_add g a c ty c hac]
  obtain ⟨n, hn⟩ := Option.isSome_iff_exists.mp hc
  have hid := get_node_id hn
  have hca : ¬ c = a := fun h => hac h.symm
  rw [hn]
  simp only [Option.map_some', Option.some_bind, hid, hca, if_false, if_true]
  exact edge_find_add_self _ _ _

/-- Frame of `edge_add` : handles, landmarks and `next_id` are kept, every edge
other than `a → c` is kept, and the edge `a → c` has the stronger of its former
type and `ty` when `a ≠ c` and the endpoint is a node of the graph. -/
lemma edge_add_frame (g : LandmarkGraph) (a c : Nat) (ty : EdgeType) :
    (edge_add g a c ty).node_landmarks = g.node_landmarks ∧
    (edge_add g a c ty).next_id = g.next_id ∧
    (∀ x y, (x ≠ a ∨ y ≠ c) →
      (edge_add g a c ty).child_edge x y = g.child_edge x y ∧
      (edge_add g a c ty).parent_edge x y = g.parent_edge x y) ∧
    (a ≠ c → (g.get_node a).isSome = true →
      (edge_add g a c ty).child_edge a c = some (strengthen (g.child_edge a c) ty)) ∧
    (a ≠ c → (g.get_node c).isSome = true →
      (edge_add g a c ty).parent_edge a c = some (strengthen (g.parent_edge a c) ty)) :=
  ⟨edge_add_node_landmarks g a c ty, edge_add_next_id g a c ty,
   fun x y h => ⟨child_edge_edge_add_ne g a c ty x y h, parent_edge_edge_add_ne g a c ty x y h⟩,
   child_edge_edge_add_self g a c ty, parent_edge_edge_add_self g a c ty⟩

lemma get_node_add_landmark_other (g : LandmarkGraph) (lm : Landmark) (x : Nat)
    (hx : x ≠ g.next_id) : (g.add_landmark lm).1.get_node x = g.get_node x := by
  unfold LandmarkGraph.get_node LandmarkGraph.add_landmark
  simp only [List.find?_append]
  have : List.find? (fun n => n.id == x)
      [(⟨g.next_id, lm, [], []⟩ : LandmarkNode)] = none := by
    rw [List.find?_cons_of_neg _ (by simpa using Ne.symm hx)]
    rfl
  rw [this]
  cases List.find? (fun n => n.id == x) g.nodes <;> rfl

lemma child_edge_add_landmark (g : LandmarkGraph) (lm : Landmark) (h : fresh_handles g)
    (x y : Nat) : (g.add_landmark lm).1.child_edge x y = g.child_edge x y := by
  unfold LandmarkGraph.child_edge
  by_cases hx : x = g.next_id
  · subst hx
    rw [get_node_add_landmark_new g lm h, get_node_next_id_eq_none g h]
    rfl
  · rw [get_node_add_landmark_other g lm x hx]

lemma parent_edge_add_landmark (g : LandmarkGraph) (lm : Landmark) (h : fresh_handles g)
    (x y : Nat) : (g.add_landmark lm).1.parent_edge x y = g.parent_edge x y := by
  unfold LandmarkGraph.parent_edge
  by_cases hy : y = g.next_id
  · subst hy
    rw [get_node_add_landmark_new g lm h, get_node_next_id_eq_none g h]
    rfl
  · rw [get_node_add_landmark_other g lm y hy]

lemma parent_edge_next_id_eq_none (g : LandmarkGraph) (h : fresh_handles g) (y : Nat) :
    g.parent_edge g.next_id y = none := by
  unfold LandmarkGraph.parent_edge
  cases hn : g.get_node y with
  | none => rfl
  | some n =>
    simp only [Option.some_bind]
    apply edge_find_eq_none_of_keys
    intro p hp
    have := (h n (List.mem_of_find?_eq_some hn)).2.2 p hp
    omega

lemma child_edge_of_next_id_eq_none (g : LandmarkGraph) (h : fresh_handles g) (y : Nat) :
    g.child_edge g.next_id y = none := by
  unfold LandmarkGraph.child_edge
  rw [get_node_next_id_eq_none g h]
  rfl

lemma lt_next_id_of_get_node {g : LandmarkGraph} (h : fresh_handles g) {b : Nat}
    (hb : (g.get_node b).isSome = true) : b < g.next_id := by
  obtain ⟨n, hn⟩ := Option.isSome_iff_exists.mp hb
  have := (h n (List.mem_of_find?_eq_some hn)).1
  rw [get_node_id hn] at this
  exact this

/-- Effect of creating a node for `lm` and ordering it before the node `b` with
type `t`, in a graph whose handles in use are below `next_id` : one node with the
handle `next_id` and the landmark `lm` is appended, the edge from it to `b` has
type `t` on both endpoints, every other edge and every other node is kept. -/
lemma add_node_edge_spec (g : LandmarkGraph) (lm : Landmark) (b : Nat) (t : EdgeType)
    (h : fresh_handles g) (hb : (g.get_node b).isSome = true) :
    (edge_add (g.add_landmark lm).1 g.next_id b t).node_landmarks =
      g.node_landmarks ++ [(g.next_id, lm)] ∧
    (edge_add (g.add_landmark lm).1 g.next_id b t).next_id = g.next_id + 1 ∧
    (edge_add (g.add_landmark lm).1 g.next_id b t).child_edge g.next_id b = some t ∧
    (edge_add (g.add_landmark lm).1 g.next_id b t).parent_edge g.next_id b = some t ∧
    (∀ x y, (x ≠ g.next_id ∨ y ≠ b) →
      (edge_add (g.add_landmark lm).1 g.next_id b t).child_edge x y = g.child_edge x y ∧
      (edge_add (g.add_landmark lm).1 g.next_id b t).parent_edge x y = g.parent_edge x y) := by
  have hblt := lt_next_id_of_get_node h hb
  have hne : g.next_id ≠ b := by omega
  have hbnew : ((g.add_landmark lm).1.get_node b).isSome = true := by
    rw [get_node_add_landmark_old g lm b hb]; exact hb
  have hnew : ((g.add_landmark lm).1.get_node g.next_id).isSome = true := by
    rw [get_node_add_landmark_new g lm h]; rfl
  refine ⟨?_, ?_, ?_, ?_, ?_⟩
  · rw [edge_add_node_landmarks]
    simp [LandmarkGraph.node_landmarks, LandmarkGraph.add_landmark]
  · rw [edge_add_next_id]
    rfl
  · rw [child_edge_edge_add_self _ _ _ _ hne hnew, child_edge_add_landmark g lm h,
      child_edge_of_next_id_eq_none g h]
    rfl
  · rw [parent_edge_edge_add_self _ _ _ _ hne hbnew, parent_edge_add_landmark g lm h,
      parent_edge_next_id_eq_none g h]
    rfl
  · intro x y hxy
    rw [child_edge_edge_add_ne _ _ _ _ _ _ hxy, parent_edge_edge_add_ne _ _ _ _ _ _ hxy,
      child_edge_add_landmark g lm h, parent_edge_add_landmark g lm h]
    exact ⟨rfl, rfl⟩

/-! ## Node creation by `found_disj_lm_and_order` and `found_simple_lm_and_order` -/

lemma found_disj_scan_none (task : Task) (g : LandmarkGraph) (a : List FactPair)
    (hinit : ∀ f ∈ a, initial_value task.initial_state f.var ≠ f.value)
    (hsimple : ∀ f ∈ a, g.contains_simple_landmark f = false) :
    found_disj_scan task g a = none := by
  induction a with
  | nil => rfl
  | cons f rest ih =>
    unfold found_disj_scan
    rw [if_neg (hinit f (List.mem_cons_self _ _)), hsimple f (List.mem_cons_self _ _)]
    simp only [Bool.false_eq_true, if_false]
    exact ih (fun x hx => hinit x (List.mem_cons_of_mem _ hx))
      (fun x hx => hsimple x (List.mem_cons_of_mem _ hx))

lemma get_disjunctive_of_disjoint {g : LandmarkGraph} {d : LandmarkNode} {f : FactPair}
    (hdis : disjunctive_disjoint g) (hd : d ∈ g.nodes)
    (hdd : d.landmark.disjunctive = true) (hf : f ∈ d.landmark.facts) :
    g.get_disjunctive_landmark f = some d := by
  have hsome : (g.get_disjunctive_landmark f).isSome = true := by
    unfold LandmarkGraph.get_disjunctive_landmark
    rw [List.find?_isSome]
    exact ⟨d, hd, by simp [hdd, hf]⟩
  obtain ⟨n, hn⟩ := Option.isSome_iff_exists.mp hsome
  rw [hn]
  unfold LandmarkGraph.get_disjunctive_landmark at hn
  have hmem := List.mem_of_find?_eq_some hn
  have hp := List.find?_some hn
  simp only [Bool.and_eq_true, decide_eq_true_eq] at hp
  rw [hdis n hmem d hd hp.1 hdd ⟨f, hp.2, hf⟩]

lemma found_disj_identical (task : Task) (st : FactoryState) (a : List FactPair) (b : Nat)
    (t : EdgeType) (d : LandmarkNode)
    (hinit : ∀ f ∈ a, initial_value task.initial_state f.var ≠ f.value)
    (hsimple : ∀ f ∈ a, st.lm_graph.contains_simple_landmark f = false)
    (ha : a ≠ []) (hdis : disjunctive_disjoint st.lm_graph)
    (hd : d ∈ st.lm_graph.nodes) (hdd : d.landmark.disjunctive = true)
    (hfacts : ∀ f, f ∈ a ↔ f ∈ d.landmark.facts) :
    found_disj_lm_and_order task st a b t =
      { st with lm_graph := edge_add st.lm_graph d.id b t } := by
  obtain ⟨f, rest, rfl⟩ := List.exists_cons_of_ne_nil ha
  have hf : f ∈ d.landmark.facts := (hfacts f).mp (List.mem_cons_self _ _)
  have hover : st.lm_graph.contains_overlapping_disjunctive_landmark (f :: rest) = true := by
    unfold LandmarkGraph.contains_overlapping_disjunctive_landmark
    rw [List.any_eq_true]
    exact ⟨f, List.mem_cons_self _ _, contains_disjunctive_of_mem hd hdd hf⟩
  have hident : st.lm_graph.contains_identical_disjunctive_landmark (f :: rest) = true := by
    unfold LandmarkGraph.contains_identical_disjunctive_landmark
    rw [List.any_eq_true]
    refine ⟨d, hd, ?_⟩
    simp only [Bool.and_eq_true, List.all_eq_true, decide_eq_true_eq]
    exact ⟨⟨hdd, fun x hx => (hfacts x).mp hx⟩, fun x hx => (hfacts x).mpr hx⟩
  unfold found_disj_lm_and_order
  rw [found_disj_scan_none task st.lm_graph (f :: rest) hinit hsimple]
  simp only [hover, hident, if_true, List.headD_cons]
  rw [get_disjunctive_of_disjoint hdis hd hdd hf]

/-- C11: if no fact of `A` holds in the initial state, no fact of `A` is a simple
landmark and the (non-empty) set `A` is exactly the fact set of a disjunctive
landmark node `D` of the graph (whose disjunctive landmarks are pairwise disjoint),
then `found_disj_lm_and_order(A, b, t)` keeps the worklist and the pending forward
orders, keeps the handles and landmarks of all nodes (no node is created or
removed), keeps every edge other than `D → b`, and the edge `D → b` gets the
stronger of its former type and `t` : the new graph is `edge_add` of the old one. -/
theorem found_disj_lm_and_order_identical (task : Task) (st : FactoryState)
    (a : List FactPair) (b : Nat) (t : EdgeType) (d : LandmarkNode)
    (hinit : ∀ f ∈ a, initial_value task.initial_state f.var ≠ f.value)
    (hsimple : ∀ f ∈ a, st.lm_graph.contains_simple_landmark f = false)
    (ha : a ≠ []) (hdis : disjunctive_disjoint st.lm_graph)
    (hd : d ∈ st.lm_graph.nodes) (hdd : d.landmark.disjunctive = true)
    (hfacts : ∀ f, f ∈ a ↔ f ∈ d.landmark.facts) :
    (found_disj_lm_and_order task st a b t).open_landmarks = st.open_landmarks ∧
    (found_disj_lm_and_order task st a b t).forward_orders = st.forward_orders ∧
    (found_disj_lm_and_order task st a b t).lm_graph = edge_add st.lm_graph d.id b t ∧
    (found_disj_lm_and_order task st a b t).lm_graph.node_landmarks =
      st.lm_graph.node_landmarks ∧
    (found_disj_lm_and_order task st a b t).lm_graph.next_id = st.lm_graph.next_id ∧
    (∀ x y, (x ≠ d.id ∨ y ≠ b) →
      (found_disj_lm_and_order task st a b t).lm_graph.child_edge x y =
        st.lm_graph.child_edge x y ∧
      (found_disj_lm_and_order task st a b t).lm_graph.parent_edge x y =
        st.lm_graph.parent_edge x y) ∧
    (d.id ≠ b →
      (found_disj_lm_and_order task st a b t).lm_graph.child_edge d.id b =
        some (strengthen (st.lm_graph.child_edge d.id b) t)) ∧
    (d.id ≠ b → (st.lm_graph.get_node b).isSome = true →
      (found_disj_lm_and_order task st a b t).lm_graph.parent_edge d.id b =
        some (strengthen (st.lm_graph.parent_edge d.id b) t)) := by
  rw [found_disj_identical task st a b t d hinit hsimple ha hdis hd hdd hfacts]
  obtain ⟨h1, h2, h3, h4, h5⟩ := edge_add_frame st.lm_graph d.id b t
  exact ⟨rfl, rfl, rfl, h1, h2, h3,
    fun hne => h4 hne (get_node_isSome_of_mem hd), h5⟩

/-- C11 (witness): in the sample graph the candidate `{v1 = 1, v2 = 1}` is the fact
set of node 1; ordering it naturally before node 2 adds the edge `1 → 2` only. -/
theorem found_disj_lm_and_order_identical_witness :
    (found_disj_lm_and_order sample_task sample_state [⟨1, 1⟩, ⟨2, 1⟩] 2
        EdgeType.NATURAL).open_landmarks = [1, 2] ∧
    (found_disj_lm_and_order sample_task sample_state [⟨1, 1⟩, ⟨2, 1⟩] 2
        EdgeType.NATURAL).lm_graph.node_landmarks = sample_graph.node_landmarks ∧
    (found_disj_lm_and_order sample_task sample_state [⟨1, 1⟩, ⟨2, 1⟩] 2
        EdgeType.NATURAL).lm_graph.child_edge 1 2 = some EdgeType.NATURAL :=
  have h := found_disj_lm_and_order_identical sample_task sample_state [⟨1, 1⟩, ⟨2, 1⟩] 2
    EdgeType.NATURAL
    ⟨1, Landmark.new [⟨1, 1⟩, ⟨2, 1⟩] true false false, [], [(0, EdgeType.GREEDY_NECESSARY)]⟩
    (by decide) (by decide) (by decide) (by unfold disjunctive_disjoint; decide)
    (by decide) (by decide) (fun _ => Iff.rfl)
  ⟨h.1, h.2.2.2.1, h.2.2.2.2.2.2.1 (by decide)⟩

lemma contains_overlapping_false {g : LandmarkGraph} {a : List FactPair}
    (h : ∀ f ∈ a, g.contains_disjunctive_landmark f = false) :
    g.contains_overlapping_disjunctive_landmark a = false := by
  unfold LandmarkGraph.contains_overlapping_disjunctive_landmark
  rw [List.any_eq_false]
  intro f hf
  simp [h f hf]

/-- C12: if no fact of `A` holds in the initial state, no fact of `A` is a simple
landmark and no fact of `A` belongs to a disjunctive landmark of the graph, then
`found_disj_lm_and_order(A, b, t)` (in a graph whose handles in use are below
`next_id`, `b` being a node of it) appends exactly one node, whose landmark is
disjunctive with the facts `A` (not conjunctive, not a goal), appends its handle
to the back of the worklist, records the edge `new → b` with type `t` on both
endpoints, keeps every other edge and keeps the pending forward orders. -/
theorem found_disj_lm_and_order_creates (task : Task) (st : FactoryState)
    (a : List FactPair) (b : Nat) (t : EdgeType)
    (hinit : ∀ f ∈ a, initial_value task.initial_state f.var ≠ f.value)
    (hsimple : ∀ f ∈ a, st.lm_graph.contains_simple_landmark f = false)
    (hover : ∀ f ∈ a, st.lm_graph.contains_disjunctive_landmark f = false)
    (hfresh : fresh_handles st.lm_graph) (hb : (st.lm_graph.get_node b).isSome = true) :
    (found_disj_lm_and_order task st a b t).lm_graph.node_landmarks =
      st.lm_graph.node_landmarks ++
        [(st.lm_graph.next_id, ⟨a, true, false, false, INT_MAX⟩)] ∧
    (found_disj_lm_and_order task st a b t).lm_graph.next_id = st.lm_graph.next_id + 1 ∧
    (found_disj_lm_and_order task st a b t).open_landmarks =
      st.open_landmarks ++ [st.lm_graph.next_id] ∧
    (found_disj_lm_and_order task st a b t).forward_orders = st.forward_orders ∧
    (found_disj_lm_and_order task st a b t).lm_graph.child_edge st.lm_graph.next_id b =
      some t ∧
    (found_disj_lm_and_order task st a b t).lm_graph.parent_edge st.lm_graph.next_id b =
      some t ∧
    (∀ x y, (x ≠ st.lm_graph.next_id ∨ y ≠ b) →
      (found_disj_lm_and_order task st a b t).lm_graph.child_edge x y =
        st.lm_graph.child_edge x y ∧
      (found_disj_lm_and_order task st a b t).lm_graph.parent_edge x y =
        st.lm_graph.parent_edge x y) := by
  have hr : found_disj_lm_and_order task st a b t =
      ⟨edge_add (st.lm_graph.add_landmark (Landmark.new a true false false)).1
          st.lm_graph.next_id b t,
        st.open_landmarks ++ [st.lm_graph.next_id], st.forward_orders⟩ := by
    unfold found_disj_lm_and_order
    rw [found_disj_scan_none task st.lm_graph a hinit hsimple,
      contains_overlapping_false hover]
    rfl
  rw [hr]
  obtain ⟨h1, h2, h3, h4, h5⟩ :=
    add_node_edge_spec st.lm_graph (Landmark.new a true false false) b t hfresh hb
  exact ⟨h1, h2, rfl, rfl, h3, h4, h5⟩

/-- C12 (witness): in the sample graph the candidate `{v4 = 1, v5 = 1}` becomes the
new disjunctive node 3, enqueued last and ordered before node 0. -/
theorem found_disj_lm_and_order_creates_witness :
    (found_disj_lm_and_order sample_task sample_state [⟨4, 1⟩, ⟨5, 1⟩] 0
        EdgeType.GREEDY_NECESSARY).lm_graph.node_landmarks =
      sample_graph.node_landmarks ++ [(3, ⟨[⟨4, 1⟩, ⟨5, 1⟩], true, false, false, INT_MAX⟩)] ∧
    (found_disj_lm_and_order sample_task sample_state [⟨4, 1⟩, ⟨5, 1⟩] 0
        EdgeType.GREEDY_NECESSARY).open_landmarks = [1, 2, 3] ∧
    (found_disj_lm_and_order sample_task sample_state [⟨4, 1⟩, ⟨5, 1⟩] 0
        EdgeType.GREEDY_NECESSARY).lm_graph.child_edge 3 0 =
      some EdgeType.GREEDY_NECESSARY :=
  have h := found_disj_lm_and_order_creates sample_task sample_state [⟨4, 1⟩, ⟨5, 1⟩] 0
    EdgeType.GREEDY_NECESSARY (by decide) (by decide) (by decide)
    (by unfold fresh_handles; decide) (by decide)
  ⟨h.1, h.2.2.1, h.2.2.2.2.1⟩

/-- C13: if the fact `f` is a simple landmark with node `n`, then
`found_simple_lm_and_order(f, b, t)` keeps the worklist and the pending forward
orders, keeps the handles and landmarks of all nodes (no node is created or
removed), keeps every edge other than `n → b`, and the edge `n → b` gets the
stronger of its former type and `t` : the new graph is `edge_add` of the old one. -/
theorem found_simple_lm_and_order_existing (st : FactoryState) (f : FactPair) (b : Nat)
    (t : EdgeType) (n : LandmarkNode)
    (h : st.lm_graph.get_simple_landmark f = some n) :
    (found_simple_lm_and_order st f b t).open_landmarks = st.open_landmarks ∧
    (found_simple_lm_and_order st f b t).forward_orders = st.forward_orders ∧
    (found_simple_lm_and_order st f b t).lm_graph = edge_add st.lm_graph n.id b t ∧
    (found_simple_lm_and_order st f b t).lm_graph.node_landmarks =
      st.lm_graph.node_landmarks ∧
    (found_simple_lm_and_order st f b t).lm_graph.next_id = st.lm_graph.next_id ∧
    (∀ x y, (x ≠ n.id ∨ y ≠ b) →
      (found_simple_lm_and_order st f b t).lm_graph.child_edge x y =
        st.lm_graph.child_edge x y ∧
      (found_simple_lm_and_order st f b t).lm_graph.parent_edge x y =
        st.lm_graph.parent_edge x y) ∧
    (n.id ≠ b →
      (found_simple_lm_and_order st f b t).lm_graph.child_edge n.id b =
        some (strengthen (st.lm_graph.child_edge n.id b) t)) ∧
    (n.id ≠ b → (st.lm_graph.get_node b).isSome = true →
      (found_simple_lm_and_order st f b t).lm_graph.parent_edge n.id b =
        some (strengthen (st.lm_graph.parent_edge n.id b) t)) := by
  have hr : found_simple_lm_and_order st f b t =
      { st with lm_graph := edge_add st.lm_graph n.id b t } := by
    unfold found_simple_lm_and_order
    rw [h]
  have hn : n ∈ st.lm_graph.nodes := by
    unfold LandmarkGraph.get_simple_landmark at h
    exact List.mem_of_find?_eq_some h
  rw [hr]
  obtain ⟨h1, h2, h3, h4, h5⟩ := edge_add_frame st.lm_graph n.id b t
  exact ⟨rfl, rfl, rfl, h1, h2, h3,
    fun hne => h4 hne (get_node_isSome_of_mem hn), h5⟩

/-- C13 (witness): in the sample graph `v3 = 1` is the simple landmark of node 2,
naturally ordered before node 0; `found_simple_lm_and_order` with the type
GREEDY_NECESSARY strengthens that edge and changes nothing else. -/
theorem found_simple_lm_and_order_existing_witness :
    (found_simple_lm_and_order sample_state ⟨3, 1⟩ 0
        EdgeType.GREEDY_NECESSARY).open_landmarks = [1, 2] ∧
    (found_simple_lm_and_order sample_state ⟨3, 1⟩ 0
        EdgeType.GREEDY_NECESSARY).lm_graph.node_landmarks = sample_graph.node_landmarks ∧
    (found_simple_lm_and_order sample_state ⟨3, 1⟩ 0
        EdgeType.GREEDY_NECESSARY).lm_graph.child_edge 2 0 =
      some (strengthen (some EdgeType.NATURAL) EdgeType.GREEDY_NECESSARY) :=
  have h := found_simple_lm_and_order_existing sample_state ⟨3, 1⟩ 0
    EdgeType.GREEDY_NECESSARY
    ⟨2, Landmark.new [⟨3, 1⟩] false false false, [], [(0, EdgeType.NATURAL)]⟩ (by decide)
  ⟨h.1, h.2.2.2.1, h.2.2.2.2.2.2.1 (by decide)⟩

/-- C14: if the fact `f` is neither a simple landmark nor a member of a disjunctive
landmark of the graph, then `found_simple_lm_and_order(f, b, t)` (in a graph whose
handles in use are below `next_id`, `b` being a node of it) appends exactly one
node, holding the landmark `[f]` that is neither disjunctive nor conjunctive nor a
goal, appends its handle to the back of the worklist, records the edge `new → b`
with type `t` on both endpoints, and keeps every other node, every other edge and
the pending forward orders. -/
theorem found_simple_lm_and_order_creates (st : FactoryState) (f : FactPair) (b : Nat)
    (t : EdgeType)
    (hsimple : st.lm_graph.contains_simple_landmark f = false)
    (hdisj : st.lm_graph.contains_disjunctive_landmark f = false)
    (hfresh : fresh_handles st.lm_graph) (hb : (st.lm_graph.get_node b).isSome = true) :
    (found_simple_lm_and_order st f b t).lm_graph.node_landmarks =
      st.lm_graph.node_landmarks ++
        [(st.lm_graph.next_id, ⟨[f], false, false, false, INT_MAX⟩)] ∧
    (found_simple_lm_and_order st f b t).lm_graph.next_id = st.lm_graph.next_id + 1 ∧
    (found_simple_lm_and_order st f b t).open_landmarks =
      st.open_landmarks ++ [st.lm_graph.next_id] ∧
    (found_simple_lm_and_order st f b t).forward_orders = st.forward_orders ∧
    (found_simple_lm_and_order st f b t).lm_graph.child_edge st.lm_graph.next_id b =
      some t ∧
    (found_simple_lm_and_order st f b t).lm_graph.parent_edge st.lm_graph.next_id b =
      some t ∧
    (∀ x y, (x ≠ st.lm_graph.next_id ∨ y ≠ b) →
      (found_simple_lm_and_order st f b t).lm_graph.child_edge x y =
        st.lm_graph.child_edge x y ∧
      (found_simple_lm_and_order st f b t).lm_graph.parent_edge x y =
        st.lm_graph.parent_edge x y) := by
  have hs : st.lm_graph.get_simple_landmark f = none := by
    unfold LandmarkGraph.contains_simple_landmark at hsimple
    cases h : st.lm_graph.get_simple_landmark f with
    | none => rfl
    | some n => rw [h] at hsimple; cases hsimple
  have hd : st.lm_graph.get_disjunctive_landmark f = none := by
    unfold LandmarkGraph.contains_disjunctive_landmark at hdisj
    cases h : st.lm_graph.get_disjunctive_landmark f with
    | none => rfl
    | some n => rw [h] at hdisj; cases hdisj
  have hr : found_simple_lm_and_order st f b t =
      ⟨edge_add (st.lm_graph.add_landmark (Landmark.new [f] false false false)).1
          st.lm_graph.next_id b t,
        st.open_landmarks ++ [st.lm_graph.next_id], st.forward_orders⟩ := by
    unfold found_simple_lm_and_order
    rw [hs]
    simp only [hd]
    rfl
  rw [hr]
  obtain ⟨h1, h2, h3, h4, h5⟩ :=
    add_node_edge_spec st.lm_graph (Landmark.new [f] false false false) b t hfresh hb
  exact ⟨h1, h2, rfl, rfl, h3, h4, h5⟩

/-- C14 (witness): in the sample graph `v4 = 1` is in no landmark; it becomes the
new simple node 3, enqueued last and ordered before node 0. -/
theorem found_simple_lm_and_order_creates_witness :
    (found_simple_lm_and_order sample_state ⟨4, 1⟩ 0
        EdgeType.GREEDY_NECESSARY).lm_graph.node_landmarks =
      sample_graph.node_landmarks ++ [(3, ⟨[⟨4, 1⟩], false, false, false, INT_MAX⟩)] ∧
    (found_simple_lm_and_order sample_state ⟨4, 1⟩ 0
        EdgeType.GREEDY_NECESSARY).open_landmarks = [1, 2, 3] ∧
    (found_simple_lm_and_order sample_state ⟨4, 1⟩ 0
        EdgeType.GREEDY_NECESSARY).lm_graph.child_edge 3 0 =
      some EdgeType.GREEDY_NECESSARY :=
  have h := found_simple_lm_and_order_creates sample_state ⟨4, 1⟩ 0
    EdgeType.GREEDY_NECESSARY (by decide) (by decide)
    (by unfold fresh_handles; decide) (by decide)
  ⟨h.1, h.2.2.1, h.2.2.2.2.1⟩

/-! ## Lookups in the result of `get_greedy_preconditions_for_lm` -/

lemma find_emplace_of_some {m : IntMap} {k v : Nat} (h : IntMap.find m k = some v)
    (k' v' : Nat) : IntMap.find (IntMap.emplace m k' v') k = some v := by
  rw [find_emplace, h]

lemma find_emplace_of_ne (m : IntMap) {k k' : Nat} (h : k' ≠ k) (v' : Nat) :
    IntMap.find (IntMap.emplace m k' v') k = IntMap.find m k := by
  rw [find_emplace]
  cases IntMap.find m k with
  | none => simp [h]
  | some w => rfl

lemma find_emplace_self_of_none {m : IntMap} {k : Nat} (h : IntMap.find m k = none)
    (v : Nat) : IntMap.find (IntMap.emplace m k v) k = some v := by
  rw [find_emplace, h]
  simp

lemma find_emplace_facts_of_some (facts : List FactPair) : ∀ (m : IntMap) (k v : Nat),
    IntMap.find m k = some v → IntMap.find (emplace_facts m facts) k = some v := by
  induction facts with
  | nil => intro m k v h; exact h
  | cons f fs ih =>
    intro m k v h
    exact ih _ k v (find_emplace_of_some h _ _)

lemma find_insert_all_of_some (other : IntMap) : ∀ (m : IntMap) (k v : Nat),
    IntMap.find m k = some v → IntMap.find (IntMap.insert_all m other) k = some v := by
  induction other with
  | nil => intro m k v h; exact h
  | cons x xs ih =>
    intro m k v h
    exact ih _ k v (find_emplace_of_some h _ _)

lemma find_greedy_infer_effect_of_some (task : Task) (landmark : Landmark)
    (has_pre : List Bool) (result : IntMap) (effect : Effect) {k v : Nat}
    (h : IntMap.find result k = some v) :
    IntMap.find (greedy_infer_effect task landmark has_pre result effect) k = some v := by
  unfold greedy_infer_effect
  simp only []
  split
  · split
    · exact find_emplace_of_some h _ _
    · exact h
  · exact h

lemma find_greedy_infer_fold_of_some (task : Task) (landmark : Landmark)
    (has_pre : List Bool) (effects : List Effect) : ∀ (result : IntMap) (k v : Nat),
    IntMap.find result k = some v →
    IntMap.find (effects.foldl (greedy_infer_effect task landmark has_pre) result) k =
      some v := by
  induction effects with
  | nil => intro result k v h; exact h
  | cons e es ih =>
    intro result k v h
    exact ih _ k v (find_greedy_infer_effect_of_some task landmark has_pre result e h)

lemma find_emplace_facts_of_mem (facts : List FactPair) : ∀ (m : IntMap) (p : FactPair),
    IntMap.find m p.var = none → p ∈ facts →
    (∀ q ∈ facts, q.var = p.var → q.value = p.value) →
    IntMap.find (emplace_facts m facts) p.var = some p.value := by
  induction facts with
  | nil => intro m p _ hp; simp at hp
  | cons f fs ih =>
    intro m p hm hp hone
    unfold emplace_facts
    rw [List.foldl_cons]
    by_cases hfv : f.var = p.var
    · have hval := hone f (List.mem_cons_self _ _) hfv
      apply find_emplace_facts_of_some
      rw [hfv, hval]
      exact find_emplace_self_of_none hm _
    · rcases List.mem_cons.mp hp with h | h
      · exact absurd (by rw [h]) hfv
      · apply ih _ p _ h (fun q hq => hone q (List.mem_cons_of_mem _ hq))
        rw [find_emplace_of_ne m hfv]
        exact hm

/-- C15: for an operator with at most one precondition per variable and the
result map initially empty, every explicit precondition `(v, d)` of `op` is an
entry of the result of `get_greedy_preconditions_for_lm`, and the result maps `v`
to `d` : no later phase overrides it. -/
theorem greedy_preconditions_keep_explicit (task : Task) (landmark : Landmark)
    (op : Operator) (h : one_value_per_var op.preconditions) (p : FactPair)
    (hp : p ∈ op.preconditions) :
    (p.var, p.value) ∈ get_greedy_preconditions_for_lm task landmark op [] ∧
    IntMap.find (get_greedy_preconditions_for_lm task landmark op []) p.var =
      some p.value := by
  have hfind : IntMap.find (get_greedy_preconditions_for_lm task landmark op []) p.var =
      some p.value := by
    unfold get_greedy_preconditions_for_lm
    simp only []
    apply find_insert_all_of_some
    apply find_greedy_infer_fold_of_some
    exact find_emplace_facts_of_mem op.preconditions [] p rfl hp
      (fun q hq hv => h q hq p hp hv)
  exact ⟨mem_of_find hfind, hfind⟩

/-- C15 (witness): the operator with the preconditions `v1 = 2` and `v0 = 0` and an
effect `v0 := 1` under the condition `v1 = 1`, for the landmark `v0 = 1` of a
two-valued `v0` : the result maps `v1` to `2` and `v0` to `0`. -/
theorem greedy_preconditions_keep_explicit_witness :
    ((1, 2) ∈ get_greedy_preconditions_for_lm ⟨[⟨2, []⟩, ⟨3, []⟩], [], [1, 0], []⟩
        (Landmark.new [⟨0, 1⟩] false false false)
        ⟨[⟨1, 2⟩, ⟨0, 0⟩], [⟨[⟨1, 1⟩], ⟨0, 1⟩⟩], 1⟩ [] ∧
      IntMap.find (get_greedy_preconditions_for_lm ⟨[⟨2, []⟩, ⟨3, []⟩], [], [1, 0], []⟩
        (Landmark.new [⟨0, 1⟩] false false false)
        ⟨[⟨1, 2⟩, ⟨0, 0⟩], [⟨[⟨1, 1⟩], ⟨0, 1⟩⟩], 1⟩ []) 1 = some 2) ∧
    get_greedy_preconditions_for_lm ⟨[⟨2, []⟩, ⟨3, []⟩], [], [1, 0], []⟩
        (Landmark.new [⟨0, 1⟩] false false false)
        ⟨[⟨1, 2⟩, ⟨0, 0⟩], [⟨[⟨1, 1⟩], ⟨0, 1⟩⟩], 1⟩ [] = [(1, 2), (0, 0)] :=
  ⟨greedy_preconditions_keep_explicit ⟨[⟨2, []⟩, ⟨3, []⟩], [], [1, 0], []⟩
      (Landmark.new [⟨0, 1⟩] false false false)
      ⟨[⟨1, 2⟩, ⟨0, 0⟩], [⟨[⟨1, 1⟩], ⟨0, 1⟩⟩], 1⟩ (by unfold one_value_per_var; decide)
      ⟨1, 2⟩ (by decide),
   by decide⟩

lemma has_precondition_on_var_eq_false {n : Nat} {pre : List FactPair} {v : Nat}
    (h : ∀ p ∈ pre, p.var ≠ v) : (has_precondition_on_var n pre).getD v false = false := by
  cases hc : (has_precondition_on_var n pre).getD v false with
  | false => rfl
  | true =>
    unfold has_precondition_on_var at hc
    rw [has_precondition_fold] at hc
    rcases hc with hc | ⟨_, p, hp, hpv⟩
    · by_cases hv : v < n
      · rw [List.getD_eq_getElem _ _ (by simpa using hv)] at hc
        simp at hc
      · rw [List.getD_eq_default _ _ (by simpa using hv)] at hc
        cases hc
    · exact absurd hpv (h p hp)

lemma has_precondition_on_var_eq_true {n : Nat} {pre : List FactPair} {v : Nat}
    (hv : v < n) (h : ∃ p ∈ pre, p.var = v) :
    (has_precondition_on_var n pre).getD v false = true := by
  unfold has_precondition_on_var
  rw [has_precondition_fold]
  exact Or.inr ⟨by simpa using hv, h⟩

lemma find_greedy_infer_effect_of_ne (task : Task) (landmark : Landmark)
    (has_pre : List Bool) (result : IntMap) (effect : Effect) {v : Nat}
    (h : effect.fact.var ≠ v ∨ has_pre.getD v false = true ∨
      get_domain_size task.vars v ≠ 2) :
    IntMap.find (greedy_infer_effect task landmark has_pre result effect) v =
      IntMap.find result v := by
  by_cases hev : effect.fact.var = v
  · have h' : has_pre.getD effect.fact.var false = true ∨
        get_domain_size task.vars effect.fact.var ≠ 2 := by
      rw [hev]
      rcases h with h | h
      · exact absurd hev h
      · exact h
    unfold greedy_infer_effect
    simp only []
    rw [if_neg]
    rcases h' with h' | h'
    · rw [h']
      simp
    · have hb : (get_domain_size task.vars effect.fact.var == 2) = false := by
        simpa using h'
      rw [hb]
      simp
  · unfold greedy_infer_effect
    simp only []
    split
    · split
      · exact find_emplace_of_ne _ hev _
      · rfl
    · rfl

lemma find_greedy_infer_fold_of_guard (task : Task) (landmark : Landmark)
    (has_pre : List Bool) (effects : List Effect) {v : Nat}
    (h : has_pre.getD v false = true ∨ get_domain_size task.vars v ≠ 2) :
    ∀ (result : IntMap),
    IntMap.find (effects.foldl (greedy_infer_effect task landmark has_pre) result) v =
      IntMap.find result v := by
  induction effects with
  | nil => intro result; rfl
  | cons e es ih =>
    intro result
    rw [List.foldl_cons, ih,
      find_greedy_infer_effect_of_ne task landmark has_pre result e (Or.inr h)]

lemma find_greedy_infer_fold_of_effect (task : Task) (landmark : Landmark)
    (has_pre : List Bool) (effects : List Effect) {v : Nat}
    (hhas : has_pre.getD v false = false) (hdom : get_domain_size task.vars v = 2)
    (hL : ∃ f ∈ landmark.facts, f.var = v ∧ f.value ≠ initial_value task.initial_state v)
    (heff : ∃ e ∈ effects, e.fact.var = v) :
    ∀ (result : IntMap), IntMap.find result v = none →
    IntMap.find (effects.foldl (greedy_infer_effect task landmark has_pre) result) v =
      some (initial_value task.initial_state v) := by
  induction effects with
  | nil => obtain ⟨e, he, _⟩ := heff; simp at he
  | cons e es ih =>
    intro result hres
    rw [List.foldl_cons]
    by_cases hev : e.fact.var = v
    · apply find_greedy_infer_fold_of_some
      unfold greedy_infer_effect
      simp only []
      obtain ⟨f, hf, hfv, hfval⟩ := hL
      have hany : landmark.facts.any (fun lm_fact =>
          lm_fact.var == e.fact.var &&
            initial_value task.initial_state e.fact.var != lm_fact.value) = true := by
        rw [List.any_eq_true]
        refine ⟨f, hf, ?_⟩
        rw [hev]
        simp only [Bool.and_eq_true, beq_iff_eq, bne_iff_ne]
        exact ⟨hfv, fun h => hfval h.symm⟩
      rw [hany, hev, hhas, hdom]
      simp only [Bool.not_false, Bool.true_and, beq_self_eq_true, if_true]
      exact find_emplace_self_of_none hres _
    · obtain ⟨e', he', hev'⟩ := heff
      rcases List.mem_cons.mp he' with h | h
      · exact absurd (h ▸ hev') hev
      · apply ih ⟨e', h, hev'⟩
        rw [find_greedy_infer_effect_of_ne task landmark has_pre result e (Or.inl hev)]
        exact hres

lemma find_emplace_facts_nil_eq_none {pre : List FactPair} {v : Nat}
    (h : ∀ p ∈ pre, p.var ≠ v) : IntMap.find (emplace_facts [] pre) v = none := by
  rw [find_eq_none_iff]
  intro p hp hpv
  rcases mem_emplace_facts pre [] p hp with h' | h'
  · simp at h'
  · exact h _ h' hpv

/-- C16: with the result map initially empty, (1) for a variable `v` of domain
size 2 such that `op` has an effect on `v`, no precondition on `v`, and the
landmark contains a fact `(v, d)` with `d` not the initial value of `v`, the
result of `get_greedy_preconditions_for_lm` maps `v` to its initial value; (2) for
a variable `v` that has an explicit precondition or whose domain size is not 2,
the inference loop leaves the entry of `v` as it was (whatever the map before the
loop), and every entry `(v, x)` of the result is an explicit precondition or an
entry of the effect-condition intersection. -/
theorem greedy_preconditions_two_valued_inference (task : Task) (landmark : Landmark)
    (op : Operator) (v : Nat) :
    (get_domain_size task.vars v = 2 → (∃ e ∈ op.effects, e.fact.var = v) →
      (∀ p ∈ op.preconditions, p.var ≠ v) →
      (∃ f ∈ landmark.facts, f.var = v ∧ f.value ≠ initial_value task.initial_state v) →
      IntMap.find (get_greedy_preconditions_for_lm task landmark op []) v =
        some (initial_value task.initial_state v)) ∧
    ((∃ p ∈ op.preconditions, p.var = v) ∨ get_domain_size task.vars v ≠ 2 →
      (∀ result : IntMap,
        IntMap.find (op.effects.foldl (greedy_infer_effect task landmark
          (has_precondition_on_var task.vars.length op.preconditions)) result) v =
          IntMap.find result v) ∧
      (∀ x, (v, x) ∈ get_greedy_preconditions_for_lm task landmark op [] →
        (⟨v, x⟩ : FactPair) ∈ op.preconditions ∨
          (v, x) ∈ greedy_intersection landmark op.effects)) := by
  constructor
  · intro hdom heff hpre hL
    unfold get_greedy_preconditions_for_lm
    simp only []
    apply find_insert_all_of_some
    exact find_greedy_infer_fold_of_effect task landmark _ op.effects
      (has_precondition_on_var_eq_false hpre) hdom hL heff _
      (find_emplace_facts_nil_eq_none hpre)
  · intro h
    have hguard : (has_precondition_on_var task.vars.length op.preconditions).getD v false =
        true ∨ get_domain_size task.vars v ≠ 2 := by
      by_cases hdom : get_domain_size task.vars v = 2
      · rcases h with h | h
        · exact Or.inl (has_precondition_on_var_eq_true (lt_of_domain_size hdom) h)
        · exact absurd hdom h
      · exact Or.inr hdom
    refine ⟨find_greedy_infer_fold_of_guard task landmark _ op.effects hguard, ?_⟩
    intro x hx
    unfold get_greedy_preconditions_for_lm at hx
    simp only [] at hx
    rcases mem_insert_all _ _ _ hx with hx | hx
    · rcases mem_greedy_infer_fold _ _ _ _ _ _ hx with hx | ⟨e, _, hp, hhas, hdom, _⟩
      · rcases mem_emplace_facts _ _ _ hx with hx | hx
        · simp at hx
        · exact Or.inl hx
      · simp only [Prod.mk.injEq] at hp
        rw [← hp.1] at hhas hdom
        rcases hguard with hg | hg
        · rw [hhas] at hg; cases hg
        · exact absurd hdom hg
    · exact Or.inr hx

/-- C16 (witness): variables `v0` (two values, initially `0`), `v1` (three values)
and `v2` (two values, initially `0`); the operator has the precondition `v2 = 0`
and the effects `v0 := 1`, `v1 := 1`, `v2 := 1`; the landmark is
`{v0 = 1, v1 = 1, v2 = 1}`. The result maps `v0` to its initial value `0`; nothing
is inferred for `v1` (three values) and `v2` keeps its precondition. -/
theorem greedy_preconditions_two_valued_inference_witness :
    IntMap.find (get_greedy_preconditions_for_lm
        ⟨[⟨2, []⟩, ⟨3, []⟩, ⟨2, []⟩], [], [0, 0, 0], []⟩
        (Landmark.new [⟨0, 1⟩, ⟨1, 1⟩, ⟨2, 1⟩] true false false)
        ⟨[⟨2, 0⟩], [⟨[], ⟨0, 1⟩⟩, ⟨[], ⟨1, 1⟩⟩, ⟨[], ⟨2, 1⟩⟩], 1⟩ []) 0 =
      some (initial_value [0, 0, 0] 0) ∧
    (∀ x, (1, x) ∈ get_greedy_preconditions_for_lm
        ⟨[⟨2, []⟩, ⟨3, []⟩, ⟨2, []⟩], [], [0, 0, 0], []⟩
        (Landmark.new [⟨0, 1⟩, ⟨1, 1⟩, ⟨2, 1⟩] true false false)
        ⟨[⟨2, 0⟩], [⟨[], ⟨0, 1⟩⟩, ⟨[], ⟨1, 1⟩⟩, ⟨[], ⟨2, 1⟩⟩], 1⟩ [] →
      (⟨1, x⟩ : FactPair) ∈ [(⟨2, 0⟩ : FactPair)] ∨
        (1, x) ∈ greedy_intersection
          (Landmark.new [⟨0, 1⟩, ⟨1, 1⟩, ⟨2, 1⟩] true false false)
          [(⟨[], ⟨0, 1⟩⟩ : Effect), ⟨[], ⟨1, 1⟩⟩, ⟨[], ⟨2, 1⟩⟩]) ∧
    get_greedy_preconditions_for_lm
        ⟨[⟨2, []⟩, ⟨3, []⟩, ⟨2, []⟩], [], [0, 0, 0], []⟩
        (Landmark.new [⟨0, 1⟩, ⟨1, 1⟩, ⟨2, 1⟩] true false false)
        ⟨[⟨2, 0⟩], [⟨[], ⟨0, 1⟩⟩, ⟨[], ⟨1, 1⟩⟩, ⟨[], ⟨2, 1⟩⟩], 1⟩ [] = [(2, 0), (0, 0)] :=
  ⟨(greedy_preconditions_two_valued_inference
      ⟨[⟨2, []⟩, ⟨3, []⟩, ⟨2, []⟩], [], [0, 0, 0], []⟩
      (Landmark.new [⟨0, 1⟩, ⟨1, 1⟩, ⟨2, 1⟩] true false false)
      ⟨[⟨2, 0⟩], [⟨[], ⟨0, 1⟩⟩, ⟨[], ⟨1, 1⟩⟩, ⟨[], ⟨2, 1⟩⟩], 1⟩ 0).1
      (by decide) ⟨⟨[], ⟨0, 1⟩⟩, by decide, rfl⟩ (by decide) ⟨⟨0, 1⟩, by decide, rfl, by decide⟩,
   ((greedy_preconditions_two_valued_inference
      ⟨[⟨2, []⟩, ⟨3, []⟩, ⟨2, []⟩], [], [0, 0, 0], []⟩
      (Landmark.new [⟨0, 1⟩, ⟨1, 1⟩, ⟨2, 1⟩] true false false)
      ⟨[⟨2, 0⟩], [⟨[], ⟨0, 1⟩⟩, ⟨[], ⟨1, 1⟩⟩, ⟨[], ⟨2, 1⟩⟩], 1⟩ 1).2
      (Or.inr (by decide))).2,
   by decide⟩

/-! ## The run depends on the oracle only through its answers -/

lemma foldl_congr_mem {α β : Type} (l : List β) (f g : α → β → α)
    (h : ∀ b ∈ l, ∀ a, f a b = g a b) : ∀ init, l.foldl f init = l.foldl g init := by
  induction l with
  | nil => intro init; rfl
  | cons b bs ih =>
    intro init
    rw [List.foldl_cons, List.foldl_cons, h b (List.mem_cons_self _ _)]
    exact ih (fun x hx => h x (List.mem_cons_of_mem _ hx)) _

lemma get_operator_mem {task : Task} {id : Nat} (h : id < task.operators.length) :
    ( get_operator_or_axiom task id) ∈ task.operators := by
  unfold get_operator_or_axiom
  rw [List.getD_eq_getElem _ _ h]
  exact List.getElem_mem _

lemma shared_pre_operators_congr (task : Task) (pr pr' : ReachOracle) (lvl lvl' : LvlVar)
    (landmark : Landmark) (ids : List Nat)
    (h : ∀ id ∈ ids, pr ( get_operator_or_axiom task id) lvl landmark =
      pr' ( get_operator_or_axiom task id) lvl' landmark) :
    ∀ st : Bool × IntMap,
    shared_pre_operators task pr lvl landmark ids st =
      shared_pre_operators task pr' lvl' landmark ids st := by
  induction ids with
  | nil => intro st; rw [shared_pre_operators, shared_pre_operators]
  | cons x xs ih =>
    rintro ⟨init, sp⟩
    rw [shared_pre_operators_cons, shared_pre_operators_cons, h x (List.mem_cons_self _ _),
      ih (fun y hy => h y (List.mem_cons_of_mem _ hy)),
      ih (fun y hy => h y (List.mem_cons_of_mem _ hy))]

lemma compute_shared_preconditions_congr (task : Task) (pr pr' : ReachOracle)
    (lvl lvl' : LvlVar) (landmark : Landmark) (sp : IntMap)
    (h : ∀ op ∈ task.operators, (∃ e ∈ op.effects, e.fact ∈ landmark.facts) →
      pr op lvl landmark = pr' op lvl' landmark) :
    compute_shared_preconditions task pr sp lvl landmark =
      compute_shared_preconditions task pr' sp lvl' landmark := by
  unfold compute_shared_preconditions
  congr 1
  apply foldl_congr_mem
  intro fact hfact st
  apply shared_pre_operators_congr
  intro id hid
  obtain ⟨hlt, e, he, hef⟩ := (mem_get_operators_including_eff task fact id).mp hid
  exact h _ (get_operator_mem hlt) ⟨e, he, hef ▸ hfact⟩

lemma min_cost_for_landmark_congr (task : Task) (pr pr' : ReachOracle)
    (lvl lvl' : LvlVar) (landmark : Landmark)
    (h : ∀ op ∈ task.operators, (∃ e ∈ op.effects, e.fact ∈ landmark.facts) →
      pr op lvl landmark = pr' op lvl' landmark) :
    min_cost_for_landmark task pr landmark lvl =
      min_cost_for_landmark task pr' landmark lvl' := by
  unfold min_cost_for_landmark
  apply foldl_congr_mem
  intro fact hfact c
  apply foldl_congr_mem
  intro id hid c'
  obtain ⟨hlt, e, he, hef⟩ := (mem_get_operators_including_eff task fact id).mp hid
  rw [h _ (get_operator_mem hlt) ⟨e, he, hef ▸ hfact⟩]

lemma disj_pre_operators_congr (task : Task) (pr pr' : ReachOracle)
    (dc : DisjunctionClasses) (g : LandmarkGraph) (lvl lvl' : LvlVar) (landmark : Landmark)
    (ids : List Nat)
    (h : ∀ id ∈ ids, pr ( get_operator_or_axiom task id) lvl landmark =
      pr' ( get_operator_or_axiom task id) lvl' landmark) :
    ∀ (i : Nat) (st : Nat × List (Int × List FactPair) × List (Int × List Nat)),
    disj_pre_operators task pr dc g lvl landmark ids i st =
      disj_pre_operators task pr' dc g lvl' landmark ids i st := by
  induction ids with
  | nil => intro i st; rw [disj_pre_operators, disj_pre_operators]
  | cons x xs ih =>
    rintro i ⟨num_ops, preconditions, used_operators⟩
    rw [disj_pre_operators, disj_pre_operators, h x (List.mem_cons_self _ _),
      ih (fun y hy => h y (List.mem_cons_of_mem _ hy)),
      ih (fun y hy => h y (List.mem_cons_of_mem _ hy))]

lemma compute_disjunctive_preconditions_congr (task : Task) (pr pr' : ReachOracle)
    (dc : DisjunctionClasses) (g : LandmarkGraph) (dp : List (List FactPair))
    (lvl lvl' : LvlVar) (landmark : Landmark)
    (h : ∀ op ∈ task.operators, (∃ e ∈ op.effects, e.fact ∈ landmark.facts) →
      pr op lvl landmark = pr' op lvl' landmark) :
    compute_disjunctive_preconditions task pr dc g dp lvl landmark =
      compute_disjunctive_preconditions task pr' dc g dp lvl' landmark := by
  unfold compute_disjunctive_preconditions
  rw [disj_pre_operators_congr task pr pr' dc g lvl lvl' landmark]
  intro id hid
  obtain ⟨hlt, e, he, hef⟩ := (mem_achiever_ids task landmark id).mp hid
  exact h _ (get_operator_mem hlt) ⟨e, he, hef⟩

lemma mem_all_facts (vars : List Variable) (f : FactPair) :
    f ∈ all_facts vars ↔ f.var < vars.length ∧ f.value < get_domain_size vars f.var := by
  unfold all_facts
  simp only [List.mem_flatMap, List.mem_range, List.mem_map]
  constructor
  · rintro ⟨v, hv, d, hd, rfl⟩
    exact ⟨hv, hd⟩
  · rintro ⟨hv, hd⟩
    exact ⟨f.var, hv, f.value, hd, rfl⟩

lemma find_forward_orders_congr (task : Task) (lvl lvl' : LvlVar)
    (fo : List (Nat × List FactPair)) (lmp : Nat) (landmark : Landmark)
    (h : same_unreached task.vars lvl lvl') :
    find_forward_orders task lvl fo lmp landmark =
      find_forward_orders task lvl' fo lmp landmark := by
  unfold find_forward_orders
  apply foldl_congr_mem
  intro fact hfact acc
  by_cases hl : lvl_var_get lvl fact.var fact.value = INT_MAX
  · have hl' := (h fact hfact).mp hl
    simp only [hl, hl', ne_eq, not_true_eq_false, if_false]
  · have hl' : ¬ lvl_var_get lvl' fact.var fact.value = INT_MAX :=
      fun hc => hl ((h fact hfact).mpr hc)
    simp only [hl, hl', ne_eq, not_false_eq_true, if_true]

lemma approximate_lookahead_orders_congr (task : Task) (dtg : DtgSuccessors)
    (lvl lvl' : LvlVar) (st : FactoryState) (lmp : Nat)
    (h : same_unreached task.vars lvl lvl') :
    approximate_lookahead_orders task dtg lvl st lmp =
      approximate_lookahead_orders task dtg lvl' st lmp := by
  unfold approximate_lookahead_orders
  cases st.lm_graph.get_node lmp with
  | none => rfl
  | some node =>
    simp only []
    rw [find_forward_orders_congr task lvl lvl' _ _ _ h]
    have hfilter : ∀ lmk : FactPair,
        (List.range (get_domain_size task.vars lmk.var)).filter (fun value =>
          decide (lvl_var_get lvl lmk.var value = INT_MAX) && decide (lmk.value ≠ value)) =
        (List.range (get_domain_size task.vars lmk.var)).filter (fun value =>
          decide (lvl_var_get lvl' lmk.var value = INT_MAX) && decide (lmk.value ≠ value)) := by
      intro lmk
      apply List.filter_congr
      intro value hvalue
      rw [List.mem_range] at hvalue
      have hv : lmk.var < task.vars.length := by
        by_contra hc
        unfold get_domain_size at hvalue
        rw [List.getD_eq_default _ _ (by omega)] at hvalue
        simp at hvalue
      have := h ⟨lmk.var, value⟩ ((mem_all_facts _ _).mpr ⟨hv, hvalue⟩)
      simp only [this]
    rw [hfilter]

lemma generate_relaxed_landmarks_step_congr (task : Task) (o o' : LevelOracle)
    (pr pr' : ReachOracle) (dtg : DtgSuccessors) (dc : DisjunctionClasses)
    (st : FactoryState)
    (h : ∀ L, processed_landmark task st = some L → oracles_agree task o o' pr pr' L) :
    generate_relaxed_landmarks_step task o pr dtg dc st =
      generate_relaxed_landmarks_step task o' pr' dtg dc st := by
  unfold generate_relaxed_landmarks_step
  unfold processed_landmark at h
  cases hopen : st.open_landmarks with
  | nil => rfl
  | cons bp rest =>
    rw [hopen] at h
    simp only [] at h ⊢
    cases hnode : st.lm_graph.get_node bp with
    | none => rfl
    | some node =>
      rw [hnode] at h
      simp only [] at h ⊢
      by_cases htrue : node.landmark.is_true_in_state task.initial_state = true
      · simp only [htrue, if_true]
      · simp only [htrue, if_false] at h ⊢
        obtain ⟨hlvl, hpr⟩ := h node.landmark rfl
        have hpr0 : ∀ op ∈ task.operators, (∃ e ∈ op.effects, e.fact ∈ node.landmark.facts) →
            pr op (o node.landmark) node.landmark =
              pr' op (o' node.landmark) node.landmark :=
          fun op hop he => hpr op hop he node.landmark.cost
        rw [compute_shared_preconditions_congr task pr pr' _ _ _ _ hpr0,
          approximate_lookahead_orders_congr task dtg _ _ _ _ hlvl,
          min_cost_for_landmark_congr task pr pr' _ _ _ hpr0]
        cases approximate_lookahead_orders task dtg (o' node.landmark)
            ((compute_shared_preconditions task pr' [] (o' node.landmark)
              node.landmark).foldl
              (fun st pre =>
                found_simple_lm_and_order st ⟨pre.1, pre.2⟩ bp EdgeType.GREEDY_NECESSARY)
              { st with open_landmarks := rest }) bp with
        | none => rfl
        | some st1 =>
          simp only []
          rw [compute_disjunctive_preconditions_congr task pr pr' dc _ []
            (o node.landmark) (o' node.landmark)
            { node.landmark with
              cost := min_cost_for_landmark task pr' node.landmark (o' node.landmark) }
            (fun op hop he => hpr op hop he _)]

lemma generate_relaxed_landmarks_loop_congr (task : Task) (o o' : LevelOracle)
    (pr pr' : ReachOracle) (dtg : DtgSuccessors) (dc : DisjunctionClasses) (n : Nat) :
    ∀ (st : FactoryState),
    (∀ k < n, ∀ L, (generate_relaxed_landmarks_iterate task o' pr' dtg dc k st).bind
        (processed_landmark task) = some L → oracles_agree task o o' pr pr' L) →
    generate_relaxed_landmarks_loop task o pr dtg dc n st =
      generate_relaxed_landmarks_loop task o' pr' dtg dc n st := by
  induction n with
  | zero => intro st _; rfl
  | succ n ih =>
    intro st h
    rw [generate_relaxed_landmarks_loop, generate_relaxed_landmarks_loop]
    split
    · rfl
    · rw [generate_relaxed_landmarks_step_congr task o o' pr pr' dtg dc st
        (fun L hL => h 0 (Nat.succ_pos n) L (by
          rw [generate_relaxed_landmarks_iterate]; exact hL))]
      cases hstep : generate_relaxed_landmarks_step task o' pr' dtg dc st with
      | none => rfl
      | some st1 =>
        simp only []
        apply ih
        intro k hk L hL
        apply h (k + 1) (Nat.succ_lt_succ hk) L
        rw [generate_relaxed_landmarks_iterate, hstep]
        exact hL

/-- The result of `generate_relaxed_landmarks` is the same for two oracles that
agree on every landmark that the run with the second oracle backchains from. -/
lemma generate_relaxed_landmarks_congr (task : Task) (options : FactoryOptions)
    (o o' : LevelOracle) (pr pr' : ReachOracle) (f : LandmarkGraph → LandmarkGraph)
    (n : Nat)
    (h : ∀ dc, build_disjunction_classes task = Except.ok dc → ∀ k < n, ∀ L,
      (generate_relaxed_landmarks_iterate task o' pr' (build_dtg_successors task) dc k
        (generate_relaxed_landmarks_seed task FactoryState.empty)).bind
        (processed_landmark task) = some L → oracles_agree task o o' pr pr' L) :
    generate_relaxed_landmarks task options o pr f n =
      generate_relaxed_landmarks task options o' pr' f n := by
  unfold generate_relaxed_landmarks
  simp only []
  cases hb : build_disjunction_classes task with
  | error e => rfl
  | ok dc =>
    simp only []
    rw [generate_relaxed_landmarks_loop_congr task o o' pr pr' _ dc n _ (h dc hb)]

lemma generate_relaxed_landmarks_loop_mono (task : Task) (o : LevelOracle)
    (pr : ReachOracle) (dtg : DtgSuccessors) (dc : DisjunctionClasses) (n : Nat) :
    ∀ (st r : FactoryState) (m : Nat), n ≤ m →
    generate_relaxed_landmarks_loop task o pr dtg dc n st = some r →
    generate_relaxed_landmarks_loop task o pr dtg dc m st = some r := by
  induction n with
  | zero =>
    intro st r m _ h
    rw [generate_relaxed_landmarks_loop] at h
    cases m with
    | zero => rw [generate_relaxed_landmarks_loop]; exact h
    | succ m =>
      rw [generate_relaxed_landmarks_loop]
      split at h
      · rename_i he
        rw [if_pos he]
        exact h
      · cases h
  | succ n ih =>
    intro st r m hm h
    obtain ⟨m', rfl⟩ : ∃ m', m = m' + 1 := ⟨m - 1, by omega⟩
    rw [generate_relaxed_landmarks_loop] at h ⊢
    split
    · rename_i he
      rw [if_pos he] at h
      exact h
    · rename_i he
      rw [if_neg he] at h
      cases hstep : generate_relaxed_landmarks_step task o pr dtg dc st with
      | none => rw [hstep] at h; cases h
      | some st1 =>
        rw [hstep] at h
        exact ih st1 r m' (by omega) h

/-- More fuel does not change the graph that `generate_relaxed_landmarks`
computes. -/
lemma generate_relaxed_landmarks_fuel_mono (task : Task) (options : FactoryOptions)
    (o : LevelOracle) (pr : ReachOracle) (f : LandmarkGraph → LandmarkGraph)
    (n m : Nat) (hnm : n ≤ m) (g : LandmarkGraph)
    (h : generated_graph (generate_relaxed_landmarks task options o pr f n) = some g) :
    generated_graph (generate_relaxed_landmarks task options o pr f m) = some g := by
  unfold generate_relaxed_landmarks at h ⊢
  simp only [] at h ⊢
  cases hb : build_disjunction_classes task with
  | error e => rw [hb] at h; cases h
  | ok dc =>
    rw [hb] at h
    simp only [] at h ⊢
    cases hl : generate_relaxed_landmarks_loop task o pr (build_dtg_successors task) dc n
        (generate_relaxed_landmarks_seed task FactoryState.empty) with
    | none => rw [hl] at h; cases h
    | some st =>
      rw [hl] at h
      rw [generate_relaxed_landmarks_loop_mono task o pr _ dc n _ st m hnm hl]
      exact h

/-! ## Landmarks that hold in the initial state -/

lemma found_disj_scan_eq_none (task : Task) (g : LandmarkGraph) (a : List FactPair)
    (h : found_disj_scan task g a = none) :
    ∀ f ∈ a, initial_value task.initial_state f.var ≠ f.value ∧
      g.contains_simple_landmark f = false := by
  induction a with
  | nil => intro f hf; simp at hf
  | cons x xs ih =>
    unfold found_disj_scan at h
    split at h
    · cases h
    · rename_i h1
      split at h
      · cases h
      · rename_i h2
        intro f hf
        rcases List.mem_cons.mp hf with hf | hf
        · rw [hf]
          exact ⟨h1, by simpa using h2⟩
        · exact ih h f hf

lemma add_landmark_node_landmarks (g : LandmarkGraph) (lm : Landmark) :
    (g.add_landmark lm).1.node_landmarks = g.node_landmarks ++ [(g.next_id, lm)] := by
  simp [LandmarkGraph.node_landmarks, LandmarkGraph.add_landmark]

lemma contains_simple_add_landmark_self (g : LandmarkGraph) (f : FactPair) :
    (g.add_landmark (Landmark.new [f] false false false)).1.contains_simple_landmark f =
      true := by
  rw [contains_simple_iff]
  refine ⟨⟨g.next_id, Landmark.new [f] false false false, [], []⟩, ?_, ?_, ?_⟩
  · simp [LandmarkGraph.add_landmark]
  · rfl
  · simp [Landmark.new]

lemma contains_simple_found_simple (st : FactoryState) (f : FactPair) (b : Nat)
    (t : EdgeType) :
    (found_simple_lm_and_order st f b t).lm_graph.contains_simple_landmark f = true := by
  unfold found_simple_lm_and_order
  cases hs : st.lm_graph.get_simple_landmark f with
  | some n =>
    simp only []
    rw [contains_simple_edge_add]
    unfold LandmarkGraph.contains_simple_landmark
    rw [hs]
    rfl
  | none =>
    simp only []
    cases hd : st.lm_graph.get_disjunctive_landmark f with
    | some d =>
      simp only []
      rw [contains_simple_fold, contains_simple_edge_add]
      exact contains_simple_add_landmark_self _ f
    | none =>
      simp only []
      rw [contains_simple_edge_add]
      exact contains_simple_add_landmark_self _ f

/-- C17 (counterexample): in scenario 1 the fact `y = 1` holds in the initial
state and is a shared precondition of the goal landmark `x = 1`; the call
`found_simple_lm_and_order(y = 1, node 0, GREEDY_NECESSARY)` that the first
iteration of the worklist loop makes on the seeded graph adds a node holding the
landmark `y = 1`. -/
theorem found_simple_lm_and_order_adds_initial_fact :
    initial_value scenario1.initial_state 1 = 1 ∧
    compute_shared_preconditions scenario1 (fun _ _ _ => true) []
      (scenario_levels false true true false) landmark_x1 = [(1, 1), (0, 0)] ∧
    (generate_relaxed_landmarks_seed scenario1 FactoryState.empty).lm_graph.node_landmarks =
      [(0, landmark_x1)] ∧
    (found_simple_lm_and_order
      { generate_relaxed_landmarks_seed scenario1 FactoryState.empty with
        open_landmarks := [] }
      ⟨1, 1⟩ 0 EdgeType.GREEDY_NECESSARY).lm_graph.node_landmarks =
      [(0, landmark_x1), (1, landmark_y1)] := by
  decide

/-- C17 (amended): `found_disj_lm_and_order` adds a node only when no fact of `A`
holds in the initial state (the node then holds the disjunctive landmark `A`);
`found_simple_lm_and_order` makes no test on the initial state : after the call
the fact is a simple landmark of the graph in every case, and a fact that is in no
landmark gets a new node; the test for a landmark that holds in the initial state
is made when its node is taken from the worklist, and then the iteration only
removes the node from the worklist. -/
theorem landmark_nodes_and_initial_state (task : Task) (st : FactoryState) :
    (∀ a b t,
      (found_disj_lm_and_order task st a b t).lm_graph.node_landmarks ≠
        st.lm_graph.node_landmarks →
      (∀ f ∈ a, initial_value task.initial_state f.var ≠ f.value) ∧
      (found_disj_lm_and_order task st a b t).lm_graph.node_landmarks =
        st.lm_graph.node_landmarks ++
          [(st.lm_graph.next_id, ⟨a, true, false, false, INT_MAX⟩)]) ∧
    (∀ f b t,
      (found_simple_lm_and_order st f b t).lm_graph.contains_simple_landmark f = true) ∧
    (∀ f b t, st.lm_graph.contains_simple_landmark f = false →
      st.lm_graph.contains_disjunctive_landmark f = false →
      (found_simple_lm_and_order st f b t).lm_graph.node_landmarks =
        st.lm_graph.node_landmarks ++
          [(st.lm_graph.next_id, ⟨[f], false, false, false, INT_MAX⟩)]) ∧
    (∀ o pr dtg dc bp rest node, st.open_landmarks = bp :: rest →
      st.lm_graph.get_node bp = some node →
      node.landmark.is_true_in_state task.initial_state = true →
      generate_relaxed_landmarks_step task o pr dtg dc st =
        some { st with open_landmarks := rest }) := by
  refine ⟨?_, contains_simple_found_simple st, ?_, ?_⟩
  · intro a b t hne
    unfold found_disj_lm_and_order at hne ⊢
    cases hscan : found_disj_scan task st.lm_graph a with
    | some r => rw [hscan] at hne; exact absurd rfl hne
    | none =>
      rw [hscan] at hne
      simp only [] at hne ⊢
      refine ⟨fun f hf => (found_disj_scan_eq_none task st.lm_graph a hscan f hf).1, ?_⟩
      by_cases hover : st.lm_graph.contains_overlapping_disjunctive_landmark a = true
      · exfalso
        apply hne
        simp only [hover, if_true]
        split
        · split
          · exact edge_add_node_landmarks _ _ _ _
          · rfl
        · rfl
      · simp only [hover, Bool.false_eq_true, if_false]
        rw [edge_add_node_landmarks, add_landmark_node_landmarks]
        rfl
  · intro f b t hs hd
    have hs' : st.lm_graph.get_simple_landmark f = none := by
      unfold LandmarkGraph.contains_simple_landmark at hs
      cases h : st.lm_graph.get_simple_landmark f with
      | none => rfl
      | some n => rw [h] at hs; cases hs
    have hd' : st.lm_graph.get_disjunctive_landmark f = none := by
      unfold LandmarkGraph.contains_disjunctive_landmark at hd
      cases h : st.lm_graph.get_disjunctive_landmark f with
      | none => rfl
      | some n => rw [h] at hd; cases hd
    unfold found_simple_lm_and_order
    rw [hs']
    simp only [hd']
    rw [edge_add_node_landmarks, add_landmark_node_landmarks]
    rfl
  · intro o pr dtg dc bp rest node hopen hnode htrue
    unfold generate_relaxed_landmarks_step
    rw [hopen]
    simp only [hnode, htrue, if_true]

/-! ## The end-to-end scenarios -/

lemma generate_relaxed_landmarks_causal_off (task : Task) (options : FactoryOptions)
    (o : LevelOracle) (pr : ReachOracle) (f f' : LandmarkGraph → LandmarkGraph) (n : Nat)
    (h : options.only_causal_landmarks = false) :
    generate_relaxed_landmarks task options o pr f n =
      generate_relaxed_landmarks task options o pr f' n := by
  unfold generate_relaxed_landmarks
  simp only [h, Bool.false_eq_true, if_false]

lemma lvl_scenario_levels (x0 x1 y0 y1 : Bool) :
    (lvl_var_get (scenario_levels x0 x1 y0 y1) 0 0 = INT_MAX ↔ x0 = true) ∧
    (lvl_var_get (scenario_levels x0 x1 y0 y1) 0 1 = INT_MAX ↔ x1 = true) ∧
    (lvl_var_get (scenario_levels x0 x1 y0 y1) 1 0 = INT_MAX ↔ y0 = true) ∧
    (lvl_var_get (scenario_levels x0 x1 y0 y1) 1 1 = INT_MAX ↔ y1 = true) := by
  cases x0 <;> cases x1 <;> cases y0 <;> cases y1 <;> decide

lemma same_unreached_scenario_levels (lvl : LvlVar) (x0 x1 y0 y1 : Bool)
    (h00 : lvl_var_get lvl 0 0 = INT_MAX ↔ x0 = true)
    (h01 : lvl_var_get lvl 0 1 = INT_MAX ↔ x1 = true)
    (h10 : lvl_var_get lvl 1 0 = INT_MAX ↔ y0 = true)
    (h11 : lvl_var_get lvl 1 1 = INT_MAX ↔ y1 = true) :
    same_unreached scenario_vars lvl (scenario_levels x0 x1 y0 y1) := by
  obtain ⟨g00, g01, g10, g11⟩ := lvl_scenario_levels x0 x1 y0 y1
  intro f hf
  have hall : all_facts scenario_vars = [⟨0, 0⟩, ⟨0, 1⟩, ⟨1, 0⟩, ⟨1, 1⟩] := by decide
  rw [hall] at hf
  simp only [List.mem_cons, List.mem_singleton, List.not_mem_nil, or_false] at hf
  rcases hf with rfl | rfl | rfl | rfl
  · exact h00.trans g00.symm
  · exact h01.trans g01.symm
  · exact h10.trans g10.symm
  · exact h11.trans g11.symm

set_option maxRecDepth 100000 in
lemma scenario1_run : ∀ x1 y0 : Bool,
    generated_graph (generate_relaxed_landmarks scenario1 all_filters_off
      (fun _ => scenario_levels false x1 y0 false) scenario_reaches id 3) =
      some scenario1_graph := by
  decide

set_option maxRecDepth 100000 in
lemma scenario1_processed : ∀ x1 y0 : Bool, ∀ k < 3,
    (generate_relaxed_landmarks_iterate scenario1
      (fun _ => scenario_levels false x1 y0 false) scenario_reaches
      (build_dtg_successors scenario1) [[0, 0], [1, 1]] k
      (generate_relaxed_landmarks_seed scenario1 FactoryState.empty)).bind
      (processed_landmark scenario1) = if k = 0 then some landmark_x1 else none := by
  decide

lemma scenario_classes :
    build_disjunction_classes scenario1 = Except.ok [[0, 0], [1, 1]] ∧
    build_disjunction_classes scenario2 = Except.ok [[0, 0], [1, 1]] :=
  ⟨rfl, rfl⟩

/-- C18 (counterexample): in scenario 1, with the levels of the relaxed planning
graph (`x = 0` and `y = 1` at level 0, `x = 1` and `y = 0` not reached) and the
operator possibly reaching `x = 1`, `generate_relaxed_landmarks` with all filters
off produces a graph with three landmark nodes : `y = 1` is a simple landmark of
it, and the goal landmark `x = 1` has the predecessors `y = 1` and `x = 0`. -/
theorem scenario1_graph_has_three_landmarks :
    generated_graph (generate_relaxed_landmarks scenario1 all_filters_off scenario1_levels
      scenario_reaches id 3) = some scenario1_graph ∧
    scenario1_graph.nodes.length = 3 ∧
    scenario1_graph.contains_simple_landmark ⟨1, 1⟩ = true ∧
    (scenario1_graph.get_simple_landmark ⟨0, 1⟩).map (fun n => n.parents) =
      some [(1, EdgeType.GREEDY_NECESSARY), (2, EdgeType.GREEDY_NECESSARY)] := by
  decide

/-- C18 (amended): in scenario 1, for every oracle that gives a finite level to
the facts `x = 0` and `y = 1` (they hold initially) and for which the operator
possibly reaches the landmark `x = 1`, `generate_relaxed_landmarks` with all
filters off (and fuel for at least three iterations) produces the graph
`scenario1_graph` : the goal landmark `x = 1` with cost 1, and the simple
landmarks `y = 1` and `x = 0`, each ordered GREEDY_NECESSARY before `x = 1`. -/
theorem scenario1_landmarks (o : LevelOracle) (pr : ReachOracle)
    (f : LandmarkGraph → LandmarkGraph) (fuel : Nat) (hfuel : 3 ≤ fuel)
    (hx0 : lvl_var_get (o landmark_x1) 0 0 ≠ INT_MAX)
    (hy1 : lvl_var_get (o landmark_x1) 1 1 ≠ INT_MAX)
    (hpr : ∀ c, pr scenario_op_x (o landmark_x1) { landmark_x1 with cost := c } = true) :
    generated_graph (generate_relaxed_landmarks scenario1 all_filters_off o pr f fuel) =
      some scenario1_graph := by
  apply generate_relaxed_landmarks_fuel_mono _ _ _ _ _ 3 fuel hfuel
  have key : ∀ x1 y0 : Bool,
      (lvl_var_get (o landmark_x1) 0 1 = INT_MAX ↔ x1 = true) →
      (lvl_var_get (o landmark_x1) 1 0 = INT_MAX ↔ y0 = true) →
      generated_graph (generate_relaxed_landmarks scenario1 all_filters_off o pr f 3) =
        some scenario1_graph := by
    intro x1 y0 h1 h2
    rw [generate_relaxed_landmarks_congr scenario1 all_filters_off o
      (fun _ => scenario_levels false x1 y0 false) pr scenario_reaches f 3,
      generate_relaxed_landmarks_causal_off _ _ _ _ f id 3 rfl]
    · exact scenario1_run x1 y0
    · intro dc hdc k hk L hL
      rw [scenario_classes.1] at hdc
      cases hdc
      rw [scenario1_processed x1 y0 k hk] at hL
      split at hL
      · cases hL
        refine ⟨same_unreached_scenario_levels _ _ _ _ _ ?_ h1 h2 ?_, ?_⟩
        · simp [hx0]
        · simp [hy1]
        · intro op hop _ c
          have : op = scenario_op_x := by simpa [scenario1] using hop
          rw [this]
          exact hpr c
      · cases hL
  exact key (decide (lvl_var_get (o landmark_x1) 0 1 = INT_MAX))
    (decide (lvl_var_get (o landmark_x1) 1 0 = INT_MAX)) (by simp) (by simp)

/-- C18 (witness): the levels of the relaxed planning graph of scenario 1 in which
the landmark is not left out (`x = 1` at level 1) satisfy the hypotheses. -/
theorem scenario1_landmarks_witness :
    lvl_var_get [[0, 1], [INT_MAX, 0]] 0 0 ≠ INT_MAX ∧
    lvl_var_get [[0, 1], [INT_MAX, 0]] 1 1 ≠ INT_MAX ∧
    generated_graph (generate_relaxed_landmarks scenario1 all_filters_off
      (fun _ => [[0, 1], [INT_MAX, 0]]) scenario_reaches id 5) = some scenario1_graph :=
  ⟨by decide, by decide,
   scenario1_landmarks (fun _ => [[0, 1], [INT_MAX, 0]]) scenario_reaches id 5 (by decide)
     (by decide) (by decide) (fun _ => rfl)⟩

set_option maxRecDepth 100000 in
lemma scenario2_run : ∀ a b c : Bool,
    generated_graph (generate_relaxed_landmarks scenario2 all_filters_off
      (fun landmark =>
        if landmark.facts = [⟨0, 1⟩] then scenario_levels false a false false
        else scenario_levels false b false c) scenario_reaches id 4) =
      some scenario2_graph := by
  decide

set_option maxRecDepth 100000 in
lemma scenario2_processed : ∀ a b c : Bool, ∀ k < 4,
    (generate_relaxed_landmarks_iterate scenario2
      (fun landmark =>
        if landmark.facts = [⟨0, 1⟩] then scenario_levels false a false false
        else scenario_levels false b false c) scenario_reaches
      (build_dtg_successors scenario2) [[0, 0], [1, 1]] k
      (generate_relaxed_landmarks_seed scenario2 FactoryState.empty)).bind
      (processed_landmark scenario2) =
      if k = 0 then some landmark_x1 else if k = 1 then some landmark_y1 else none := by
  decide

/-- C19 (counterexample): in scenario 2, with the unreached facts of the relaxed
planning graph and both operators possibly reaching the landmark they achieve,
`generate_relaxed_landmarks` with all filters off produces a graph with four
landmark nodes : besides `x = 1` (cost 1) and `y = 1` (cost 2) with the edge
`y = 1 → x = 1`, the facts `x = 0` and `y = 0`, which hold initially, are simple
landmarks of it. -/
theorem scenario2_graph_has_four_landmarks :
    generated_graph (generate_relaxed_landmarks scenario2 all_filters_off scenario2_levels
      scenario_reaches id 4) = some scenario2_graph ∧
    scenario2_graph.node_landmarks.map (fun p => (p.2.facts, p.2.cost)) =
      [([⟨0, 1⟩], 1), ([⟨1, 1⟩], 2), ([⟨0, 0⟩], INT_MAX), ([⟨1, 0⟩], INT_MAX)] ∧
    scenario2_graph.contains_simple_landmark ⟨0, 0⟩ = true ∧
    scenario2_graph.contains_simple_landmark ⟨1, 0⟩ = true ∧
    scenario2_graph.child_edge 1 0 = some EdgeType.GREEDY_NECESSARY := by
  decide

/-- C19 (amended): in scenario 2, for every oracle that gives a finite level to
`x = 0`, `y = 0` and `y = 1` when backchaining from `x = 1`, and to `x = 0` and
`y = 0` when backchaining from `y = 1`, and for which each operator possibly
reaches the landmark it achieves, `generate_relaxed_landmarks` with all filters
off (and fuel for at least four iterations) produces the graph `scenario2_graph` :
the landmarks are `x = 1` with cost 1, `y = 1` with cost 2, and the facts `x = 0`
and `y = 0` of the initial state, with the GREEDY_NECESSARY edges `y = 1 → x = 1`,
`x = 0 → x = 1` and `y = 0 → y = 1`. -/
theorem scenario2_landmarks (o : LevelOracle) (pr : ReachOracle)
    (f : LandmarkGraph → LandmarkGraph) (fuel : Nat) (hfuel : 4 ≤ fuel)
    (hx0 : lvl_var_get (o landmark_x1) 0 0 ≠ INT_MAX)
    (hy0 : lvl_var_get (o landmark_x1) 1 0 ≠ INT_MAX)
    (hy1 : lvl_var_get (o landmark_x1) 1 1 ≠ INT_MAX)
    (hx0' : lvl_var_get (o landmark_y1) 0 0 ≠ INT_MAX)
    (hy0' : lvl_var_get (o landmark_y1) 1 0 ≠ INT_MAX)
    (hprx : ∀ c, pr scenario_op_x (o landmark_x1) { landmark_x1 with cost := c } = true)
    (hpry : ∀ c, pr scenario_op_y (o landmark_y1) { landmark_y1 with cost := c } = true) :
    generated_graph (generate_relaxed_landmarks scenario2 all_filters_off o pr f fuel) =
      some scenario2_graph := by
  apply generate_relaxed_landmarks_fuel_mono _ _ _ _ _ 4 fuel hfuel
  have key : ∀ a b c : Bool,
      (lvl_var_get (o landmark_x1) 0 1 = INT_MAX ↔ a = true) →
      (lvl_var_get (o landmark_y1) 0 1 = INT_MAX ↔ b = true) →
      (lvl_var_get (o landmark_y1) 1 1 = INT_MAX ↔ c = true) →
      generated_graph (generate_relaxed_landmarks scenario2 all_filters_off o pr f 4) =
        some scenario2_graph := by
    intro a b c ha hb hc
    rw [generate_relaxed_landmarks_congr scenario2 all_filters_off o
      (fun landmark =>
        if landmark.facts = [⟨0, 1⟩] then scenario_levels false a false false
        else scenario_levels false b false c) pr scenario_reaches f 4,
      generate_relaxed_landmarks_causal_off _ _ _ _ f id 4 rfl]
    · exact scenario2_run a b c
    · intro dc hdc k hk L hL
      rw [scenario_classes.2] at hdc
      cases hdc
      rw [scenario2_processed a b c k hk] at hL
      split at hL
      · cases hL
        refine ⟨same_unreached_scenario_levels _ _ _ _ _ ?_ ha ?_ ?_, ?_⟩
        · simp [hx0]
        · simp [hy0]
        · simp [hy1]
        · intro op hop he c'
          have hop' : op = scenario_op_x ∨ op = scenario_op_y := by
            simpa [scenario2] using hop
          rcases hop' with rfl | rfl
          · exact hprx c'
          · obtain ⟨e, he1, he2⟩ := he
            have : e = ⟨[], ⟨1, 1⟩⟩ := by simpa [scenario_op_y] using he1
            rw [this] at he2
            exact absurd he2 (by decide)
      · split at hL
        · cases hL
          refine ⟨same_unreached_scenario_levels _ _ _ _ _ ?_ hb ?_ hc, ?_⟩
          · simp [hx0']
          · simp [hy0']
          · intro op hop he c'
            have hop' : op = scenario_op_x ∨ op = scenario_op_y := by
              simpa [scenario2] using hop
            rcases hop' with rfl | rfl
            · obtain ⟨e, he1, he2⟩ := he
              have : e = ⟨[], ⟨0, 1⟩⟩ := by simpa [scenario_op_x] using he1
              rw [this] at he2
              exact absurd he2 (by decide)
            · exact hpry c'
        · cases hL
  exact key (decide (lvl_var_get (o landmark_x1) 0 1 = INT_MAX))
    (decide (lvl_var_get (o landmark_y1) 0 1 = INT_MAX))
    (decide (lvl_var_get (o landmark_y1) 1 1 = INT_MAX)) (by simp) (by simp) (by simp)

/-- C19 (witness): the levels of the relaxed planning graph of scenario 2 in which
the landmark is not left out (`y = 1` at level 1, `x = 1` at level 2) satisfy the
hypotheses. -/
theorem scenario2_landmarks_witness :
    lvl_var_get [[0, 2], [0, 1]] 1 1 ≠ INT_MAX ∧
    generated_graph (generate_relaxed_landmarks scenario2 all_filters_off
      (fun _ => [[0, 2], [0, 1]]) scenario_reaches id 6) = some scenario2_graph :=
  ⟨by decide,
   scenario2_landmarks (fun _ => [[0, 2], [0, 1]]) scenario_reaches id 6 (by decide)
     (by decide) (by decide) (by decide) (by decide) (by decide) (fun _ => rfl)
     (fun _ => rfl)⟩

/-! ## Predicate classes : `build_disjunction_classes` -/

lemma indexOf_append_of_not_mem (a : Char) (p l : List Char) (h : a ∉ p) :
    (p ++ a :: l).indexOf a = p.length := by
  induction p with
  | nil => simp
  | cons x xs ih =>
    have hx : x ≠ a := fun hc => h (hc ▸ List.mem_cons_self _ _)
    have hxs : a ∉ xs := fun hc => h (List.mem_cons_of_mem _ hc)
    rw [List.cons_append, List.indexOf_cons_ne _ hx, ih hxs]
    rfl

lemma find_paren_of_name (pre p args : List Char) (h : '(' ∉ p) :
    find_paren (pre ++ (p ++ '(' :: args)) pre.length = some (pre.length + p.length) := by
  unfold find_paren
  rw [List.drop_left, indexOf_append_of_not_mem _ _ _ h]
  simp

lemma get_predicate_of_name (vars : List Variable) (var value : Nat) (p : List Char)
    (h : has_predicate_name (fact_name vars var value) p) :
    get_predicate_for_fact vars var value = Except.ok (String.mk p) := by
  obtain ⟨hp, args, hname | hname⟩ := h
  · unfold fact_name at hname
    unfold get_predicate_for_fact
    simp only [hname]
    have h1 : ¬ (['A', 't', 'o', 'm', ' '] ++ (p ++ '(' :: args) = "<none of those>".data) := by
      intro hc
      have := congrArg List.head? hc
      simp at this
    have h2 : (['A', 't', 'o', 'm', ' '] ++ (p ++ '(' :: args)).take 5 = "Atom ".data := by
      rfl
    rw [if_neg h1, if_pos h2]
    have h3 := find_paren_of_name ['A', 't', 'o', 'm', ' '] p args hp
    simp only [List.length_cons, List.length_nil] at h3
    rw [h3]
    simp
  · unfold fact_name at hname
    unfold get_predicate_for_fact
    simp only [hname]
    have h1 : ¬ (['N', 'e', 'g', 'a', 't', 'e', 'd', 'A', 't', 'o', 'm', ' '] ++
        (p ++ '(' :: args) = "<none of those>".data) := by
      intro hc
      have := congrArg List.head? hc
      simp at this
    have h2 : ¬ ((['N', 'e', 'g', 'a', 't', 'e', 'd', 'A', 't', 'o', 'm', ' '] ++
        (p ++ '(' :: args)).take 5 = "Atom ".data) := by
      intro hc
      have : ['N', 'e', 'g', 'a', 't'] = "Atom ".data := hc
      exact absurd this (by decide)
    have h2' : (['N', 'e', 'g', 'a', 't', 'e', 'd', 'A', 't', 'o', 'm', ' '] ++
        (p ++ '(' :: args)).take 12 = "NegatedAtom ".data := by
      rfl
    rw [if_neg h1, if_neg h2, if_pos h2']
    have h3 := find_paren_of_name ['N', 'e', 'g', 'a', 't', 'e', 'd', 'A', 't', 'o', 'm', ' ']
      p args hp
    simp only [List.length_cons, List.length_nil] at h3
    rw [h3]
    simp

lemma predicate_index_insert_spec (idx : List (String × Int)) (p : String)
    (h : PredicateIndexInv idx) :
    PredicateIndexInv (predicate_index_insert idx p).1 ∧
    (∀ e ∈ idx, e ∈ (predicate_index_insert idx p).1) ∧
    (p, (predicate_index_insert idx p).2) ∈ (predicate_index_insert idx p).1 := by
  unfold predicate_index_insert
  cases hf : idx.find? (fun e => e.1 == p) with
  | some e =>
    simp only []
    refine ⟨h, fun e he => he, ?_⟩
    have hm := List.mem_of_find?_eq_some hf
    have hp := List.find?_some hf
    have he : e.1 = p := by simpa using hp
    rw [← he]
    exact hm
  | none =>
    simp only []
    refine ⟨⟨?_, ?_⟩, fun e he => List.mem_append_left _ he, by simp⟩
    · rw [List.map_append, List.nodup_append]
      refine ⟨h.1, by simp, ?_⟩
      intro a ha hb
      rw [List.map_cons, List.map_nil, List.mem_singleton] at hb
      rw [List.find?_eq_none] at hf
      obtain ⟨e, he, hea⟩ := List.mem_map.mp ha
      exact hf e he (by simp [hea, hb])
    · rw [List.map_append, h.2, List.length_append, List.length_singleton, List.range_succ,
        List.map_append]
      rfl

lemma classified_mono {idx idx' : List (String × Int)} {vars : List Variable} {v d : Nat}
    {c : Int} (hsub : ∀ e ∈ idx, e ∈ idx') (h : Classified idx vars v d c) :
    Classified idx' vars v d c := by
  obtain ⟨p, hp, h1, h2⟩ := h
  exact ⟨p, hp, h1, fun hne => hsub _ (h2 hne)⟩

lemma build_disjunction_classes_values_spec (vars : List Variable) (v : Nat) :
    ∀ (values : List Nat) (idx : List (String × Int)) (row : List Int)
      (idx' : List (String × Int)) (row' : List Int),
    PredicateIndexInv idx →
    build_disjunction_classes_values vars v values (idx, row) = Except.ok (idx', row') →
    PredicateIndexInv idx' ∧ (∀ e ∈ idx, e ∈ idx') ∧
    ∃ cs : List Int, row' = row ++ cs ∧ cs.length = values.length ∧
      ∀ j, j < values.length → Classified idx' vars v (values.getD j 0) (cs.getD j (-1)) := by
  intro values
  induction values with
  | nil =>
    intro idx row idx' row' hinv h
    rw [build_disjunction_classes_values] at h
    cases h
    exact ⟨hinv, fun e he => he, [], by simp, rfl, fun j hj => by simp at hj⟩
  | cons value rest ih =>
    intro idx row idx' row' hinv h
    rw [build_disjunction_classes_values] at h
    cases hp : get_predicate_for_fact vars v value with
    | error e => rw [hp] at h; cases h
    | ok predicate =>
      rw [hp] at h
      simp only [] at h
      by_cases hempty : predicate.data.isEmpty = true
      · rw [if_pos hempty] at h
        obtain ⟨hinv', hsub, cs, hrow, hlen, hcs⟩ := ih idx (row ++ [-1]) idx' row' hinv h
        refine ⟨hinv', hsub, -1 :: cs, by rw [hrow]; simp, by simp [hlen], ?_⟩
        intro j hj
        cases j with
        | zero =>
          refine ⟨predicate, hp, fun _ => rfl, fun hne => ?_⟩
          exact absurd (List.isEmpty_iff.mp hempty) hne
        | succ j =>
          simp only [List.getD_cons_succ]
          exact hcs j (by simpa using hj)
      · rw [if_neg hempty] at h
        obtain ⟨hinv1, hsub1, hmem1⟩ := predicate_index_insert_spec idx predicate hinv
        obtain ⟨hinv', hsub, cs, hrow, hlen, hcs⟩ := ih _ _ idx' row' hinv1 h
        refine ⟨hinv', fun e he => hsub e (hsub1 e he),
          (predicate_index_insert idx predicate).2 :: cs, by rw [hrow]; simp,
          by simp [hlen], ?_⟩
        intro j hj
        cases j with
        | zero =>
          refine ⟨predicate, hp, fun he => ?_, fun _ => hsub _ hmem1⟩
          exact absurd (List.isEmpty_iff.mpr he) hempty
        | succ j =>
          simp only [List.getD_cons_succ]
          exact hcs j (by simpa using hj)

lemma build_disjunction_classes_vars_spec (vars : List Variable) :
    ∀ (var_ids : List Nat) (idx : List (String × Int)) (classes : DisjunctionClasses)
      (idx' : List (String × Int)) (classes' : DisjunctionClasses),
    var_ids.Nodup → PredicateIndexInv idx →
    (∀ v ∈ var_ids, v < classes.length ∧ classes.getD v [] = []) →
    build_disjunction_classes_vars vars var_ids (idx, classes) = Except.ok (idx', classes') →
    PredicateIndexInv idx' ∧ (∀ e ∈ idx, e ∈ idx') ∧ classes'.length = classes.length ∧
    (∀ v, v ∉ var_ids → classes'.getD v [] = classes.getD v []) ∧
    (∀ v ∈ var_ids, ∀ d, d < get_domain_size vars v →
      Classified idx' vars v d (disjunction_class classes' v d)) := by
  intro var_ids
  induction var_ids with
  | nil =>
    intro idx classes idx' classes' _ hinv _ h
    rw [build_disjunction_classes_vars] at h
    cases h
    exact ⟨hinv, fun e he => he, rfl, fun v _ => rfl, fun v hv => by simp at hv⟩
  | cons var_id rest ih =>
    intro idx classes idx' classes' hnd hinv hrows h
    rw [build_disjunction_classes_vars] at h
    rw [List.nodup_cons] at hnd
    obtain ⟨hlt, hrow0⟩ := hrows var_id (List.mem_cons_self _ _)
    cases hvals : build_disjunction_classes_values vars var_id
        (List.range (get_domain_size vars var_id)) (idx, classes.getD var_id []) with
    | error e => rw [hvals] at h; cases h
    | ok r =>
      obtain ⟨idx1, row1⟩ := r
      rw [hvals] at h
      simp only [] at h
      obtain ⟨hinv1, hsub1, cs, hrow, hlen, hcs⟩ :=
        build_disjunction_classes_values_spec vars var_id _ idx _ idx1 row1 hinv hvals
      rw [hrow0, List.nil_append] at hrow
      subst hrow
      have hrows1 : ∀ v ∈ rest, v < (classes.set var_id row1).length ∧
          (classes.set var_id row1).getD v [] = [] := by
        intro v hv
        have hne : ¬ var_id = v := fun hc => hnd.1 (hc ▸ hv)
        obtain ⟨h1, h2⟩ := hrows v (List.mem_cons_of_mem _ hv)
        refine ⟨by simpa using h1, ?_⟩
        rw [getD_set_eq]
        simp only [hne, false_and, if_false]
        exact h2
      obtain ⟨hinv', hsub, hlen', hother, hcls⟩ :=
        ih idx1 (classes.set var_id row1) idx' classes' hnd.2 hinv1 hrows1 h
      refine ⟨hinv', fun e he => hsub e (hsub1 e he), by simpa using hlen', ?_, ?_⟩
      · intro v hv
        have hne : ¬ var_id = v := fun hc => hv (hc ▸ List.mem_cons_self _ _)
        rw [hother v (fun hc => hv (List.mem_cons_of_mem _ hc)), getD_set_eq]
        simp only [hne, false_and, if_false]
      · intro v hv d hd
        rcases List.mem_cons.mp hv with hv | hv
        · subst hv
          have hrow : classes'.getD v [] = row1 := by
            rw [hother v hnd.1, getD_set_eq]
            simp [hlt]
          unfold disjunction_class
          rw [hrow]
          have := hcs d (by simpa using hd)
          rw [List.getD_eq_getElem _ _ (by simpa using hd), List.getElem_range] at this
          exact classified_mono hsub this
        · exact hcls v hv d hd

/-- The class table of `build_disjunction_classes` : there is a map from
predicates to indices `0, 1, 2, ...` such that every fact of the task has the
class `-1` when its predicate is empty and the index of its predicate otherwise. -/
lemma build_disjunction_classes_spec (task : Task) (dc : DisjunctionClasses)
    (h : build_disjunction_classes task = Except.ok dc) :
    ∃ idx, PredicateIndexInv idx ∧
      ∀ v, v < task.vars.length → ∀ d, d < get_domain_size task.vars v →
        Classified idx task.vars v d (disjunction_class dc v d) := by
  unfold build_disjunction_classes at h
  cases hv : build_disjunction_classes_vars task.vars (List.range task.vars.length)
      ([], List.replicate task.vars.length []) with
  | error e => rw [hv] at h; cases h
  | ok r =>
    obtain ⟨idx', classes'⟩ := r
    rw [hv] at h
    cases h
    obtain ⟨hinv, _, _, _, hcls⟩ :=
      build_disjunction_classes_vars_spec task.vars _ [] _ idx' classes'
        (List.nodup_range _) ⟨List.nodup_nil, rfl⟩
        (fun v hv => by
          rw [List.mem_range] at hv
          refine ⟨by simpa using hv, ?_⟩
          rw [List.getD_eq_getElem _ _ (by simpa using hv)]
          simp) hv
    exact ⟨idx', hinv, fun v hv d hd => hcls v (List.mem_range.mpr hv) d hd⟩

lemma predicate_index_class {idx : List (String × Int)} (h : PredicateIndexInv idx)
    {p p' : String} {c c' : Int} (hp : (p, c) ∈ idx) (hp' : (p', c') ∈ idx) :
    (c = c' ↔ p = p') ∧ c ≠ -1 := by
  have hsnd : (idx.map Prod.snd).Nodup := by
    rw [h.2]
    exact (List.nodup_range _).map (fun a b hab => Int.ofNat.inj hab)
  refine ⟨⟨fun hc => ?_, fun hc => ?_⟩, ?_⟩
  · have := List.inj_on_of_nodup_map hsnd hp hp' hc
    exact congrArg Prod.fst this
  · have := List.inj_on_of_nodup_map h.1 hp hp' hc
    exact congrArg Prod.snd this
  · have hc : c ∈ idx.map Prod.snd := List.mem_map.mpr ⟨(p, c), hp, rfl⟩
    rw [h.2, List.mem_map] at hc
    obtain ⟨i, _, hi⟩ := hc
    rw [← hi]
    intro hneg
    cases hneg

/-- C20: when `build_disjunction_classes` returns the class table, two facts of
the task whose names have the form `Atom p(...)` or `NegatedAtom p(...)` with
non-empty predicate names `p` and `p'` (the text between the marker prefix and the
first `'('` after it) have the same class if and only if `p = p'`, and their class
is not `-1`. -/
theorem build_disjunction_classes_same_predicate (task : Task) (dc : DisjunctionClasses)
    (hb : build_disjunction_classes task = Except.ok dc)
    (v d v' d' : Nat) (p p' : List Char)
    (hv : v < task.vars.length) (hd : d < get_domain_size task.vars v)
    (hv' : v' < task.vars.length) (hd' : d' < get_domain_size task.vars v')
    (hp : has_predicate_name (fact_name task.vars v d) p) (hne : p ≠ [])
    (hp' : has_predicate_name (fact_name task.vars v' d') p') (hne' : p' ≠ []) :
    (disjunction_class dc v d = disjunction_class dc v' d' ↔ p = p') ∧
    disjunction_class dc v d ≠ -1 ∧ disjunction_class dc v' d' ≠ -1 := by
  obtain ⟨idx, hinv, hcls⟩ := build_disjunction_classes_spec task dc hb
  obtain ⟨q, hq, _, hq2⟩ := hcls v hv d hd
  obtain ⟨q', hq', _, hq2'⟩ := hcls v' hv' d' hd'
  rw [get_predicate_of_name task.vars v d p hp] at hq
  rw [get_predicate_of_name task.vars v' d' p' hp'] at hq'
  cases hq
  cases hq'
  have h1 := hq2 hne
  have h2 := hq2' hne'
  obtain ⟨hiff, hneg⟩ := predicate_index_class hinv h1 h2
  obtain ⟨_, hneg'⟩ := predicate_index_class hinv h2 h1
  refine ⟨hiff.trans ?_, hneg, hneg'⟩
  constructor
  · intro h
    exact congrArg String.data h
  · intro h
    rw [h]

/-- C20 (witness): in the sample task the facts `Atom p(a)` and `NegatedAtom p(b)`
share the class 0, which is not `-1`. -/
theorem build_disjunction_classes_same_predicate_witness :
    build_disjunction_classes sample_named_task = Except.ok [[0, 0], [1, -1]] ∧
    ((disjunction_class [[0, 0], [1, -1]] 0 0 = disjunction_class [[0, 0], [1, -1]] 0 1 ↔
        ['p'] = ['p']) ∧
      disjunction_class [[0, 0], [1, -1]] 0 0 ≠ -1 ∧
      disjunction_class [[0, 0], [1, -1]] 0 1 ≠ -1) :=
  ⟨rfl,
   build_disjunction_classes_same_predicate sample_named_task [[0, 0], [1, -1]] rfl
     0 0 0 1 ['p'] ['p'] (by decide) (by decide) (by decide) (by decide)
     ⟨by decide, ['a', ')'], Or.inl rfl⟩ (by decide)
     ⟨by decide, ['b', ')'], Or.inr rfl⟩ (by decide)⟩

/-! ## Fact names that cannot be parsed -/

lemma find_paren_eq_none (name : List Char) (pos : Nat) (h : '(' ∉ name.drop pos) :
    find_paren name pos = none := by
  unfold find_paren
  rw [if_neg]
  intro hc
  exact h (List.indexOf_lt_length.mp hc)

lemma get_predicate_none_of_those (vars : List Variable) (var value : Nat)
    (h : fact_name vars var value = "<none of those>".data) :
    get_predicate_for_fact vars var value = Except.ok "" := by
  unfold fact_name at h
  unfold get_predicate_for_fact
  simp only [h, if_true]

lemma get_predicate_error_of_unmarked (vars : List Variable) (var value : Nat)
    (h0 : fact_name vars var value ≠ "<none of those>".data)
    (h1 : (fact_name vars var value).take 5 ≠ "Atom ".data)
    (h2 : (fact_name vars var value).take 12 ≠ "NegatedAtom ".data) :
    get_predicate_for_fact vars var value = Except.error ExitCode.SEARCH_INPUT_ERROR := by
  unfold fact_name at h0 h1 h2
  unfold get_predicate_for_fact
  simp only [h0, h1, h2, if_false]
  cases find_paren ((vars.getD var ⟨0, []⟩).fact_names.getD value "").data 0 with
  | none => rfl
  | some k => simp

lemma get_predicate_error_of_no_paren (vars : List Variable) (var value : Nat)
    (h0 : fact_name vars var value ≠ "<none of those>".data)
    (h : ∀ pos, '(' ∉ (fact_name vars var value).drop pos) :
    get_predicate_for_fact vars var value = Except.error ExitCode.SEARCH_INPUT_ERROR := by
  unfold fact_name at h0 h
  unfold get_predicate_for_fact
  simp only [h0, if_false]
  rw [find_paren_eq_none _ _ (h _)]

lemma build_error_of_fact (task : Task) (v d : Nat) (hv : v < task.vars.length)
    (hd : d < get_domain_size task.vars v) (e : ExitCode)
    (h : get_predicate_for_fact task.vars v d = Except.error e) :
    build_disjunction_classes task = Except.error ExitCode.SEARCH_INPUT_ERROR := by
  cases hb : build_disjunction_classes task with
  | error e' => cases e'; rfl
  | ok dc =>
    obtain ⟨idx, _, hcls⟩ := build_disjunction_classes_spec task dc hb
    obtain ⟨p, hp, _⟩ := hcls v hv d hd
    rw [h] at hp
    cases hp

/-- C21 (counterexample): in the sample task the fact named `foo(a)` has no
marker prefix and the fact named `bar` has neither marker prefix nor parenthesis;
`get_predicate_for_fact` fails for both with the input error, and
`build_disjunction_classes` returns the error instead of a class table, so the
third fact `Atom p(a)` is not classified. -/
theorem build_disjunction_classes_aborts_on_unmarked :
    get_predicate_for_fact sample_unmarked_task.vars 0 0 =
      Except.error ExitCode.SEARCH_INPUT_ERROR ∧
    get_predicate_for_fact sample_unmarked_task.vars 0 1 =
      Except.error ExitCode.SEARCH_INPUT_ERROR ∧
    get_predicate_for_fact sample_unmarked_task.vars 0 2 = Except.ok "p" ∧
    build_disjunction_classes sample_unmarked_task =
      Except.error ExitCode.SEARCH_INPUT_ERROR :=
  ⟨rfl, rfl, rfl, rfl⟩

/-- C21 (amended): a fact whose name is not `<none of those>` and that does not
start with a marker prefix (`Atom ` or `NegatedAtom `), or has no `'('`, makes
`get_predicate_for_fact` fail with the input error, and when it is a fact of the
task `build_disjunction_classes` produces no class table; the name
`<none of those>` gives the empty predicate and, when the table is produced, the
class `-1`. -/
theorem unparsable_fact_aborts (task : Task) (v d : Nat) :
    (fact_name task.vars v d ≠ "<none of those>".data →
      (((fact_name task.vars v d).take 5 ≠ "Atom ".data ∧
          (fact_name task.vars v d).take 12 ≠ "NegatedAtom ".data) ∨
        '(' ∉ fact_name task.vars v d) →
      get_predicate_for_fact task.vars v d = Except.error ExitCode.SEARCH_INPUT_ERROR ∧
      (v < task.vars.length → d < get_domain_size task.vars v →
        build_disjunction_classes task = Except.error ExitCode.SEARCH_INPUT_ERROR)) ∧
    (fact_name task.vars v d = "<none of those>".data →
      get_predicate_for_fact task.vars v d = Except.ok "" ∧
      ∀ dc, build_disjunction_classes task = Except.ok dc → v < task.vars.length →
        d < get_domain_size task.vars v → disjunction_class dc v d = -1) := by
  constructor
  · intro h0 h
    have herr : get_predicate_for_fact task.vars v d =
        Except.error ExitCode.SEARCH_INPUT_ERROR := by
      rcases h with ⟨h1, h2⟩ | h
      · exact get_predicate_error_of_unmarked task.vars v d h0 h1 h2
      · exact get_predicate_error_of_no_paren task.vars v d h0
          (fun pos hc => h (List.mem_of_mem_drop hc))
    exact ⟨herr, fun hv hd => build_error_of_fact task v d hv hd _ herr⟩
  · intro h
    have hok := get_predicate_none_of_those task.vars v d h
    refine ⟨hok, fun dc hb hv hd => ?_⟩
    obtain ⟨idx, _, hcls⟩ := build_disjunction_classes_spec task dc hb
    obtain ⟨p, hp, hp1, _⟩ := hcls v hv d hd
    rw [hok] at hp
    cases hp
    exact hp1 rfl

lemma get_predicate_error_of_marker (vars : List Variable) (var value : Nat)
    (rest : List Char) (hm : has_marker (fact_name vars var value) rest)
    (h : '(' ∉ rest) :
    get_predicate_for_fact vars var value = Except.error ExitCode.SEARCH_INPUT_ERROR := by
  rcases hm with hname | hname
  · unfold fact_name at hname
    unfold get_predicate_for_fact
    simp only [hname]
    have h1 : ¬ (['A', 't', 'o', 'm', ' '] ++ rest = "<none of those>".data) := by
      intro hc
      have := congrArg List.head? hc
      simp at this
    have h2 : (['A', 't', 'o', 'm', ' '] ++ rest).take 5 = "Atom ".data := rfl
    rw [if_neg h1, if_pos h2, find_paren_eq_none]
    exact h
  · unfold fact_name at hname
    unfold get_predicate_for_fact
    simp only [hname]
    have h1 : ¬ (['N', 'e', 'g', 'a', 't', 'e', 'd', 'A', 't', 'o', 'm', ' '] ++ rest =
        "<none of those>".data) := by
      intro hc
      have := congrArg List.head? hc
      simp at this
    have h2 : ¬ ((['N', 'e', 'g', 'a', 't', 'e', 'd', 'A', 't', 'o', 'm', ' '] ++ rest).take 5 =
        "Atom ".data) := by
      intro hc
      have : ['N', 'e', 'g', 'a', 't'] = "Atom ".data := hc
      exact absurd this (by decide)
    have h2' : (['N', 'e', 'g', 'a', 't', 'e', 'd', 'A', 't', 'o', 'm', ' '] ++ rest).take 12 =
        "NegatedAtom ".data := rfl
    rw [if_neg h1, if_neg h2, if_pos h2', find_paren_eq_none]
    exact h

/-- C22: a fact name that starts with the marker prefix `Atom ` or `NegatedAtom `
and has no `'('` after the prefix makes `get_predicate_for_fact` fail with
`SEARCH_INPUT_ERROR`, and `build_disjunction_classes` then returns that error
instead of a class table when the fact is a fact of the task; when there is a
`'('` after the prefix, `get_predicate_for_fact` returns the text between the
prefix and the first `'('`. -/
theorem get_predicate_for_fact_marked (task : Task) (v d : Nat) (rest : List Char)
    (hm : has_marker (fact_name task.vars v d) rest) :
    ('(' ∉ rest →
      get_predicate_for_fact task.vars v d = Except.error ExitCode.SEARCH_INPUT_ERROR ∧
      (v < task.vars.length → d < get_domain_size task.vars v →
        build_disjunction_classes task = Except.error ExitCode.SEARCH_INPUT_ERROR)) ∧
    ('(' ∈ rest →
      ∃ p args, rest = p ++ '(' :: args ∧ '(' ∉ p ∧
        get_predicate_for_fact task.vars v d = Except.ok (String.mk p)) := by
  constructor
  · intro h
    have herr := get_predicate_error_of_marker task.vars v d rest hm h
    exact ⟨herr, fun hv hd => build_error_of_fact task v d hv hd _ herr⟩
  · intro h
    obtain ⟨p, args, hrest, hp⟩ := List.eq_append_cons_of_mem h
    refine ⟨p, args, hrest, hp, ?_⟩
    apply get_predicate_of_name
    refine ⟨hp, args, ?_⟩
    rcases hm with hname | hname
    · exact Or.inl (by rw [hname, hrest])
    · exact Or.inr (by rw [hname, hrest])

/-- C22 (witness): in the sample task the name `Atom p` has the marker prefix and
no `'('` : the function fails and no class table is produced; for the name
`NegatedAtom q(a)` the function returns a predicate. -/
theorem get_predicate_for_fact_marked_witness :
    (get_predicate_for_fact sample_marked_task.vars 0 0 =
        Except.error ExitCode.SEARCH_INPUT_ERROR ∧
      (0 < sample_marked_task.vars.length → 0 < get_domain_size sample_marked_task.vars 0 →
        build_disjunction_classes sample_marked_task =
          Except.error ExitCode.SEARCH_INPUT_ERROR)) ∧
    (∃ p args, ['q', '(', 'a', ')'] = p ++ '(' :: args ∧ '(' ∉ p ∧
      get_predicate_for_fact sample_marked_task.vars 0 1 = Except.ok (String.mk p)) :=
  ⟨(get_predicate_for_fact_marked sample_marked_task 0 0 ['p'] (Or.inl rfl)).1 (by decide),
   (get_predicate_for_fact_marked sample_marked_task 0 1 ['q', '(', 'a', ')']
      (Or.inr rfl)).2 (by decide)⟩

/-! ## The cost of a landmark without achiever -/

lemma foldl_const_id {α β : Type} (l : List β) (a : α) :
    l.foldl (fun m _ => m) a = a := by
  induction l with
  | nil => rfl
  | cons b bs ih => rw [List.foldl_cons]; exact ih

/-- C25: when no operator of the task with an effect on a fact of the landmark
satisfies `_possibly_reaches_lm`, `min_cost_for_landmark` (assertions disabled)
returns `INT_MAX` : the cost is the marker of an unknown cost, not the cost of an
operator. -/
theorem min_cost_for_landmark_no_achiever (task : Task) (pr : ReachOracle)
    (landmark : Landmark) (lvl_var : LvlVar)
    (h : ∀ op ∈ task.operators, (∃ e ∈ op.effects, e.fact ∈ landmark.facts) →
      pr op lvl_var landmark = false) :
    min_cost_for_landmark task pr landmark lvl_var = INT_MAX := by
  rw [min_cost_for_landmark_congr task pr (fun _ _ _ => false) lvl_var lvl_var landmark h]
  unfold min_cost_for_landmark
  simp only [Bool.false_eq_true, if_false]
  have : ∀ (facts : List FactPair) (m : Int),
      facts.foldl (fun min_cost lm_fact =>
        (get_operators_including_eff task lm_fact).foldl (fun min_cost _ => min_cost)
          min_cost) m = m := by
    intro facts
    induction facts with
    | nil => intro m; rfl
    | cons f fs ih =>
      intro m
      rw [List.foldl_cons, foldl_const_id]
      exact ih m
  exact this _ _

/-- C25 (witness): in scenario 1 with an oracle for which the operator does not
possibly reach `x = 1`, the cost of the landmark `x = 1` is `INT_MAX`, while the
only operator with an effect on it has the cost 1. -/
theorem min_cost_for_landmark_no_achiever_witness :
    min_cost_for_landmark scenario1 (fun _ _ _ => false) landmark_x1
      (scenario_levels false true true true) = INT_MAX ∧
    get_operators_including_eff scenario1 ⟨0, 1⟩ = [0] ∧
    ( get_operator_or_axiom scenario1 0).cost = 1 :=
  ⟨min_cost_for_landmark_no_achiever scenario1 (fun _ _ _ => false) landmark_x1
      (scenario_levels false true true true) (fun _ _ _ => rfl),
   by decide, by decide⟩

/-! ## No self-transition in the domain transition graphs -/

lemma dtg_get_eq_nil_of_shape (dtg : DtgSuccessors) (v pre : Nat)
    (h : ¬ pre < (dtg_shape dtg).getD v 0) : dtg_get dtg v pre = [] := by
  rw [getD_map_length] at h
  unfold dtg_get
  exact List.getD_eq_default _ _ (by omega)

/-- C26: after `build_dtg_successors`, no value `d` of a variable `v` is a member
of `dtg_successors[v][d]`, whatever the operators of the task are. -/
theorem build_dtg_successors_no_self_transition (task : Task) (v d : Nat) :
    d ∉ dtg_get (build_dtg_successors task) v d := by
  unfold build_dtg_successors
  obtain ⟨hs, hm⟩ := operators_fold_spec task.vars task.operators
    (task.vars.map (fun x => List.replicate x.domain_size ([] : List Nat)))
  by_cases hd : d < (dtg_shape
      (task.vars.map (fun x => List.replicate x.domain_size ([] : List Nat)))).getD v 0
  · rw [hm v d d hd, initial_dtg_get]
    rintro (h | ⟨op, _, e, _, _, hne, _⟩)
    · simp at h
    · exact hne rfl
  · rw [dtg_get_eq_nil_of_shape _ _ _ (by rw [hs]; exact hd)]
    simp

/-! ## A popped landmark that holds in the initial state -/

/-- C28: when the node `bp` at the front of the worklist holds a landmark that is
true in the initial state, the loop iteration only removes `bp` from the
worklist : the graph is unchanged (no node, no edge is added, the node `bp` stays
with its landmark and cost) and the pending forward orders are unchanged. -/
theorem generate_relaxed_landmarks_step_initial (task : Task)
    (relaxed_task_solvable : LevelOracle) (_possibly_reaches_lm : ReachOracle)
    (dtg_successors : DtgSuccessors) (disjunction_classes : DisjunctionClasses)
    (st : FactoryState) (bp : Nat) (rest : List Nat) (node : LandmarkNode)
    (hopen : st.open_landmarks = bp :: rest)
    (hnode : st.lm_graph.get_node bp = some node)
    (htrue : node.landmark.is_true_in_state task.initial_state = true) :
    ∃ st', generate_relaxed_landmarks_step task relaxed_task_solvable _possibly_reaches_lm
        dtg_successors disjunction_classes st = some st' ∧
      st'.lm_graph = st.lm_graph ∧ st'.forward_orders = st.forward_orders ∧
      st'.open_landmarks = rest ∧ st'.lm_graph.get_node bp = some node := by
  refine ⟨{ st with open_landmarks := rest }, ?_, rfl, rfl, rfl, hnode⟩
  unfold generate_relaxed_landmarks_step
  rw [hopen]
  simp only [hnode, htrue, if_true]

/-- C28 (witness): in the sample graph over the task with the initial state
`v3 = 1`, node 2 (the landmark `v3 = 1`) is at the front of the worklist and holds
initially; the iteration leaves the graph as it is. -/
theorem generate_relaxed_landmarks_step_initial_witness :
    ∃ st', generate_relaxed_landmarks_step ⟨[], [], [0, 0, 0, 1], []⟩
        (fun _ => []) (fun _ _ _ => true) [] [] ⟨sample_graph, [2, 1], []⟩ = some st' ∧
      st'.lm_graph = sample_graph ∧ st'.forward_orders = [] ∧
      st'.open_landmarks = [1] ∧
      st'.lm_graph.get_node 2 =
        some ⟨2, Landmark.new [⟨3, 1⟩] false false false, [], [(0, EdgeType.NATURAL)]⟩ :=
  generate_relaxed_landmarks_step_initial ⟨[], [], [0, 0, 0, 1], []⟩
    (fun _ => []) (fun _ _ _ => true) [] [] ⟨sample_graph, [2, 1], []⟩ 2 [1]
    ⟨2, Landmark.new [⟨3, 1⟩] false false false, [], [(0, EdgeType.NATURAL)]⟩
    rfl (by decide) (by decide)

/-! ## The size of the disjunctive precondition sets -/

lemma foldl_capped_eq_filter (task : Task) (bp : Nat) (sets : List (List FactPair)) :
    ∀ st : FactoryState,
    sets.foldl (fun st preconditions =>
      if preconditions.length < 5 then
        found_disj_lm_and_order task st preconditions bp EdgeType.GREEDY_NECESSARY
      else st) st =
    (sets.filter (fun preconditions => decide (preconditions.length < 5))).foldl
      (fun st preconditions =>
        found_disj_lm_and_order task st preconditions bp EdgeType.GREEDY_NECESSARY) st := by
  induction sets with
  | nil => intro st; rfl
  | cons s ss ih =>
    intro st
    by_cases h : s.length < 5
    · rw [List.foldl_cons, List.filter_cons_of_pos (by simpa using h), List.foldl_cons,
        if_pos h]
      exact ih _
    · rw [List.foldl_cons, List.filter_cons_of_neg (by simpa using h), if_neg h]
      exact ih _

set_option maxRecDepth 100000 in
/-- C24 (counterexample): in the sample task the two achievers of `v0 = 1` have
the greedy preconditions `{v1 = 1, v2 = 1, v3 = 1}` and `{v4 = 1, v5 = 1}`, all of
the class of the predicate `p`; `compute_disjunctive_preconditions` returns the
set of these five facts. No disjunctive landmark is made of it : the graph
computed by `generate_relaxed_landmarks` has no disjunctive node. -/
theorem compute_disjunctive_preconditions_returns_five :
    build_disjunction_classes sample_wide_task =
      Except.ok [[0, 0, 0], [-1, 1], [-1, 1], [-1, 1], [-1, 1], [-1, 1]] ∧
    compute_disjunctive_preconditions sample_wide_task (fun _ _ _ => true)
      [[0, 0, 0], [-1, 1], [-1, 1], [-1, 1], [-1, 1], [-1, 1]]
      (generate_relaxed_landmarks_seed sample_wide_task FactoryState.empty).lm_graph [] []
      (Landmark.new [⟨0, 1⟩] false false true) =
      [[⟨1, 1⟩, ⟨2, 1⟩, ⟨3, 1⟩, ⟨4, 1⟩, ⟨5, 1⟩]] ∧
    (generated_graph (generate_relaxed_landmarks sample_wide_task all_filters_off
      (fun _ => [[0, 0, 0], [0, 0], [0, 0], [0, 0], [0, 0], [0, 0]]) (fun _ _ _ => true)
      id 5)).map (fun g => g.nodes.map (fun n => (n.landmark.facts, n.landmark.disjunctive))) =
      some [([⟨0, 1⟩], false), ([⟨0, 0⟩], false)] :=
  ⟨rfl, by decide, by decide⟩

/-- C24 (amended): every fact set that `compute_disjunctive_preconditions` returns
(out-parameter initially empty) has at least 2 distinct facts, buckets with one
fact or fewer being discarded by that function; there is no upper bound in the
function. The bound is applied by the caller : the loop of
`generate_relaxed_landmarks` over the returned sets passes exactly the sets with
fewer than 5 facts to `found_disj_lm_and_order`, and after the iteration every
disjunctive landmark of the graph has at most 4 facts if this held before. -/
theorem compute_disjunctive_preconditions_sizes (task : Task) (pr : ReachOracle)
    (dc : DisjunctionClasses) :
    (∀ (g : LandmarkGraph) (lvl_var : LvlVar) (landmark : Landmark) (S : List FactPair),
      S ∈ compute_disjunctive_preconditions task pr dc g [] lvl_var landmark →
      S.Nodup ∧ 2 ≤ S.length) ∧
    (∀ (bp : Nat) (sets : List (List FactPair)) (st : FactoryState),
      sets.foldl (fun st preconditions =>
        if preconditions.length < 5 then
          found_disj_lm_and_order task st preconditions bp EdgeType.GREEDY_NECESSARY
        else st) st =
      (sets.filter (fun preconditions => decide (preconditions.length < 5))).foldl
        (fun st preconditions =>
          found_disj_lm_and_order task st preconditions bp EdgeType.GREEDY_NECESSARY) st) ∧
    (∀ (o : LevelOracle) (dtg : DtgSuccessors) (st : FactoryState),
      graph_disjunctive_well_formed dc st.lm_graph →
      ∃ st', generate_relaxed_landmarks_step task o pr dtg dc st = some st' ∧
        ∀ n ∈ st'.lm_graph.nodes, n.landmark.disjunctive = true →
          2 ≤ n.landmark.facts.length ∧ n.landmark.facts.length ≤ 4) := by
  refine ⟨?_, foldl_capped_eq_filter task, ?_⟩
  · intro g lvl_var landmark S hS
    obtain ⟨h1, h2, _⟩ := compute_disjunctive_preconditions_sets task pr dc g lvl_var landmark S hS
    exact ⟨h1, h2⟩
  · intro o dtg st hwf
    obtain ⟨st', hst', hwf'⟩ := generate_relaxed_landmarks_step_spec task o pr dtg dc st hwf
    exact ⟨st', hst', fun n hn hd => ⟨(hwf' n hn hd).2.1, (hwf' n hn hd).2.2.1⟩⟩

/-! ## Class ids in order of first occurrence -/

lemma first_occurrence_fold_spec (names : List String) : ∀ keys : List String,
    keys.Nodup →
    ∃ ext, names.foldl first_occurrence_step keys = keys ++ ext ∧
      (keys ++ ext).Nodup ∧ ∀ p, p ∈ keys ++ ext ↔ p ∈ keys ∨ p ∈ names := by
  induction names with
  | nil => intro keys h; exact ⟨[], by simp, by simpa using h, by simp⟩
  | cons a l ih =>
    intro keys h
    rw [List.foldl_cons]
    by_cases ha : a ∈ keys
    · have hs : first_occurrence_step keys a = keys := by
        unfold first_occurrence_step
        rw [if_pos ha]
      rw [hs]
      obtain ⟨ext, h1, h2, h3⟩ := ih keys h
      refine ⟨ext, h1, h2, fun p => ?_⟩
      rw [h3 p, List.mem_cons]
      constructor
      · rintro (hp | hp)
        · exact Or.inl hp
        · exact Or.inr (Or.inr hp)
      · rintro (hp | hp | hp)
        · exact Or.inl hp
        · exact Or.inl (hp ▸ ha)
        · exact Or.inr hp
    · have hs : first_occurrence_step keys a = keys ++ [a] := by
        unfold first_occurrence_step
        rw [if_neg ha]
      rw [hs]
      have hnd : (keys ++ [a]).Nodup := by
        rw [List.nodup_append]
        refine ⟨h, by simp, ?_⟩
        intro x hx hx'
        rw [List.mem_singleton] at hx'
        exact ha (hx' ▸ hx)
      obtain ⟨ext, h1, h2, h3⟩ := ih (keys ++ [a]) hnd
      refine ⟨a :: ext, by rw [h1]; simp, by simpa using h2, fun p => ?_⟩
      have := h3 p
      simp only [List.append_assoc, List.singleton_append] at this
      rw [this, List.mem_append, List.mem_singleton, List.mem_cons]
      tauto

lemma first_occurrences_nodup (names : List String) : (first_occurrences names).Nodup := by
  obtain ⟨ext, h1, h2, _⟩ := first_occurrence_fold_spec names [] List.nodup_nil
  unfold first_occurrences
  rw [h1]
  exact h2

lemma mem_first_occurrences (names : List String) (p : String) :
    p ∈ first_occurrences names ↔ p ∈ names := by
  obtain ⟨ext, h1, _, h3⟩ := first_occurrence_fold_spec names [] List.nodup_nil
  unfold first_occurrences
  rw [h1, h3 p]
  simp

lemma first_occurrences_length (names : List String) :
    (first_occurrences names).length = names.dedup.length := by
  apply List.Perm.length_eq
  rw [List.perm_ext_iff_of_nodup (first_occurrences_nodup names) (List.nodup_dedup names)]
  intro p
  rw [mem_first_occurrences, List.mem_dedup]

lemma first_occurrences_append (l1 l2 : List String) :
    ∃ ext, first_occurrences (l1 ++ l2) = first_occurrences l1 ++ ext := by
  unfold first_occurrences
  rw [List.foldl_append]
  obtain ⟨ext, h1, _⟩ := first_occurrence_fold_spec l2 (l1.foldl first_occurrence_step [])
    (first_occurrences_nodup l1)
  exact ⟨ext, h1⟩

/-- A name that occurs in a prefix of the list comes, among the distinct names
in order of first occurrence, before a name that does not occur in that prefix. -/
lemma first_occurrences_indexOf_lt (l1 l2 : List String) (p q : String) (hp : p ∈ l1)
    (hq : q ∉ l1) :
    (first_occurrences (l1 ++ l2)).indexOf p < (first_occurrences (l1 ++ l2)).indexOf q := by
  obtain ⟨ext, h⟩ := first_occurrences_append l1 l2
  rw [h, List.indexOf_append_of_mem ((mem_first_occurrences l1 p).mpr hp),
    List.indexOf_append_of_not_mem (fun hc => hq ((mem_first_occurrences l1 q).mp hc))]
  have := List.indexOf_lt_length.mpr ((mem_first_occurrences l1 p).mpr hp)
  omega

lemma predicate_index_insert_keys (idx : List (String × Int)) (p : String) :
    (predicate_index_insert idx p).1.map Prod.fst =
      first_occurrence_step (idx.map Prod.fst) p := by
  unfold predicate_index_insert first_occurrence_step
  cases hf : idx.find? (fun e => e.1 == p) with
  | some e =>
    have hm := List.mem_of_find?_eq_some hf
    have hp := List.find?_some hf
    have he : e.1 = p := by simpa using hp
    have : p ∈ idx.map Prod.fst := List.mem_map.mpr ⟨e, hm, he⟩
    simp only [this, if_true]
  | none =>
    rw [List.find?_eq_none] at hf
    have : p ∉ idx.map Prod.fst := by
      intro hc
      obtain ⟨e, he, hep⟩ := List.mem_map.mp hc
      exact hf e he (by simp [hep])
    simp only [this, if_false, List.map_append, List.map_cons, List.map_nil]

lemma build_disjunction_classes_values_keys (vars : List Variable) (v : Nat) :
    ∀ (values : List Nat) (idx : List (String × Int)) (row : List Int)
      (idx' : List (String × Int)) (row' : List Int),
    build_disjunction_classes_values vars v values (idx, row) = Except.ok (idx', row') →
    idx'.map Prod.fst =
      (values.filterMap (nonempty_predicate vars v)).foldl first_occurrence_step
        (idx.map Prod.fst) ∧
    row'.length = row.length + values.length := by
  intro values
  induction values with
  | nil =>
    intro idx row idx' row' h
    rw [build_disjunction_classes_values] at h
    cases h
    exact ⟨rfl, rfl⟩
  | cons value rest ih =>
    intro idx row idx' row' h
    rw [build_disjunction_classes_values] at h
    cases hp : get_predicate_for_fact vars v value with
    | error e => rw [hp] at h; cases h
    | ok predicate =>
      rw [hp] at h
      simp only [] at h
      by_cases hempty : predicate.data.isEmpty = true
      · rw [if_pos hempty] at h
        obtain ⟨h1, h2⟩ := ih idx (row ++ [-1]) idx' row' h
        have hn : nonempty_predicate vars v value = none := by
          unfold nonempty_predicate
          rw [hp]
          simp only [hempty, if_true]
        rw [List.filterMap_cons_none hn]
        refine ⟨h1, ?_⟩
        rw [h2]
        simp only [List.length_append, List.length_cons, List.length_nil]
        omega
      · rw [if_neg hempty] at h
        obtain ⟨h1, h2⟩ := ih _ _ idx' row' h
        have hn : nonempty_predicate vars v value = some predicate := by
          unfold nonempty_predicate
          rw [hp]
          simp only [hempty, Bool.false_eq_true, if_false]
        rw [List.filterMap_cons_some hn, List.foldl_cons, ← predicate_index_insert_keys]
        refine ⟨h1, ?_⟩
        rw [h2]
        simp only [List.length_append, List.length_cons, List.length_nil]
        omega

lemma build_disjunction_classes_vars_keys (vars : List Variable) :
    ∀ (var_ids : List Nat) (idx : List (String × Int)) (classes : DisjunctionClasses)
      (idx' : List (String × Int)) (classes' : DisjunctionClasses),
    var_ids.Nodup →
    (∀ v ∈ var_ids, v < classes.length ∧ classes.getD v [] = []) →
    build_disjunction_classes_vars vars var_ids (idx, classes) = Except.ok (idx', classes') →
    idx'.map Prod.fst =
      (var_ids.flatMap (fun var =>
        (List.range (get_domain_size vars var)).filterMap (nonempty_predicate vars var))).foldl
        first_occurrence_step (idx.map Prod.fst) ∧
    classes'.length = classes.length ∧
    (∀ v, v ∉ var_ids → classes'.getD v [] = classes.getD v []) ∧
    (∀ v ∈ var_ids, (classes'.getD v []).length = get_domain_size vars v) := by
  intro var_ids
  induction var_ids with
  | nil =>
    intro idx classes idx' classes' _ _ h
    rw [build_disjunction_classes_vars] at h
    cases h
    exact ⟨rfl, rfl, fun v _ => rfl, fun v hv => by simp at hv⟩
  | cons var_id rest ih =>
    intro idx classes idx' classes' hnd hrows h
    rw [build_disjunction_classes_vars] at h
    rw [List.nodup_cons] at hnd
    obtain ⟨hlt, hrow0⟩ := hrows var_id (List.mem_cons_self _ _)
    cases hvals : build_disjunction_classes_values vars var_id
        (List.range (get_domain_size vars var_id)) (idx, classes.getD var_id []) with
    | error e => rw [hvals] at h; cases h
    | ok r =>
      obtain ⟨idx1, row1⟩ := r
      rw [hvals] at h
      simp only [] at h
      obtain ⟨hkeys1, hlen1⟩ :=
        build_disjunction_classes_values_keys vars var_id _ idx _ idx1 row1 hvals
      rw [hrow0] at hlen1
      simp only [List.length_nil, List.length_range, Nat.zero_add] at hlen1
      have hrows1 : ∀ v ∈ rest, v < (classes.set var_id row1).length ∧
          (classes.set var_id row1).getD v [] = [] := by
        intro v hv
        have hne : ¬ var_id = v := fun hc => hnd.1 (hc ▸ hv)
        obtain ⟨h1, h2⟩ := hrows v (List.mem_cons_of_mem _ hv)
        refine ⟨by simpa using h1, ?_⟩
        rw [getD_set_eq]
        simp only [hne, false_and, if_false]
        exact h2
      obtain ⟨hkeys, hlen', hother, hrowlen⟩ :=
        ih idx1 (classes.set var_id row1) idx' classes' hnd.2 hrows1 h
      refine ⟨?_, by simpa using hlen', ?_, ?_⟩
      · rw [hkeys, hkeys1, List.flatMap_cons, List.foldl_append]
      · intro v hv
        have hne : ¬ var_id = v := fun hc => hv (hc ▸ List.mem_cons_self _ _)
        rw [hother v (fun hc => hv (List.mem_cons_of_mem _ hc)), getD_set_eq]
        simp only [hne, false_and, if_false]
      · intro v hv
        rcases List.mem_cons.mp hv with hv | hv
        · subst hv
          rw [hother v hnd.1, getD_set_eq]
          simp only [hlt, and_self, if_true]
          exact hlen1
        · exact hrowlen v hv

lemma predicate_index_position : ∀ (idx : List (String × Int)) (off : Nat),
    (idx.map Prod.fst).Nodup →
    idx.map Prod.snd = (List.range' off idx.length).map Int.ofNat →
    ∀ p c, (p, c) ∈ idx → c = Int.ofNat (off + (idx.map Prod.fst).indexOf p) := by
  intro idx
  induction idx with
  | nil => intro off _ _ p c h; simp at h
  | cons e es ih =>
    intro off hnd hsnd p c h
    simp only [List.map_cons, List.length_cons, List.range'_succ, List.cons.injEq] at hsnd
    rw [List.map_cons, List.nodup_cons] at hnd
    rcases List.mem_cons.mp h with h | h
    · subst h
      simp only [List.map_cons, List.indexOf_cons_self, Nat.add_zero]
      exact hsnd.1
    · have hne : e.1 ≠ p := by
        intro hc
        exact hnd.1 (List.mem_map.mpr ⟨(p, c), h, hc.symm⟩)
      have := ih (off + 1) hnd.2 hsnd.2 p c h
      rw [this, List.map_cons, List.indexOf_cons_ne _ hne]
      congr 1
      omega

lemma predicate_index_class_eq {idx : List (String × Int)} (h : PredicateIndexInv idx)
    {p : String} {c : Int} (hp : (p, c) ∈ idx) :
    c = Int.ofNat ((idx.map Prod.fst).indexOf p) := by
  have := predicate_index_position idx 0 h.1
    (by rw [h.2, List.range_eq_range']) p c hp
  simpa using this

lemma nonempty_predicate_eq_some {vars : List Variable} {v d : Nat} {p : String}
    (h : nonempty_predicate vars v d = some p) :
    get_predicate_for_fact vars v d = Except.ok p ∧ p.data ≠ [] := by
  unfold nonempty_predicate at h
  cases hp : get_predicate_for_fact vars v d with
  | error e => rw [hp] at h; cases h
  | ok q =>
    rw [hp] at h
    simp only [] at h
    split at h
    · cases h
    · rename_i hne
      cases h
      exact ⟨rfl, fun hc => hne (List.isEmpty_iff.mpr hc)⟩

lemma mem_scanned_predicates (vars : List Variable) (p : String) :
    p ∈ scanned_predicates vars ↔
      ∃ v d, v < vars.length ∧ d < get_domain_size vars v ∧
        nonempty_predicate vars v d = some p := by
  unfold scanned_predicates
  simp only [List.mem_flatMap, List.mem_range, List.mem_filterMap]
  constructor
  · rintro ⟨v, hv, d, hd, h⟩
    exact ⟨v, d, hv, hd, h⟩
  · rintro ⟨v, d, hv, hd, h⟩
    exact ⟨v, hv, d, hd, h⟩

/-- The class table of `build_disjunction_classes` with the final map
`predicate_to_index` : its keys are the distinct non-empty predicates in order of
first occurrence in the scan, its values their positions, the table has one row
per variable with one entry per value, and every fact is classified with that
map. -/
lemma build_disjunction_classes_full (task : Task) (dc : DisjunctionClasses)
    (h : build_disjunction_classes task = Except.ok dc) :
    ∃ idx, PredicateIndexInv idx ∧
      idx.map Prod.fst = first_occurrences (scanned_predicates task.vars) ∧
      dc.length = task.vars.length ∧
      (∀ v, v < task.vars.length → (dc.getD v []).length = get_domain_size task.vars v) ∧
      ∀ v, v < task.vars.length → ∀ d, d < get_domain_size task.vars v →
        Classified idx task.vars v d (disjunction_class dc v d) := by
  unfold build_disjunction_classes at h
  cases hv : build_disjunction_classes_vars task.vars (List.range task.vars.length)
      ([], List.replicate task.vars.length []) with
  | error e => rw [hv] at h; cases h
  | ok r =>
    obtain ⟨idx', classes'⟩ := r
    rw [hv] at h
    cases h
    have hrows : ∀ v ∈ List.range task.vars.length,
        v < (List.replicate task.vars.length ([] : List Int)).length ∧
        (List.replicate task.vars.length ([] : List Int)).getD v [] = [] := by
      intro v hv
      rw [List.mem_range] at hv
      refine ⟨by simpa using hv, ?_⟩
      rw [List.getD_eq_getElem _ _ (by simpa using hv)]
      simp
    obtain ⟨hinv, _, _, _, hcls⟩ :=
      build_disjunction_classes_vars_spec task.vars _ [] _ idx' classes'
        (List.nodup_range _) ⟨List.nodup_nil, rfl⟩ hrows hv
    obtain ⟨hkeys, hlen, _, hrowlen⟩ :=
      build_disjunction_classes_vars_keys task.vars _ [] _ idx' classes'
        (List.nodup_range _) hrows hv
    refine ⟨idx', hinv, hkeys, by simpa using hlen,
      fun v hv => hrowlen v (List.mem_range.mpr hv),
      fun v hv d hd => hcls v (List.mem_range.mpr hv) d hd⟩

/-- C23: when `build_disjunction_classes` returns the class table, (1) the table
has one row per variable and the row of `v` has exactly domain-size(`v`) entries;
(2) the class of a fact is `-1` or lies in `0, ..., k-1`, where `k` is the number
of distinct non-empty predicate names of the task; (3) each of `0, ..., k-1` is
the class of some fact; (4) ids follow the order of first occurrence in the scan
by increasing variable and value : if the scanned predicate names split into
`l1 ++ l2` with `p` in `l1` and `q` not in `l1`, a fact with predicate `p` has a
smaller class than a fact with predicate `q`. -/
theorem build_disjunction_classes_ids (task : Task) (dc : DisjunctionClasses)
    (hb : build_disjunction_classes task = Except.ok dc) :
    (dc.length = task.vars.length ∧
      ∀ v, v < task.vars.length →
        (dc.getD v []).length = get_domain_size task.vars v) ∧
    (∀ v d, v < task.vars.length → d < get_domain_size task.vars v →
      disjunction_class dc v d = -1 ∨
      (0 ≤ disjunction_class dc v d ∧
        disjunction_class dc v d < ((scanned_predicates task.vars).dedup.length : Int))) ∧
    (∀ i : Nat, i < (scanned_predicates task.vars).dedup.length →
      ∃ v d, v < task.vars.length ∧ d < get_domain_size task.vars v ∧
        disjunction_class dc v d = (i : Int)) ∧
    (∀ v d v' d' p q, v < task.vars.length → d < get_domain_size task.vars v →
      v' < task.vars.length → d' < get_domain_size task.vars v' →
      nonempty_predicate task.vars v d = some p →
      nonempty_predicate task.vars v' d' = some q →
      ∀ l1 l2, scanned_predicates task.vars = l1 ++ l2 → p ∈ l1 → q ∉ l1 →
        disjunction_class dc v d < disjunction_class dc v' d') := by
  obtain ⟨idx, hinv, hkeys, hlen, hrows, hcls⟩ := build_disjunction_classes_full task dc hb
  have hk : (idx.map Prod.fst).length = (scanned_predicates task.vars).dedup.length := by
    rw [hkeys, first_occurrences_length]
  have hclass : ∀ v d p, v < task.vars.length → d < get_domain_size task.vars v →
      nonempty_predicate task.vars v d = some p →
      disjunction_class dc v d = Int.ofNat ((idx.map Prod.fst).indexOf p) ∧
        p ∈ idx.map Prod.fst := by
    intro v d p hv hd hp
    obtain ⟨hok, hne⟩ := nonempty_predicate_eq_some hp
    obtain ⟨q, hq, _, hq2⟩ := hcls v hv d hd
    rw [hok] at hq
    cases hq
    exact ⟨predicate_index_class_eq hinv (hq2 hne),
      List.mem_map.mpr ⟨_, hq2 hne, rfl⟩⟩
  refine ⟨⟨hlen, hrows⟩, ?_, ?_, ?_⟩
  · intro v d hv hd
    obtain ⟨q, hq, hq1, hq2⟩ := hcls v hv d hd
    by_cases he : q.data = []
    · exact Or.inl (hq1 he)
    · right
      have hc := predicate_index_class_eq hinv (hq2 he)
      have hmem : q ∈ idx.map Prod.fst := List.mem_map.mpr ⟨_, hq2 he, rfl⟩
      have hlt := List.indexOf_lt_length.mpr hmem
      rw [hc, ← hk]
      exact ⟨Int.ofNat_nonneg _, Int.ofNat_lt.mpr hlt⟩
  · intro i hi
    rw [← hk] at hi
    have hmem : (idx.map Prod.fst)[i] ∈ scanned_predicates task.vars := by
      rw [← mem_first_occurrences, ← hkeys]
      exact List.getElem_mem _
    obtain ⟨v, d, hv, hd, hp⟩ := (mem_scanned_predicates _ _).mp hmem
    refine ⟨v, d, hv, hd, ?_⟩
    rw [(hclass v d _ hv hd hp).1, List.indexOf_getElem hinv.1 i hi]
    rfl
  · intro v d v' d' p q hv hd hv' hd' hp hq l1 l2 hscan hp1 hq1
    rw [(hclass v d p hv hd hp).1, (hclass v' d' q hv' hd' hq).1, hkeys, hscan]
    exact Int.ofNat_lt.mpr (first_occurrences_indexOf_lt l1 l2 p q hp1 hq1)

/-- C23 (witness): in the sample task scanned as `p, p, q` the table is
`[[0, 0], [1, -1]]` : one entry per value, and the fact `Atom p(a)`, whose
predicate is seen first, has a smaller class than the fact `Atom q(a)`. -/
theorem build_disjunction_classes_ids_witness :
    build_disjunction_classes sample_named_task = Except.ok [[0, 0], [1, -1]] ∧
    scanned_predicates sample_named_task.vars = ["p", "p"] ++ ["q"] ∧
    (([[0, 0], [1, -1]] : DisjunctionClasses).length = sample_named_task.vars.length ∧
      ∀ v, v < sample_named_task.vars.length →
        (([[0, 0], [1, -1]] : DisjunctionClasses).getD v []).length =
          get_domain_size sample_named_task.vars v) ∧
    disjunction_class [[0, 0], [1, -1]] 0 0 < disjunction_class [[0, 0], [1, -1]] 1 0 :=
  ⟨rfl, by decide,
   (build_disjunction_classes_ids sample_named_task [[0, 0], [1, -1]] rfl).1,
   (build_disjunction_classes_ids sample_named_task [[0, 0], [1, -1]] rfl).2.2.2
     0 0 1 0 "p" "q" (by decide) (by decide) (by decide) (by decide) (by decide) (by decide)
     ["p", "p"] ["q"] (by decide) (by decide) (by decide)⟩

/-! ## Invariants of the worklist loop -/

lemma loop_invariant_simple_fold {task : Task} {P : FactoryState → Prop}
    (hP : LoopInvariant task P) (bp : Nat) (t : EdgeType) (pres : IntMap) :
    ∀ st : FactoryState, P st →
    P (pres.foldl (fun st pre => found_simple_lm_and_order st ⟨pre.1, pre.2⟩ bp t) st) := by
  induction pres with
  | nil => intro st h; exact h
  | cons p ps ih =>
    intro st h
    rw [List.foldl_cons]
    exact ih _ (hP.simple st _ bp t h)

lemma loop_invariant_disj_fold {task : Task} {P : FactoryState → Prop}
    (hP : LoopInvariant task P) (bp : Nat) (sets : List (List FactPair)) :
    ∀ st : FactoryState, P st →
    P (sets.foldl (fun st preconditions =>
      if preconditions.length < 5 then
        found_disj_lm_and_order task st preconditions bp EdgeType.GREEDY_NECESSARY
      else st) st) := by
  induction sets with
  | nil => intro st h; exact h
  | cons s ss ih =>
    intro st h
    rw [List.foldl_cons]
    apply ih
    split
    · exact hP.disj st _ bp _ h
    · exact h

lemma loop_invariant_lookahead_fold {task : Task} {P : FactoryState → Prop}
    (hP : LoopInvariant task P) (dtg : DtgSuccessors) (unreached : List Nat)
    (lmk : FactPair) (lmp : Nat) (values : List Nat) :
    ∀ (st st' : FactoryState), P st →
    values.foldl (approximate_lookahead_value task dtg unreached lmk lmp) (some st) =
      some st' → P st' := by
  induction values with
  | nil => intro st st' h heq; cases heq; exact h
  | cons v vs ih =>
    intro st st' h heq
    rw [List.foldl_cons] at heq
    unfold approximate_lookahead_value at heq
    simp only [] at heq
    split at heq
    · obtain ⟨c, hc⟩ := Option.isSome_iff_exists.mp
        (domain_connectivity_isSome dtg task.initial_state lmk (set_insert unreached v))
      rw [hc] at heq
      simp only [] at heq
      split at heq
      · exact ih _ st' (hP.simple st _ lmp _ h) heq
      · exact ih _ st' h heq
    · exact ih _ st' h heq

lemma loop_invariant_lookahead {task : Task} {P : FactoryState → Prop}
    (hP : LoopInvariant task P) (dtg : DtgSuccessors) (lvl_var : LvlVar)
    (st st' : FactoryState) (lmp : Nat) (h : P st)
    (heq : approximate_lookahead_orders task dtg lvl_var st lmp = some st') : P st' := by
  unfold approximate_lookahead_orders at heq
  cases hn : st.lm_graph.get_node lmp with
  | none => rw [hn] at heq; cases heq; exact h
  | some node =>
    rw [hn] at heq
    simp only [] at heq
    split at heq
    · cases heq
      exact hP.orders st _ h
    · exact loop_invariant_lookahead_fold hP dtg _ _ lmp _ _ st' (hP.orders st _ h) heq

lemma loop_invariant_step {task : Task} {P : FactoryState → Prop}
    (hP : LoopInvariant task P) (o : LevelOracle) (pr : ReachOracle) (dtg : DtgSuccessors)
    (dc : DisjunctionClasses) (st st' : FactoryState) (h : P st)
    (heq : generate_relaxed_landmarks_step task o pr dtg dc st = some st') : P st' := by
  unfold generate_relaxed_landmarks_step at heq
  cases hopen : st.open_landmarks with
  | nil => rw [hopen] at heq; cases heq; exact h
  | cons bp rest =>
    rw [hopen] at heq
    simp only [] at heq
    have hpop := hP.pop st bp rest h hopen
    cases hnode : st.lm_graph.get_node bp with
    | none => rw [hnode] at heq; cases heq; exact hpop
    | some node =>
      rw [hnode] at heq
      simp only [] at heq
      split at heq
      · cases heq; exact hpop
      · have h1 := loop_invariant_simple_fold hP bp EdgeType.GREEDY_NECESSARY
          (compute_shared_preconditions task pr [] (o node.landmark) node.landmark) _ hpop
        cases hla : approximate_lookahead_orders task dtg (o node.landmark)
            ((compute_shared_preconditions task pr [] (o node.landmark)
              node.landmark).foldl
              (fun st pre =>
                found_simple_lm_and_order st ⟨pre.1, pre.2⟩ bp EdgeType.GREEDY_NECESSARY)
              { st with open_landmarks := rest }) bp with
        | none => rw [hla] at heq; cases heq
        | some st2 =>
          rw [hla] at heq
          simp only [Option.some.injEq] at heq
          rw [← heq]
          apply loop_invariant_disj_fold hP
          exact hP.cost st2 bp _ (loop_invariant_lookahead hP dtg _ _ st2 bp h1 hla)

lemma loop_invariant_iterate {task : Task} {P : FactoryState → Prop}
    (hP : LoopInvariant task P) (o : LevelOracle) (pr : ReachOracle) (dtg : DtgSuccessors)
    (dc : DisjunctionClasses) (n : Nat) : ∀ (st st' : FactoryState), P st →
    generate_relaxed_landmarks_iterate task o pr dtg dc n st = some st' → P st' := by
  induction n with
  | zero =>
    intro st st' h heq
    rw [generate_relaxed_landmarks_iterate] at heq
    cases heq
    exact h
  | succ n ih =>
    intro st st' h heq
    rw [generate_relaxed_landmarks_iterate] at heq
    cases hstep : generate_relaxed_landmarks_step task o pr dtg dc st with
    | none => rw [hstep] at heq; cases heq
    | some st1 =>
      rw [hstep] at heq
      exact ih st1 st' (loop_invariant_step hP o pr dtg dc st st1 h hstep) heq

lemma loop_invariant_loop {task : Task} {P : FactoryState → Prop}
    (hP : LoopInvariant task P) (o : LevelOracle) (pr : ReachOracle) (dtg : DtgSuccessors)
    (dc : DisjunctionClasses) (n : Nat) : ∀ (st st' : FactoryState), P st →
    generate_relaxed_landmarks_loop task o pr dtg dc n st = some st' → P st' := by
  induction n with
  | zero =>
    intro st st' h heq
    rw [generate_relaxed_landmarks_loop] at heq
    split at heq
    · cases heq; exact h
    · cases heq
  | succ n ih =>
    intro st st' h heq
    rw [generate_relaxed_landmarks_loop] at heq
    split at heq
    · cases heq; exact h
    · cases hstep : generate_relaxed_landmarks_step task o pr dtg dc st with
      | none => rw [hstep] at heq; cases heq
      | some st1 =>
        rw [hstep] at heq
        exact ih st1 st' (loop_invariant_step hP o pr dtg dc st st1 h hstep) heq

lemma generate_relaxed_landmarks_loop_empty (task : Task) (o : LevelOracle)
    (pr : ReachOracle) (dtg : DtgSuccessors) (dc : DisjunctionClasses) (n : Nat) :
    ∀ (st st' : FactoryState),
    generate_relaxed_landmarks_loop task o pr dtg dc n st = some st' →
    st'.open_landmarks = [] := by
  induction n with
  | zero =>
    intro st st' heq
    rw [generate_relaxed_landmarks_loop] at heq
    split at heq
    · rename_i he
      cases heq
      exact List.isEmpty_iff.mp he
    · cases heq
  | succ n ih =>
    intro st st' heq
    rw [generate_relaxed_landmarks_loop] at heq
    split at heq
    · rename_i he
      cases heq
      exact List.isEmpty_iff.mp he
    · cases hstep : generate_relaxed_landmarks_step task o pr dtg dc st with
      | none => rw [hstep] at heq; cases heq
      | some st1 =>
        rw [hstep] at heq
        exact ih st1 st' heq

/-- A property of the graph alone is a loop invariant when `found_simple_lm_and_order`,
`found_disj_lm_and_order` and the assignment of a cost keep it. -/
lemma loop_invariant_of_graph (task : Task) (Q : LandmarkGraph → Prop)
    (hsimple : ∀ (st : FactoryState) f b t, Q st.lm_graph →
      Q (found_simple_lm_and_order st f b t).lm_graph)
    (hdisj : ∀ (st : FactoryState) a b t, Q st.lm_graph →
      Q (found_disj_lm_and_order task st a b t).lm_graph)
    (hcost : ∀ g bp c, Q g → Q (g.set_cost bp c)) :
    LoopInvariant task (fun st => Q st.lm_graph) :=
  ⟨fun _ _ _ h _ => h, hsimple, hdisj, fun _ _ h => h, fun _ bp c h => hcost _ bp c h⟩

/-! ## Provenance of the nodes -/

lemma mem_nodes_edge_add {g : LandmarkGraph} {a c : Nat} {ty : EdgeType} {n' : LandmarkNode}
    (h : n' ∈ (edge_add g a c ty).nodes) :
    ∃ n ∈ g.nodes, n'.landmark = n.landmark ∧ n'.id = n.id := by
  unfold edge_add at h
  by_cases hac : a = c
  · rw [if_pos hac] at h
    exact ⟨n', h, rfl, rfl⟩
  · rw [if_neg hac] at h
    simp only [List.mem_map] at h
    obtain ⟨n, hn, rfl⟩ := h
    refine ⟨n, hn, ?_, ?_⟩
    · split
      · rfl
      · split <;> rfl
    · split
      · rfl
      · split <;> rfl

lemma mem_nodes_edge_add_fold {new : Nat} {ty : EdgeType} (preds : List Nat) :
    ∀ {g : LandmarkGraph} {n' : LandmarkNode},
    n' ∈ (preds.foldl (fun g p => edge_add g p new ty) g).nodes →
    ∃ n ∈ g.nodes, n'.landmark = n.landmark ∧ n'.id = n.id := by
  induction preds with
  | nil => intro g n' h; exact ⟨n', h, rfl, rfl⟩
  | cons p ps ih =>
    intro g n' h
    rw [List.foldl_cons] at h
    obtain ⟨m, hm, h1, h2⟩ := ih h
    obtain ⟨n, hn, h3, h4⟩ := mem_nodes_edge_add hm
    exact ⟨n, hn, h1.trans h3, h2.trans h4⟩

lemma mem_nodes_remove_node {g : LandmarkGraph} {d : Nat} {n' : LandmarkNode}
    (h : n' ∈ (g.remove_node d).nodes) :
    ∃ n ∈ g.nodes, n'.landmark = n.landmark ∧ n'.id = n.id ∧ n.id ≠ d := by
  unfold LandmarkGraph.remove_node at h
  simp only [List.mem_map, List.mem_filter, bne_iff_ne, ne_eq] at h
  obtain ⟨n, ⟨hn, hd⟩, rfl⟩ := h
  exact ⟨n, hn, rfl, rfl, hd⟩

lemma mem_nodes_add_landmark {g : LandmarkGraph} {lm : Landmark} {n' : LandmarkNode}
    (h : n' ∈ (g.add_landmark lm).1.nodes) :
    n' ∈ g.nodes ∨ (n'.landmark = lm ∧ n'.id = g.next_id) := by
  unfold LandmarkGraph.add_landmark at h
  simp only [List.mem_append, List.mem_singleton] at h
  rcases h with h | h
  · exact Or.inl h
  · exact Or.inr (by rw [h]; exact ⟨rfl, rfl⟩)

lemma mem_nodes_set_cost {g : LandmarkGraph} {bp : Nat} {c : Int} {n' : LandmarkNode}
    (h : n' ∈ (g.set_cost bp c).nodes) :
    ∃ n ∈ g.nodes, n'.id = n.id ∧ n'.landmark.facts = n.landmark.facts ∧
      n'.landmark.disjunctive = n.landmark.disjunctive ∧
      n'.landmark.conjunctive = n.landmark.conjunctive ∧
      n'.landmark.is_goal = n.landmark.is_goal := by
  unfold LandmarkGraph.set_cost at h
  simp only [List.mem_map] at h
  obtain ⟨n, hn, rfl⟩ := h
  refine ⟨n, hn, ?_⟩
  split <;> exact ⟨rfl, rfl, rfl, rfl, rfl⟩

/-- The nodes after `found_simple_lm_and_order` : each is a node of the old graph
(same handle and landmark) or the new node, which holds the landmark `[f]` under
the handle `next_id` and is created only when `f` was not a simple landmark. -/
lemma mem_nodes_found_simple {st : FactoryState} {f : FactPair} {b : Nat} {t : EdgeType}
    {n' : LandmarkNode} (h : n' ∈ (found_simple_lm_and_order st f b t).lm_graph.nodes) :
    (∃ n ∈ st.lm_graph.nodes, n'.landmark = n.landmark ∧ n'.id = n.id) ∨
    (n'.landmark = Landmark.new [f] false false false ∧ n'.id = st.lm_graph.next_id ∧
      st.lm_graph.contains_simple_landmark f = false) := by
  unfold found_simple_lm_and_order at h
  cases hs : st.lm_graph.get_simple_landmark f with
  | some n =>
    rw [hs] at h
    exact Or.inl (mem_nodes_edge_add h)
  | none =>
    have hcs : st.lm_graph.contains_simple_landmark f = false := by
      unfold LandmarkGraph.contains_simple_landmark
      rw [hs]
      rfl
    rw [hs] at h
    simp only [] at h
    cases hd : st.lm_graph.get_disjunctive_landmark f with
    | some d =>
      rw [hd] at h
      simp only [] at h
      obtain ⟨m, hm, h1, h2⟩ := mem_nodes_edge_add_fold _ h
      obtain ⟨m', hm', h3, h4⟩ := mem_nodes_edge_add hm
      rcases mem_nodes_add_landmark hm' with hm'' | ⟨h5, h6⟩
      · obtain ⟨n, hn, h7, h8, _⟩ := mem_nodes_remove_node hm''
        exact Or.inl ⟨n, hn, (h1.trans h3).trans h7, (h2.trans h4).trans h8⟩
      · exact Or.inr ⟨(h1.trans h3).trans h5, (h2.trans h4).trans h6, hcs⟩
    | none =>
      rw [hd] at h
      simp only [] at h
      obtain ⟨m', hm', h3, h4⟩ := mem_nodes_edge_add h
      rcases mem_nodes_add_landmark hm' with hm'' | ⟨h5, h6⟩
      · exact Or.inl ⟨m', hm'', h3, h4⟩
      · exact Or.inr ⟨h3.trans h5, h4.trans h6, hcs⟩

/-- The nodes after `found_disj_lm_and_order` : each is a node of the old graph
or the new node, which holds the disjunctive landmark `a` under the handle
`next_id` and is created only when no fact of `a` holds initially or is a simple
landmark. -/
lemma mem_nodes_found_disj {task : Task} {st : FactoryState} {a : List FactPair} {b : Nat}
    {t : EdgeType} {n' : LandmarkNode}
    (h : n' ∈ (found_disj_lm_and_order task st a b t).lm_graph.nodes) :
    (∃ n ∈ st.lm_graph.nodes, n'.landmark = n.landmark ∧ n'.id = n.id) ∨
    (n'.landmark = Landmark.new a true false false ∧ n'.id = st.lm_graph.next_id ∧
      ∀ f ∈ a, initial_value task.initial_state f.var ≠ f.value ∧
        st.lm_graph.contains_simple_landmark f = false) := by
  unfold found_disj_lm_and_order at h
  cases hscan : found_disj_scan task st.lm_graph a with
  | some r => rw [hscan] at h; exact Or.inl ⟨n', h, rfl, rfl⟩
  | none =>
    rw [hscan] at h
    simp only [] at h
    split at h
    · split at h
      · split at h
        · exact Or.inl (mem_nodes_edge_add h)
        · exact Or.inl ⟨n', h, rfl, rfl⟩
      · exact Or.inl ⟨n', h, rfl, rfl⟩
    · obtain ⟨m', hm', h3, h4⟩ := mem_nodes_edge_add h
      rcases mem_nodes_add_landmark hm' with hm'' | ⟨h5, h6⟩
      · exact Or.inl ⟨m', hm'', h3, h4⟩
      · exact Or.inr ⟨h3.trans h5, h4.trans h6, found_disj_scan_eq_none task _ a hscan⟩

/-! ## Distinct handles -/

lemma handles_distinct_of_ids {g g' : LandmarkGraph}
    (hids : g'.nodes.map (fun n => n.id) = g.nodes.map (fun n => n.id))
    (hnext : g'.next_id = g.next_id) (h : handles_distinct g) : handles_distinct g' := by
  refine ⟨by rw [hids]; exact h.1, fun n hn => ?_⟩
  have : n.id ∈ g'.nodes.map (fun n => n.id) := List.mem_map.mpr ⟨n, hn, rfl⟩
  rw [hids] at this
  obtain ⟨m, hm, hmid⟩ := List.mem_map.mp this
  rw [hnext, ← hmid]
  exact h.2 m hm

lemma ids_edge_add (g : LandmarkGraph) (a c : Nat) (ty : EdgeType) :
    (edge_add g a c ty).nodes.map (fun n => n.id) = g.nodes.map (fun n => n.id) := by
  have := congrArg (List.map Prod.fst) (edge_add_node_landmarks g a c ty)
  simpa [LandmarkGraph.node_landmarks] using this

lemma handles_distinct_edge_add (g : LandmarkGraph) (a c : Nat) (ty : EdgeType)
    (h : handles_distinct g) : handles_distinct (edge_add g a c ty) :=
  handles_distinct_of_ids (ids_edge_add g a c ty) (edge_add_next_id g a c ty) h

lemma handles_distinct_edge_add_fold (new : Nat) (ty : EdgeType) (preds : List Nat) :
    ∀ g : LandmarkGraph, handles_distinct g →
    handles_distinct (preds.foldl (fun g p => edge_add g p new ty) g) := by
  induction preds with
  | nil => intro g h; exact h
  | cons p ps ih =>
    intro g h
    rw [List.foldl_cons]
    exact ih _ (handles_distinct_edge_add g p new ty h)

lemma handles_distinct_set_cost (g : LandmarkGraph) (bp : Nat) (c : Int)
    (h : handles_distinct g) : handles_distinct (g.set_cost bp c) := by
  refine @handles_distinct_of_ids g (g.set_cost bp c) ?_ rfl h
  unfold LandmarkGraph.set_cost
  simp only [List.map_map]
  apply List.map_congr_left
  intro n _
  simp only [Function.comp]
  split <;> rfl

lemma handles_distinct_remove_node (g : LandmarkGraph) (d : Nat)
    (h : handles_distinct g) : handles_distinct (g.remove_node d) := by
  refine ⟨?_, fun n hn => ?_⟩
  · have : (g.remove_node d).nodes.map (fun n => n.id) =
        (g.nodes.filter (fun n => n.id != d)).map (fun n => n.id) := by
      unfold LandmarkGraph.remove_node
      simp only [List.map_map]
      rfl
    rw [this]
    exact h.1.sublist ((List.filter_sublist _).map _)
  · obtain ⟨m, hm, _, hid, _⟩ := mem_nodes_remove_node hn
    rw [hid]
    exact h.2 m hm

lemma handles_distinct_add_landmark (g : LandmarkGraph) (lm : Landmark)
    (h : handles_distinct g) : handles_distinct (g.add_landmark lm).1 := by
  unfold LandmarkGraph.add_landmark
  refine ⟨?_, fun n hn => ?_⟩
  · simp only [List.map_append, List.map_cons, List.map_nil]
    rw [List.nodup_append]
    refine ⟨h.1, by simp, ?_⟩
    intro x hx hx'
    rw [List.mem_singleton] at hx'
    obtain ⟨m, hm, hmid⟩ := List.mem_map.mp hx
    have := h.2 m hm
    omega
  · simp only [List.mem_append, List.mem_singleton] at hn
    rcases hn with hn | hn
    · have := h.2 n hn
      show n.id < g.next_id + 1
      omega
    · rw [hn]
      show g.next_id < g.next_id + 1
      omega

lemma handles_distinct_found_simple (st : FactoryState) (f : FactPair) (b : Nat)
    (t : EdgeType) (h : handles_distinct st.lm_graph) :
    handles_distinct (found_simple_lm_and_order st f b t).lm_graph := by
  unfold found_simple_lm_and_order
  cases st.lm_graph.get_simple_landmark f with
  | some n => exact handles_distinct_edge_add _ _ _ _ h
  | none =>
    simp only []
    cases st.lm_graph.get_disjunctive_landmark f with
    | some d =>
      simp only []
      apply handles_distinct_edge_add_fold
      apply handles_distinct_edge_add
      apply handles_distinct_add_landmark
      exact handles_distinct_remove_node _ _ h
    | none =>
      simp only []
      apply handles_distinct_edge_add
      exact handles_distinct_add_landmark _ _ h

lemma handles_distinct_found_disj (task : Task) (st : FactoryState) (a : List FactPair)
    (b : Nat) (t : EdgeType) (h : handles_distinct st.lm_graph) :
    handles_distinct (found_disj_lm_and_order task st a b t).lm_graph := by
  unfold found_disj_lm_and_order
  cases found_disj_scan task st.lm_graph a with
  | some r => exact h
  | none =>
    simp only []
    split
    · split
      · split
        · exact handles_distinct_edge_add _ _ _ _ h
        · exact h
      · exact h
    · apply handles_distinct_edge_add
      exact handles_distinct_add_landmark _ _ h

lemma handles_distinct_loop_invariant (task : Task) :
    LoopInvariant task (fun st => handles_distinct st.lm_graph) :=
  loop_invariant_of_graph task handles_distinct
    (fun st f b t h => handles_distinct_found_simple st f b t h)
    (fun st a b t h => handles_distinct_found_disj task st a b t h)
    (fun g bp c h => handles_distinct_set_cost g bp c h)

lemma eq_of_mem_of_id_eq {g : LandmarkGraph} (h : handles_distinct g) {n m : LandmarkNode}
    (hn : n ∈ g.nodes) (hm : m ∈ g.nodes) (hid : n.id = m.id) : n = m :=
  List.inj_on_of_nodup_map h.1 hn hm hid

/-! ## Goal landmarks -/

lemma contains_simple_of_mem {g : LandmarkGraph} {n : LandmarkNode} {x : FactPair}
    (hn : n ∈ g.nodes) (hs : n.landmark.is_simple = true) (hx : x ∈ n.landmark.facts) :
    g.contains_simple_landmark x = true :=
  (contains_simple_iff g x).mpr ⟨n, hn, hs, hx⟩

lemma contains_simple_add_landmark_mono (g : LandmarkGraph) (lm : Landmark) (x : FactPair)
    (h : g.contains_simple_landmark x = true) :
    (g.add_landmark lm).1.contains_simple_landmark x = true := by
  obtain ⟨n, hn, hs, hx⟩ := (contains_simple_iff g x).mp h
  apply contains_simple_of_mem _ hs hx
  unfold LandmarkGraph.add_landmark
  exact List.mem_append_left _ hn

lemma contains_simple_remove_node (g : LandmarkGraph) (d : LandmarkNode) (x : FactPair)
    (hg : handles_distinct g) (hd : d ∈ g.nodes) (hdd : d.landmark.disjunctive = true)
    (h : g.contains_simple_landmark x = true) :
    (g.remove_node d.id).contains_simple_landmark x = true := by
  obtain ⟨n, hn, hs, hx⟩ := (contains_simple_iff g x).mp h
  have hne : n.id ≠ d.id := by
    intro hc
    have := eq_of_mem_of_id_eq hg hn hd hc
    rw [this] at hs
    unfold Landmark.is_simple at hs
    rw [hdd] at hs
    simp at hs
  rw [contains_simple_iff]
  refine ⟨{ n with parents := EdgeMap.erase n.parents d.id,
                   children := EdgeMap.erase n.children d.id }, ?_, hs, hx⟩
  unfold LandmarkGraph.remove_node
  simp only [List.mem_map, List.mem_filter, bne_iff_ne, ne_eq]
  exact ⟨n, ⟨hn, hne⟩, rfl⟩

lemma contains_simple_set_cost (g : LandmarkGraph) (bp : Nat) (c : Int) (x : FactPair)
    (h : g.contains_simple_landmark x = true) :
    (g.set_cost bp c).contains_simple_landmark x = true := by
  obtain ⟨n, hn, hs, hx⟩ := (contains_simple_iff g x).mp h
  rw [contains_simple_iff]
  refine ⟨if n.id = bp then { n with landmark := { n.landmark with cost := c } } else n,
    ?_, ?_, ?_⟩
  · unfold LandmarkGraph.set_cost
    exact List.mem_map.mpr ⟨n, hn, rfl⟩
  · split
    · exact hs
    · exact hs
  · split
    · exact hx
    · exact hx

lemma contains_simple_found_simple_mono (st : FactoryState) (f : FactPair) (b : Nat)
    (t : EdgeType) (x : FactPair) (hg : handles_distinct st.lm_graph)
    (h : st.lm_graph.contains_simple_landmark x = true) :
    (found_simple_lm_and_order st f b t).lm_graph.contains_simple_landmark x = true := by
  unfold found_simple_lm_and_order
  cases st.lm_graph.get_simple_landmark f with
  | some n =>
    simp only []
    rw [contains_simple_edge_add]
    exact h
  | none =>
    simp only []
    cases hd : st.lm_graph.get_disjunctive_landmark f with
    | some d =>
      simp only []
      rw [contains_simple_fold, contains_simple_edge_add]
      apply contains_simple_add_landmark_mono
      have hmem : d ∈ st.lm_graph.nodes := List.mem_of_find?_eq_some hd
      have hp := List.find?_some hd
      simp only [Bool.and_eq_true, decide_eq_true_eq] at hp
      exact contains_simple_remove_node _ d x hg hmem hp.1 h
    | none =>
      simp only []
      rw [contains_simple_edge_add]
      exact contains_simple_add_landmark_mono _ _ _ h

lemma contains_simple_found_disj_mono (task : Task) (st : FactoryState) (a : List FactPair)
    (b : Nat) (t : EdgeType) (x : FactPair)
    (h : st.lm_graph.contains_simple_landmark x = true) :
    (found_disj_lm_and_order task st a b t).lm_graph.contains_simple_landmark x = true := by
  unfold found_disj_lm_and_order
  cases found_disj_scan task st.lm_graph a with
  | some r => exact h
  | none =>
    simp only []
    split
    · split
      · split
        · simp only []
          rw [contains_simple_edge_add]
          exact h
        · exact h
      · exact h
    · simp only []
      rw [contains_simple_edge_add]
      exact contains_simple_add_landmark_mono _ _ _ h

/-- The part of `goal_invariant` that speaks of the landmarks of the nodes is
inherited along a map of nodes that keeps facts and flags. -/
lemma goal_invariant_of_nodes {task : Task} {g g' : LandmarkGraph}
    (hh : handles_distinct g')
    (hsimple : ∀ goal ∈ task.goals, g'.contains_simple_landmark goal = true)
    (hnodes : ∀ n' ∈ g'.nodes, ∃ n ∈ g.nodes, n'.landmark.facts = n.landmark.facts ∧
      n'.landmark.disjunctive = n.landmark.disjunctive ∧
      n'.landmark.conjunctive = n.landmark.conjunctive ∧
      n'.landmark.is_goal = n.landmark.is_goal)
    (h : goal_invariant task g) : goal_invariant task g' := by
  obtain ⟨_, _, h2, h3, h4⟩ := h
  refine ⟨hh, hsimple, ?_, ?_, ?_⟩
  · intro n' hn'
    obtain ⟨n, hn, _, _, hc, _⟩ := hnodes n' hn'
    rw [hc]
    exact h2 n hn
  · intro n' hn' hd'
    obtain ⟨n, hn, hf, hd, _, hg⟩ := hnodes n' hn'
    rw [hf, hg]
    exact h3 n hn (hd ▸ hd')
  · intro n' hn' hd'
    obtain ⟨n, hn, hf, hd, _, hg⟩ := hnodes n' hn'
    rw [hf, hg]
    exact h4 n hn (hd ▸ hd')

lemma goal_invariant_edge_add (task : Task) (g : LandmarkGraph) (a c : Nat) (ty : EdgeType)
    (h : goal_invariant task g) : goal_invariant task (edge_add g a c ty) := by
  apply goal_invariant_of_nodes (handles_distinct_edge_add g a c ty h.1) _ _ h
  · intro goal hgoal
    rw [contains_simple_edge_add]
    exact h.2.1 goal hgoal
  · intro n' hn'
    obtain ⟨n, hn, hl, _⟩ := mem_nodes_edge_add hn'
    exact ⟨n, hn, by rw [hl], by rw [hl], by rw [hl], by rw [hl]⟩

lemma goal_invariant_set_cost (task : Task) (g : LandmarkGraph) (bp : Nat) (c : Int)
    (h : goal_invariant task g) : goal_invariant task (g.set_cost bp c) := by
  apply goal_invariant_of_nodes (handles_distinct_set_cost g bp c h.1) _ _ h
  · intro goal hgoal
    exact contains_simple_set_cost g bp c goal (h.2.1 goal hgoal)
  · intro n' hn'
    obtain ⟨n, hn, _, h1, h2, h3, h4⟩ := mem_nodes_set_cost hn'
    exact ⟨n, hn, h1, h2, h3, h4⟩

lemma not_goal_of_not_simple {task : Task} {g : LandmarkGraph} (h : goal_invariant task g)
    {f : FactPair} (hf : g.contains_simple_landmark f = false) : f ∉ task.goals := by
  intro hc
  rw [h.2.1 f hc] at hf
  cases hf

lemma goal_invariant_found_simple (task : Task) (st : FactoryState) (f : FactPair) (b : Nat)
    (t : EdgeType) (h : goal_invariant task st.lm_graph) :
    goal_invariant task (found_simple_lm_and_order st f b t).lm_graph := by
  obtain ⟨h0, h1, h2, h3, h4⟩ := h
  refine ⟨handles_distinct_found_simple st f b t h0,
    fun goal hgoal => contains_simple_found_simple_mono st f b t goal h0 (h1 goal hgoal),
    ?_, ?_, ?_⟩
  · intro n' hn'
    rcases mem_nodes_found_simple hn' with ⟨n, hn, hl, _⟩ | ⟨hl, _, _⟩
    · rw [hl]; exact h2 n hn
    · rw [hl]; rfl
  · intro n' hn' hd'
    rcases mem_nodes_found_simple hn' with ⟨n, hn, hl, _⟩ | ⟨hl, _, hcs⟩
    · rw [hl] at hd' ⊢
      exact h3 n hn hd'
    · rw [hl]
      refine ⟨f, rfl, ?_⟩
      have hnot := not_goal_of_not_simple ⟨h0, h1, h2, h3, h4⟩ hcs
      constructor
      · intro hc; cases hc
      · intro hc; exact absurd hc hnot
  · intro n' hn' hd'
    rcases mem_nodes_found_simple hn' with ⟨n, hn, hl, _⟩ | ⟨hl, _, _⟩
    · rw [hl] at hd' ⊢
      exact h4 n hn hd'
    · rw [hl] at hd'
      cases hd'

lemma goal_invariant_found_disj (task : Task) (st : FactoryState) (a : List FactPair)
    (b : Nat) (t : EdgeType) (h : goal_invariant task st.lm_graph) :
    goal_invariant task (found_disj_lm_and_order task st a b t).lm_graph := by
  obtain ⟨h0, h1, h2, h3, h4⟩ := h
  refine ⟨handles_distinct_found_disj task st a b t h0,
    fun goal hgoal => contains_simple_found_disj_mono task st a b t goal (h1 goal hgoal),
    ?_, ?_, ?_⟩
  · intro n' hn'
    rcases mem_nodes_found_disj hn' with ⟨n, hn, hl, _⟩ | ⟨hl, _, _⟩
    · rw [hl]; exact h2 n hn
    · rw [hl]; rfl
  · intro n' hn' hd'
    rcases mem_nodes_found_disj hn' with ⟨n, hn, hl, _⟩ | ⟨hl, _, _⟩
    · rw [hl] at hd' ⊢
      exact h3 n hn hd'
    · rw [hl] at hd'
      cases hd'
  · intro n' hn' hd'
    rcases mem_nodes_found_disj hn' with ⟨n, hn, hl, _⟩ | ⟨hl, _, ha⟩
    · rw [hl] at hd' ⊢
      exact h4 n hn hd'
    · rw [hl]
      refine ⟨rfl, fun goal hgoal hmem => ?_⟩
      exact not_goal_of_not_simple ⟨h0, h1, h2, h3, h4⟩ (ha goal hmem).2 hgoal

lemma goal_invariant_loop_invariant (task : Task) :
    LoopInvariant task (fun st => goal_invariant task st.lm_graph) :=
  loop_invariant_of_graph task (goal_invariant task)
    (fun st f b t h => goal_invariant_found_simple task st f b t h)
    (fun st a b t h => goal_invariant_found_disj task st a b t h)
    (fun g bp c h => goal_invariant_set_cost task g bp c h)

/-- Invariant of the seeding loop after the goals `done` : the nodes are the
simple goal landmarks of the facts in `done`. -/
lemma seed_fold_spec (rest : List FactPair) : ∀ (done : List FactPair) (st : FactoryState),
    handles_distinct st.lm_graph →
    (∀ goal ∈ done, st.lm_graph.contains_simple_landmark goal = true) →
    (∀ n ∈ st.lm_graph.nodes, ∃ f ∈ done,
      n.landmark = Landmark.new [f] false false true) →
    handles_distinct (rest.foldl
      (fun st goal =>
        (⟨(st.lm_graph.add_landmark (Landmark.new [goal] false false true)).1,
          st.open_landmarks ++
            [(st.lm_graph.add_landmark (Landmark.new [goal] false false true)).2],
          st.forward_orders⟩ : FactoryState)) st).lm_graph ∧
    (∀ goal ∈ done ++ rest, (rest.foldl
      (fun st goal =>
        (⟨(st.lm_graph.add_landmark (Landmark.new [goal] false false true)).1,
          st.open_landmarks ++
            [(st.lm_graph.add_landmark (Landmark.new [goal] false false true)).2],
          st.forward_orders⟩ : FactoryState)) st).lm_graph.contains_simple_landmark goal =
        true) ∧
    (∀ n ∈ (rest.foldl
      (fun st goal =>
        (⟨(st.lm_graph.add_landmark (Landmark.new [goal] false false true)).1,
          st.open_landmarks ++
            [(st.lm_graph.add_landmark (Landmark.new [goal] false false true)).2],
          st.forward_orders⟩ : FactoryState)) st).lm_graph.nodes, ∃ f ∈ done ++ rest,
      n.landmark = Landmark.new [f] false false true) := by
  induction rest with
  | nil =>
    intro done st h0 h1 h2
    simp only [List.foldl_nil, List.append_nil]
    exact ⟨h0, h1, h2⟩
  | cons goal rest ih =>
    intro done st h0 h1 h2
    rw [List.foldl_cons]
    have := ih (done ++ [goal])
      ⟨(st.lm_graph.add_landmark (Landmark.new [goal] false false true)).1,
        st.open_landmarks ++
          [(st.lm_graph.add_landmark (Landmark.new [goal] false false true)).2],
        st.forward_orders⟩
      (handles_distinct_add_landmark _ _ h0)
      (by
        intro x hx
        rcases List.mem_append.mp hx with hx | hx
        · exact contains_simple_add_landmark_mono _ _ _ (h1 x hx)
        · rw [List.mem_singleton] at hx
          rw [hx, contains_simple_iff]
          refine ⟨⟨st.lm_graph.next_id, Landmark.new [goal] false false true, [], []⟩,
            ?_, rfl, ?_⟩
          · simp [LandmarkGraph.add_landmark]
          · simp [Landmark.new])
      (by
        intro n hn
        rcases mem_nodes_add_landmark hn with hn | ⟨hl, _⟩
        · obtain ⟨f, hf, hfl⟩ := h2 n hn
          exact ⟨f, List.mem_append_left _ hf, hfl⟩
        · exact ⟨goal, by simp, hl⟩)
    simpa only [List.append_assoc, List.singleton_append] using this

lemma goal_invariant_seed (task : Task) :
    goal_invariant task (generate_relaxed_landmarks_seed task FactoryState.empty).lm_graph := by
  obtain ⟨h0, h1, h2⟩ := seed_fold_spec task.goals [] FactoryState.empty
    ⟨by simp [FactoryState.empty], by simp [FactoryState.empty]⟩
    (by simp) (by simp [FactoryState.empty])
  simp only [List.nil_append] at h1 h2
  refine ⟨h0, h1, ?_, ?_, ?_⟩
  · intro n hn
    obtain ⟨f, _, hl⟩ := h2 n hn
    rw [hl]; rfl
  · intro n hn _
    obtain ⟨f, hf, hl⟩ := h2 n hn
    rw [hl]
    exact ⟨f, rfl, fun _ => hf, fun _ => rfl⟩
  · intro n hn hd
    obtain ⟨f, _, hl⟩ := h2 n hn
    rw [hl] at hd
    cases hd

/-! ## The flush and the filters keep graph properties -/

lemma add_lm_forward_orders_node_preserves (Q : LandmarkGraph → Prop)
    (hQ : ∀ g a c t, Q g → Q (edge_add g a c t)) (st : FactoryState) (x : Nat)
    (h : Q st.lm_graph) : Q (add_lm_forward_orders_node st x).lm_graph := by
  unfold add_lm_forward_orders_node
  simp only []
  generalize forward_orders_get st.forward_orders x = fs
  generalize st.lm_graph = g at h
  induction fs generalizing g with
  | nil => exact h
  | cons f fs ih =>
    rw [List.foldl_cons]
    apply ih
    cases g.get_simple_landmark f with
    | none => exact h
    | some n2 => exact hQ _ _ _ _ h

lemma add_lm_forward_orders_preserves (Q : LandmarkGraph → Prop)
    (hQ : ∀ g a c t, Q g → Q (edge_add g a c t)) (st : FactoryState)
    (h : Q st.lm_graph) : Q (add_lm_forward_orders st).lm_graph := by
  unfold add_lm_forward_orders
  generalize st.lm_graph.nodes.map (fun n => n.id) = xs
  induction xs generalizing st with
  | nil => exact h
  | cons x xs ih =>
    rw [List.foldl_cons]
    exact ih _ (add_lm_forward_orders_node_preserves Q hQ st x h)

lemma edge_find_erase_fold (ds : List Nat) : ∀ (m : EdgeMap) (k : Nat),
    EdgeMap.find (ds.foldl EdgeMap.erase m) k = if k ∈ ds then none else EdgeMap.find m k := by
  induction ds with
  | nil => intro m k; simp
  | cons d ds ih =>
    intro m k
    rw [List.foldl_cons, ih, edge_find_erase]
    by_cases hk : k ∈ ds
    · simp [hk]
    · by_cases hdk : d = k
      · simp [hdk]
      · have : ¬ k = d := fun hc => hdk hc.symm
        simp [hk, hdk, this]

lemma remove_nodes_fold (ds : List Nat) : ∀ g : LandmarkGraph,
    ds.foldl (fun g id => g.remove_node id) g =
      ⟨(g.nodes.filter (fun n => decide (n.id ∉ ds))).map
          (fun n => { n with parents := ds.foldl EdgeMap.erase n.parents,
                             children := ds.foldl EdgeMap.erase n.children }),
        g.next_id⟩ := by
  induction ds with
  | nil =>
    intro g
    simp
  | cons d ds ih =>
    intro g
    rw [List.foldl_cons, ih]
    unfold LandmarkGraph.remove_node
    simp only [List.filter_map, List.filter_filter, List.map_map, List.foldl_cons]
    congr 1
    congr 1
    apply List.filter_congr
    intro n _
    simp only [Function.comp, List.mem_cons, not_or, bne_iff_ne, ne_eq, Bool.and_eq_true,
      decide_eq_true_eq, Bool.decide_and]
    by_cases h1 : n.id = d <;> by_cases h2 : n.id ∈ ds <;> simp [h1, h2]

/-- The graph after `discard_disjunctive_landmarks`, when the handles are
distinct : no node is disjunctive, the nodes that are not disjunctive are kept
with their handles and landmarks, and no node refers to the handle of a removed
node. -/
lemma discard_disjunctive_landmarks_spec (g : LandmarkGraph) (hg : handles_distinct g) :
    (∀ n ∈ (discard_disjunctive_landmarks g).nodes, n.landmark.disjunctive = false) ∧
    (discard_disjunctive_landmarks g).node_landmarks =
      g.node_landmarks.filter (fun p => !p.2.disjunctive) ∧
    (discard_disjunctive_landmarks g).next_id = g.next_id ∧
    (∀ d ∈ g.nodes, d.landmark.disjunctive = true →
      no_reference (discard_disjunctive_landmarks g) d.id) := by
  have hds : ∀ n ∈ g.nodes,
      (n.id ∉ (g.nodes.filter (fun n => n.landmark.disjunctive)).map (fun n => n.id) ↔
        n.landmark.disjunctive = false) := by
    intro n hn
    constructor
    · intro h
      cases hd : n.landmark.disjunctive with
      | false => rfl
      | true =>
        exfalso
        apply h
        exact List.mem_map.mpr ⟨n, List.mem_filter.mpr ⟨hn, hd⟩, rfl⟩
    · intro h hc
      obtain ⟨m, hm, hid⟩ := List.mem_map.mp hc
      obtain ⟨hm1, hm2⟩ := List.mem_filter.mp hm
      have := eq_of_mem_of_id_eq hg hm1 hn hid
      rw [this, h] at hm2
      cases hm2
  unfold discard_disjunctive_landmarks
  rw [remove_nodes_fold]
  refine ⟨?_, ?_, rfl, ?_⟩
  · intro n' hn'
    obtain ⟨n, hnf, rfl⟩ := List.mem_map.mp hn'
    obtain ⟨hn, hnot⟩ := List.mem_filter.mp hnf
    exact (hds n hn).mp (of_decide_eq_true hnot)
  · unfold LandmarkGraph.node_landmarks
    simp only [List.map_map, List.filter_map]
    have : (fun n : LandmarkNode => (n.id, n.landmark)) ∘
        (fun n : LandmarkNode =>
          ({ n with
            parents := ((g.nodes.filter (fun n => n.landmark.disjunctive)).map
              (fun n => n.id)).foldl EdgeMap.erase n.parents,
            children := ((g.nodes.filter (fun n => n.landmark.disjunctive)).map
              (fun n => n.id)).foldl EdgeMap.erase n.children } : LandmarkNode)) =
        (fun n : LandmarkNode => (n.id, n.landmark)) := rfl
    rw [this]
    congr 1
    apply List.filter_congr
    intro n hn
    have h := hds n hn
    cases hd : n.landmark.disjunctive with
    | false => simpa [hd] using h
    | true => simpa [hd] using h
  · intro d hd hdd n' hn'
    obtain ⟨n, hnf, rfl⟩ := List.mem_map.mp hn'
    obtain ⟨hn, hnot'⟩ := List.mem_filter.mp hnf
    have hnot := of_decide_eq_true hnot'
    have hmem : d.id ∈ (g.nodes.filter (fun n => n.landmark.disjunctive)).map
        (fun n => n.id) :=
      List.mem_map.mpr ⟨d, List.mem_filter.mpr ⟨hd, hdd⟩, rfl⟩
    refine ⟨fun hc => hnot (hc ▸ hmem), ?_, ?_⟩
    · simp only [edge_find_erase_fold, hmem, if_true]
    · simp only [edge_find_erase_fold, hmem, if_true]

lemma discard_all_orderings_spec (g : LandmarkGraph) :
    (discard_all_orderings g).node_landmarks = g.node_landmarks ∧
    (discard_all_orderings g).next_id = g.next_id ∧
    ∀ n ∈ (discard_all_orderings g).nodes, n.parents = [] ∧ n.children = [] := by
  unfold discard_all_orderings LandmarkGraph.node_landmarks
  refine ⟨by simp, rfl, ?_⟩
  intro n hn
  simp only [List.mem_map] at hn
  obtain ⟨m, _, rfl⟩ := hn
  exact ⟨rfl, rfl⟩

/-- The properties `goals_are_landmarks` depend on the handles and landmarks of
the nodes only. -/
lemma goals_are_landmarks_of_node_landmarks {task : Task} {g g' : LandmarkGraph}
    (h : g'.node_landmarks = g.node_landmarks) (hg : goals_are_landmarks task g) :
    goals_are_landmarks task g' := by
  have hmem : ∀ n' ∈ g'.nodes, ∃ n ∈ g.nodes, n'.landmark = n.landmark := by
    intro n' hn'
    have : (n'.id, n'.landmark) ∈ g'.node_landmarks := List.mem_map.mpr ⟨n', hn', rfl⟩
    rw [h] at this
    obtain ⟨n, hn, hp⟩ := List.mem_map.mp this
    exact ⟨n, hn, (congrArg Prod.snd hp).symm⟩
  have hmem' : ∀ n ∈ g.nodes, ∃ n' ∈ g'.nodes, n'.landmark = n.landmark := by
    intro n hn
    have : (n.id, n.landmark) ∈ g.node_landmarks := List.mem_map.mpr ⟨n, hn, rfl⟩
    rw [← h] at this
    obtain ⟨n', hn', hp⟩ := List.mem_map.mp this
    exact ⟨n', hn', congrArg Prod.snd hp⟩
  obtain ⟨h1, h2, h3⟩ := hg
  refine ⟨?_, ?_, ?_⟩
  · intro goal hgoal
    obtain ⟨n, hn, hs, hx⟩ := (contains_simple_iff g goal).mp (h1 goal hgoal)
    obtain ⟨n', hn', hl⟩ := hmem' n hn
    exact contains_simple_of_mem hn' (hl ▸ hs) (hl ▸ hx)
  · intro n' hn'
    obtain ⟨n, hn, hl⟩ := hmem n' hn'
    rw [hl]
    exact h2 n hn
  · intro n' hn'
    obtain ⟨n, hn, hl⟩ := hmem n' hn'
    rw [hl]
    exact h3 n hn

lemma goals_are_landmarks_of_invariant {task : Task} {g : LandmarkGraph}
    (h : goal_invariant task g) : goals_are_landmarks task g := by
  obtain ⟨_, h1, h2, h3, h4⟩ := h
  refine ⟨h1, ?_, h4⟩
  intro n hn
  constructor
  · intro hgoal
    cases hd : n.landmark.disjunctive with
    | true =>
      rw [(h4 n hn hd).1] at hgoal
      cases hgoal
    | false =>
      obtain ⟨f, hf, hiff⟩ := h3 n hn hd
      refine ⟨?_, f, hiff.mp hgoal, hf⟩
      unfold Landmark.is_simple
      rw [hd, h2 n hn]
      rfl
  · rintro ⟨hs, goal, hgoal, hfacts⟩
    have hd : n.landmark.disjunctive = false := by
      unfold Landmark.is_simple at hs
      cases hd : n.landmark.disjunctive with
      | false => rfl
      | true => rw [hd] at hs; simp at hs
    obtain ⟨f, hf, hiff⟩ := h3 n hn hd
    rw [hfacts] at hf
    cases hf
    exact hiff.mpr hgoal

lemma goals_are_landmarks_discard_disjunctive {task : Task} {g : LandmarkGraph}
    (hg : handles_distinct g) (h : goals_are_landmarks task g) :
    goals_are_landmarks task (discard_disjunctive_landmarks g) := by
  obtain ⟨hno, hnl, _, _⟩ := discard_disjunctive_landmarks_spec g hg
  have hmem : ∀ n' ∈ (discard_disjunctive_landmarks g).nodes,
      ∃ n ∈ g.nodes, n'.landmark = n.landmark := by
    intro n' hn'
    have : (n'.id, n'.landmark) ∈ (discard_disjunctive_landmarks g).node_landmarks :=
      List.mem_map.mpr ⟨n', hn', rfl⟩
    rw [hnl] at this
    obtain ⟨n, hn, hp⟩ := List.mem_map.mp (List.mem_filter.mp this).1
    exact ⟨n, hn, (congrArg Prod.snd hp).symm⟩
  obtain ⟨h1, h2, h3⟩ := h
  refine ⟨?_, ?_, ?_⟩
  · intro goal hgoal
    obtain ⟨n, hn, hs, hx⟩ := (contains_simple_iff g goal).mp (h1 goal hgoal)
    have hd : n.landmark.disjunctive = false := by
      unfold Landmark.is_simple at hs
      cases hd : n.landmark.disjunctive with
      | false => rfl
      | true => rw [hd] at hs; simp at hs
    have : (n.id, n.landmark) ∈ (discard_disjunctive_landmarks g).node_landmarks := by
      rw [hnl]
      exact List.mem_filter.mpr ⟨List.mem_map.mpr ⟨n, hn, rfl⟩, by simp [hd]⟩
    obtain ⟨n', hn', hp⟩ := List.mem_map.mp this
    have hl : n'.landmark = n.landmark := congrArg Prod.snd hp
    exact contains_simple_of_mem hn' (hl ▸ hs) (hl ▸ hx)
  · intro n' hn'
    obtain ⟨n, hn, hl⟩ := hmem n' hn'
    rw [hl]
    exact h2 n hn
  · intro n' hn'
    obtain ⟨n, hn, hl⟩ := hmem n' hn'
    rw [hl]
    exact h3 n hn

/-- The result of `generate_relaxed_landmarks` : the graph of the fixed point of
the worklist loop, flushed, then filtered by the three filters in their order. -/
lemma generate_relaxed_landmarks_result (task : Task) (options : FactoryOptions)
    (o : LevelOracle) (pr : ReachOracle) (f : LandmarkGraph → LandmarkGraph) (fuel : Nat)
    (st : FactoryState)
    (h : generate_relaxed_landmarks task options o pr f fuel = Except.ok (some st)) :
    ∃ dc fp, build_disjunction_classes task = Except.ok dc ∧
      generate_relaxed_landmarks_loop task o pr (build_dtg_successors task) dc fuel
        (generate_relaxed_landmarks_seed task FactoryState.empty) = some fp ∧
      st.lm_graph =
        (if options.only_causal_landmarks then f else id)
          ((if options.use_orders then id else discard_all_orderings)
            ((if options.disjunctive_landmarks then id else discard_disjunctive_landmarks)
              (add_lm_forward_orders fp).lm_graph)) := by
  unfold generate_relaxed_landmarks at h
  simp only [] at h
  cases hb : build_disjunction_classes task with
  | error e => rw [hb] at h; cases h
  | ok dc =>
    rw [hb] at h
    simp only [] at h
    cases hl : generate_relaxed_landmarks_loop task o pr (build_dtg_successors task) dc fuel
        (generate_relaxed_landmarks_seed task FactoryState.empty) with
    | none => rw [hl] at h; cases h
    | some fp =>
      rw [hl] at h
      simp only [Except.ok.injEq, Option.some.injEq] at h
      refine ⟨dc, fp, rfl, hl, ?_⟩
      rw [← h]
      cases options.only_causal_landmarks <;> cases options.use_orders <;>
        cases options.disjunctive_landmarks <;> rfl

/-- C27: the goal facts are simple landmarks, a node is marked as goal exactly
when it holds the simple landmark of a goal fact, and no disjunctive landmark is
marked as goal or holds a goal fact : (1) after the seeding and any number of
iterations of the worklist loop (the state exists), and (2) in the graph that
`generate_relaxed_landmarks` returns when the causal filter is not applied, that
is, after the fixed point, the flush and the other two filters. -/
theorem generate_relaxed_landmarks_goals (task : Task) (o : LevelOracle)
    (pr : ReachOracle) :
    (∀ (dtg : DtgSuccessors) (dc : DisjunctionClasses) (n : Nat),
      ∃ st, generate_relaxed_landmarks_iterate task o pr dtg dc n
          (generate_relaxed_landmarks_seed task FactoryState.empty) = some st ∧
        goals_are_landmarks task st.lm_graph) ∧
    (∀ (options : FactoryOptions) (f : LandmarkGraph → LandmarkGraph) (fuel : Nat)
      (st : FactoryState), options.only_causal_landmarks = false →
      generate_relaxed_landmarks task options o pr f fuel = Except.ok (some st) →
      goals_are_landmarks task st.lm_graph) := by
  constructor
  · intro dtg dc n
    obtain ⟨st, hst, _⟩ := generate_relaxed_landmarks_iterate_spec task o pr dtg dc n
      (generate_relaxed_landmarks_seed task FactoryState.empty)
      (graph_wf_seed dc task.goals FactoryState.empty
        (by intro n hn; simp [FactoryState.empty] at hn))
    exact ⟨st, hst, goals_are_landmarks_of_invariant
      (loop_invariant_iterate (goal_invariant_loop_invariant task) o pr dtg dc n _ st
        (goal_invariant_seed task) hst)⟩
  · intro options f fuel st hc h
    obtain ⟨dc, fp, _, hloop, hg⟩ :=
      generate_relaxed_landmarks_result task options o pr f fuel st h
    have hfp : goal_invariant task fp.lm_graph :=
      loop_invariant_loop (goal_invariant_loop_invariant task) o pr _ dc fuel _ fp
        (goal_invariant_seed task) hloop
    have hflush : goal_invariant task (add_lm_forward_orders fp).lm_graph :=
      add_lm_forward_orders_preserves (goal_invariant task)
        (fun g a c t hq => goal_invariant_edge_add task g a c t hq) fp hfp
    have h1 : goals_are_landmarks task
        ((if options.disjunctive_landmarks then id else discard_disjunctive_landmarks)
          (add_lm_forward_orders fp).lm_graph) := by
      cases options.disjunctive_landmarks with
      | true => exact goals_are_landmarks_of_invariant hflush
      | false =>
        exact goals_are_landmarks_discard_disjunctive hflush.1
          (goals_are_landmarks_of_invariant hflush)
    have h2 : goals_are_landmarks task
        ((if options.use_orders then id else discard_all_orderings)
          ((if options.disjunctive_landmarks then id else discard_disjunctive_landmarks)
            (add_lm_forward_orders fp).lm_graph)) := by
      cases options.use_orders with
      | true => exact h1
      | false =>
        exact goals_are_landmarks_of_node_landmarks (discard_all_orderings_spec _).1 h1
    rw [hg, hc]
    exact h2

/-- C27 (evaluation): in scenario 2 the returned graph has the goal landmark
`x = 1`, marked as goal, and three landmarks that are not marked. -/
theorem generate_relaxed_landmarks_goals_witness :
    goals_are_landmarks scenario2 scenario2_graph ∧
    scenario2_graph.node_landmarks.map (fun p => (p.2.facts, p.2.is_goal)) =
      [([⟨0, 1⟩], true), ([⟨1, 1⟩], false), ([⟨0, 0⟩], false), ([⟨1, 0⟩], false)] :=
  ⟨(generate_relaxed_landmarks_goals scenario2 scenario2_levels scenario_reaches).2
      all_filters_off id 4 ⟨scenario2_graph, [],
        [(1, []), (0, []), (2, []), (3, [])]⟩ rfl rfl,
   by decide⟩

/-! ## The filter of the disjunctive landmarks -/

lemma mem_nodes_of_node_landmarks {g g' : LandmarkGraph}
    (h : g'.node_landmarks = g.node_landmarks) {n : LandmarkNode} (hn : n ∈ g.nodes) :
    ∃ n' ∈ g'.nodes, n'.id = n.id ∧ n'.landmark = n.landmark := by
  have : (n.id, n.landmark) ∈ g.node_landmarks := List.mem_map.mpr ⟨n, hn, rfl⟩
  rw [← h] at this
  obtain ⟨n', hn', hp⟩ := List.mem_map.mp this
  exact ⟨n', hn', congrArg Prod.fst hp, congrArg Prod.snd hp⟩

/-- C30: with the option `disjunctive_landmarks = false`, the graph returned by
`generate_relaxed_landmarks` is the flushed graph of the fixed point, filtered
first by `discard_disjunctive_landmarks`, then by the orderings filter, then by
the causal filter; when the causal filter is not applied, the returned graph has
no disjunctive node, its nodes are exactly the nodes of the fixed point that are
not disjunctive (same handles and landmarks, same order), and no node has an
edge to or from the handle of a disjunctive node of the fixed point. -/
theorem generate_relaxed_landmarks_discards_disjunctive (task : Task)
    (options : FactoryOptions) (o : LevelOracle) (pr : ReachOracle)
    (f : LandmarkGraph → LandmarkGraph) (fuel : Nat) (st : FactoryState)
    (hd : options.disjunctive_landmarks = false)
    (h : generate_relaxed_landmarks task options o pr f fuel = Except.ok (some st)) :
    ∃ dc fp, build_disjunction_classes task = Except.ok dc ∧
      generate_relaxed_landmarks_loop task o pr (build_dtg_successors task) dc fuel
        (generate_relaxed_landmarks_seed task FactoryState.empty) = some fp ∧
      st.lm_graph =
        (if options.only_causal_landmarks then f else id)
          ((if options.use_orders then id else discard_all_orderings)
            (discard_disjunctive_landmarks (add_lm_forward_orders fp).lm_graph)) ∧
      (options.only_causal_landmarks = false →
        (∀ n ∈ st.lm_graph.nodes, n.landmark.disjunctive = false) ∧
        st.lm_graph.node_landmarks =
          fp.lm_graph.node_landmarks.filter (fun p => !p.2.disjunctive) ∧
        (∀ d ∈ fp.lm_graph.nodes, d.landmark.disjunctive = true →
          no_reference st.lm_graph d.id)) := by
  obtain ⟨dc, fp, hb, hloop, hg⟩ :=
    generate_relaxed_landmarks_result task options o pr f fuel st h
  rw [hd] at hg
  simp only [Bool.false_eq_true, if_false] at hg
  refine ⟨dc, fp, hb, hloop, hg, ?_⟩
  intro hc
  rw [hc] at hg
  simp only [Bool.false_eq_true, if_false, id] at hg
  have hfp : handles_distinct fp.lm_graph :=
    loop_invariant_loop (handles_distinct_loop_invariant task) o pr _ dc fuel _ fp
      (goal_invariant_seed task).1 hloop
  have hflush : (add_lm_forward_orders fp).lm_graph.node_landmarks =
      fp.lm_graph.node_landmarks ∧ handles_distinct (add_lm_forward_orders fp).lm_graph :=
    add_lm_forward_orders_preserves
      (fun g => g.node_landmarks = fp.lm_graph.node_landmarks ∧ handles_distinct g)
      (fun g a c t hq => ⟨(edge_add_node_landmarks g a c t).trans hq.1,
        handles_distinct_edge_add g a c t hq.2⟩) fp ⟨rfl, hfp⟩
  obtain ⟨hno, hnl, _, href⟩ :=
    discard_disjunctive_landmarks_spec (add_lm_forward_orders fp).lm_graph hflush.2
  rw [hflush.1] at hnl
  have href' : ∀ d ∈ fp.lm_graph.nodes, d.landmark.disjunctive = true →
      no_reference (discard_disjunctive_landmarks (add_lm_forward_orders fp).lm_graph)
        d.id := by
    intro d hdn hdd
    obtain ⟨d', hd', hid, hl⟩ := mem_nodes_of_node_landmarks hflush.1 hdn
    rw [← hid]
    exact href d' hd' (by rw [hl]; exact hdd)
  cases hu : options.use_orders with
  | true =>
    rw [hu] at hg
    simp only [if_true, id] at hg
    rw [hg]
    exact ⟨hno, hnl, href'⟩
  | false =>
    rw [hu] at hg
    simp only [Bool.false_eq_true, if_false] at hg
    rw [hg]
    obtain ⟨h1, _, h3⟩ := discard_all_orderings_spec
      (discard_disjunctive_landmarks (add_lm_forward_orders fp).lm_graph)
    refine ⟨?_, by rw [h1]; exact hnl, ?_⟩
    · intro n hn
      have : (n.id, n.landmark) ∈ (discard_all_orderings
          (discard_disjunctive_landmarks (add_lm_forward_orders fp).lm_graph)).node_landmarks :=
        List.mem_map.mpr ⟨n, hn, rfl⟩
      rw [h1] at this
      obtain ⟨m, hm, hp⟩ := List.mem_map.mp this
      have hl : m.landmark = n.landmark := congrArg Prod.snd hp
      rw [← hl]
      exact hno m hm
    · intro d hdn hdd n hn
      have : (n.id, n.landmark) ∈ (discard_all_orderings
          (discard_disjunctive_landmarks (add_lm_forward_orders fp).lm_graph)).node_landmarks :=
        List.mem_map.mpr ⟨n, hn, rfl⟩
      rw [h1] at this
      obtain ⟨m, hm, hp⟩ := List.mem_map.mp this
      obtain ⟨he1, he2⟩ := h3 n hn
      refine ⟨?_, by rw [he1]; rfl, by rw [he2]; rfl⟩
      have hid : m.id = n.id := congrArg Prod.fst hp
      rw [← hid]
      exact (href' d hdn hdd m hm).1

set_option maxRecDepth 100000 in
/-- C30 (witness): in the sample task the graph computed with all filters off
holds the disjunctive landmark `{v1 = 1, v2 = 1}` (node 2), a parent of node 0;
with `disjunctive_landmarks = false` the returned graph has the two nodes that
are not disjunctive, and it is the filtered graph of a fixed point. -/
theorem generate_relaxed_landmarks_discards_disjunctive_witness :
    (generated_graph (generate_relaxed_landmarks sample_disjunctive_task ⟨true, true, false⟩
      (fun _ => [[0, 2], [0, 1], [0, 1]]) (fun _ _ _ => true) id 10)).map
      (fun g => g.nodes.map (fun n => (n.id, n.landmark.facts, n.parents))) =
      some [(0, [⟨0, 1⟩], [(1, EdgeType.GREEDY_NECESSARY), (2, EdgeType.GREEDY_NECESSARY)]),
        (1, [⟨0, 0⟩], []), (2, [⟨1, 1⟩, ⟨2, 1⟩], [])] ∧
    ∃ dc fp, build_disjunction_classes sample_disjunctive_task = Except.ok dc ∧
      generate_relaxed_landmarks_loop sample_disjunctive_task
        (fun _ => [[0, 2], [0, 1], [0, 1]]) (fun _ _ _ => true)
        (build_dtg_successors sample_disjunctive_task) dc 10
        (generate_relaxed_landmarks_seed sample_disjunctive_task FactoryState.empty) =
        some fp ∧
      (∀ n ∈ sample_disjunctive_result.lm_graph.nodes, n.landmark.disjunctive = false) ∧
      sample_disjunctive_result.lm_graph.node_landmarks =
        fp.lm_graph.node_landmarks.filter (fun p => !p.2.disjunctive) ∧
      (∀ d ∈ fp.lm_graph.nodes, d.landmark.disjunctive = true →
        no_reference sample_disjunctive_result.lm_graph d.id) :=
  ⟨by decide,
   match generate_relaxed_landmarks_discards_disjunctive sample_disjunctive_task
     ⟨false, true, false⟩ (fun _ => [[0, 2], [0, 1], [0, 1]]) (fun _ _ _ => true) id 10
     sample_disjunctive_result rfl rfl with
   | ⟨dc, fp, hb, hl, _, hprops⟩ => ⟨dc, fp, hb, hl, hprops rfl⟩⟩

/-! ## The flush of the forward orders : `add_lm_forward_orders` -/

lemma strengthen_idem (old : Option EdgeType) (t : EdgeType) :
    strengthen (some (strengthen old t)) t = strengthen old t := by
  cases old with
  | none => cases t <;> rfl
  | some t' => cases t' <;> cases t <;> rfl

lemma simple_landmark_id_edge_add (g : LandmarkGraph) (a c : Nat) (ty : EdgeType)
    (f : FactPair) :
    (edge_add g a c ty).simple_landmark_id f = g.simple_landmark_id f := by
  unfold LandmarkGraph.simple_landmark_id LandmarkGraph.get_simple_landmark edge_add
  by_cases hac : a = c
  · rw [if_pos hac]
  · rw [if_neg hac]
    simp only []
    rw [List.find?_map]
    have hfun : ((fun n : LandmarkNode =>
          n.landmark.is_simple && decide (f ∈ n.landmark.facts)) ∘
        (fun n : LandmarkNode =>
          if n.id = a then { n with children := EdgeMap.add n.children c ty }
          else if n.id = c then { n with parents := EdgeMap.add n.parents a ty }
          else n)) =
        (fun n : LandmarkNode => n.landmark.is_simple && decide (f ∈ n.landmark.facts)) := by
      funext n
      simp only [Function.comp]
      split
      · rfl
      · split <;> rfl
    rw [hfun]
    cases List.find? (fun n : LandmarkNode =>
        n.landmark.is_simple && decide (f ∈ n.landmark.facts)) g.nodes with
    | none => rfl
    | some n =>
      simp only [Option.map_some', Option.some.injEq]
      split
      · rfl
      · split <;> rfl

lemma get_node_isSome_of_simple_landmark_id {g : LandmarkGraph} {f : FactPair} {y : Nat}
    (h : g.simple_landmark_id f = some y) : (g.get_node y).isSome = true := by
  unfold LandmarkGraph.simple_landmark_id at h
  cases hn : g.get_simple_landmark f with
  | none => rw [hn] at h; cases h
  | some n =>
    rw [hn] at h
    simp only [Option.map_some', Option.some.injEq] at h
    rw [← h]
    exact get_node_isSome_of_mem (List.mem_of_find?_eq_some hn)

lemma edge_add_self_eq (g : LandmarkGraph) (a : Nat) (ty : EdgeType) :
    edge_add g a a ty = g := by
  unfold edge_add
  rw [if_pos rfl]

/-- Inner loop of `add_lm_forward_orders` for the node `x` of the graph and the
pending facts `fs`, for an edge reading `E` (the children of the source or the
parents of the target) : the edge `x → b` to the node of a pending simple
landmark gets the stronger of its former type and NATURAL, every other edge is
kept. -/
lemma flush_inner_fold (E : LandmarkGraph → Nat → Nat → Option EdgeType)
    (hE1 : ∀ g a c t x y, (x ≠ a ∨ y ≠ c) → E (edge_add g a c t) x y = E g x y)
    (hE2 : ∀ g a c t, a ≠ c → (g.get_node a).isSome = true →
      (g.get_node c).isSome = true →
      E (edge_add g a c t) a c = some (strengthen (E g a c) t))
    (x : Nat) (fs : List FactPair) : ∀ g : LandmarkGraph, (g.get_node x).isSome = true →
    (∀ f, (fs.foldl (fun g node2_pair =>
        match g.get_simple_landmark node2_pair with
        | some node2 => edge_add g x node2.id EdgeType.NATURAL
        | none => g) g).simple_landmark_id f = g.simple_landmark_id f) ∧
    (∀ i, ((fs.foldl (fun g node2_pair =>
        match g.get_simple_landmark node2_pair with
        | some node2 => edge_add g x node2.id EdgeType.NATURAL
        | none => g) g).get_node i).isSome = (g.get_node i).isSome) ∧
    (∀ a b, (a = x ∧ a ≠ b ∧ ∃ f ∈ fs, g.simple_landmark_id f = some b) →
      E (fs.foldl (fun g node2_pair =>
        match g.get_simple_landmark node2_pair with
        | some node2 => edge_add g x node2.id EdgeType.NATURAL
        | none => g) g) a b = some (strengthen (E g a b) EdgeType.NATURAL)) ∧
    (∀ a b, ¬ (a = x ∧ a ≠ b ∧ ∃ f ∈ fs, g.simple_landmark_id f = some b) →
      E (fs.foldl (fun g node2_pair =>
        match g.get_simple_landmark node2_pair with
        | some node2 => edge_add g x node2.id EdgeType.NATURAL
        | none => g) g) a b = E g a b) := by
  induction fs with
  | nil =>
    intro g _
    refine ⟨fun _ => rfl, fun _ => rfl, ?_, fun _ _ _ => rfl⟩
    rintro a b ⟨_, _, f, hf, _⟩
    simp at hf
  | cons f fs ih =>
    intro g hx
    rw [List.foldl_cons]
    cases hlook : g.get_simple_landmark f with
    | none =>
      simp only []
      have hsid : g.simple_landmark_id f = none := by
        unfold LandmarkGraph.simple_landmark_id
        rw [hlook]
        rfl
      obtain ⟨h1, h2, h3, h4⟩ := ih g hx
      refine ⟨h1, h2, ?_, ?_⟩
      · rintro a b ⟨hax, hab, f', hf', hs⟩
        apply h3 a b ⟨hax, hab, ?_⟩
        rcases List.mem_cons.mp hf' with hf' | hf'
        · rw [hf', hsid] at hs; cases hs
        · exact ⟨f', hf', hs⟩
      · intro a b hneg
        apply h4 a b
        rintro ⟨hax, hab, f', hf', hs⟩
        exact hneg ⟨hax, hab, f', List.mem_cons_of_mem _ hf', hs⟩
    | some n2 =>
      simp only []
      have hsid : g.simple_landmark_id f = some n2.id := by
        unfold LandmarkGraph.simple_landmark_id
        rw [hlook]
        rfl
      have hy : (g.get_node n2.id).isSome = true :=
        get_node_isSome_of_simple_landmark_id hsid
      have hx1 : ((edge_add g x n2.id EdgeType.NATURAL).get_node x).isSome = true := by
        rw [get_node_isSome_edge_add]; exact hx
      obtain ⟨h1, h2, h3, h4⟩ := ih (edge_add g x n2.id EdgeType.NATURAL) hx1
      have hsame : ∀ f', (edge_add g x n2.id EdgeType.NATURAL).simple_landmark_id f' =
          g.simple_landmark_id f' := simple_landmark_id_edge_add g x n2.id _
      refine ⟨fun f' => (h1 f').trans (hsame f'),
        fun i => (h2 i).trans (get_node_isSome_edge_add g x n2.id _ i), ?_, ?_⟩
      · rintro a b ⟨hax, hab, f', hf', hs⟩
        subst hax
        by_cases hin : ∃ f'' ∈ fs, g.simple_landmark_id f'' = some b
        · obtain ⟨f'', hf'', hs''⟩ := hin
          rw [h3 a b ⟨rfl, hab, f'', hf'', by rw [hsame]; exact hs''⟩]
          by_cases hb : b = n2.id
          · subst hb
            rw [hE2 g a n2.id _ hab hx hy, strengthen_idem]
          · rw [hE1 g a n2.id _ a b (Or.inr hb)]
        · rcases List.mem_cons.mp hf' with hf' | hf'
          · rw [hf', hsid] at hs
            simp only [Option.some.injEq] at hs
            subst hs
            rw [h4 a n2.id (by
              rintro ⟨_, _, f'', hf'', hs''⟩
              exact hin ⟨f'', hf'', by rw [← hsame]; exact hs''⟩)]
            exact hE2 g a n2.id _ hab hx hy
          · exact absurd ⟨f', hf', hs⟩ hin
      · intro a b hneg
        rw [h4 a b (by
          rintro ⟨hax, hab, f'', hf'', hs''⟩
          exact hneg ⟨hax, hab, f'', List.mem_cons_of_mem _ hf'',
            by rw [← hsame]; exact hs''⟩)]
        by_cases hxy : x = n2.id
        · rw [← hxy, edge_add_self_eq]
        · apply hE1
          by_contra hc
          rw [not_or, not_not, not_not] at hc
          apply hneg
          refine ⟨hc.1, ?_, f, List.mem_cons_self _ _, by rw [hsid, hc.2]⟩
          rw [hc.1, hc.2]
          exact hxy

lemma forward_orders_get_clear (fo : List (Nat × List FactPair)) (x a : Nat) :
    forward_orders_get (forward_orders_clear fo x) a =
      if a = x then [] else forward_orders_get fo a := by
  unfold forward_orders_clear
  by_cases hany : fo.any (fun p => p.1 == x) = true
  · rw [if_pos hany]
    clear hany
    unfold forward_orders_get
    induction fo with
    | nil => simp
    | cons p ps ih =>
      obtain ⟨k, s⟩ := p
      by_cases hk : k = x
      · subst hk
        by_cases hka : k = a
        · subst hka
          simp
        · have hak : ¬ a = k := fun hc => hka hc.symm
          simp only [List.map_cons, if_true, hak, if_false]
          rw [List.find?_cons_of_neg _ (by simpa using hka),
            List.find?_cons_of_neg _ (by simpa using hka)]
          simpa [hak] using ih
      · by_cases hka : k = a
        · subst hka
          have hkx : ¬ k = x := hk
          simp [hkx]
        · simp only [List.map_cons, hk, if_false]
          rw [List.find?_cons_of_neg _ (by simpa using hka),
            List.find?_cons_of_neg _ (by simpa using hka)]
          exact ih
  · rw [if_neg hany]
    rw [Bool.not_eq_true, List.any_eq_false] at hany
    unfold forward_orders_get
    rw [List.find?_append]
    by_cases hax : a = x
    · subst hax
      have hnone : fo.find? (fun p => p.1 == a) = none := by
        rw [List.find?_eq_none]
        intro p hp
        exact hany p hp
      rw [hnone]
      simp
    · have hxa : ¬ x = a := fun hc => hax hc.symm
      cases fo.find? (fun p => p.1 == a) with
      | some p => simp [hax]
      | none => simp [hax, hxa]

/-- Outer loop of `add_lm_forward_orders` over the nodes `xs` of the graph. -/
lemma flush_outer_fold (E : LandmarkGraph → Nat → Nat → Option EdgeType)
    (hE1 : ∀ g a c t x y, (x ≠ a ∨ y ≠ c) → E (edge_add g a c t) x y = E g x y)
    (hE2 : ∀ g a c t, a ≠ c → (g.get_node a).isSome = true →
      (g.get_node c).isSome = true →
      E (edge_add g a c t) a c = some (strengthen (E g a c) t))
    (xs : List Nat) : ∀ st : FactoryState,
    (∀ x ∈ xs, (st.lm_graph.get_node x).isSome = true) →
    (∀ a, forward_orders_get (xs.foldl add_lm_forward_orders_node st).forward_orders a =
      if a ∈ xs then [] else forward_orders_get st.forward_orders a) ∧
    (∀ a b, (a ∈ xs ∧ a ≠ b ∧ ∃ f ∈ forward_orders_get st.forward_orders a,
        st.lm_graph.simple_landmark_id f = some b) →
      E (xs.foldl add_lm_forward_orders_node st).lm_graph a b =
        some (strengthen (E st.lm_graph a b) EdgeType.NATURAL)) ∧
    (∀ a b, ¬ (a ∈ xs ∧ a ≠ b ∧ ∃ f ∈ forward_orders_get st.forward_orders a,
        st.lm_graph.simple_landmark_id f = some b) →
      E (xs.foldl add_lm_forward_orders_node st).lm_graph a b = E st.lm_graph a b) := by
  induction xs with
  | nil =>
    intro st _
    refine ⟨fun a => by simp, ?_, fun _ _ _ => rfl⟩
    rintro a b ⟨ha, _⟩
    simp at ha
  | cons x xs ih =>
    intro st hxs
    rw [List.foldl_cons]
    have hx := hxs x (List.mem_cons_self _ _)
    obtain ⟨i1, i2, i3, i4⟩ := flush_inner_fold E hE1 hE2 x
      (forward_orders_get st.forward_orders x) st.lm_graph hx
    have hg1 : (add_lm_forward_orders_node st x).lm_graph =
        (forward_orders_get st.forward_orders x).foldl (fun g node2_pair =>
          match g.get_simple_landmark node2_pair with
          | some node2 => edge_add g x node2.id EdgeType.NATURAL
          | none => g) st.lm_graph := rfl
    have hfo1 : ∀ a, forward_orders_get (add_lm_forward_orders_node st x).forward_orders a =
        if a = x then [] else forward_orders_get st.forward_orders a :=
      fun a => forward_orders_get_clear st.forward_orders x a
    obtain ⟨o1, o2, o3⟩ := ih (add_lm_forward_orders_node st x) (by
      intro y hy
      rw [hg1, i2]
      exact hxs y (List.mem_cons_of_mem _ hy))
    refine ⟨?_, ?_, ?_⟩
    · intro a
      rw [o1 a, hfo1 a]
      by_cases hax : a = x
      · simp [hax]
      · simp [hax]
    · rintro a b ⟨ha, hab, f, hf, hs⟩
      by_cases hax : a = x
      · subst hax
        rw [o3 a b (by
          rintro ⟨_, _, f', hf', _⟩
          rw [hfo1 a, if_pos rfl] at hf'
          simp at hf'), hg1]
        exact i3 a b ⟨rfl, hab, f, hf, hs⟩
      · have ha' : a ∈ xs := by
          rcases List.mem_cons.mp ha with h | h
          · exact absurd h hax
          · exact h
        rw [o2 a b ⟨ha', hab, f, by rw [hfo1 a, if_neg hax]; exact hf,
          by rw [hg1, i1]; exact hs⟩, hg1]
        rw [i4 a b (fun hc => hax hc.1)]
    · intro a b hneg
      rw [o3 a b (by
        rintro ⟨ha', hab, f', hf', hs'⟩
        by_cases hax : a = x
        · rw [hfo1 a, if_pos hax] at hf'
          simp at hf'
        · rw [hfo1 a, if_neg hax] at hf'
          rw [hg1, i1] at hs'
          exact hneg ⟨List.mem_cons_of_mem _ ha', hab, f', hf', hs'⟩), hg1]
      apply i4
      rintro ⟨hax, hab, f', hf', hs'⟩
      exact hneg ⟨by rw [hax]; exact List.mem_cons_self _ _, hab, f', by rw [hax]; exact hf',
        hs'⟩

/-- C29: `add_lm_forward_orders` adds no node (handles, landmarks and `next_id`
are kept); afterwards the pending set of every node of the graph is empty; for a
node `x` and a fact pending for `x` that is a simple landmark with node `y ≠ x`,
the edge `x → y` has afterwards the stronger of its former type and NATURAL, in
the children of `x` and in the parents of `y`; every other edge is as before : no
edge is added for a pending fact that is not a simple landmark. -/
theorem add_lm_forward_orders_spec (st : FactoryState) :
    (add_lm_forward_orders st).lm_graph.node_landmarks = st.lm_graph.node_landmarks ∧
    (add_lm_forward_orders st).lm_graph.next_id = st.lm_graph.next_id ∧
    (∀ n ∈ st.lm_graph.nodes,
      forward_orders_get (add_lm_forward_orders st).forward_orders n.id = []) ∧
    (∀ x y, flush_edge st x y →
      (add_lm_forward_orders st).lm_graph.child_edge x y =
        some (strengthen (st.lm_graph.child_edge x y) EdgeType.NATURAL) ∧
      (add_lm_forward_orders st).lm_graph.parent_edge x y =
        some (strengthen (st.lm_graph.parent_edge x y) EdgeType.NATURAL)) ∧
    (∀ x y, ¬ flush_edge st x y →
      (add_lm_forward_orders st).lm_graph.child_edge x y = st.lm_graph.child_edge x y ∧
      (add_lm_forward_orders st).lm_graph.parent_edge x y =
        st.lm_graph.parent_edge x y) := by
  have hnodes : ∀ x ∈ st.lm_graph.nodes.map (fun n => n.id),
      (st.lm_graph.get_node x).isSome = true := by
    intro x hx
    obtain ⟨n, hn, rfl⟩ := List.mem_map.mp hx
    exact get_node_isSome_of_mem hn
  obtain ⟨c1, c2, c3⟩ := flush_outer_fold LandmarkGraph.child_edge
    (fun g a c t x y h => child_edge_edge_add_ne g a c t x y h)
    (fun g a c t hac ha _ => child_edge_edge_add_self g a c t hac ha)
    (st.lm_graph.nodes.map (fun n => n.id)) st hnodes
  obtain ⟨_, p2, p3⟩ := flush_outer_fold LandmarkGraph.parent_edge
    (fun g a c t x y h => parent_edge_edge_add_ne g a c t x y h)
    (fun g a c t hac _ hc => parent_edge_edge_add_self g a c t hac hc)
    (st.lm_graph.nodes.map (fun n => n.id)) st hnodes
  have hq := add_lm_forward_orders_preserves
    (fun g => g.node_landmarks = st.lm_graph.node_landmarks ∧
      g.next_id = st.lm_graph.next_id)
    (fun g a c t hq => ⟨(edge_add_node_landmarks g a c t).trans hq.1,
      (edge_add_next_id g a c t).trans hq.2⟩) st ⟨rfl, rfl⟩
  refine ⟨hq.1, hq.2, ?_, ?_, ?_⟩
  · intro n hn
    have := c1 n.id
    rw [if_pos (List.mem_map.mpr ⟨n, hn, rfl⟩)] at this
    exact this
  · rintro x y ⟨hxy, hx, hf⟩
    exact ⟨c2 x y ⟨hx, hxy, hf⟩, p2 x y ⟨hx, hxy, hf⟩⟩
  · intro x y hneg
    have hneg' : ¬ (x ∈ st.lm_graph.nodes.map (fun n => n.id) ∧ x ≠ y ∧
        ∃ f ∈ forward_orders_get st.forward_orders x,
          st.lm_graph.simple_landmark_id f = some y) := by
      rintro ⟨hx, hxy, hf⟩
      exact hneg ⟨hxy, hx, hf⟩
    exact ⟨c3 x y hneg', p3 x y hneg'⟩

/-- C29 (evaluation): in the sample graph with the facts `v3 = 1` (the simple
landmark of node 2) and `v4 = 1` (no landmark) pending for node 1, the flush adds
the edge `1 → 2` of type NATURAL only, and empties the pending set. -/
theorem add_lm_forward_orders_spec_witness :
    flush_edge ⟨sample_graph, [], [(1, [⟨3, 1⟩, ⟨4, 1⟩])]⟩ 1 2 ∧
    ((add_lm_forward_orders ⟨sample_graph, [], [(1, [⟨3, 1⟩, ⟨4, 1⟩])]⟩).lm_graph.child_edge
        1 2 = some (strengthen (sample_graph.child_edge 1 2) EdgeType.NATURAL) ∧
      (add_lm_forward_orders ⟨sample_graph, [], [(1, [⟨3, 1⟩, ⟨4, 1⟩])]⟩).lm_graph.parent_edge
        1 2 = some (strengthen (sample_graph.parent_edge 1 2) EdgeType.NATURAL)) ∧
    add_lm_forward_orders ⟨sample_graph, [], [(1, [⟨3, 1⟩, ⟨4, 1⟩])]⟩ =
      ⟨⟨[⟨0, Landmark.new [⟨0, 1⟩] false false true,
            [(1, EdgeType.GREEDY_NECESSARY), (2, EdgeType.NATURAL)], []⟩,
          ⟨1, Landmark.new [⟨1, 1⟩, ⟨2, 1⟩] true false false, [],
            [(0, EdgeType.GREEDY_NECESSARY), (2, EdgeType.NATURAL)]⟩,
          ⟨2, Landmark.new [⟨3, 1⟩] false false false, [(1, EdgeType.NATURAL)],
            [(0, EdgeType.NATURAL)]⟩], 3⟩, [],
        [(1, []), (0, []), (2, [])]⟩ :=
  have hf : flush_edge ⟨sample_graph, [], [(1, [⟨3, 1⟩, ⟨4, 1⟩])]⟩ 1 2 :=
    ⟨by decide, by decide, ⟨3, 1⟩, by decide, by decide⟩
  ⟨hf,
   (add_lm_forward_orders_spec ⟨sample_graph, [], [(1, [⟨3, 1⟩, ⟨4, 1⟩])]⟩).2.2.2.1 1 2 hf,
   by decide⟩

/-! ## An unconditional achieving effect empties the intersection -/

lemma greedy_intersect_effects_dead (lm_fact : FactPair) (es : List Effect) :
    greedy_intersect_effects lm_fact es (false, []) = (false, []) := by
  cases es with
  | nil => rfl
  | cons e rest => simp [greedy_intersect_effects]

lemma greedy_intersect_effects_unconditional (lm_fact : FactPair) :
    ∀ (es : List Effect) (m : IntMap),
      (∃ e ∈ es, e.fact = lm_fact ∧ e.conditions = []) →
      greedy_intersect_effects lm_fact es (false, m) = (false, []) := by
  intro es
  induction es with
  | nil => intro m ⟨e, he, _⟩; simp at he
  | cons e rest ih =>
    intro m ⟨e', he', hf, hc⟩
    unfold greedy_intersect_effects
    by_cases hm : m.isEmpty = true
    · have hm' : m = [] := List.isEmpty_iff.mp hm
      subst hm'
      simp
    · have h1 : (!false && m.isEmpty) = false := by simp [hm]
      rw [h1]
      simp only [Bool.false_eq_true, if_false]
      by_cases hmatch : lm_fact = e.fact
      · rw [if_pos hmatch]
        by_cases hce : e.conditions.isEmpty = true
        · rw [if_pos hce]
        · rw [if_neg hce]
          apply ih
          rcases List.mem_cons.mp he' with rfl | hr
          · rw [hc] at hce
            exact absurd rfl hce
          · exact ⟨e', hr, hf, hc⟩
      · rw [if_neg hmatch]
        apply ih
        rcases List.mem_cons.mp he' with rfl | hr
        · exact absurd hf.symm hmatch
        · exact ⟨e', hr, hf, hc⟩

lemma greedy_intersect_effects_pass (lm_fact : FactPair) (effects : List Effect)
    (st : Bool × IntMap)
    (h : ∃ e ∈ effects, e.fact = lm_fact ∧ e.conditions = []) :
    greedy_dead effects (greedy_intersect_effects lm_fact effects st) := by
  obtain ⟨init, m⟩ := st
  cases init with
  | false =>
    rw [greedy_intersect_effects_unconditional lm_fact effects m h]
    exact ⟨rfl, fun h => by cases h⟩
  | true =>
    cases effects with
    | nil =>
      obtain ⟨e, he, _⟩ := h
      simp at he
    | cons e0 rest =>
      obtain ⟨e', he', hf, hc⟩ := h
      unfold greedy_intersect_effects
      simp only [Bool.not_true, Bool.false_and, Bool.false_eq_true, if_false, if_true]
      by_cases hmatch : lm_fact = e0.fact
      · rw [if_pos hmatch]
        by_cases hce : e0.conditions.isEmpty = true
        · rw [if_pos hce]
          exact ⟨rfl, fun _ => ⟨e0, rest, rfl, List.isEmpty_iff.mp hce⟩⟩
        · rw [if_neg hce]
          have hr : ∃ e ∈ rest, e.fact = lm_fact ∧ e.conditions = [] := by
            rcases List.mem_cons.mp he' with rfl | hr
            · rw [hc] at hce
              exact absurd rfl hce
            · exact ⟨e', hr, hf, hc⟩
          rw [greedy_intersect_effects_unconditional lm_fact rest _ hr]
          exact ⟨rfl, fun h => by cases h⟩
      · rw [if_neg hmatch]
        have hr : ∃ e ∈ rest, e.fact = lm_fact ∧ e.conditions = [] := by
          rcases List.mem_cons.mp he' with rfl | hr
          · exact absurd hf.symm hmatch
          · exact ⟨e', hr, hf, hc⟩
        rw [greedy_intersect_effects_unconditional lm_fact rest _ hr]
        exact ⟨rfl, fun h => by cases h⟩

lemma greedy_dead_pass (lm_fact : FactPair) (effects : List Effect) (st : Bool × IntMap)
    (h : greedy_dead effects st) :
    greedy_dead effects (greedy_intersect_effects lm_fact effects st) := by
  obtain ⟨init, m⟩ := st
  obtain ⟨hm, hi⟩ := h
  simp only at hm hi
  subst hm
  cases init with
  | false =>
    rw [greedy_intersect_effects_dead]
    exact ⟨rfl, fun h => by cases h⟩
  | true =>
    obtain ⟨e0, rest, hes, hc⟩ := hi rfl
    subst hes
    unfold greedy_intersect_effects
    simp only [Bool.not_true, Bool.false_and, Bool.false_eq_true, if_false, if_true]
    by_cases hmatch : lm_fact = e0.fact
    · rw [if_pos hmatch, hc]
      simp only [List.isEmpty_nil, if_true]
      exact ⟨rfl, fun _ => ⟨e0, rest, rfl, hc⟩⟩
    · rw [if_neg hmatch, greedy_intersect_effects_dead]
      exact ⟨rfl, fun h => by cases h⟩

lemma greedy_dead_fold (landmark : Landmark) (effects : List Effect) (J : List Nat) :
    ∀ st, greedy_dead effects st →
      greedy_dead effects (J.foldl
        (fun st lm_prop =>
          greedy_intersect_effects (landmark.facts.getD lm_prop ⟨0, 0⟩) effects st) st) := by
  induction J with
  | nil => intro st h; exact h
  | cons j J ih =>
    intro st h
    rw [List.foldl_cons]
    exact ih _ (greedy_dead_pass _ _ _ h)

lemma greedy_intersection_unconditional (landmark : Landmark) (effects : List Effect)
    (h : ∃ e ∈ effects, e.fact ∈ landmark.facts ∧ e.conditions = []) :
    greedy_intersection landmark effects = [] := by
  obtain ⟨e, he, hf, hc⟩ := h
  obtain ⟨j, hj, hje⟩ := List.getElem_of_mem hf
  have hget : landmark.facts.getD j ⟨0, 0⟩ = e.fact := by
    rw [List.getD_eq_getElem _ _ hj]
    exact hje
  have hmem : j ∈ lm_props_achievable landmark effects := by
    unfold lm_props_achievable
    rw [List.mem_filter]
    refine ⟨List.mem_range.mpr hj, ?_⟩
    rw [List.any_eq_true]
    exact ⟨e, he, by rw [hget]; simp⟩
  obtain ⟨l1, l2, hsplit⟩ := List.eq_append_cons_of_mem hmem
  unfold greedy_intersection
  rw [hsplit.1, List.foldl_append, List.foldl_cons]
  exact (greedy_dead_fold landmark effects l2 _
    (greedy_intersect_effects_pass _ effects _ ⟨e, he, hget.symm, hc⟩)).1

/-- C35: if some effect of the operator whose fact is a fact of the landmark has
no conditions, the intersection of effect conditions computed by
`get_greedy_preconditions_for_lm` is empty, and the result is the given map
extended by the explicit preconditions and by the inferred initial values of
two-valued variables only. The hypothesis does not depend on the order of the
effects or of the landmark facts, so neither does the conclusion. -/
theorem greedy_preconditions_unconditional_effect (task : Task) (landmark : Landmark)
    (op : Operator) (result : IntMap)
    (h : ∃ e ∈ op.effects, e.fact ∈ landmark.facts ∧ e.conditions = []) :
    greedy_intersection landmark op.effects = [] ∧
    get_greedy_preconditions_for_lm task landmark op result =
      op.effects.foldl
        (greedy_infer_effect task landmark
          (has_precondition_on_var task.vars.length op.preconditions))
        (emplace_facts result op.preconditions) := by
  have h0 := greedy_intersection_unconditional landmark op.effects h
  refine ⟨h0, ?_⟩
  unfold get_greedy_preconditions_for_lm
  simp only [h0]
  rfl

/-- C35 (witness): an operator with a conditional and an unconditional effect on
the landmark fact `v0 = 1`. -/
theorem greedy_preconditions_unconditional_effect_witness :
    (∃ e ∈ (⟨[⟨2, 1⟩], [⟨[⟨1, 1⟩], ⟨0, 1⟩⟩, ⟨[], ⟨0, 1⟩⟩], 1⟩ : Operator).effects,
      e.fact ∈ (Landmark.new [⟨0, 1⟩] false false false).facts ∧ e.conditions = []) ∧
    greedy_intersection (Landmark.new [⟨0, 1⟩] false false false)
      (⟨[⟨2, 1⟩], [⟨[⟨1, 1⟩], ⟨0, 1⟩⟩, ⟨[], ⟨0, 1⟩⟩], 1⟩ : Operator).effects = [] ∧
    get_greedy_preconditions_for_lm sample_task (Landmark.new [⟨0, 1⟩] false false false)
        ⟨[⟨2, 1⟩], [⟨[⟨1, 1⟩], ⟨0, 1⟩⟩, ⟨[], ⟨0, 1⟩⟩], 1⟩ [] =
      (⟨[⟨2, 1⟩], [⟨[⟨1, 1⟩], ⟨0, 1⟩⟩, ⟨[], ⟨0, 1⟩⟩], 1⟩ : Operator).effects.foldl
        (greedy_infer_effect sample_task (Landmark.new [⟨0, 1⟩] false false false)
          (has_precondition_on_var sample_task.vars.length
            (⟨[⟨2, 1⟩], [⟨[⟨1, 1⟩], ⟨0, 1⟩⟩, ⟨[], ⟨0, 1⟩⟩], 1⟩ : Operator).preconditions))
        (emplace_facts []
          (⟨[⟨2, 1⟩], [⟨[⟨1, 1⟩], ⟨0, 1⟩⟩, ⟨[], ⟨0, 1⟩⟩], 1⟩ : Operator).preconditions) :=
  ⟨⟨⟨[], ⟨0, 1⟩⟩, by decide, by decide, rfl⟩,
   greedy_preconditions_unconditional_effect sample_task
     (Landmark.new [⟨0, 1⟩] false false false)
     ⟨[⟨2, 1⟩], [⟨[⟨1, 1⟩], ⟨0, 1⟩⟩, ⟨[], ⟨0, 1⟩⟩], 1⟩ []
     ⟨⟨[], ⟨0, 1⟩⟩, by decide, by decide, rfl⟩⟩

/-! ## Enlarging the exclude set of `domain_connectivity` -/

lemma domain_connectivity_avoidReach (dtg_successors : DtgSuccessors)
    (initial_state : List Nat) (landmark : FactPair) (exclude : List Nat)
    (hexcl : landmark.value ∉ exclude) :
    ∃ b, domain_connectivity dtg_successors initial_state landmark exclude = some b ∧
      (b = true ↔ AvoidReach (dtg_successors.getD landmark.var []) exclude
        (initial_value initial_state landmark.var) landmark.value) := by
  unfold domain_connectivity
  by_cases hi : initial_value initial_state landmark.var ∈ exclude
  · refine ⟨false, by simp [hi], ?_⟩
    simp only [Bool.false_eq_true, false_iff]
    exact fun h => h.1 hi
  · simp only [hi, if_false]
    apply domain_connectivity_loop_spec _ exclude _ _ hexcl
    · constructor
      · intro v hv
        exact List.mem_cons_of_mem _ hv
      · intro v hv
        rcases List.mem_cons.mp hv with rfl | h
        · exact Or.inr ⟨hi, Relation.ReflTransGen.refl⟩
        · exact Or.inl h
      · intro v hv
        rw [List.mem_singleton] at hv
        subst hv
        exact ⟨hi, Relation.ReflTransGen.refl⟩
      · exact ⟨List.mem_cons_self _ _, hi⟩
      · intro u hu huE huop
        rcases List.mem_cons.mp hu with rfl | h
        · exact absurd (List.mem_singleton_self _) huop
        · exact absurd h huE
    · have h1 : dc_unseen (dtg_successors.getD landmark.var []).flatten
          (initial_value initial_state landmark.var :: exclude) ≤
          (dtg_successors.getD landmark.var []).flatten.length := by
        unfold dc_unseen
        exact List.length_filter_le _ _
      simp only [domain_connectivity_fuel, List.length_singleton]
      omega

lemma avoidReach_mono {successors : List (List Nat)} {exclude exclude' : List Nat}
    {i g : Nat} (hsub : ∀ v ∈ exclude, v ∈ exclude')
    (h : AvoidReach successors exclude' i g) : AvoidReach successors exclude i g :=
  ⟨fun hi => h.1 (hsub _ hi),
   Relation.ReflTransGen.mono (fun _ _ hab => ⟨hab.1, fun hb => hab.2 (hsub _ hb)⟩) h.2⟩

lemma avoidingPath_set_insert {successors : List (List Nat)} {exclude : List Nat}
    {i g x : Nat} {p : List Nat} (h : AvoidingPath successors exclude i g p)
    (hx : x ∉ p) : AvoidingPath successors (set_insert exclude x) i g p := by
  obtain ⟨h1, h2, h3, h4⟩ := h
  refine ⟨h1, h2, h3, ?_⟩
  intro v hv hmem
  rcases (mem_set_insert _ _ _).mp hmem with h | rfl
  · exact h4 v hv h
  · exact hx hv

lemma domain_connectivity_antitone (dtg_successors : DtgSuccessors)
    (initial_state : List Nat) (landmark : FactPair) (exclude exclude' : List Nat)
    (hg : landmark.value ∉ exclude) (hsub : ∀ v ∈ exclude', v ∈ exclude) :
    ∃ b b', domain_connectivity dtg_successors initial_state landmark exclude = some b ∧
      domain_connectivity dtg_successors initial_state landmark exclude' = some b' ∧
      (b = true → b' = true) := by
  obtain ⟨b, hb, hbi⟩ := domain_connectivity_avoidReach dtg_successors initial_state
    landmark exclude hg
  obtain ⟨b', hb', hbi'⟩ := domain_connectivity_avoidReach dtg_successors initial_state
    landmark exclude' (fun h => hg (hsub _ h))
  exact ⟨b, b', hb, hb', fun h => hbi'.mpr (avoidReach_mono hsub (hbi.mp h))⟩

lemma domain_connectivity_set_insert_irrelevant (dtg_successors : DtgSuccessors)
    (initial_state : List Nat) (landmark : FactPair) (exclude : List Nat) (x : Nat)
    (hg : landmark.value ∉ exclude) (hxg : x ≠ landmark.value)
    (hirr : ∀ p, AvoidingPath (dtg_successors.getD landmark.var []) exclude
      (initial_value initial_state landmark.var) landmark.value p → x ∉ p) :
    domain_connectivity dtg_successors initial_state landmark (set_insert exclude x) =
      domain_connectivity dtg_successors initial_state landmark exclude := by
  have hg' : landmark.value ∉ set_insert exclude x := by
    intro h
    rcases (mem_set_insert _ _ _).mp h with h | h
    · exact hg h
    · exact hxg h.symm
  obtain ⟨b, hb, hbi⟩ := domain_connectivity_avoidReach dtg_successors initial_state
    landmark exclude hg
  obtain ⟨b', hb', hbi'⟩ := domain_connectivity_avoidReach dtg_successors initial_state
    landmark (set_insert exclude x) hg'
  rw [hb, hb']
  congr 1
  have hiff : b' = true ↔ b = true := by
    rw [hbi, hbi']
    constructor
    · exact avoidReach_mono (fun v hv => (mem_set_insert _ _ _).mpr (Or.inl hv))
    · intro h
      obtain ⟨p, hp⟩ := path_of_avoidReach h
      exact avoidReach_of_path p _ _ (avoidingPath_set_insert hp (hirr p hp))
  cases b <;> cases b' <;> simp_all

/-- C36: let `g` be the value of the landmark and `E` an exclude set with
`g ∉ E`. Excluding one more value `x ∉ E`, `x ≠ g`, that lies on no `E`-avoiding
path from the initial value `i` to `g` does not change the result of
`domain_connectivity`; and for every subset `E'` of `E` both calls return a
value, and if the call with the larger set `E` returns `true` then so does the
call with `E'` : enlarging the exclude set can only turn `true` into `false`. -/
theorem domain_connectivity_exclude_irrelevant (dtg_successors : DtgSuccessors)
    (initial_state : List Nat) (landmark : FactPair) (exclude : List Nat)
    (hg : landmark.value ∉ exclude) :
    (∀ x, x ∉ exclude → x ≠ landmark.value →
      (∀ p, AvoidingPath (dtg_successors.getD landmark.var []) exclude
        (initial_value initial_state landmark.var) landmark.value p → x ∉ p) →
      domain_connectivity dtg_successors initial_state landmark (set_insert exclude x) =
        domain_connectivity dtg_successors initial_state landmark exclude) ∧
    (∀ exclude', (∀ v ∈ exclude', v ∈ exclude) →
      ∃ b b', domain_connectivity dtg_successors initial_state landmark exclude = some b ∧
        domain_connectivity dtg_successors initial_state landmark exclude' = some b' ∧
        (b = true → b' = true)) :=
  ⟨fun x _ hxg hirr => domain_connectivity_set_insert_irrelevant dtg_successors
      initial_state landmark exclude x hg hxg hirr,
   fun exclude' hsub => domain_connectivity_antitone dtg_successors initial_state
      landmark exclude exclude' hg hsub⟩

/-- C36 (witness): the path graph `0 → 1 → 2 → 3` with the extra transition
`0 → 4`, initial value `0` and target `3`. With the empty exclude set the path
`0, 1, 2, 3` exists and the value `4`, which has no successor, lies on no path to
`3` : excluding it leaves the result `true` unchanged. The exclude set `{4}` gives
`true`, and so does its subset, the empty set; the exclude set `{1}` gives
`false`. -/
theorem domain_connectivity_exclude_irrelevant_witness :
    ((3 : Nat) ∉ ([] : List Nat) ∧ (4 : Nat) ∉ ([] : List Nat) ∧ (4 : Nat) ≠ 3 ∧
      (∀ p, AvoidingPath [[1, 4], [2], [3], [], []] [] 0 3 p → 4 ∉ p) ∧
      AvoidingPath [[1, 4], [2], [3], [], []] [] 0 3 [0, 1, 2, 3] ∧
      domain_connectivity [[[1, 4], [2], [3], [], []]] [0] ⟨0, 3⟩ (set_insert [] 4) =
        domain_connectivity [[[1, 4], [2], [3], [], []]] [0] ⟨0, 3⟩ [] ∧
      domain_connectivity [[[1, 4], [2], [3], [], []]] [0] ⟨0, 3⟩ [] = some true) ∧
    ((3 : Nat) ∉ [4] ∧
      domain_connectivity [[[1, 4], [2], [3], [], []]] [0] ⟨0, 3⟩ [4] = some true ∧
      ∃ b b', domain_connectivity [[[1, 4], [2], [3], [], []]] [0] ⟨0, 3⟩ [4] = some b ∧
        domain_connectivity [[[1, 4], [2], [3], [], []]] [0] ⟨0, 3⟩ [] = some b' ∧
        (b = true → b' = true)) ∧
    domain_connectivity [[[1, 4], [2], [3], [], []]] [0] ⟨0, 3⟩ [1] = some false := by
  have hpath : ∀ p, AvoidingPath [[1, 4], [2], [3], [], []] [] 0 3 p → 4 ∉ p := by
    intro p hp hmem
    obtain ⟨l1, l2, rfl⟩ := List.append_of_mem hmem
    obtain ⟨_, hlast, hchain, _⟩ := hp
    cases l2 with
    | nil =>
      rw [List.getLast?_append, List.getLast?_singleton] at hlast
      simp at hlast
    | cons b l2 =>
      have h := (List.chain'_split.mp hchain).2
      rw [List.chain'_cons] at h
      have hb : b ∈ ([] : List Nat) := h.1
      cases hb
  exact ⟨⟨by decide, by decide, by decide, hpath,
      ⟨rfl, rfl, by simp [dtg_edge], by simp⟩,
      (domain_connectivity_exclude_irrelevant [[[1, 4], [2], [3], [], []]] [0] ⟨0, 3⟩ []
        (by decide)).1 4 (by decide) (by decide) hpath, by decide⟩,
    ⟨by decide, by decide,
      (domain_connectivity_exclude_irrelevant [[[1, 4], [2], [3], [], []]] [0] ⟨0, 3⟩ [4]
        (by decide)).2 [] (fun v hv => by cases hv)⟩,
    by decide⟩

/-! ## The cost bound of the lazy search -/

lemma foldl_guarded_eq_filter {α β : Type} (p : β → Bool) (f : α → β → α) (l : List β) :
    ∀ a : α, l.foldl (fun a b => if p b = true then f a b else a) a =
      (l.filter p).foldl f a := by
  induction l with
  | nil => intro a; rfl
  | cons b l ih =>
    intro a
    rw [List.foldl_cons]
    by_cases hb : p b = true
    · rw [if_pos hb, List.filter_cons_of_pos hb, List.foldl_cons]
      exact ih _
    · rw [if_neg hb, List.filter_cons_of_neg hb]
      exact ih _

lemma generate_successors_open_list {OpenList Context Rng : Type} (task : Task)
    (get_adjusted_cost : Operator → Int)
    (new_context : Context → Int → Bool → Context)
    (insert : OpenList → Context → Nat × Nat → OpenList)
    (shuffle : Rng → List Nat → List Nat × Rng)
    (search : LazySearch OpenList Context Rng) :
    (generate_successors task get_adjusted_cost new_context insert shuffle search).open_list =
      ((generate_successors_operators shuffle search).1.filter
          (within_bound task search)).foldl
        (fun open_list op_id =>
          insert open_list
            (new_context search.current_eval_context
              (int_add search.current_g
                (get_adjusted_cost (task.operators.getD op_id ⟨[], [], 0⟩)))
              (decide (op_id ∈ (generate_successors_preferred shuffle search).1)))
            (search.current_state_id, op_id))
        search.open_list := by
  rw [← foldl_guarded_eq_filter]
  unfold generate_successors
  simp only []
  congr 1
  funext open_list op_id
  unfold generate_successors_insert within_bound
  simp only [decide_eq_true_eq]

lemma record_edge_fold {Context : Type} (ctx : Nat → Context) (state_id : Nat)
    (l : List Nat) : ∀ (open_list : List (Nat × Nat)),
    l.foldl (fun open_list op_id => record_edge open_list (ctx op_id) (state_id, op_id))
        open_list =
      open_list ++ l.map (fun op_id => (state_id, op_id)) := by
  induction l with
  | nil => intro open_list; simp
  | cons a l ih =>
    intro open_list
    rw [List.foldl_cons, ih]
    simp [record_edge]

lemma int_wrap_of_range (x : Int) (h1 : -2147483648 ≤ x) (h2 : x ≤ 2147483647) :
    int_wrap x = x := by
  unfold int_wrap
  omega

/-- C32: `generate_successors` adds the number of successor operators to the
counter of generated states, and hands to the open list, in order, exactly the
successor operators `op` with `current_real_g + op.get_cost() < bound` (the sum
of two `int`s, strict comparison), whatever the cost type adjusted cost is : the
adjusted cost only enters the `g` value of the evaluation context of an inserted
entry. With an open list that records the inserted edges, the recorded edges
and the counter are the same for any two adjusted costs, and an edge is
recorded if and only if its operator is a successor operator within the bound.
When the sum does not overflow it is the mathematical sum. -/
theorem generate_successors_bound {OpenList Context Rng : Type} (task : Task)
    (get_adjusted_cost : Operator → Int)
    (new_context : Context → Int → Bool → Context)
    (insert : OpenList → Context → Nat × Nat → OpenList)
    (shuffle : Rng → List Nat → List Nat × Rng)
    (search : LazySearch OpenList Context Rng) :
    (generate_successors task get_adjusted_cost new_context insert shuffle search).generated =
      search.generated + (generate_successors_operators shuffle search).1.length ∧
    (generate_successors task get_adjusted_cost new_context insert shuffle search).open_list =
      ((generate_successors_operators shuffle search).1.filter
          (within_bound task search)).foldl
        (fun open_list op_id =>
          insert open_list
            (new_context search.current_eval_context
              (int_add search.current_g
                (get_adjusted_cost (task.operators.getD op_id ⟨[], [], 0⟩)))
              (decide (op_id ∈ (generate_successors_preferred shuffle search).1)))
            (search.current_state_id, op_id))
        search.open_list ∧
    (∀ (recorded : List (Nat × Nat)) (adjusted_cost : Operator → Int),
      (generate_successors task adjusted_cost new_context record_edge shuffle
          { search with open_list := recorded }).open_list =
        recorded ++ ((generate_successors_operators shuffle search).1.filter
          (within_bound task search)).map (fun op_id => (search.current_state_id, op_id))) ∧
    (∀ op_id, within_bound task search op_id = true ↔
      int_add search.current_real_g (task.operators.getD op_id ⟨[], [], 0⟩).cost <
        search.bound) ∧
    (∀ op_id,
      -2147483648 ≤ search.current_real_g + (task.operators.getD op_id ⟨[], [], 0⟩).cost →
      search.current_real_g + (task.operators.getD op_id ⟨[], [], 0⟩).cost ≤ 2147483647 →
      (within_bound task search op_id = true ↔
        search.current_real_g + (task.operators.getD op_id ⟨[], [], 0⟩).cost <
          search.bound)) := by
  refine ⟨rfl, generate_successors_open_list _ _ _ _ _ _, ?_, ?_, ?_⟩
  · intro recorded adjusted_cost
    rw [generate_successors_open_list]
    exact record_edge_fold _ _ _ _
  · intro op_id
    unfold within_bound
    simp only [decide_eq_true_eq]
  · intro op_id h1 h2
    unfold within_bound int_add
    rw [int_wrap_of_range _ h1 h2]
    simp only [decide_eq_true_eq]

/-! ## The goal test of `SearchEngine` -/

/-- C40: `check_goal_and_set_plan` returns `true` if and only if the state
satisfies the goal of the task or a shared memory name is set and the unpacked
values of the state are a member of the previous states set. When it returns
`true`, `solution_found` is set and the plan is the traced path; when it returns
`false` the engine is unchanged. With no shared memory name set the result is the
plain goal test and the previous states set is unchanged. -/
theorem check_goal_and_set_plan_spec (task : Task) (trace_path : List Nat → List Nat)
    (trace_path_state : List Nat → List Nat) (lookup_state : Nat → List Nat)
    (engine : SearchEngine) (state : List Nat) :
    ((check_goal_and_set_plan task trace_path trace_path_state lookup_state engine state).1
        = true ↔
      (is_goal_state task state = true ∨
        (engine.shared_memory_name ≠ "" ∧
          unpacked_values state ∈ engine.previous_states_set))) ∧
    ((check_goal_and_set_plan task trace_path trace_path_state lookup_state engine state).1
        = true →
      (check_goal_and_set_plan task trace_path trace_path_state lookup_state engine
          state).2.solution_found = true ∧
      (check_goal_and_set_plan task trace_path trace_path_state lookup_state engine
          state).2.plan = trace_path state) ∧
    ((check_goal_and_set_plan task trace_path trace_path_state lookup_state engine state).1
        = false →
      (check_goal_and_set_plan task trace_path trace_path_state lookup_state engine
          state).2 = engine) ∧
    (engine.shared_memory_name = "" →
      (check_goal_and_set_plan task trace_path trace_path_state lookup_state engine
          state).1 = is_goal_state task state ∧
      (check_goal_and_set_plan task trace_path trace_path_state lookup_state engine
          state).2.previous_states_set = engine.previous_states_set) := by
  have hname : engine.shared_memory_name = "" ↔ engine.shared_memory_name.isEmpty = true := by
    rw [String.isEmpty_iff]
  rw [ne_eq, hname]
  unfold check_goal_and_set_plan
  simp only [set_plan]
  generalize engine.shared_memory_name.isEmpty = e
  cases e <;> cases hg : is_goal_state task state <;>
    by_cases hm : unpacked_values state ∈ engine.previous_states_set <;>
    cases hc : engine.no_cache <;>
    simp [hm, hc]

/-! ## The landmarks found by the domain transition graph test -/

lemma approximate_lookahead_value_fold (task : Task) (dtg : DtgSuccessors)
    (unreached : List Nat) (lmk : FactPair) (lmp : Nat) (values : List Nat) :
    ∀ st : FactoryState,
    values.foldl (approximate_lookahead_value task dtg unreached lmk lmp) (some st) =
      some ((values.filter (fun value =>
          decide (value ∉ unreached ∧ lmk.value ≠ value) &&
            (domain_connectivity dtg task.initial_state lmk (set_insert unreached value)
              == some false))).foldl
        (fun st value => found_simple_lm_and_order st ⟨lmk.var, value⟩ lmp EdgeType.NATURAL)
        st) := by
  induction values with
  | nil => intro st; rfl
  | cons v vs ih =>
    intro st
    rw [List.foldl_cons]
    obtain ⟨c, hc⟩ := Option.isSome_iff_exists.mp
      (domain_connectivity_isSome dtg task.initial_state lmk (set_insert unreached v))
    by_cases hv : v ∉ unreached ∧ lmk.value ≠ v
    · cases c with
      | false =>
        have h1 : approximate_lookahead_value task dtg unreached lmk lmp (some st) v =
            some (found_simple_lm_and_order st ⟨lmk.var, v⟩ lmp EdgeType.NATURAL) := by
          unfold approximate_lookahead_value
          simp only []
          rw [if_pos hv, hc]
          rfl
        rw [h1, ih, List.filter_cons_of_pos (by simp [hv, hc]), List.foldl_cons]
      | true =>
        have h1 : approximate_lookahead_value task dtg unreached lmk lmp (some st) v =
            some st := by
          unfold approximate_lookahead_value
          simp only []
          rw [if_pos hv, hc]
          rfl
        rw [h1, ih, List.filter_cons_of_neg (by simp [hc])]
    · have h1 : approximate_lookahead_value task dtg unreached lmk lmp (some st) v =
          some st := by
        unfold approximate_lookahead_value
        simp only []
        rw [if_neg hv]
      rw [h1, ih, List.filter_cons_of_neg (by simp only [hv, decide_False, Bool.false_and, Bool.false_eq_true, not_false_eq_true])]

/-- The function `approximate_lookahead_orders` on a node that is not disjunctive :
the forward orders of the node are recorded, then `found_simple_lm_and_order` is
called with a NATURAL edge for the values in `lookahead_values`, in order. -/
lemma approximate_lookahead_orders_eq (task : Task) (dtg : DtgSuccessors) (lvl_var : LvlVar)
    (st : FactoryState) (lmp : Nat) (node : LandmarkNode)
    (hnode : st.lm_graph.get_node lmp = some node)
    (hsimple : node.landmark.disjunctive = false) :
    approximate_lookahead_orders task dtg lvl_var st lmp =
      some ((lookahead_values task dtg lvl_var (node.landmark.facts.headD ⟨0, 0⟩)).foldl
        (fun st value =>
          found_simple_lm_and_order st ⟨(node.landmark.facts.headD ⟨0, 0⟩).var, value⟩ lmp
            EdgeType.NATURAL)
        { st with forward_orders :=
            find_forward_orders task lvl_var st.forward_orders lmp node.landmark }) := by
  unfold approximate_lookahead_orders
  rw [hnode]
  simp only [hsimple, Bool.false_eq_true, if_false]
  rw [approximate_lookahead_value_fold]
  rfl

lemma mem_lookahead_unreached (task : Task) (lvl_var : LvlVar) (lmk : FactPair) (x : Nat) :
    x ∈ lookahead_unreached task lvl_var lmk ↔
      x < get_domain_size task.vars lmk.var ∧ lvl_var_get lvl_var lmk.var x = INT_MAX ∧
        x ≠ lmk.value := by
  unfold lookahead_unreached
  rw [List.mem_filter, List.mem_range]
  simp only [Bool.and_eq_true, decide_eq_true_eq, ne_eq]
  constructor
  · rintro ⟨h1, h2, h3⟩
    exact ⟨h1, h2, fun h => h3 h.symm⟩
  · rintro ⟨h1, h2, h3⟩
    exact ⟨h1, h2, fun h => h3 h.symm⟩

lemma find?_map_filter {α : Type} (p q : α → Bool) (f : α → α)
    (hpf : ∀ x, p (f x) = p x) : ∀ (l : List α),
    (∀ x ∈ l, p x = true → q x = true) →
    ((l.filter q).map f).find? p = (l.find? p).map f := by
  intro l
  induction l with
  | nil => intro _; rfl
  | cons a l ih =>
    intro hq
    have ih' := ih (fun x hx => hq x (List.mem_cons_of_mem _ hx))
    by_cases hpa : p a = true
    · have hqa := hq a (List.mem_cons_self _ _) hpa
      rw [List.filter_cons_of_pos hqa, List.map_cons, List.find?_cons_of_pos _ (by rw [hpf]; exact hpa),
        List.find?_cons_of_pos _ hpa]
      rfl
    · rw [List.find?_cons_of_neg _ hpa]
      by_cases hqa : q a = true
      · rw [List.filter_cons_of_pos hqa, List.map_cons,
          List.find?_cons_of_neg _ (by rw [hpf]; exact hpa)]
        exact ih'
      · rw [List.filter_cons_of_neg hqa]
        exact ih'

lemma get_node_remove_node (g : LandmarkGraph) (d x : Nat) (hx : x ≠ d) :
    (g.remove_node d).get_node x =
      (g.get_node x).map (fun n => { n with parents := EdgeMap.erase n.parents d,
                                            children := EdgeMap.erase n.children d }) := by
  unfold LandmarkGraph.remove_node LandmarkGraph.get_node
  apply find?_map_filter
  · intro n; rfl
  · intro n _ hn
    simp only [beq_iff_eq] at hn
    simp only [bne_iff_ne, ne_eq]
    rw [hn]
    exact hx

lemma child_edge_remove_node (g : LandmarkGraph) (d x y : Nat) (hx : x ≠ d) (hy : y ≠ d) :
    (g.remove_node d).child_edge x y = g.child_edge x y := by
  unfold LandmarkGraph.child_edge
  rw [get_node_remove_node g d x hx]
  cases g.get_node x with
  | none => rfl
  | some n =>
    simp only [Option.map_some', Option.some_bind]
    rw [edge_find_erase, if_neg (fun h => hy h.symm)]

lemma parent_edge_remove_node (g : LandmarkGraph) (d x y : Nat) (hx : x ≠ d) (hy : y ≠ d) :
    (g.remove_node d).parent_edge x y = g.parent_edge x y := by
  unfold LandmarkGraph.parent_edge
  rw [get_node_remove_node g d y hy]
  cases g.get_node y with
  | none => rfl
  | some n =>
    simp only [Option.map_some', Option.some_bind]
    rw [edge_find_erase, if_neg (fun h => hx h.symm)]

lemma get_simple_landmark_remove_node (g : LandmarkGraph) (d : LandmarkNode) (f : FactPair)
    (hg : handles_distinct g) (hd : d ∈ g.nodes) (hdd : d.landmark.disjunctive = true) :
    (g.remove_node d.id).get_simple_landmark f =
      (g.get_simple_landmark f).map (fun n =>
        { n with parents := EdgeMap.erase n.parents d.id,
                 children := EdgeMap.erase n.children d.id }) := by
  unfold LandmarkGraph.remove_node LandmarkGraph.get_simple_landmark
  apply find?_map_filter
  · intro n; rfl
  · intro n hn hs
    simp only [Bool.and_eq_true, decide_eq_true_eq] at hs
    simp only [bne_iff_ne, ne_eq]
    intro hc
    have := eq_of_mem_of_id_eq hg hn hd hc
    rw [this] at hs
    have h1 := hs.1
    unfold Landmark.is_simple at h1
    rw [hdd] at h1
    simp at h1

lemma simple_landmark_id_remove_node (g : LandmarkGraph) (d : LandmarkNode) (f : FactPair)
    (hg : handles_distinct g) (hd : d ∈ g.nodes) (hdd : d.landmark.disjunctive = true) :
    (g.remove_node d.id).simple_landmark_id f = g.simple_landmark_id f := by
  unfold LandmarkGraph.simple_landmark_id
  rw [get_simple_landmark_remove_node g d f hg hd hdd]
  cases g.get_simple_landmark f with
  | none => rfl
  | some n => rfl

lemma simple_landmark_id_add_landmark_of_some (g : LandmarkGraph) (lm : Landmark)
    (f : FactPair) (a : Nat) (h : g.simple_landmark_id f = some a) :
    (g.add_landmark lm).1.simple_landmark_id f = some a := by
  unfold LandmarkGraph.simple_landmark_id LandmarkGraph.get_simple_landmark at h ⊢
  unfold LandmarkGraph.add_landmark
  simp only [List.find?_append]
  cases hfind : List.find? (fun n : LandmarkNode =>
      n.landmark.is_simple && decide (f ∈ n.landmark.facts)) g.nodes with
  | none => rw [hfind] at h; cases h
  | some n =>
    rw [hfind] at h
    simpa using h

lemma simple_landmark_id_add_landmark_new (g : LandmarkGraph) (lm : Landmark)
    (f : FactPair) (h : g.get_simple_landmark f = none) (hs : lm.is_simple = true)
    (hf : f ∈ lm.facts) :
    (g.add_landmark lm).1.simple_landmark_id f = some g.next_id := by
  unfold LandmarkGraph.get_simple_landmark at h
  unfold LandmarkGraph.simple_landmark_id LandmarkGraph.get_simple_landmark
  unfold LandmarkGraph.add_landmark
  simp only [List.find?_append, h]
  simp [hs, hf]

lemma get_node_next_id_of_distinct (g : LandmarkGraph) (h : handles_distinct g) :
    g.get_node g.next_id = none := by
  unfold LandmarkGraph.get_node
  rw [List.find?_eq_none]
  intro n hn
  have := h.2 n hn
  simp only [beq_iff_eq]
  omega

lemma get_node_add_landmark_next (g : LandmarkGraph) (lm : Landmark)
    (h : handles_distinct g) :
    (g.add_landmark lm).1.get_node g.next_id = some ⟨g.next_id, lm, [], []⟩ := by
  have hnone := get_node_next_id_of_distinct g h
  unfold LandmarkGraph.get_node at hnone ⊢
  unfold LandmarkGraph.add_landmark
  simp only [List.find?_append, hnone]
  simp

lemma child_edge_add_landmark_old (g : LandmarkGraph) (lm : Landmark) (x y : Nat)
    (hx : (g.get_node x).isSome = true) :
    (g.add_landmark lm).1.child_edge x y = g.child_edge x y := by
  unfold LandmarkGraph.child_edge
  rw [get_node_add_landmark_old g lm x hx]

lemma parent_edge_add_landmark_old (g : LandmarkGraph) (lm : Landmark) (x y : Nat)
    (hy : (g.get_node y).isSome = true) :
    (g.add_landmark lm).1.parent_edge x y = g.parent_edge x y := by
  unfold LandmarkGraph.parent_edge
  rw [get_node_add_landmark_old g lm y hy]

lemma get_node_isSome_of_child_edge {g : LandmarkGraph} {x y : Nat}
    (h : (g.child_edge x y).isSome = true) : (g.get_node x).isSome = true := by
  unfold LandmarkGraph.child_edge at h
  cases hx : g.get_node x with
  | none => rw [hx] at h; cases h
  | some n => rfl

lemma get_node_isSome_of_parent_edge {g : LandmarkGraph} {x y : Nat}
    (h : (g.parent_edge x y).isSome = true) : (g.get_node y).isSome = true := by
  unfold LandmarkGraph.parent_edge at h
  cases hy : g.get_node y with
  | none => rw [hy] at h; cases h
  | some n => rfl

lemma ordered_before_edge_add (g : LandmarkGraph) (a c : Nat) (ty : EdgeType)
    (f : FactPair) (b : Nat) (h : ordered_before g f b) :
    ordered_before (edge_add g a c ty) f b := by
  obtain ⟨x, hx, hxb, hc, hp⟩ := h
  refine ⟨x, by rw [simple_landmark_id_edge_add]; exact hx, hxb, ?_, ?_⟩
  · by_cases hxa : x = a ∧ b = c
    · obtain ⟨rfl, rfl⟩ := hxa
      rw [child_edge_edge_add_self g x b ty hxb (get_node_isSome_of_child_edge hc)]
      rfl
    · rw [child_edge_edge_add_ne g a c ty x b (by tauto)]
      exact hc
  · by_cases hxa : x = a ∧ b = c
    · obtain ⟨rfl, rfl⟩ := hxa
      rw [parent_edge_edge_add_self g x b ty hxb (get_node_isSome_of_parent_edge hp)]
      rfl
    · rw [parent_edge_edge_add_ne g a c ty x b (by tauto)]
      exact hp

lemma ordered_before_edge_add_fold (new : Nat) (ty : EdgeType) (f : FactPair) (b : Nat)
    (preds : List Nat) : ∀ g : LandmarkGraph, ordered_before g f b →
    ordered_before (preds.foldl (fun g p => edge_add g p new ty) g) f b := by
  induction preds with
  | nil => intro g h; exact h
  | cons p ps ih =>
    intro g h
    rw [List.foldl_cons]
    exact ih _ (ordered_before_edge_add g p new ty f b h)

lemma ordered_before_add_landmark (g : LandmarkGraph) (lm : Landmark) (f : FactPair) (b : Nat)
    (h : ordered_before g f b) : ordered_before (g.add_landmark lm).1 f b := by
  obtain ⟨x, hx, hxb, hc, hp⟩ := h
  refine ⟨x, simple_landmark_id_add_landmark_of_some g lm f x hx, hxb, ?_, ?_⟩
  · rw [child_edge_add_landmark_old g lm x b (get_node_isSome_of_child_edge hc)]
    exact hc
  · rw [parent_edge_add_landmark_old g lm x b (get_node_isSome_of_parent_edge hp)]
    exact hp

lemma mem_of_get_simple_landmark {g : LandmarkGraph} {f : FactPair} {n : LandmarkNode}
    (h : g.get_simple_landmark f = some n) :
    n ∈ g.nodes ∧ n.landmark.is_simple = true ∧ f ∈ n.landmark.facts := by
  unfold LandmarkGraph.get_simple_landmark at h
  have hp := List.find?_some h
  simp only [Bool.and_eq_true, decide_eq_true_eq] at hp
  exact ⟨List.mem_of_find?_eq_some h, hp.1, hp.2⟩

lemma mem_of_get_disjunctive_landmark {g : LandmarkGraph} {f : FactPair} {n : LandmarkNode}
    (h : g.get_disjunctive_landmark f = some n) :
    n ∈ g.nodes ∧ n.landmark.disjunctive = true ∧ f ∈ n.landmark.facts := by
  unfold LandmarkGraph.get_disjunctive_landmark at h
  have hp := List.find?_some h
  simp only [Bool.and_eq_true, decide_eq_true_eq] at hp
  exact ⟨List.mem_of_find?_eq_some h, hp.1, hp.2⟩

lemma mem_of_get_node {g : LandmarkGraph} {x : Nat} {n : LandmarkNode}
    (h : g.get_node x = some n) : n ∈ g.nodes ∧ n.id = x :=
  ⟨List.mem_of_find?_eq_some h, get_node_id h⟩

lemma ordered_before_remove_node (g : LandmarkGraph) (d : LandmarkNode) (f : FactPair)
    (b : Nat) (hg : handles_distinct g) (hd : d ∈ g.nodes)
    (hdd : d.landmark.disjunctive = true)
    (hb : ∃ nb, g.get_node b = some nb ∧ nb.landmark.disjunctive = false)
    (h : ordered_before g f b) : ordered_before (g.remove_node d.id) f b := by
  obtain ⟨x, hx, hxb, hc, hp⟩ := h
  obtain ⟨nb, hnb, hnbd⟩ := hb
  have hbd : b ≠ d.id := by
    intro hc'
    obtain ⟨hnbm, hnbid⟩ := mem_of_get_node hnb
    have := eq_of_mem_of_id_eq hg hnbm hd (hnbid.trans hc')
    rw [this, hdd] at hnbd
    cases hnbd
  have hxd : x ≠ d.id := by
    intro hc'
    unfold LandmarkGraph.simple_landmark_id at hx
    cases hs : g.get_simple_landmark f with
    | none => rw [hs] at hx; cases hx
    | some n =>
      rw [hs] at hx
      simp only [Option.map_some', Option.some.injEq] at hx
      obtain ⟨hnm, hns, _⟩ := mem_of_get_simple_landmark hs
      have := eq_of_mem_of_id_eq hg hnm hd (hx.trans hc')
      rw [this] at hns
      unfold Landmark.is_simple at hns
      rw [hdd] at hns
      simp at hns
  refine ⟨x, by rw [simple_landmark_id_remove_node g d f hg hd hdd]; exact hx, hxb, ?_, ?_⟩
  · rw [child_edge_remove_node g d.id x b hxd hbd]
    exact hc
  · rw [parent_edge_remove_node g d.id x b hxd hbd]
    exact hp

/-- A node that is not disjunctive keeps its handle, facts and kind under
`found_simple_lm_and_order`. -/
lemma found_simple_keeps_simple_node (st : FactoryState) (f : FactPair) (b' : Nat)
    (t : EdgeType) (b : Nat) (hg : handles_distinct st.lm_graph)
    (hb : ∃ nb, st.lm_graph.get_node b = some nb ∧ nb.landmark.disjunctive = false) :
    ∃ nb, (found_simple_lm_and_order st f b' t).lm_graph.get_node b = some nb ∧
      nb.landmark.disjunctive = false := by
  obtain ⟨nb, hnb, hnbd⟩ := hb
  have hsome : (st.lm_graph.get_node b).isSome = true := by rw [hnb]; rfl
  have hedge : ∀ (g : LandmarkGraph) (a c : Nat) (ty : EdgeType),
      (∃ nb, g.get_node b = some nb ∧ nb.landmark.disjunctive = false) →
      ∃ nb, (edge_add g a c ty).get_node b = some nb ∧ nb.landmark.disjunctive = false := by
    intro g a c ty ⟨n, hn, hnd⟩
    by_cases hac : a = c
    · unfold edge_add
      rw [if_pos hac]
      exact ⟨n, hn, hnd⟩
    · rw [get_node_edge_add g a c ty b hac, hn]
      refine ⟨_, rfl, ?_⟩
      dsimp only
      split
      · exact hnd
      · split <;> exact hnd
  have hfold : ∀ (preds : List Nat) (new : Nat) (g : LandmarkGraph),
      (∃ nb, g.get_node b = some nb ∧ nb.landmark.disjunctive = false) →
      ∃ nb, (preds.foldl (fun g p => edge_add g p new EdgeType.NATURAL) g).get_node b = some nb ∧
        nb.landmark.disjunctive = false := by
    intro preds new
    induction preds with
    | nil => intro g h; exact h
    | cons p ps ih =>
      intro g h
      rw [List.foldl_cons]
      exact ih _ (hedge g p new _ h)
  unfold found_simple_lm_and_order
  cases hs : st.lm_graph.get_simple_landmark f with
  | some n => exact hedge _ _ _ _ ⟨nb, hnb, hnbd⟩
  | none =>
    simp only []
    cases hd : st.lm_graph.get_disjunctive_landmark f with
    | some d =>
      simp only []
      obtain ⟨hdm, hdd, _⟩ := mem_of_get_disjunctive_landmark hd
      have hbd : b ≠ d.id := by
        intro hc'
        obtain ⟨hnbm, hnbid⟩ := mem_of_get_node hnb
        have := eq_of_mem_of_id_eq hg hnbm hdm (hnbid.trans hc')
        rw [this, hdd] at hnbd
        cases hnbd
      apply hfold
      apply hedge
      have h1 : (st.lm_graph.remove_node d.id).get_node b =
          some { nb with parents := EdgeMap.erase nb.parents d.id,
                         children := EdgeMap.erase nb.children d.id } := by
        rw [get_node_remove_node _ _ _ hbd, hnb]
        rfl
      refine ⟨{ nb with parents := EdgeMap.erase nb.parents d.id,
                        children := EdgeMap.erase nb.children d.id }, ?_, hnbd⟩
      rw [get_node_add_landmark_old _ _ _ (by rw [h1]; rfl), h1]
    | none =>
      simp only []
      apply hedge
      exact ⟨nb, by rw [get_node_add_landmark_old _ _ _ hsome]; exact hnb, hnbd⟩

lemma found_simple_keeps_order (st : FactoryState) (f' : FactPair) (b' : Nat)
    (t : EdgeType) (f : FactPair) (b : Nat) (hg : handles_distinct st.lm_graph)
    (hb : ∃ nb, st.lm_graph.get_node b = some nb ∧ nb.landmark.disjunctive = false)
    (h : ordered_before st.lm_graph f b) :
    ordered_before (found_simple_lm_and_order st f' b' t).lm_graph f b := by
  unfold found_simple_lm_and_order
  cases hs : st.lm_graph.get_simple_landmark f' with
  | some n => exact ordered_before_edge_add _ _ _ _ _ _ h
  | none =>
    simp only []
    cases hd : st.lm_graph.get_disjunctive_landmark f' with
    | some d =>
      simp only []
      obtain ⟨hdm, hdd, _⟩ := mem_of_get_disjunctive_landmark hd
      apply ordered_before_edge_add_fold
      apply ordered_before_edge_add
      apply ordered_before_add_landmark
      exact ordered_before_remove_node _ d f b hg hdm hdd hb h
    | none =>
      simp only []
      apply ordered_before_edge_add
      exact ordered_before_add_landmark _ _ _ _ h

lemma get_simple_landmark_remove_node_none (g : LandmarkGraph) (d : Nat) (f : FactPair)
    (h : g.get_simple_landmark f = none) : (g.remove_node d).get_simple_landmark f = none := by
  unfold LandmarkGraph.get_simple_landmark at h ⊢
  rw [List.find?_eq_none] at h ⊢
  intro n hn
  obtain ⟨m, hm, hl, _⟩ := mem_nodes_remove_node hn
  rw [hl]
  exact h m hm

/-- After `found_simple_lm_and_order(f, b, t)` the fact `f` is a simple landmark
ordered before `b`, when `b` is a node of the graph that is not disjunctive and
does not hold `f`. -/
lemma found_simple_orders (st : FactoryState) (f : FactPair) (b : Nat) (t : EdgeType)
    (hg : handles_distinct st.lm_graph) (nb : LandmarkNode)
    (hnb : st.lm_graph.get_node b = some nb) (hnbd : nb.landmark.disjunctive = false)
    (hf : f ∉ nb.landmark.facts) :
    ordered_before (found_simple_lm_and_order st f b t).lm_graph f b := by
  obtain ⟨hnbm, hnbid⟩ := mem_of_get_node hnb
  have hsome : (st.lm_graph.get_node b).isSome = true := by rw [hnb]; rfl
  have hlt : b < st.lm_graph.next_id := by
    rw [← hnbid]
    exact hg.2 nb hnbm
  have hnew : ∀ (g : LandmarkGraph), handles_distinct g → g.get_simple_landmark f = none →
      (g.get_node b).isSome = true → b < g.next_id →
      ordered_before
        (edge_add (g.add_landmark (Landmark.new [f] false false false)).1 g.next_id b t) f b := by
    intro g hgd hnone hbs hblt
    have hne : g.next_id ≠ b := by omega
    refine ⟨g.next_id, ?_, hne, ?_, ?_⟩
    · rw [simple_landmark_id_edge_add]
      exact simple_landmark_id_add_landmark_new g _ f hnone rfl (List.mem_singleton_self f)
    · rw [child_edge_edge_add_self _ _ _ _ hne
        (by rw [get_node_add_landmark_next g _ hgd]; rfl)]
      rfl
    · rw [parent_edge_edge_add_self _ _ _ _ hne
        (by rw [get_node_add_landmark_old g _ b hbs]; exact hbs)]
      rfl
  unfold found_simple_lm_and_order
  cases hs : st.lm_graph.get_simple_landmark f with
  | some n =>
    simp only []
    obtain ⟨hnm, _, hnf⟩ := mem_of_get_simple_landmark hs
    have hne : n.id ≠ b := by
      intro hc
      have := eq_of_mem_of_id_eq hg hnm hnbm (hc.trans hnbid.symm)
      rw [this] at hnf
      exact hf hnf
    refine ⟨n.id, ?_, hne, ?_, ?_⟩
    · rw [simple_landmark_id_edge_add]
      unfold LandmarkGraph.simple_landmark_id
      rw [hs]
      rfl
    · rw [child_edge_edge_add_self _ _ _ _ hne (get_node_isSome_of_mem hnm)]
      rfl
    · rw [parent_edge_edge_add_self _ _ _ _ hne hsome]
      rfl
  | none =>
    simp only []
    cases hd : st.lm_graph.get_disjunctive_landmark f with
    | some d =>
      simp only []
      obtain ⟨hdm, hdd, _⟩ := mem_of_get_disjunctive_landmark hd
      have hbd : b ≠ d.id := by
        intro hc'
        have := eq_of_mem_of_id_eq hg hnbm hdm (hnbid.trans hc')
        rw [this, hdd] at hnbd
        cases hnbd
      apply ordered_before_edge_add_fold
      apply hnew (st.lm_graph.remove_node d.id) (handles_distinct_remove_node _ _ hg)
        (get_simple_landmark_remove_node_none _ _ _ hs)
      · rw [← hnbid]
        exact get_node_isSome_remove_node _ _ nb hnbm (by rw [hnbid]; exact hbd)
      · exact hlt
    | none =>
      simp only []
      exact hnew st.lm_graph hg hs hsome hlt

lemma found_simple_fold_keeps_order (v : Nat) (lmp : Nat) (f : FactPair) (values : List Nat) :
    ∀ st : FactoryState, handles_distinct st.lm_graph →
    (∃ nb, st.lm_graph.get_node lmp = some nb ∧ nb.landmark.disjunctive = false) →
    ordered_before st.lm_graph f lmp →
    ordered_before (values.foldl
      (fun st value => found_simple_lm_and_order st ⟨v, value⟩ lmp EdgeType.NATURAL)
      st).lm_graph f lmp := by
  induction values with
  | nil => intro st _ _ h; exact h
  | cons x xs ih =>
    intro st hg hb h
    rw [List.foldl_cons]
    exact ih _ (handles_distinct_found_simple st _ _ _ hg)
      (found_simple_keeps_simple_node st _ _ _ lmp hg hb)
      (found_simple_keeps_order st _ _ _ f lmp hg hb h)

lemma found_simple_fold_orders (v : Nat) (lmp : Nat) (i : Nat) (values : List Nat)
    (hi : i ∈ values) :
    ∀ st : FactoryState, handles_distinct st.lm_graph →
    (∃ nb, st.lm_graph.get_node lmp = some nb ∧ nb.landmark.disjunctive = false ∧
      (⟨v, i⟩ : FactPair) ∉ nb.landmark.facts) →
    ordered_before (values.foldl
      (fun st value => found_simple_lm_and_order st ⟨v, value⟩ lmp EdgeType.NATURAL)
      st).lm_graph ⟨v, i⟩ lmp := by
  obtain ⟨l1, l2, rfl⟩ := List.append_of_mem hi
  intro st hg hb
  rw [List.foldl_append, List.foldl_cons]
  have key : ∀ (l : List Nat) (st : FactoryState), handles_distinct st.lm_graph →
      (∃ nb, st.lm_graph.get_node lmp = some nb ∧ nb.landmark.disjunctive = false ∧
        (⟨v, i⟩ : FactPair) ∉ nb.landmark.facts) →
      handles_distinct (l.foldl
        (fun st value => found_simple_lm_and_order st ⟨v, value⟩ lmp EdgeType.NATURAL)
        st).lm_graph ∧
      (∃ nb, (l.foldl
        (fun st value => found_simple_lm_and_order st ⟨v, value⟩ lmp EdgeType.NATURAL)
        st).lm_graph.get_node lmp = some nb ∧ nb.landmark.disjunctive = false ∧
        (⟨v, i⟩ : FactPair) ∉ nb.landmark.facts) := by
    intro l
    induction l with
    | nil => intro st hg hb; exact ⟨hg, hb⟩
    | cons x xs ih =>
      intro st hg hb
      rw [List.foldl_cons]
      apply ih _ (handles_distinct_found_simple st _ _ _ hg)
      obtain ⟨nb, hnb, hnbd, hnf⟩ := hb
      obtain ⟨nb', hnb', hnbd'⟩ := found_simple_keeps_simple_node st ⟨v, x⟩ lmp
        EdgeType.NATURAL lmp hg ⟨nb, hnb, hnbd⟩
      refine ⟨nb', hnb', hnbd', ?_⟩
      obtain ⟨hm', hid'⟩ := mem_of_get_node hnb'
      rcases mem_nodes_found_simple hm' with ⟨n, hn, hl, hid⟩ | ⟨_, hid, _⟩
      · obtain ⟨hm, hid0⟩ := mem_of_get_node hnb
        have : n = nb := eq_of_mem_of_id_eq hg hn hm (by rw [← hid, hid', hid0])
        rw [hl, this]
        exact hnf
      · have := hg.2 nb (mem_of_get_node hnb).1
        rw [(mem_of_get_node hnb).2] at this
        omega
  obtain ⟨hg1, nb1, hnb1, hnbd1, hnf1⟩ := key l1 st hg hb
  have hg2 := handles_distinct_found_simple _ ⟨v, i⟩ lmp EdgeType.NATURAL hg1
  exact found_simple_fold_keeps_order v lmp ⟨v, i⟩ l2 _ hg2
    (found_simple_keeps_simple_node _ _ _ _ lmp hg1 ⟨nb1, hnb1, hnbd1⟩)
    (found_simple_orders _ ⟨v, i⟩ lmp EdgeType.NATURAL hg1 nb1 hnb1 hnbd1 hnf1)

lemma domain_connectivity_initial_excluded (dtg : DtgSuccessors) (initial_state : List Nat)
    (landmark : FactPair) (exclude : List Nat)
    (h : initial_value initial_state landmark.var ∈ exclude) :
    domain_connectivity dtg initial_state landmark exclude = some false := by
  unfold domain_connectivity
  simp only []
  rw [if_pos h]

lemma contains_simple_of_ordered_before {g : LandmarkGraph} {f : FactPair} {b : Nat}
    (h : ordered_before g f b) : g.contains_simple_landmark f = true := by
  obtain ⟨a, ha, _⟩ := h
  unfold LandmarkGraph.simple_landmark_id at ha
  unfold LandmarkGraph.contains_simple_landmark
  cases hs : g.get_simple_landmark f with
  | none => rw [hs] at ha; cases ha
  | some n => rfl

/-- C39: let `lmp` be a node of a graph with distinct handles whose landmark is the
simple landmark `(v, g)`, let the initial value `i` of `v` be a value of `v` other
than `g` with a finite level. Then `domain_connectivity` returns `false` for the
exclude set that holds `i`, so `i` is one of the values for which
`approximate_lookahead_orders` calls `found_simple_lm_and_order((v, i), lmp,
NATURAL)`; the function returns a state, and in its graph `(v, i)` is a simple
landmark whose node is ordered before `lmp` (the edge is recorded on both
endpoints). -/
theorem approximate_lookahead_orders_initial_value (task : Task)
    (dtg_successors : DtgSuccessors) (lvl_var : LvlVar) (st : FactoryState) (lmp : Nat)
    (node : LandmarkNode) (v g : Nat)
    (hg : handles_distinct st.lm_graph)
    (hnode : st.lm_graph.get_node lmp = some node)
    (hdisj : node.landmark.disjunctive = false)
    (hfacts : node.landmark.facts = [⟨v, g⟩])
    (hne : initial_value task.initial_state v ≠ g)
    (hdom : initial_value task.initial_state v < get_domain_size task.vars v)
    (hlvl : lvl_var_get lvl_var v (initial_value task.initial_state v) ≠ INT_MAX) :
    domain_connectivity dtg_successors task.initial_state ⟨v, g⟩
        (set_insert (lookahead_unreached task lvl_var ⟨v, g⟩)
          (initial_value task.initial_state v)) = some false ∧
    initial_value task.initial_state v ∈ lookahead_values task dtg_successors lvl_var ⟨v, g⟩ ∧
    approximate_lookahead_orders task dtg_successors lvl_var st lmp =
      some ((lookahead_values task dtg_successors lvl_var ⟨v, g⟩).foldl
        (fun st value => found_simple_lm_and_order st ⟨v, value⟩ lmp EdgeType.NATURAL)
        { st with forward_orders :=
            find_forward_orders task lvl_var st.forward_orders lmp node.landmark }) ∧
    ∃ st', approximate_lookahead_orders task dtg_successors lvl_var st lmp = some st' ∧
      st'.lm_graph.contains_simple_landmark ⟨v, initial_value task.initial_state v⟩ = true ∧
      ordered_before st'.lm_graph ⟨v, initial_value task.initial_state v⟩ lmp := by
  have hdc : domain_connectivity dtg_successors task.initial_state ⟨v, g⟩
      (set_insert (lookahead_unreached task lvl_var ⟨v, g⟩)
        (initial_value task.initial_state v)) = some false :=
    domain_connectivity_initial_excluded _ _ _ _ ((mem_set_insert _ _ _).mpr (Or.inr rfl))
  have hnu : initial_value task.initial_state v ∉ lookahead_unreached task lvl_var ⟨v, g⟩ :=
    fun h => hlvl ((mem_lookahead_unreached task lvl_var ⟨v, g⟩ _).mp h).2.1
  have hmem : initial_value task.initial_state v ∈
      lookahead_values task dtg_successors lvl_var ⟨v, g⟩ := by
    unfold lookahead_values
    rw [List.mem_filter, List.mem_range]
    refine ⟨hdom, ?_⟩
    rw [hdc]
    simp only [Bool.and_eq_true, decide_eq_true_eq, beq_self_eq_true, and_true]
    exact ⟨hnu, fun h => hne h.symm⟩
  have heq := approximate_lookahead_orders_eq task dtg_successors lvl_var st lmp node hnode hdisj
  rw [hfacts] at heq
  simp only [List.headD_cons] at heq
  refine ⟨hdc, hmem, heq, _, heq, ?_⟩
  have hord := found_simple_fold_orders v lmp (initial_value task.initial_state v)
    (lookahead_values task dtg_successors lvl_var ⟨v, g⟩) hmem
    { st with forward_orders :=
        find_forward_orders task lvl_var st.forward_orders lmp node.landmark } hg
    ⟨node, hnode, hdisj, by
      rw [hfacts, List.mem_singleton]
      intro h
      exact hne (congrArg FactPair.value h)⟩
  exact ⟨contains_simple_of_ordered_before hord, hord⟩

/-- C39 (witness): in `sample_chain_task` the goal node `v0 = 2` gets the initial
value `v0 = 0` as a NATURAL predecessor. -/
theorem approximate_lookahead_orders_initial_value_witness :
    (handles_distinct (generate_relaxed_landmarks_seed sample_chain_task
      FactoryState.empty).lm_graph ∧
    (generate_relaxed_landmarks_seed sample_chain_task FactoryState.empty).lm_graph.get_node 0 =
      some ⟨0, Landmark.new [⟨0, 2⟩] false false true, [], []⟩ ∧
    initial_value sample_chain_task.initial_state 0 ≠ 2 ∧
    initial_value sample_chain_task.initial_state 0 < get_domain_size sample_chain_task.vars 0 ∧
    lvl_var_get [[0, 1, 2]] 0 (initial_value sample_chain_task.initial_state 0) ≠ INT_MAX) ∧
    ∃ st', approximate_lookahead_orders sample_chain_task [[[1], [2], []]] [[0, 1, 2]]
        (generate_relaxed_landmarks_seed sample_chain_task FactoryState.empty) 0 = some st' ∧
      st'.lm_graph.contains_simple_landmark
        ⟨0, initial_value sample_chain_task.initial_state 0⟩ = true ∧
      ordered_before st'.lm_graph ⟨0, initial_value sample_chain_task.initial_state 0⟩ 0 :=
  ⟨⟨by unfold handles_distinct; decide, by decide, by decide, by decide, by decide⟩,
   (approximate_lookahead_orders_initial_value sample_chain_task [[[1], [2], []]] [[0, 1, 2]]
     (generate_relaxed_landmarks_seed sample_chain_task FactoryState.empty) 0
     ⟨0, Landmark.new [⟨0, 2⟩] false false true, [], []⟩ 0 2
     (by unfold handles_distinct; decide) (by decide) rfl rfl (by decide) (by decide)
     (by decide)).2.2.2⟩

/-! ## Invariants of a run of the worklist loop -/

lemma run_facts_trivial (task : Task) : RunFacts task (fun _ => True) (fun _ => True) :=
  ⟨fun _ _ _ _ _ => trivial, fun _ _ _ => trivial, fun _ _ _ _ _ _ _ _ => trivial⟩

lemma run_invariant_of_loop_invariant {task : Task} {P : FactoryState → Prop}
    (hP : LoopInvariant task P) : RunInvariant task (fun _ => True) (fun _ => True) P :=
  ⟨fun st f b t _ h => hP.simple st f b t h, fun st a b t _ h => hP.disj st a b t h,
   fun st _ _ _ _ h => hP.orders st _ h, fun st bp c h => hP.cost st bp c h⟩

lemma run_invariant_simple_fold {task : Task} {F : FactPair → Prop}
    {S : List FactPair → Prop} {P : FactoryState → Prop} (hP : RunInvariant task F S P)
    {β : Type} (fact : β → FactPair) (bp : Nat) (t : EdgeType) (l : List β) :
    ∀ st : FactoryState, (∀ x ∈ l, F (fact x)) → P st →
    P (l.foldl (fun st x => found_simple_lm_and_order st (fact x) bp t) st) := by
  induction l with
  | nil => intro st _ h; exact h
  | cons x xs ih =>
    intro st hF h
    rw [List.foldl_cons]
    exact ih _ (fun y hy => hF y (List.mem_cons_of_mem _ hy))
      (hP.simple st _ bp t (hF x (List.mem_cons_self _ _)) h)

lemma run_invariant_disj_fold {task : Task} {F : FactPair → Prop}
    {S : List FactPair → Prop} {P : FactoryState → Prop} (hP : RunInvariant task F S P)
    (bp : Nat) (sets : List (List FactPair)) :
    ∀ st : FactoryState, (∀ a ∈ sets, a.length < 5 → S a) → P st →
    P (sets.foldl (fun st preconditions =>
      if preconditions.length < 5 then
        found_disj_lm_and_order task st preconditions bp EdgeType.GREEDY_NECESSARY
      else st) st) := by
  induction sets with
  | nil => intro st _ h; exact h
  | cons s ss ih =>
    intro st hS h
    rw [List.foldl_cons]
    apply ih _ (fun a ha => hS a (List.mem_cons_of_mem _ ha))
    split
    · rename_i hlen
      exact hP.disj st _ bp _ (hS s (List.mem_cons_self _ _) hlen) h
    · exact h

lemma approximate_lookahead_orders_cases (task : Task) (dtg : DtgSuccessors)
    (lvl_var : LvlVar) (st : FactoryState) (lmp : Nat) :
    (st.lm_graph.get_node lmp = none ∧
      approximate_lookahead_orders task dtg lvl_var st lmp = some st) ∨
    (∃ node, st.lm_graph.get_node lmp = some node ∧ node.landmark.disjunctive = true ∧
      approximate_lookahead_orders task dtg lvl_var st lmp =
        some { st with forward_orders :=
          find_forward_orders task lvl_var st.forward_orders lmp node.landmark }) ∨
    (∃ node, st.lm_graph.get_node lmp = some node ∧ node.landmark.disjunctive = false ∧
      approximate_lookahead_orders task dtg lvl_var st lmp =
        some ((lookahead_values task dtg lvl_var (node.landmark.facts.headD ⟨0, 0⟩)).foldl
          (fun st value =>
            found_simple_lm_and_order st ⟨(node.landmark.facts.headD ⟨0, 0⟩).var, value⟩ lmp
              EdgeType.NATURAL)
          { st with forward_orders :=
              find_forward_orders task lvl_var st.forward_orders lmp node.landmark })) := by
  cases hn : st.lm_graph.get_node lmp with
  | none =>
    left
    refine ⟨rfl, ?_⟩
    unfold approximate_lookahead_orders
    rw [hn]
  | some node =>
    right
    cases hd : node.landmark.disjunctive with
    | true =>
      left
      refine ⟨node, rfl, hd, ?_⟩
      unfold approximate_lookahead_orders
      rw [hn]
      simp only [hd, if_true]
    | false =>
      right
      exact ⟨node, rfl, hd, approximate_lookahead_orders_eq task dtg lvl_var st lmp node hn hd⟩

lemma approximate_lookahead_orders_some (task : Task) (dtg : DtgSuccessors)
    (lvl_var : LvlVar) (st : FactoryState) (lmp : Nat) :
    ∃ st', approximate_lookahead_orders task dtg lvl_var st lmp = some st' := by
  rcases approximate_lookahead_orders_cases task dtg lvl_var st lmp with
    ⟨_, h⟩ | ⟨_, _, _, h⟩ | ⟨_, _, _, h⟩ <;> exact ⟨_, h⟩

lemma mem_lookahead_values_lt {task : Task} {dtg : DtgSuccessors} {lvl_var : LvlVar}
    {lmk : FactPair} {x : Nat} (h : x ∈ lookahead_values task dtg lvl_var lmk) :
    x < get_domain_size task.vars lmk.var := by
  unfold lookahead_values at h
  exact List.mem_range.mp (List.mem_filter.mp h).1

lemma run_invariant_lookahead {task : Task} {F : FactPair → Prop}
    {S : List FactPair → Prop} {P : FactoryState → Prop} (hP : RunInvariant task F S P)
    (hF : RunFacts task F S) (dtg : DtgSuccessors) (lvl_var : LvlVar)
    (st st' : FactoryState) (lmp : Nat) (h : P st)
    (heq : approximate_lookahead_orders task dtg lvl_var st lmp = some st') : P st' := by
  rcases approximate_lookahead_orders_cases task dtg lvl_var st lmp with
    ⟨_, h1⟩ | ⟨node, hn, _, h1⟩ | ⟨node, hn, _, h1⟩
  · rw [h1] at heq
    cases heq
    exact h
  · rw [h1] at heq
    cases heq
    exact hP.orders st lvl_var lmp node hn h
  · rw [h1] at heq
    cases heq
    apply run_invariant_simple_fold hP
      (fun value => (⟨(node.landmark.facts.headD ⟨0, 0⟩).var, value⟩ : FactPair))
    · intro x hx
      exact hF.lookahead _ x (mem_lookahead_values_lt hx)
    · exact hP.orders st lvl_var lmp node hn h

/-- One iteration of the worklist loop, after the node `bp` has been taken from
the worklist, keeps a run invariant. -/
lemma run_invariant_step {task : Task} {F : FactPair → Prop}
    {S : List FactPair → Prop} {P : FactoryState → Prop} (hP : RunInvariant task F S P)
    (hF : RunFacts task F S) (o : LevelOracle) (pr : ReachOracle) (dtg : DtgSuccessors)
    (dc : DisjunctionClasses) (st st' : FactoryState) (bp : Nat) (rest : List Nat)
    (hopen : st.open_landmarks = bp :: rest)
    (hpop : P { st with open_landmarks := rest })
    (heq : generate_relaxed_landmarks_step task o pr dtg dc st = some st') : P st' := by
  unfold generate_relaxed_landmarks_step at heq
  rw [hopen] at heq
  simp only [] at heq
  cases hnode : st.lm_graph.get_node bp with
  | none => rw [hnode] at heq; cases heq; exact hpop
  | some node =>
    rw [hnode] at heq
    simp only [] at heq
    split at heq
    · cases heq; exact hpop
    · have h1 := run_invariant_simple_fold hP (fun pre : Nat × Nat => (⟨pre.1, pre.2⟩ : FactPair))
        bp EdgeType.GREEDY_NECESSARY
        (compute_shared_preconditions task pr [] (o node.landmark) node.landmark) _
        (fun pre hpre => hF.shared pr _ _ pre hpre) hpop
      cases hla : approximate_lookahead_orders task dtg (o node.landmark)
          ((compute_shared_preconditions task pr [] (o node.landmark)
            node.landmark).foldl
            (fun st pre =>
              found_simple_lm_and_order st ⟨pre.1, pre.2⟩ bp EdgeType.GREEDY_NECESSARY)
            { st with open_landmarks := rest }) bp with
      | none => rw [hla] at heq; cases heq
      | some st2 =>
        rw [hla] at heq
        simp only [Option.some.injEq] at heq
        rw [← heq]
        apply run_invariant_disj_fold hP
        · intro a ha hlen
          exact hF.sets pr dc _ _ _ a ha hlen
        · exact hP.cost st2 bp _ (run_invariant_lookahead hP hF dtg _ _ st2 bp h1 hla)

lemma generate_relaxed_landmarks_step_some (task : Task) (o : LevelOracle)
    (pr : ReachOracle) (dtg : DtgSuccessors) (dc : DisjunctionClasses) (st : FactoryState) :
    ∃ st', generate_relaxed_landmarks_step task o pr dtg dc st = some st' := by
  unfold generate_relaxed_landmarks_step
  cases st.open_landmarks with
  | nil => exact ⟨st, rfl⟩
  | cons bp rest =>
    simp only []
    cases st.lm_graph.get_node bp with
    | none => exact ⟨_, rfl⟩
    | some node =>
      simp only []
      split
      · exact ⟨_, rfl⟩
      · obtain ⟨st1, hst1⟩ := approximate_lookahead_orders_some task dtg (o node.landmark)
          ((compute_shared_preconditions task pr [] (o node.landmark) node.landmark).foldl
            (fun st pre =>
              found_simple_lm_and_order st ⟨pre.1, pre.2⟩ bp EdgeType.GREEDY_NECESSARY)
            { st with open_landmarks := rest }) bp
        rw [hst1]
        exact ⟨_, rfl⟩

lemma generate_relaxed_landmarks_step_nil (task : Task) (o : LevelOracle)
    (pr : ReachOracle) (dtg : DtgSuccessors) (dc : DisjunctionClasses) (st : FactoryState)
    (h : st.open_landmarks = []) :
    generate_relaxed_landmarks_step task o pr dtg dc st = some st := by
  unfold generate_relaxed_landmarks_step
  rw [h]

/-- A property kept by the removal of the first worklist entry and by the
operations of the loop body holds after any number of iterations, and the state
after these iterations exists. -/
lemma run_invariant_iterate {task : Task} {F : FactPair → Prop}
    {S : List FactPair → Prop} {P : FactoryState → Prop} (hP : RunInvariant task F S P)
    (hF : RunFacts task F S)
    (hpop : ∀ st bp rest, P st → st.open_landmarks = bp :: rest →
      P { st with open_landmarks := rest })
    (o : LevelOracle) (pr : ReachOracle) (dtg : DtgSuccessors)
    (dc : DisjunctionClasses) (n : Nat) : ∀ (st : FactoryState), P st →
    ∃ st', generate_relaxed_landmarks_iterate task o pr dtg dc n st = some st' ∧ P st' := by
  induction n with
  | zero => intro st h; exact ⟨st, rfl, h⟩
  | succ n ih =>
    intro st h
    obtain ⟨st1, hst1⟩ := generate_relaxed_landmarks_step_some task o pr dtg dc st
    rw [generate_relaxed_landmarks_iterate, hst1]
    apply ih
    cases hopen : st.open_landmarks with
    | nil =>
      rw [generate_relaxed_landmarks_step_nil task o pr dtg dc st hopen] at hst1
      cases hst1
      exact h
    | cons bp rest =>
      exact run_invariant_step hP hF o pr dtg dc st st1 bp rest hopen
        (hpop st bp rest h hopen) hst1

lemma generate_relaxed_landmarks_iterate_nil (task : Task) (o : LevelOracle)
    (pr : ReachOracle) (dtg : DtgSuccessors) (dc : DisjunctionClasses) (n : Nat)
    (st : FactoryState) (h : st.open_landmarks = []) :
    generate_relaxed_landmarks_iterate task o pr dtg dc n st = some st := by
  induction n with
  | zero => rfl
  | succ n ih =>
    rw [generate_relaxed_landmarks_iterate,
      generate_relaxed_landmarks_step_nil task o pr dtg dc st h]
    exact ih

/-- The state returned by the loop with fuel is the state after as many
iterations as the fuel allows. -/
lemma generate_relaxed_landmarks_loop_eq_iterate (task : Task) (o : LevelOracle)
    (pr : ReachOracle) (dtg : DtgSuccessors) (dc : DisjunctionClasses) (n : Nat) :
    ∀ (st st' : FactoryState),
    generate_relaxed_landmarks_loop task o pr dtg dc n st = some st' →
    generate_relaxed_landmarks_iterate task o pr dtg dc n st = some st' := by
  induction n with
  | zero =>
    intro st st' heq
    rw [generate_relaxed_landmarks_loop] at heq
    split at heq
    · cases heq; rfl
    · cases heq
  | succ n ih =>
    intro st st' heq
    rw [generate_relaxed_landmarks_loop] at heq
    split at heq
    · rename_i he
      cases heq
      exact generate_relaxed_landmarks_iterate_nil task o pr dtg dc _ st
        (List.isEmpty_iff.mp he)
    · rw [generate_relaxed_landmarks_iterate]
      cases hstep : generate_relaxed_landmarks_step task o pr dtg dc st with
      | none => rw [hstep] at heq; cases heq
      | some st1 =>
        rw [hstep] at heq
        exact ih st1 st' heq

lemma generate_relaxed_landmarks_iterate_add (task : Task) (o : LevelOracle)
    (pr : ReachOracle) (dtg : DtgSuccessors) (dc : DisjunctionClasses) (m : Nat) :
    ∀ (n : Nat) (st st1 : FactoryState),
    generate_relaxed_landmarks_iterate task o pr dtg dc n st = some st1 →
    generate_relaxed_landmarks_iterate task o pr dtg dc (n + m) st =
      generate_relaxed_landmarks_iterate task o pr dtg dc m st1 := by
  intro n
  induction n with
  | zero =>
    intro st st1 h
    rw [generate_relaxed_landmarks_iterate] at h
    cases h
    rw [Nat.zero_add]
  | succ n ih =>
    intro st st1 h
    rw [generate_relaxed_landmarks_iterate] at h
    rw [show n + 1 + m = (n + m) + 1 by omega, generate_relaxed_landmarks_iterate]
    cases hstep : generate_relaxed_landmarks_step task o pr dtg dc st with
    | none => rw [hstep] at h; cases h
    | some st2 =>
      rw [hstep] at h
      exact ih st2 st1 h

/-! ## The partition of the facts among the landmark nodes -/

lemma eq_of_ids {g' : LandmarkGraph} (hd' : handles_distinct g') {n' m' n m : LandmarkNode}
    (hn' : n' ∈ g'.nodes) (hm' : m' ∈ g'.nodes) (hidn : n'.id = n.id) (hidm : m'.id = m.id)
    (heq : n = m) : n' = m' :=
  eq_of_mem_of_id_eq hd' hn' hm' (by rw [hidn, hidm, heq])

/-- The nodes after `found_disj_lm_and_order` : each is a node of the old graph
(same handle and landmark) or the new node, created only when no fact of the set
is a simple landmark or a member of a disjunctive landmark. -/
lemma mem_nodes_found_disj_new {task : Task} {st : FactoryState} {a : List FactPair}
    {b : Nat} {t : EdgeType} {n' : LandmarkNode}
    (h : n' ∈ (found_disj_lm_and_order task st a b t).lm_graph.nodes) :
    (∃ n ∈ st.lm_graph.nodes, n'.landmark = n.landmark ∧ n'.id = n.id) ∨
    (n'.landmark = Landmark.new a true false false ∧ n'.id = st.lm_graph.next_id ∧
      (∀ f ∈ a, st.lm_graph.contains_simple_landmark f = false) ∧
      st.lm_graph.contains_overlapping_disjunctive_landmark a = false) := by
  rcases mem_nodes_found_disj h with hold | ⟨hl, hid, hs⟩
  · exact Or.inl hold
  · by_cases hov : st.lm_graph.contains_overlapping_disjunctive_landmark a = true
    · left
      unfold found_disj_lm_and_order at h
      rw [found_disj_scan_none task st.lm_graph a (fun f hf => (hs f hf).1)
        (fun f hf => (hs f hf).2)] at h
      simp only [hov, if_true] at h
      split at h
      · split at h
        · exact mem_nodes_edge_add h
        · exact ⟨n', h, rfl, rfl⟩
      · exact ⟨n', h, rfl, rfl⟩
    · right
      refine ⟨hl, hid, fun f hf => (hs f hf).2, ?_⟩
      cases hc : st.lm_graph.contains_overlapping_disjunctive_landmark a
      · rfl
      · exact absurd hc hov

/-- After `found_simple_lm_and_order(f, ...)` in a graph whose disjunctive
landmarks are pairwise disjoint, a disjunctive node can hold `f` only if `f` was a
simple landmark before. -/
lemma found_simple_no_disjunctive (st : FactoryState) (f : FactPair) (b : Nat)
    (t : EdgeType) (hdis : disjunctive_disjoint st.lm_graph) (n' : LandmarkNode)
    (hn' : n' ∈ (found_simple_lm_and_order st f b t).lm_graph.nodes)
    (hd : n'.landmark.disjunctive = true) (hf : f ∈ n'.landmark.facts) :
    st.lm_graph.contains_simple_landmark f = true := by
  cases hs : st.lm_graph.get_simple_landmark f with
  | some n =>
    unfold LandmarkGraph.contains_simple_landmark
    rw [hs]
    rfl
  | none =>
    exfalso
    unfold found_simple_lm_and_order at hn'
    rw [hs] at hn'
    simp only [] at hn'
    cases hdl : st.lm_graph.get_disjunctive_landmark f with
    | some d =>
      rw [hdl] at hn'
      simp only [] at hn'
      obtain ⟨hdm, hdd, hdf⟩ := mem_of_get_disjunctive_landmark hdl
      obtain ⟨m1, hm1, hl1, _⟩ := mem_nodes_edge_add_fold _ hn'
      obtain ⟨m2, hm2, hl2, _⟩ := mem_nodes_edge_add hm1
      rcases mem_nodes_add_landmark hm2 with hm3 | ⟨hl3, _⟩
      · obtain ⟨m4, hm4, hl4, _, hne⟩ := mem_nodes_remove_node hm3
        have hl : n'.landmark = m4.landmark := hl1.trans (hl2.trans hl4)
        rw [hl] at hd hf
        exact hne (congrArg LandmarkNode.id (hdis m4 hm4 d hdm hd hdd ⟨f, hf, hdf⟩))
      · rw [hl1.trans (hl2.trans hl3)] at hd
        cases hd
    | none =>
      rw [hdl] at hn'
      simp only [] at hn'
      obtain ⟨m2, hm2, hl2, _⟩ := mem_nodes_edge_add hn'
      rcases mem_nodes_add_landmark hm2 with hm3 | ⟨hl3, _⟩
      · rw [hl2] at hd hf
        have := contains_disjunctive_of_mem hm3 hd hf
        unfold LandmarkGraph.contains_disjunctive_landmark at this
        rw [hdl] at this
        cases this
      · rw [hl2.trans hl3] at hd
        cases hd

lemma landmark_partition_found_simple (st : FactoryState) (f : FactPair) (b : Nat)
    (t : EdgeType) (hg : handles_distinct st.lm_graph)
    (h : landmark_partition st.lm_graph) :
    landmark_partition (found_simple_lm_and_order st f b t).lm_graph := by
  obtain ⟨h1, h2, h3⟩ := h
  have hd' := handles_distinct_found_simple st f b t hg
  have hK := found_simple_no_disjunctive st f b t h2
  have hnew_simple : ∀ n' : LandmarkNode, n'.landmark = Landmark.new [f] false false false →
      n'.landmark.disjunctive = false ∧ n'.landmark.facts = [f] := by
    intro n' hl
    rw [hl]
    exact ⟨rfl, rfl⟩
  refine ⟨?_, ?_, ?_⟩
  · intro n' hn' m' hm' hns hmd f0 hf0n hf0m
    rcases mem_nodes_found_simple hm' with ⟨m, hm, hlm, _⟩ | ⟨hlm, _, _⟩
    · rcases mem_nodes_found_simple hn' with ⟨n, hn, hln, _⟩ | ⟨hln, _, hcs⟩
      · rw [hln] at hns hf0n
        rw [hlm] at hmd hf0m
        exact h1 n hn m hm hns hmd f0 hf0n hf0m
      · rw [(hnew_simple n' hln).2, List.mem_singleton] at hf0n
        subst hf0n
        rw [hK m' hm' hmd hf0m] at hcs
        cases hcs
    · rw [(hnew_simple m' hlm).1] at hmd
      cases hmd
  · intro n' hn' m' hm' hnd hmd hcommon
    rcases mem_nodes_found_simple hn' with ⟨n, hn, hln, hidn⟩ | ⟨hln, _, _⟩
    · rcases mem_nodes_found_simple hm' with ⟨m, hm, hlm, hidm⟩ | ⟨hlm, _, _⟩
      · rw [hln] at hnd hcommon
        rw [hlm] at hmd hcommon
        exact eq_of_ids hd' hn' hm' hidn hidm (h2 n hn m hm hnd hmd hcommon)
      · rw [(hnew_simple m' hlm).1] at hmd
        cases hmd
    · rw [(hnew_simple n' hln).1] at hnd
      cases hnd
  · intro n' hn' m' hm' hns hms ⟨f0, hf0n, hf0m⟩
    rcases mem_nodes_found_simple hn' with ⟨n, hn, hln, hidn⟩ | ⟨hln, hidn, hcsn⟩
    · rcases mem_nodes_found_simple hm' with ⟨m, hm, hlm, hidm⟩ | ⟨hlm, hidm, hcsm⟩
      · rw [hln] at hns hf0n
        rw [hlm] at hms hf0m
        exact eq_of_ids hd' hn' hm' hidn hidm (h3 n hn m hm hns hms ⟨f0, hf0n, hf0m⟩)
      · rw [(hnew_simple m' hlm).2, List.mem_singleton] at hf0m
        subst hf0m
        rw [hln] at hns hf0n
        rw [contains_simple_of_mem hn hns hf0n] at hcsm
        cases hcsm
    · rcases mem_nodes_found_simple hm' with ⟨m, hm, hlm, hidm⟩ | ⟨hlm, hidm, hcsm⟩
      · rw [(hnew_simple n' hln).2, List.mem_singleton] at hf0n
        subst hf0n
        rw [hlm] at hms hf0m
        rw [contains_simple_of_mem hm hms hf0m] at hcsn
        cases hcsn
      · exact eq_of_mem_of_id_eq hd' hn' hm' (hidn.trans hidm.symm)

lemma landmark_partition_found_disj (task : Task) (st : FactoryState) (a : List FactPair)
    (b : Nat) (t : EdgeType) (hg : handles_distinct st.lm_graph)
    (h : landmark_partition st.lm_graph) :
    landmark_partition (found_disj_lm_and_order task st a b t).lm_graph := by
  obtain ⟨h1, h2, h3⟩ := h
  have hd' := handles_distinct_found_disj task st a b t hg
  have hnew : ∀ n' : LandmarkNode, n'.landmark = Landmark.new a true false false →
      n'.landmark.is_simple = false ∧ n'.landmark.facts = a := by
    intro n' hl
    rw [hl]
    exact ⟨rfl, rfl⟩
  have hover : ∀ (m : LandmarkNode) (f0 : FactPair), m ∈ st.lm_graph.nodes →
      m.landmark.disjunctive = true → f0 ∈ m.landmark.facts → f0 ∈ a →
      st.lm_graph.contains_overlapping_disjunctive_landmark a = false → False := by
    intro m f0 hm hmd hf0m hf0a hno
    have : st.lm_graph.contains_overlapping_disjunctive_landmark a = true := by
      unfold LandmarkGraph.contains_overlapping_disjunctive_landmark
      rw [List.any_eq_true]
      exact ⟨f0, hf0a, contains_disjunctive_of_mem hm hmd hf0m⟩
    rw [this] at hno
    cases hno
  refine ⟨?_, ?_, ?_⟩
  · intro n' hn' m' hm' hns hmd f0 hf0n hf0m
    rcases mem_nodes_found_disj_new hn' with ⟨n, hn, hln, _⟩ | ⟨hln, _, _, _⟩
    · rcases mem_nodes_found_disj_new hm' with ⟨m, hm, hlm, _⟩ | ⟨hlm, _, hcs, _⟩
      · rw [hln] at hns hf0n
        rw [hlm] at hmd hf0m
        exact h1 n hn m hm hns hmd f0 hf0n hf0m
      · rw [hln] at hns hf0n
        rw [(hnew m' hlm).2] at hf0m
        have := hcs f0 hf0m
        rw [contains_simple_of_mem hn hns hf0n] at this
        cases this
    · rw [(hnew n' hln).1] at hns
      cases hns
  · intro n' hn' m' hm' hnd hmd ⟨f0, hf0n, hf0m⟩
    rcases mem_nodes_found_disj_new hn' with ⟨n, hn, hln, hidn⟩ | ⟨hln, hidn, _, hnon⟩
    · rcases mem_nodes_found_disj_new hm' with ⟨m, hm, hlm, hidm⟩ | ⟨hlm, hidm, _, hnom⟩
      · rw [hln] at hnd hf0n
        rw [hlm] at hmd hf0m
        exact eq_of_ids hd' hn' hm' hidn hidm (h2 n hn m hm hnd hmd ⟨f0, hf0n, hf0m⟩)
      · rw [hln] at hnd hf0n
        rw [(hnew m' hlm).2] at hf0m
        exact absurd (hover n f0 hn hnd hf0n hf0m hnom) id
    · rcases mem_nodes_found_disj_new hm' with ⟨m, hm, hlm, hidm⟩ | ⟨hlm, hidm, _, hnom⟩
      · rw [hlm] at hmd hf0m
        rw [(hnew n' hln).2] at hf0n
        exact absurd (hover m f0 hm hmd hf0m hf0n hnon) id
      · exact eq_of_mem_of_id_eq hd' hn' hm' (hidn.trans hidm.symm)
  · intro n' hn' m' hm' hns hms ⟨f0, hf0n, hf0m⟩
    rcases mem_nodes_found_disj_new hn' with ⟨n, hn, hln, hidn⟩ | ⟨hln, _, _, _⟩
    · rcases mem_nodes_found_disj_new hm' with ⟨m, hm, hlm, hidm⟩ | ⟨hlm, _, _, _⟩
      · rw [hln] at hns hf0n
        rw [hlm] at hms hf0m
        exact eq_of_ids hd' hn' hm' hidn hidm (h3 n hn m hm hns hms ⟨f0, hf0n, hf0m⟩)
      · rw [(hnew m' hlm).1] at hms
        cases hms
    · rw [(hnew n' hln).1] at hns
      cases hns

lemma landmark_partition_set_cost (g : LandmarkGraph) (bp : Nat) (c : Int)
    (hg : handles_distinct g) (h : landmark_partition g) :
    landmark_partition (g.set_cost bp c) := by
  obtain ⟨h1, h2, h3⟩ := h
  have hd' := handles_distinct_set_cost g bp c hg
  have hsimple : ∀ (n' n : LandmarkNode),
      n'.landmark.disjunctive = n.landmark.disjunctive →
      n'.landmark.conjunctive = n.landmark.conjunctive →
      n'.landmark.is_simple = n.landmark.is_simple := by
    intro n' n hd hc
    unfold Landmark.is_simple
    rw [hd, hc]
  refine ⟨?_, ?_, ?_⟩
  · intro n' hn' m' hm' hns hmd f0 hf0n hf0m
    obtain ⟨n, hn, _, hfn, hdn, hcn, _⟩ := mem_nodes_set_cost hn'
    obtain ⟨m, hm, _, hfm, hdm, _, _⟩ := mem_nodes_set_cost hm'
    rw [hsimple n' n hdn hcn] at hns
    rw [hfn] at hf0n
    rw [hfm] at hf0m
    rw [hdm] at hmd
    exact h1 n hn m hm hns hmd f0 hf0n hf0m
  · intro n' hn' m' hm' hnd hmd ⟨f0, hf0n, hf0m⟩
    obtain ⟨n, hn, hidn, hfn, hdn, _, _⟩ := mem_nodes_set_cost hn'
    obtain ⟨m, hm, hidm, hfm, hdm, _, _⟩ := mem_nodes_set_cost hm'
    rw [hfn] at hf0n
    rw [hfm] at hf0m
    rw [hdn] at hnd
    rw [hdm] at hmd
    exact eq_of_ids hd' hn' hm' hidn hidm (h2 n hn m hm hnd hmd ⟨f0, hf0n, hf0m⟩)
  · intro n' hn' m' hm' hns hms ⟨f0, hf0n, hf0m⟩
    obtain ⟨n, hn, hidn, hfn, hdn, hcn, _⟩ := mem_nodes_set_cost hn'
    obtain ⟨m, hm, hidm, hfm, hdm, hcm, _⟩ := mem_nodes_set_cost hm'
    rw [hsimple n' n hdn hcn] at hns
    rw [hsimple m' m hdm hcm] at hms
    rw [hfn] at hf0n
    rw [hfm] at hf0m
    exact eq_of_ids hd' hn' hm' hidn hidm (h3 n hn m hm hns hms ⟨f0, hf0n, hf0m⟩)

lemma landmark_partition_loop_invariant (task : Task) :
    LoopInvariant task
      (fun st => handles_distinct st.lm_graph ∧ landmark_partition st.lm_graph) :=
  loop_invariant_of_graph task (fun g => handles_distinct g ∧ landmark_partition g)
    (fun st f b t h => ⟨handles_distinct_found_simple st f b t h.1,
      landmark_partition_found_simple st f b t h.1 h.2⟩)
    (fun st a b t h => ⟨handles_distinct_found_disj task st a b t h.1,
      landmark_partition_found_disj task st a b t h.1 h.2⟩)
    (fun g bp c h => ⟨handles_distinct_set_cost g bp c h.1,
      landmark_partition_set_cost g bp c h.1 h.2⟩)

lemma seed_fold_nodes (rest : List FactPair) : ∀ (st : FactoryState),
    (rest.foldl
      (fun st goal =>
        (⟨(st.lm_graph.add_landmark (Landmark.new [goal] false false true)).1,
          st.open_landmarks ++
            [(st.lm_graph.add_landmark (Landmark.new [goal] false false true)).2],
          st.forward_orders⟩ : FactoryState)) st).lm_graph.nodes.map
        (fun n => n.landmark) =
      st.lm_graph.nodes.map (fun n => n.landmark) ++
        rest.map (fun goal => Landmark.new [goal] false false true) := by
  induction rest with
  | nil => intro st; simp
  | cons goal rest ih =>
    intro st
    rw [List.foldl_cons, ih]
    simp [LandmarkGraph.add_landmark]

lemma landmark_partition_seed (task : Task) (hgoals : task.goals.Nodup) :
    landmark_partition (generate_relaxed_landmarks_seed task FactoryState.empty).lm_graph := by
  have hnodes := seed_fold_nodes task.goals FactoryState.empty
  simp only [FactoryState.empty, List.map_nil, List.nil_append] at hnodes
  have hnodes' : (generate_relaxed_landmarks_seed task FactoryState.empty).lm_graph.nodes.map
      (fun n => n.landmark) =
      task.goals.map (fun goal => Landmark.new [goal] false false true) := hnodes
  have hshape : ∀ n ∈ (generate_relaxed_landmarks_seed task FactoryState.empty).lm_graph.nodes,
      ∃ goal ∈ task.goals, n.landmark = Landmark.new [goal] false false true := by
    intro n hn
    have : n.landmark ∈ task.goals.map (fun goal => Landmark.new [goal] false false true) := by
      rw [← hnodes']
      exact List.mem_map.mpr ⟨n, hn, rfl⟩
    obtain ⟨goal, hgoal, hl⟩ := List.mem_map.mp this
    exact ⟨goal, hgoal, hl.symm⟩
  have hnd : ((generate_relaxed_landmarks_seed task FactoryState.empty).lm_graph.nodes.map
      (fun n => n.landmark)).Nodup := by
    rw [hnodes']
    apply List.Nodup.map _ hgoals
    intro x y hxy
    have := congrArg Landmark.facts hxy
    simpa [Landmark.new] using this
  refine ⟨?_, ?_, ?_⟩
  · intro n _ m hm _ hmd
    obtain ⟨goal, _, hl⟩ := hshape m hm
    rw [hl] at hmd
    cases hmd
  · intro n hn m _ hnd' _
    obtain ⟨goal, _, hl⟩ := hshape n hn
    rw [hl] at hnd'
    cases hnd'
  · intro n hn m hm _ _ ⟨f, hfn, hfm⟩
    obtain ⟨gn, _, hln⟩ := hshape n hn
    obtain ⟨gm, _, hlm⟩ := hshape m hm
    apply List.inj_on_of_nodup_map hnd hn hm
    rw [hln] at hfn ⊢
    rw [hlm] at hfm ⊢
    simp only [Landmark.new, List.mem_singleton] at hfn hfm
    rw [← hfn, ← hfm]

lemma handles_distinct_seed (task : Task) :
    handles_distinct (generate_relaxed_landmarks_seed task FactoryState.empty).lm_graph :=
  (goal_invariant_seed task).1

/-- C38: the invariant `landmark_partition` (no fact is both a simple landmark and
a member of a disjunctive landmark node, distinct disjunctive landmark nodes have
disjoint fact sets, no two nodes hold the same simple fact) holds after the
seeding with pairwise distinct goal facts, is kept by
`found_simple_lm_and_order` and by `found_disj_lm_and_order` in a graph whose node
handles are pairwise distinct, and therefore holds, together with the
distinctness of the handles, after any number of iterations of the worklist loop
(the state after these iterations exists). -/
theorem landmark_partition_invariant (task : Task) :
    (task.goals.Nodup →
      landmark_partition (generate_relaxed_landmarks_seed task FactoryState.empty).lm_graph) ∧
    (∀ (st : FactoryState) f b t, handles_distinct st.lm_graph →
      landmark_partition st.lm_graph →
      landmark_partition (found_simple_lm_and_order st f b t).lm_graph) ∧
    (∀ (st : FactoryState) a b t, handles_distinct st.lm_graph →
      landmark_partition st.lm_graph →
      landmark_partition (found_disj_lm_and_order task st a b t).lm_graph) ∧
    (task.goals.Nodup → ∀ (relaxed_task_solvable : LevelOracle)
      (_possibly_reaches_lm : ReachOracle) (dtg_successors : DtgSuccessors)
      (disjunction_classes : DisjunctionClasses) (n : Nat),
      ∃ st, generate_relaxed_landmarks_iterate task relaxed_task_solvable
          _possibly_reaches_lm dtg_successors disjunction_classes n
          (generate_relaxed_landmarks_seed task FactoryState.empty) = some st ∧
        handles_distinct st.lm_graph ∧ landmark_partition st.lm_graph) := by
  refine ⟨landmark_partition_seed task, ?_, ?_, ?_⟩
  · intro st f b t hg h
    exact landmark_partition_found_simple st f b t hg h
  · intro st a b t hg h
    exact landmark_partition_found_disj task st a b t hg h
  · intro hgoals o pr dtg dc n
    exact run_invariant_iterate
      (run_invariant_of_loop_invariant (landmark_partition_loop_invariant task))
      (run_facts_trivial task)
      (fun st bp rest h hopen => (landmark_partition_loop_invariant task).pop st bp rest h hopen)
      o pr dtg dc n _ ⟨handles_distinct_seed task, landmark_partition_seed task hgoals⟩

/-- C38 (witness): the invariant after six iterations of the worklist loop on
`sample_two_disjunctive_task` with the class table that
`build_disjunction_classes` computes for it. The worklist is then empty and the
graph holds the four simple landmarks `v0 = 1`, `v3 = 1`, `v0 = 0`, `v3 = 0` and
the two disjunctive landmarks `{v1 = 1, v2 = 1}` and `{v4 = 1, v5 = 1}`. -/
theorem landmark_partition_invariant_witness :
    sample_two_disjunctive_task.goals.Nodup ∧
    build_disjunction_classes sample_two_disjunctive_task =
      Except.ok [[0, 0], [1, 1], [1, 1], [2, 2], [3, 3], [3, 3]] ∧
    (∃ st, generate_relaxed_landmarks_iterate sample_two_disjunctive_task
        (fun _ => [[0, 2], [0, 1], [0, 1], [0, 2], [0, 1], [0, 1]])
        (fun _ _ _ => true) (build_dtg_successors sample_two_disjunctive_task)
        [[0, 0], [1, 1], [1, 1], [2, 2], [3, 3], [3, 3]] 6
        (generate_relaxed_landmarks_seed sample_two_disjunctive_task FactoryState.empty) =
          some st ∧
      handles_distinct st.lm_graph ∧ landmark_partition st.lm_graph) ∧
    (generate_relaxed_landmarks_iterate sample_two_disjunctive_task
        (fun _ => [[0, 2], [0, 1], [0, 1], [0, 2], [0, 1], [0, 1]])
        (fun _ _ _ => true) (build_dtg_successors sample_two_disjunctive_task)
        [[0, 0], [1, 1], [1, 1], [2, 2], [3, 3], [3, 3]] 6
        (generate_relaxed_landmarks_seed sample_two_disjunctive_task FactoryState.empty)).map
      (fun st => (st.lm_graph.nodes.map
        (fun n => (n.id, n.landmark.facts, n.landmark.disjunctive)), st.open_landmarks)) =
      some ([(0, [⟨0, 1⟩], false), (1, [⟨3, 1⟩], false), (2, [⟨0, 0⟩], false),
        (3, [⟨1, 1⟩, ⟨2, 1⟩], true), (4, [⟨3, 0⟩], false), (5, [⟨4, 1⟩, ⟨5, 1⟩], true)], []) :=
  ⟨by decide, rfl,
   (landmark_partition_invariant sample_two_disjunctive_task).2.2.2 (by decide)
     (fun _ => [[0, 2], [0, 1], [0, 1], [0, 2], [0, 1], [0, 1]])
     (fun _ _ _ => true) (build_dtg_successors sample_two_disjunctive_task)
     [[0, 0], [1, 1], [1, 1], [2, 2], [3, 3], [3, 3]] 6,
   by decide⟩

/-! ## The worklist -/

lemma handles_edge_add (g : LandmarkGraph) (a c : Nat) (ty : EdgeType) :
    (edge_add g a c ty).handles = g.handles :=
  ids_edge_add g a c ty

lemma handles_edge_add_fold (new : Nat) (ty : EdgeType) (preds : List Nat) :
    ∀ g : LandmarkGraph, (preds.foldl (fun g p => edge_add g p new ty) g).handles = g.handles := by
  induction preds with
  | nil => intro g; rfl
  | cons p ps ih =>
    intro g
    rw [List.foldl_cons, ih, handles_edge_add]

lemma next_id_edge_add_fold (new : Nat) (ty : EdgeType) (preds : List Nat) :
    ∀ g : LandmarkGraph, (preds.foldl (fun g p => edge_add g p new ty) g).next_id = g.next_id := by
  induction preds with
  | nil => intro g; rfl
  | cons p ps ih =>
    intro g
    rw [List.foldl_cons, ih, edge_add_next_id]

lemma handles_remove_node (g : LandmarkGraph) (d : Nat) :
    (g.remove_node d).handles = g.handles.filter (fun h => h != d) := by
  unfold LandmarkGraph.handles LandmarkGraph.remove_node
  simp only [List.map_map]
  rw [List.filter_map]
  rfl

lemma handles_add_landmark (g : LandmarkGraph) (lm : Landmark) :
    (g.add_landmark lm).1.handles = g.handles ++ [g.next_id] := by
  unfold LandmarkGraph.handles LandmarkGraph.add_landmark
  simp

lemma handles_set_cost (g : LandmarkGraph) (bp : Nat) (c : Int) :
    (g.set_cost bp c).handles = g.handles := by
  unfold LandmarkGraph.handles LandmarkGraph.set_cost
  simp only [List.map_map]
  apply List.map_congr_left
  intro n _
  simp only [Function.comp]
  split <;> rfl

lemma mem_handles_iff (g : LandmarkGraph) (h : Nat) :
    h ∈ g.handles ↔ (g.get_node h).isSome = true := by
  unfold LandmarkGraph.handles LandmarkGraph.get_node
  rw [List.find?_isSome, List.mem_map]
  simp only [beq_iff_eq]

lemma lt_next_id_of_mem_handles {g : LandmarkGraph} (hg : handles_distinct g) {h : Nat}
    (hh : h ∈ g.handles) : h < g.next_id := by
  obtain ⟨n, hn, rfl⟩ := List.mem_map.mp hh
  exact hg.2 n hn

lemma found_simple_eq_of_simple (st : FactoryState) (f : FactPair) (b : Nat) (t : EdgeType)
    (s : LandmarkNode) (hs : st.lm_graph.get_simple_landmark f = some s) :
    found_simple_lm_and_order st f b t =
      { st with lm_graph := edge_add st.lm_graph s.id b t } := by
  unfold found_simple_lm_and_order
  rw [hs]

lemma found_simple_eq_of_disj (st : FactoryState) (f : FactPair) (b : Nat) (t : EdgeType)
    (d : LandmarkNode) (hs : st.lm_graph.get_simple_landmark f = none)
    (hd : st.lm_graph.get_disjunctive_landmark f = some d) :
    found_simple_lm_and_order st f b t =
      ⟨(d.parents.map (fun pred => pred.1)).foldl
          (fun g pred => edge_add g pred st.lm_graph.next_id EdgeType.NATURAL)
          (edge_add ((st.lm_graph.remove_node d.id).add_landmark
            (Landmark.new [f] false false false)).1 st.lm_graph.next_id b t),
        st.open_landmarks.erase d.id ++ [st.lm_graph.next_id],
        st.forward_orders.filter (fun p => p.1 != d.id)⟩ := by
  unfold found_simple_lm_and_order
  rw [hs]
  simp only []
  rw [hd]
  rfl

lemma found_simple_eq_of_none (st : FactoryState) (f : FactPair) (b : Nat) (t : EdgeType)
    (hs : st.lm_graph.get_simple_landmark f = none)
    (hd : st.lm_graph.get_disjunctive_landmark f = none) :
    found_simple_lm_and_order st f b t =
      ⟨edge_add (st.lm_graph.add_landmark (Landmark.new [f] false false false)).1
          st.lm_graph.next_id b t,
        st.open_landmarks ++ [st.lm_graph.next_id], st.forward_orders⟩ := by
  unfold found_simple_lm_and_order
  rw [hs]
  simp only []
  rw [hd]
  rfl

/-- The three cases of `found_simple_lm_and_order` : the fact is a simple landmark
and only an edge is added; a disjunctive node that holds the fact is removed from
the graph, from the worklist and from the pending forward orders, and a node with
the handle `next_id` is created and appended to the worklist; or such a node is
created without a removal. -/
lemma found_simple_cases (st : FactoryState) (f : FactPair) (b : Nat) (t : EdgeType) :
    (∃ s, st.lm_graph.get_simple_landmark f = some s ∧
      (found_simple_lm_and_order st f b t).lm_graph.handles = st.lm_graph.handles ∧
      (found_simple_lm_and_order st f b t).lm_graph.next_id = st.lm_graph.next_id ∧
      (found_simple_lm_and_order st f b t).open_landmarks = st.open_landmarks ∧
      (found_simple_lm_and_order st f b t).forward_orders = st.forward_orders) ∨
    (st.lm_graph.get_simple_landmark f = none ∧
      ∃ d, st.lm_graph.get_disjunctive_landmark f = some d ∧
      (found_simple_lm_and_order st f b t).lm_graph.handles =
        st.lm_graph.handles.filter (fun h => h != d.id) ++ [st.lm_graph.next_id] ∧
      (found_simple_lm_and_order st f b t).lm_graph.next_id = st.lm_graph.next_id + 1 ∧
      (found_simple_lm_and_order st f b t).open_landmarks =
        st.open_landmarks.erase d.id ++ [st.lm_graph.next_id] ∧
      (found_simple_lm_and_order st f b t).forward_orders =
        st.forward_orders.filter (fun p => p.1 != d.id)) ∨
    (st.lm_graph.get_simple_landmark f = none ∧
      st.lm_graph.get_disjunctive_landmark f = none ∧
      (found_simple_lm_and_order st f b t).lm_graph.handles =
        st.lm_graph.handles ++ [st.lm_graph.next_id] ∧
      (found_simple_lm_and_order st f b t).lm_graph.next_id = st.lm_graph.next_id + 1 ∧
      (found_simple_lm_and_order st f b t).open_landmarks =
        st.open_landmarks ++ [st.lm_graph.next_id] ∧
      (found_simple_lm_and_order st f b t).forward_orders = st.forward_orders) := by
  cases hs : st.lm_graph.get_simple_landmark f with
  | some s =>
    left
    rw [found_simple_eq_of_simple st f b t s hs]
    exact ⟨s, rfl, handles_edge_add _ _ _ _, edge_add_next_id _ _ _ _, rfl, rfl⟩
  | none =>
    right
    cases hd : st.lm_graph.get_disjunctive_landmark f with
    | some d =>
      left
      rw [found_simple_eq_of_disj st f b t d hs hd]
      refine ⟨rfl, d, rfl, ?_, ?_, rfl, rfl⟩
      · simp only []
        rw [handles_edge_add_fold, handles_edge_add, handles_add_landmark, handles_remove_node]
        rfl
      · simp only []
        rw [next_id_edge_add_fold, edge_add_next_id]
        rfl
    | none =>
      right
      rw [found_simple_eq_of_none st f b t hs hd]
      refine ⟨rfl, rfl, ?_, ?_, rfl, rfl⟩
      · simp only []
        rw [handles_edge_add, handles_add_landmark]
      · simp only []
        rw [edge_add_next_id]
        rfl

lemma found_disj_eq_of_new (task : Task) (st : FactoryState) (a : List FactPair) (b : Nat)
    (t : EdgeType) (hscan : found_disj_scan task st.lm_graph a = none)
    (hov : st.lm_graph.contains_overlapping_disjunctive_landmark a = false) :
    found_disj_lm_and_order task st a b t =
      ⟨edge_add (st.lm_graph.add_landmark (Landmark.new a true false false)).1
          st.lm_graph.next_id b t,
        st.open_landmarks ++ [st.lm_graph.next_id], st.forward_orders⟩ := by
  unfold found_disj_lm_and_order
  rw [hscan]
  simp only [hov, Bool.false_eq_true, if_false]
  rfl

/-- The two cases of `found_disj_lm_and_order` : no node is created and the
worklist is unchanged, or a node with the handle `next_id` is created and
appended to the worklist. -/
lemma found_disj_cases (task : Task) (st : FactoryState) (a : List FactPair) (b : Nat)
    (t : EdgeType) :
    ((found_disj_lm_and_order task st a b t).lm_graph.handles = st.lm_graph.handles ∧
      (found_disj_lm_and_order task st a b t).lm_graph.next_id = st.lm_graph.next_id ∧
      (found_disj_lm_and_order task st a b t).open_landmarks = st.open_landmarks ∧
      (found_disj_lm_and_order task st a b t).forward_orders = st.forward_orders) ∨
    (found_disj_scan task st.lm_graph a = none ∧
      st.lm_graph.contains_overlapping_disjunctive_landmark a = false ∧
      (found_disj_lm_and_order task st a b t).lm_graph.handles =
        st.lm_graph.handles ++ [st.lm_graph.next_id] ∧
      (found_disj_lm_and_order task st a b t).lm_graph.next_id = st.lm_graph.next_id + 1 ∧
      (found_disj_lm_and_order task st a b t).open_landmarks =
        st.open_landmarks ++ [st.lm_graph.next_id] ∧
      (found_disj_lm_and_order task st a b t).forward_orders = st.forward_orders) := by
  cases hscan : found_disj_scan task st.lm_graph a with
  | some r =>
    left
    unfold found_disj_lm_and_order
    rw [hscan]
    exact ⟨rfl, rfl, rfl, rfl⟩
  | none =>
    cases hov : st.lm_graph.contains_overlapping_disjunctive_landmark a with
    | true =>
      left
      unfold found_disj_lm_and_order
      rw [hscan]
      simp only [hov, if_true]
      split
      · split
        · exact ⟨handles_edge_add _ _ _ _, edge_add_next_id _ _ _ _, rfl, rfl⟩
        · exact ⟨rfl, rfl, rfl, rfl⟩
      · exact ⟨rfl, rfl, rfl, rfl⟩
    | false =>
      right
      rw [found_disj_eq_of_new task st a b t hscan hov]
      refine ⟨rfl, rfl, ?_, ?_, rfl, rfl⟩
      · simp only []
        rw [handles_edge_add, handles_add_landmark]
      · simp only []
        rw [edge_add_next_id]
        rfl

lemma forward_orders_insert_keys (fo : List (Nat × List FactPair)) (lmp : Nat)
    (fact : FactPair) :
    ∀ p ∈ forward_orders_insert fo lmp fact, p.1 = lmp ∨ p.1 ∈ fo.map (fun q => q.1) := by
  induction fo with
  | nil =>
    intro p hp
    unfold forward_orders_insert at hp
    rw [List.mem_singleton] at hp
    left
    rw [hp]
  | cons q fo ih =>
    intro p hp
    obtain ⟨n, s⟩ := q
    unfold forward_orders_insert at hp
    by_cases hn : n = lmp
    · rw [if_pos hn] at hp
      rcases List.mem_cons.mp hp with h | h
      · left
        rw [h]
        exact hn
      · right
        exact List.mem_cons_of_mem _ (List.mem_map.mpr ⟨p, h, rfl⟩)
    · rw [if_neg hn] at hp
      rcases List.mem_cons.mp hp with h | h
      · right
        rw [h]
        exact List.mem_cons_self _ _
      · rcases ih p h with h' | h'
        · exact Or.inl h'
        · exact Or.inr (List.mem_cons_of_mem _ h')

lemma find_forward_orders_keys (task : Task) (lvl_var : LvlVar) (lmp : Nat)
    (landmark : Landmark) (fo : List (Nat × List FactPair)) :
    ∀ p ∈ find_forward_orders task lvl_var fo lmp landmark,
      p.1 = lmp ∨ p.1 ∈ fo.map (fun q => q.1) := by
  unfold find_forward_orders
  generalize all_facts task.vars = facts
  induction facts generalizing fo with
  | nil =>
    intro p hp
    exact Or.inr (List.mem_map.mpr ⟨p, hp, rfl⟩)
  | cons x xs ih =>
    intro p hp
    rw [List.foldl_cons] at hp
    rcases ih _ p hp with h | h
    · exact Or.inl h
    · split at h
      · exact Or.inr h
      · split at h
        · obtain ⟨q, hq, hqp⟩ := List.mem_map.mp h
          rcases forward_orders_insert_keys fo lmp x q hq with h' | h'
          · left
            rw [← hqp]
            exact h'
          · right
            rw [← hqp]
            exact h'
        · exact Or.inr h

lemma progress_lists_append {X : Nat → Prop} {hs ws : List Nat} {nid : Nat}
    (h : progress_lists X hs ws nid) :
    progress_lists X (hs ++ [nid]) (ws ++ [nid]) (nid + 1) := by
  obtain ⟨h1, h2, h3, h4, h5⟩ := h
  have hnot : nid ∉ ws := fun hm => Nat.lt_irrefl _ (h1 nid (h3 nid hm))
  refine ⟨?_, ?_, ?_, ?_, ?_⟩
  · intro x hx
    rcases List.mem_append.mp hx with hx | hx
    · exact Nat.lt_succ_of_lt (h1 x hx)
    · rw [List.mem_singleton.mp hx]
      exact Nat.lt_succ_self _
  · rw [List.nodup_append]
    refine ⟨h2, List.nodup_singleton _, ?_⟩
    intro x hx hx'
    rw [List.mem_singleton.mp hx'] at hx
    exact hnot hx
  · intro x hx
    rcases List.mem_append.mp hx with hx | hx
    · exact List.mem_append_left _ (h3 x hx)
    · exact List.mem_append_right _ hx
  · intro x hx
    rcases List.mem_append.mp hx with hx | hx
    · rcases h4 x hx with h | h
      · exact Or.inl (List.mem_append_left _ h)
      · exact Or.inr h
    · exact Or.inl (List.mem_append_right _ hx)
  · intro x hx
    obtain ⟨hlt, hnw⟩ := h5 x hx
    refine ⟨Nat.lt_succ_of_lt hlt, ?_⟩
    intro hm
    rcases List.mem_append.mp hm with hm | hm
    · exact hnw hm
    · rw [List.mem_singleton.mp hm] at hlt
      exact Nat.lt_irrefl _ hlt

lemma progress_lists_erase {X : Nat → Prop} {hs ws : List Nat} {nid : Nat} (d : Nat)
    (h : progress_lists X hs ws nid) :
    progress_lists X (hs.filter (fun x => x != d)) (ws.erase d) nid := by
  obtain ⟨h1, h2, h3, h4, h5⟩ := h
  refine ⟨?_, h2.erase d, ?_, ?_, ?_⟩
  · intro x hx
    exact h1 x (List.mem_filter.mp hx).1
  · intro x hx
    have := (List.Nodup.mem_erase_iff h2).mp hx
    rw [List.mem_filter]
    exact ⟨h3 x this.2, by simp [this.1]⟩
  · intro x hx
    obtain ⟨hx1, hx2⟩ := List.mem_filter.mp hx
    have hne : x ≠ d := by simpa using hx2
    rcases h4 x hx1 with h | h
    · exact Or.inl ((List.mem_erase_of_ne hne).mpr h)
    · exact Or.inr h
  · intro x hx
    obtain ⟨hlt, hnw⟩ := h5 x hx
    exact ⟨hlt, fun hm => hnw (List.mem_of_mem_erase hm)⟩

lemma progress_lists_of (X : Nat → Prop) (st : FactoryState)
    (h : worklist_progress X st) :
    progress_lists X st.lm_graph.handles st.open_landmarks st.lm_graph.next_id :=
  ⟨fun _ hx => lt_next_id_of_mem_handles h.1.1 hx, h.1.2.1, h.1.2.2.1, h.2.1, h.2.2⟩

lemma worklist_progress_of (X : Nat → Prop) (st : FactoryState)
    (hg : handles_distinct st.lm_graph)
    (hfo : ∀ p ∈ st.forward_orders, p.1 ∈ st.lm_graph.handles)
    (h : progress_lists X st.lm_graph.handles st.open_landmarks st.lm_graph.next_id) :
    worklist_progress X st :=
  ⟨⟨hg, h.2.1, h.2.2.1, hfo⟩, h.2.2.2.1, h.2.2.2.2⟩

lemma worklist_progress_found_simple (X : Nat → Prop) (st : FactoryState) (f : FactPair)
    (b : Nat) (t : EdgeType) (h : worklist_progress X st) :
    worklist_progress X (found_simple_lm_and_order st f b t) := by
  have hg' := handles_distinct_found_simple st f b t h.1.1
  have hl := progress_lists_of X st h
  rcases found_simple_cases st f b t with ⟨_, _, e1, e2, e3, e4⟩ |
    ⟨_, d, _, e1, e2, e3, e4⟩ | ⟨_, _, e1, e2, e3, e4⟩
  · apply worklist_progress_of X _ hg'
    · rw [e4, e1]
      exact h.1.2.2.2
    · rw [e1, e2, e3]
      exact hl
  · apply worklist_progress_of X _ hg'
    · rw [e4, e1]
      intro p hp
      obtain ⟨hp1, hp2⟩ := List.mem_filter.mp hp
      apply List.mem_append_left
      rw [List.mem_filter]
      exact ⟨h.1.2.2.2 p hp1, hp2⟩
    · rw [e1, e2, e3]
      exact progress_lists_append (progress_lists_erase d.id hl)
  · apply worklist_progress_of X _ hg'
    · rw [e4, e1]
      intro p hp
      exact List.mem_append_left _ (h.1.2.2.2 p hp)
    · rw [e1, e2, e3]
      exact progress_lists_append hl

lemma worklist_progress_found_disj (X : Nat → Prop) (task : Task) (st : FactoryState)
    (a : List FactPair) (b : Nat) (t : EdgeType) (h : worklist_progress X st) :
    worklist_progress X (found_disj_lm_and_order task st a b t) := by
  have hg' := handles_distinct_found_disj task st a b t h.1.1
  have hl := progress_lists_of X st h
  rcases found_disj_cases task st a b t with ⟨e1, e2, e3, e4⟩ | ⟨_, _, e1, e2, e3, e4⟩
  · apply worklist_progress_of X _ hg'
    · rw [e4, e1]
      exact h.1.2.2.2
    · rw [e1, e2, e3]
      exact hl
  · apply worklist_progress_of X _ hg'
    · rw [e4, e1]
      intro p hp
      exact List.mem_append_left _ (h.1.2.2.2 p hp)
    · rw [e1, e2, e3]
      exact progress_lists_append hl

lemma worklist_progress_run_invariant (X : Nat → Prop) (task : Task) :
    RunInvariant task (fun _ => True) (fun _ => True) (worklist_progress X) := by
  refine ⟨fun st f b t _ h => worklist_progress_found_simple X st f b t h,
    fun st a b t _ h => worklist_progress_found_disj X task st a b t h, ?_, ?_⟩
  · intro st lvl_var lmp node hnode h
    refine ⟨⟨h.1.1, h.1.2.1, h.1.2.2.1, ?_⟩, h.2.1, h.2.2⟩
    intro p hp
    rcases find_forward_orders_keys task lvl_var lmp node.landmark st.forward_orders p hp
      with hk | hk
    · rw [hk]
      exact (mem_handles_iff _ _).mpr (by rw [hnode]; rfl)
    · obtain ⟨q, hq, hqp⟩ := List.mem_map.mp hk
      rw [← hqp]
      exact h.1.2.2.2 q hq
  · intro st bp c h
    refine ⟨⟨handles_distinct_set_cost _ bp c h.1.1, h.1.2.1, ?_, ?_⟩, ?_, h.2.2⟩
    · intro x hx
      show x ∈ (st.lm_graph.set_cost bp c).handles
      rw [handles_set_cost]
      exact h.1.2.2.1 x hx
    · intro p hp
      show p.1 ∈ (st.lm_graph.set_cost bp c).handles
      rw [handles_set_cost]
      exact h.1.2.2.2 p hp
    · intro x hx
      have hx' : x ∈ (st.lm_graph.set_cost bp c).handles := hx
      rw [handles_set_cost] at hx'
      exact h.2.1 x hx'

lemma seed_fold_worklist (rest : List FactPair) : ∀ (st : FactoryState),
    (rest.foldl
      (fun st goal =>
        (⟨(st.lm_graph.add_landmark (Landmark.new [goal] false false true)).1,
          st.open_landmarks ++
            [(st.lm_graph.add_landmark (Landmark.new [goal] false false true)).2],
          st.forward_orders⟩ : FactoryState)) st).forward_orders = st.forward_orders ∧
    (st.open_landmarks = st.lm_graph.handles →
      (rest.foldl
        (fun st goal =>
          (⟨(st.lm_graph.add_landmark (Landmark.new [goal] false false true)).1,
            st.open_landmarks ++
              [(st.lm_graph.add_landmark (Landmark.new [goal] false false true)).2],
            st.forward_orders⟩ : FactoryState)) st).open_landmarks =
      (rest.foldl
        (fun st goal =>
          (⟨(st.lm_graph.add_landmark (Landmark.new [goal] false false true)).1,
            st.open_landmarks ++
              [(st.lm_graph.add_landmark (Landmark.new [goal] false false true)).2],
            st.forward_orders⟩ : FactoryState)) st).lm_graph.handles) := by
  induction rest with
  | nil => intro st; exact ⟨rfl, fun h => h⟩
  | cons goal rest ih =>
    intro st
    rw [List.foldl_cons]
    obtain ⟨ih1, ih2⟩ := ih
      (⟨(st.lm_graph.add_landmark (Landmark.new [goal] false false true)).1,
        st.open_landmarks ++
          [(st.lm_graph.add_landmark (Landmark.new [goal] false false true)).2],
        st.forward_orders⟩ : FactoryState)
    refine ⟨ih1, fun h => ih2 ?_⟩
    simp only []
    rw [handles_add_landmark, h]
    rfl

/-- After the seeding the worklist holds exactly the handles of the nodes, no
forward orders are pending, and no handle has been taken from the worklist. -/
lemma worklist_progress_seed (task : Task) :
    worklist_progress (fun _ => False)
      (generate_relaxed_landmarks_seed task FactoryState.empty) := by
  have hg := handles_distinct_seed task
  obtain ⟨hfo, hopen⟩ := seed_fold_worklist task.goals FactoryState.empty
  have hopen' : (generate_relaxed_landmarks_seed task FactoryState.empty).open_landmarks =
      (generate_relaxed_landmarks_seed task FactoryState.empty).lm_graph.handles := hopen rfl
  have hfo' : (generate_relaxed_landmarks_seed task FactoryState.empty).forward_orders = [] := hfo
  refine ⟨⟨hg, ?_, ?_, ?_⟩, ?_, ?_⟩
  · rw [hopen']
    exact hg.1
  · intro h hh
    rw [← hopen']
    exact hh
  · intro p hp
    rw [hfo'] at hp
    cases hp
  · intro h hh
    left
    rw [hopen']
    exact hh
  · intro h hh
    exact absurd hh id

lemma worklist_progress_congr {X X' : Nat → Prop} (hX : ∀ h, X h ↔ X' h)
    (st : FactoryState) (h : worklist_progress X st) : worklist_progress X' st :=
  ⟨h.1, fun x hx => (h.2.1 x hx).imp id (hX x).mp, fun x hx => h.2.2 x ((hX x).mpr hx)⟩

lemma generate_relaxed_landmarks_iterate_succ (task : Task) (o : LevelOracle)
    (pr : ReachOracle) (dtg : DtgSuccessors) (dc : DisjunctionClasses) (n : Nat)
    (st0 st st1 : FactoryState)
    (hst : generate_relaxed_landmarks_iterate task o pr dtg dc n st0 = some st)
    (hstep : generate_relaxed_landmarks_step task o pr dtg dc st = some st1) :
    generate_relaxed_landmarks_iterate task o pr dtg dc (n + 1) st0 = some st1 := by
  rw [generate_relaxed_landmarks_iterate_add task o pr dtg dc 1 n st0 st hst,
    generate_relaxed_landmarks_iterate, hstep]
  rfl

lemma dequeued_succ (task : Task) (o : LevelOracle) (pr : ReachOracle)
    (dtg : DtgSuccessors) (dc : DisjunctionClasses) (n : Nat) (st : FactoryState)
    (hst : generate_relaxed_landmarks_iterate task o pr dtg dc n
      (generate_relaxed_landmarks_seed task FactoryState.empty) = some st) (h : Nat) :
    dequeued task o pr dtg dc (n + 1) h ↔
      dequeued task o pr dtg dc n h ∨ st.open_landmarks.head? = some h := by
  constructor
  · rintro ⟨j, hj, st_j, hst_j, hhead⟩
    by_cases hjn : j < n
    · exact Or.inl ⟨j, hjn, st_j, hst_j, hhead⟩
    · have : j = n := by omega
      subst this
      rw [hst] at hst_j
      cases hst_j
      exact Or.inr hhead
  · rintro (⟨j, hj, st_j, hst_j, hhead⟩ | hhead)
    · exact ⟨j, by omega, st_j, hst_j, hhead⟩
    · exact ⟨n, by omega, st, hst, hhead⟩

/-- After any number `n` of iterations of the worklist loop the state exists and
the worklist bookkeeping holds with respect to the handles taken from the
worklist in these iterations. -/
lemma worklist_progress_iterate (task : Task) (o : LevelOracle) (pr : ReachOracle)
    (dtg : DtgSuccessors) (dc : DisjunctionClasses) (n : Nat) :
    ∃ st, generate_relaxed_landmarks_iterate task o pr dtg dc n
        (generate_relaxed_landmarks_seed task FactoryState.empty) = some st ∧
      worklist_progress (dequeued task o pr dtg dc n) st := by
  induction n with
  | zero =>
    refine ⟨_, rfl, worklist_progress_congr ?_ _ (worklist_progress_seed task)⟩
    intro h
    constructor
    · intro hf
      exact absurd hf id
    · rintro ⟨j, hj, _⟩
      omega
  | succ n ih =>
    obtain ⟨st, hst, hprog⟩ := ih
    obtain ⟨st1, hstep⟩ := generate_relaxed_landmarks_step_some task o pr dtg dc st
    refine ⟨st1, generate_relaxed_landmarks_iterate_succ task o pr dtg dc n _ st st1 hst hstep,
      ?_⟩
    have hdeq := dequeued_succ task o pr dtg dc n st hst
    cases hopen : st.open_landmarks with
    | nil =>
      rw [generate_relaxed_landmarks_step_nil task o pr dtg dc st hopen] at hstep
      cases hstep
      apply worklist_progress_congr _ _ hprog
      intro h
      rw [hdeq h, hopen]
      simp
    | cons bp rest =>
      apply run_invariant_step (worklist_progress_run_invariant _ task) (run_facts_trivial task)
        o pr dtg dc st st1 bp rest hopen _ hstep
      obtain ⟨⟨hg, hnd, hsub, hfo⟩, hcov, hX⟩ := hprog
      rw [hopen] at hnd hsub hcov hX
      have hbp : bp ∉ rest := (List.nodup_cons.mp hnd).1
      refine ⟨⟨hg, (List.nodup_cons.mp hnd).2,
        fun x hx => hsub x (List.mem_cons_of_mem _ hx), hfo⟩, ?_, ?_⟩
      · intro x hx
        rcases hcov x hx with hm | hd
        · rcases List.mem_cons.mp hm with rfl | hm
          · right
            rw [hdeq, hopen]
            exact Or.inr rfl
          · exact Or.inl hm
        · right
          rw [hdeq]
          exact Or.inl hd
      · intro x hx
        rw [hdeq, hopen] at hx
        rcases hx with hd | hh
        · obtain ⟨h1, h2⟩ := hX x hd
          exact ⟨h1, fun hm => h2 (List.mem_cons_of_mem _ hm)⟩
        · simp only [List.head?_cons, Option.some.injEq] at hh
          subst hh
          exact ⟨lt_next_id_of_mem_handles hg (hsub _ (List.mem_cons_self _ _)), hbp⟩

/-- C37: after the seeding and any number `n` of iterations of the worklist loop
of `generate_relaxed_landmarks` the state exists, and at this point (the start of
the next iteration) : no handle occurs twice in the worklist; every worklist entry
and every key of the pending forward orders is the handle of a node that is in the
graph (a removed disjunctive node is in neither); every node of the graph is in
the worklist or has been taken from its front in an earlier iteration; and a
handle that has been taken from the front of the worklist is never in the
worklist again, so that no node is dequeued twice. A node enters the worklist
only when it is created, with the fresh handle `next_id` : the handles in the
worklist and the dequeued handles are below `next_id`. -/
theorem worklist_each_node_once (task : Task) (relaxed_task_solvable : LevelOracle)
    (_possibly_reaches_lm : ReachOracle) (dtg_successors : DtgSuccessors)
    (disjunction_classes : DisjunctionClasses) (n : Nat) :
    ∃ st, generate_relaxed_landmarks_iterate task relaxed_task_solvable
        _possibly_reaches_lm dtg_successors disjunction_classes n
        (generate_relaxed_landmarks_seed task FactoryState.empty) = some st ∧
      st.open_landmarks.Nodup ∧
      (∀ h ∈ st.open_landmarks,
        (st.lm_graph.get_node h).isSome = true ∧ h < st.lm_graph.next_id) ∧
      (∀ p ∈ st.forward_orders, (st.lm_graph.get_node p.1).isSome = true) ∧
      (∀ node ∈ st.lm_graph.nodes, node.id ∈ st.open_landmarks ∨
        dequeued task relaxed_task_solvable _possibly_reaches_lm dtg_successors
          disjunction_classes n node.id) ∧
      (∀ h, dequeued task relaxed_task_solvable _possibly_reaches_lm dtg_successors
          disjunction_classes n h →
        h ∉ st.open_landmarks ∧ h < st.lm_graph.next_id) ∧
      (∀ (st1 : FactoryState) f b t,
        (found_simple_lm_and_order st1 f b t).open_landmarks = st1.open_landmarks ∧
          (found_simple_lm_and_order st1 f b t).lm_graph.next_id = st1.lm_graph.next_id ∨
        (∃ removed, (found_simple_lm_and_order st1 f b t).open_landmarks =
            removed ++ [st1.lm_graph.next_id] ∧
          (removed = st1.open_landmarks ∨
            ∃ d, st1.lm_graph.get_disjunctive_landmark f = some d ∧
              removed = st1.open_landmarks.erase d.id ∧
              (found_simple_lm_and_order st1 f b t).forward_orders =
                st1.forward_orders.filter (fun p => p.1 != d.id)) ∧
          (found_simple_lm_and_order st1 f b t).lm_graph.next_id =
            st1.lm_graph.next_id + 1)) ∧
      (∀ (st1 : FactoryState) a b t,
        (found_disj_lm_and_order task st1 a b t).open_landmarks = st1.open_landmarks ∧
          (found_disj_lm_and_order task st1 a b t).lm_graph.next_id =
            st1.lm_graph.next_id ∨
        (found_disj_lm_and_order task st1 a b t).open_landmarks =
            st1.open_landmarks ++ [st1.lm_graph.next_id] ∧
          (found_disj_lm_and_order task st1 a b t).lm_graph.next_id =
            st1.lm_graph.next_id + 1) := by
  obtain ⟨st, hst, ⟨hg, hnd, hsub, hfo⟩, hcov, hX⟩ :=
    worklist_progress_iterate task relaxed_task_solvable _possibly_reaches_lm dtg_successors
      disjunction_classes n
  refine ⟨st, hst, hnd, ?_, ?_, ?_, ?_, ?_, ?_⟩
  · intro h hh
    exact ⟨(mem_handles_iff _ _).mp (hsub h hh), lt_next_id_of_mem_handles hg (hsub h hh)⟩
  · intro p hp
    exact (mem_handles_iff _ _).mp (hfo p hp)
  · intro node hnode
    exact hcov node.id (List.mem_map.mpr ⟨node, hnode, rfl⟩)
  · intro h hh
    exact ⟨(hX h hh).2, (hX h hh).1⟩
  · intro st1 f b t
    rcases found_simple_cases st1 f b t with ⟨_, _, _, e2, e3, _⟩ |
      ⟨_, d, hd, _, e2, e3, e4⟩ | ⟨_, _, _, e2, e3, _⟩
    · exact Or.inl ⟨e3, e2⟩
    · exact Or.inr ⟨_, e3, Or.inr ⟨d, hd, rfl, e4⟩, e2⟩
    · exact Or.inr ⟨_, e3, Or.inl rfl, e2⟩
  · intro st1 a b t
    rcases found_disj_cases task st1 a b t with ⟨_, e2, e3, _⟩ | ⟨_, _, _, e2, e3, _⟩
    · exact Or.inl ⟨e3, e2⟩
    · exact Or.inr ⟨e3, e2⟩

/-! ## Pending forward orders -/

lemma forward_orders_get_insert (fo : List (Nat × List FactPair)) (lmp : Nat)
    (fact : FactPair) (n : Nat) :
    forward_orders_get (forward_orders_insert fo lmp fact) n =
      if n = lmp then fact_set_insert (forward_orders_get fo lmp) fact
      else forward_orders_get fo n := by
  induction fo with
  | nil =>
    unfold forward_orders_insert forward_orders_get
    by_cases hn : n = lmp
    · subst hn
      simp [fact_set_insert]
    · have : ¬ lmp = n := fun h => hn h.symm
      simp [hn, this]
  | cons q fo ih =>
    obtain ⟨k, s⟩ := q
    unfold forward_orders_insert
    by_cases hk : k = lmp
    · rw [if_pos hk]
      subst hk
      by_cases hn : n = k
      · subst hn
        simp [forward_orders_get]
      · have : ¬ k = n := fun h => hn h.symm
        simp [forward_orders_get, hn, this]
    · rw [if_neg hk]
      by_cases hkn : k = n
      · subst hkn
        simp [forward_orders_get, hk]
      · have h1 : forward_orders_get ((k, s) :: forward_orders_insert fo lmp fact) n =
            forward_orders_get (forward_orders_insert fo lmp fact) n := by
          unfold forward_orders_get
          rw [List.find?_cons_of_neg _ (by simpa using hkn)]
        have h2 : forward_orders_get ((k, s) :: fo) n = forward_orders_get fo n := by
          unfold forward_orders_get
          rw [List.find?_cons_of_neg _ (by simpa using hkn)]
        have h3 : forward_orders_get ((k, s) :: fo) lmp = forward_orders_get fo lmp := by
          unfold forward_orders_get
          rw [List.find?_cons_of_neg _ (by simpa using hk)]
        rw [h1, h2, h3]
        exact ih

lemma intersection_empty_iff (a b : List Nat) :
    intersection_empty a b = true ↔ ∀ id, ¬ (id ∈ a ∧ id ∈ b) := by
  unfold intersection_empty
  simp only [List.all_eq_true, bne_iff_ne, ne_eq]
  constructor
  · intro h id ⟨ha, hb⟩
    exact h id ha id hb rfl
  · intro h j hj k hk hjk
    subst hjk
    exact h j ⟨hj, hk⟩

lemma forward_order_insert_iff (task : Task) (landmark : Landmark) (fact : FactPair) :
    forward_order_insert task landmark fact = true ↔
      fact ∉ landmark.facts ∧
      ∀ l ∈ landmark.facts, ∀ id, ¬ (id ∈ get_operators_including_eff task fact ∧
        id ∈ get_operators_including_eff task l) := by
  unfold forward_order_insert
  simp only [List.all_eq_true, Bool.and_eq_true, bne_iff_ne, ne_eq, intersection_empty_iff]
  constructor
  · intro h
    exact ⟨fun hm => (h fact hm).1 rfl, fun l hl => (h l hl).2⟩
  · rintro ⟨h1, h2⟩ l hl
    exact ⟨fun heq => h1 (heq ▸ hl), h2 l hl⟩

/-- The pending sets after `find_forward_orders` for the node `lmp` : the set of
another node is unchanged; the set of `lmp` gains exactly the facts of the task
with level `INT_MAX` that are not facts of the landmark and share no achieving
operator with a fact of the landmark. -/
lemma mem_find_forward_orders (task : Task) (lvl_var : LvlVar) (lmp : Nat)
    (landmark : Landmark) (fo : List (Nat × List FactPair)) (n : Nat) (f : FactPair) :
    f ∈ forward_orders_get (find_forward_orders task lvl_var fo lmp landmark) n ↔
      f ∈ forward_orders_get fo n ∨
      (n = lmp ∧ f ∈ all_facts task.vars ∧ lvl_var_get lvl_var f.var f.value = INT_MAX ∧
        f ∉ landmark.facts ∧
        ∀ l ∈ landmark.facts, ∀ id, ¬ (id ∈ get_operators_including_eff task f ∧
          id ∈ get_operators_including_eff task l)) := by
  unfold find_forward_orders
  generalize all_facts task.vars = facts
  induction facts generalizing fo with
  | nil => simp
  | cons x xs ih =>
    rw [List.foldl_cons, ih]
    by_cases hl : lvl_var_get lvl_var x.var x.value = INT_MAX
    · by_cases hi : forward_order_insert task landmark x = true
      · have hi' := (forward_order_insert_iff task landmark x).mp hi
        simp only [hl, ne_eq, not_true_eq_false, if_false, hi, if_true]
        rw [forward_orders_get_insert]
        by_cases hn : n = lmp
        · subst hn
          simp only [if_true, mem_fact_set_insert, List.mem_cons, true_and]
          constructor
          · rintro ((h | h) | h)
            · exact Or.inl h
            · subst h
              exact Or.inr ⟨Or.inl rfl, hl, hi'.1, hi'.2⟩
            · exact Or.inr ⟨Or.inr h.1, h.2⟩
          · rintro (h | ⟨h | h, h'⟩)
            · exact Or.inl (Or.inl h)
            · exact Or.inl (Or.inr h)
            · exact Or.inr ⟨h, h'⟩
        · simp only [hn, if_false, false_and, or_false]
      · have hi' : ¬ (x ∉ landmark.facts ∧
            ∀ l ∈ landmark.facts, ∀ id, ¬ (id ∈ get_operators_including_eff task x ∧
              id ∈ get_operators_including_eff task l)) :=
          fun h => hi ((forward_order_insert_iff task landmark x).mpr h)
        simp only [hl, ne_eq, not_true_eq_false, if_false, hi, Bool.false_eq_true]
        constructor
        · rintro (h | ⟨h1, h2, h3⟩)
          · exact Or.inl h
          · exact Or.inr ⟨h1, List.mem_cons_of_mem _ h2, h3⟩
        · rintro (h | ⟨h1, h2, h3, h4⟩)
          · exact Or.inl h
          · rcases List.mem_cons.mp h2 with h | h
            · subst h
              exact absurd h4 hi'
            · exact Or.inr ⟨h1, h, h3, h4⟩
    · simp only [ne_eq, hl, not_false_eq_true, if_true]
      constructor
      · rintro (h | ⟨h1, h2, h3⟩)
        · exact Or.inl h
        · exact Or.inr ⟨h1, List.mem_cons_of_mem _ h2, h3⟩
      · rintro (h | ⟨h1, h2, h3, h4⟩)
        · exact Or.inl h
        · rcases List.mem_cons.mp h2 with h | h
          · subst h
            exact absurd h3 hl
          · exact Or.inr ⟨h1, h, h3, h4⟩

lemma forward_orders_get_eq_nil (fo : List (Nat × List FactPair)) (x : Nat)
    (h : ∀ p ∈ fo, p.1 ≠ x) : forward_orders_get fo x = [] := by
  unfold forward_orders_get
  have : fo.find? (fun p => p.1 == x) = none := by
    rw [List.find?_eq_none]
    intro p hp
    simpa using h p hp
  rw [this]

lemma mem_forward_orders_get_filter (fo : List (Nat × List FactPair)) (d x : Nat)
    (f : FactPair)
    (h : f ∈ forward_orders_get (fo.filter (fun p => p.1 != d)) x) :
    f ∈ forward_orders_get fo x := by
  induction fo with
  | nil => exact h
  | cons q fo ih =>
    by_cases hq : (q.1 != d) = true
    · have hfil : List.filter (fun p : Nat × List FactPair => p.1 != d) (q :: fo) =
          q :: List.filter (fun p : Nat × List FactPair => p.1 != d) fo :=
        List.filter_cons_of_pos hq
      rw [hfil] at h
      by_cases hx : (q.1 == x) = true
      · have e1 : ∀ l : List (Nat × List FactPair),
            List.find? (fun p : Nat × List FactPair => p.1 == x) (q :: l) = some q :=
          fun l => List.find?_cons_of_pos l hx
        unfold forward_orders_get at h ⊢
        rw [e1] at h ⊢
        exact h
      · have e2 : ∀ l : List (Nat × List FactPair),
            List.find? (fun p : Nat × List FactPair => p.1 == x) (q :: l) =
              List.find? (fun p : Nat × List FactPair => p.1 == x) l :=
          fun l => List.find?_cons_of_neg l hx
        have h' : f ∈ forward_orders_get (List.filter (fun p => p.1 != d) fo) x := by
          unfold forward_orders_get at h ⊢
          rw [e2] at h
          exact h
        have := ih h'
        unfold forward_orders_get at this ⊢
        rw [e2]
        exact this
    · have hfil : List.filter (fun p : Nat × List FactPair => p.1 != d) (q :: fo) =
          List.filter (fun p : Nat × List FactPair => p.1 != d) fo :=
        List.filter_cons_of_neg hq
      rw [hfil] at h
      have hqd : q.1 = d := by simpa using hq
      by_cases hx : (q.1 == x) = true
      · have hxd : x = d := by
          rw [← hqd]
          exact (beq_iff_eq.mp hx).symm
        exfalso
        rw [forward_orders_get_eq_nil _ x] at h
        · cases h
        · intro p hp
          have := (List.mem_filter.mp hp).2
          rw [hxd]
          simpa using this
      · have e2 : ∀ l : List (Nat × List FactPair),
            List.find? (fun p : Nat × List FactPair => p.1 == x) (q :: l) =
              List.find? (fun p : Nat × List FactPair => p.1 == x) l :=
          fun l => List.find?_cons_of_neg l hx
        have := ih h
        unfold forward_orders_get at this ⊢
        rw [e2]
        exact this

/-- The pending forward orders after a node creation function : the keys shrink
or stay, and each pending set is a subset of the former one. -/
lemma pending_invariant_of_nodes (st st' : FactoryState)
    (h : pending_invariant st) (hg' : handles_distinct st'.lm_graph)
    (hnext : st.lm_graph.next_id ≤ st'.lm_graph.next_id)
    (hkeys : ∀ p ∈ st'.forward_orders, p.1 ∈ st.forward_orders.map (fun q => q.1))
    (hsub : ∀ x f, f ∈ forward_orders_get st'.forward_orders x →
      f ∈ forward_orders_get st.forward_orders x)
    (hnodes : ∀ n' ∈ st'.lm_graph.nodes,
      (∃ n ∈ st.lm_graph.nodes, n'.landmark.facts = n.landmark.facts ∧ n'.id = n.id) ∨
      n'.id = st.lm_graph.next_id) :
    pending_invariant st' := by
  obtain ⟨_, h2, h3⟩ := h
  have hkey_lt : ∀ p ∈ st'.forward_orders, p.1 < st.lm_graph.next_id := by
    intro p hp
    obtain ⟨q, hq, hqp⟩ := List.mem_map.mp (hkeys p hp)
    rw [← hqp]
    exact h2 q hq
  refine ⟨hg', fun p hp => Nat.lt_of_lt_of_le (hkey_lt p hp) hnext, ?_⟩
  intro n' hn' f hf
  rcases hnodes n' hn' with ⟨n, hn, hfacts, hid⟩ | hid
  · rw [hfacts]
    rw [hid] at hf
    exact h3 n hn f (hsub _ f hf)
  · rw [forward_orders_get_eq_nil] at hf
    · cases hf
    · intro p hp heq
      have := hkey_lt p hp
      omega

lemma pending_invariant_run_invariant (task : Task) :
    RunInvariant task (fun _ => True) (fun _ => True) pending_invariant := by
  refine ⟨?_, ?_, ?_, ?_⟩
  · intro st f b t _ h
    apply pending_invariant_of_nodes st _ h (handles_distinct_found_simple st f b t h.1)
    · rcases found_simple_cases st f b t with ⟨_, _, _, e2, _, _⟩ |
        ⟨_, _, _, _, e2, _, _⟩ | ⟨_, _, _, e2, _, _⟩ <;> omega
    · intro p hp
      rcases found_simple_cases st f b t with ⟨_, _, _, _, _, e4⟩ |
        ⟨_, _, _, _, _, _, e4⟩ | ⟨_, _, _, _, _, e4⟩
      · rw [e4] at hp
        exact List.mem_map.mpr ⟨p, hp, rfl⟩
      · rw [e4] at hp
        exact List.mem_map.mpr ⟨p, (List.mem_filter.mp hp).1, rfl⟩
      · rw [e4] at hp
        exact List.mem_map.mpr ⟨p, hp, rfl⟩
    · intro x f' hf'
      rcases found_simple_cases st f b t with ⟨_, _, _, _, _, e4⟩ |
        ⟨_, _, _, _, _, _, e4⟩ | ⟨_, _, _, _, _, e4⟩
      · rw [e4] at hf'
        exact hf'
      · rw [e4] at hf'
        exact mem_forward_orders_get_filter _ _ _ _ hf'
      · rw [e4] at hf'
        exact hf'
    · intro n' hn'
      rcases mem_nodes_found_simple hn' with ⟨n, hn, hl, hid⟩ | ⟨_, hid, _⟩
      · exact Or.inl ⟨n, hn, by rw [hl], hid⟩
      · exact Or.inr hid
  · intro st a b t _ h
    apply pending_invariant_of_nodes st _ h (handles_distinct_found_disj task st a b t h.1)
    · rcases found_disj_cases task st a b t with ⟨_, e2, _, _⟩ | ⟨_, _, _, e2, _, _⟩ <;>
        omega
    · intro p hp
      rcases found_disj_cases task st a b t with ⟨_, _, _, e4⟩ | ⟨_, _, _, _, _, e4⟩ <;>
        (rw [e4] at hp; exact List.mem_map.mpr ⟨p, hp, rfl⟩)
    · intro x f' hf'
      rcases found_disj_cases task st a b t with ⟨_, _, _, e4⟩ | ⟨_, _, _, _, _, e4⟩ <;>
        (rw [e4] at hf'; exact hf')
    · intro n' hn'
      rcases mem_nodes_found_disj hn' with ⟨n, hn, hl, hid⟩ | ⟨_, hid, _⟩
      · exact Or.inl ⟨n, hn, by rw [hl], hid⟩
      · exact Or.inr hid
  · intro st lvl_var lmp node hnode h
    obtain ⟨h1, h2, h3⟩ := h
    obtain ⟨hnm, hnid⟩ := mem_of_get_node hnode
    refine ⟨h1, ?_, ?_⟩
    · intro p hp
      rcases find_forward_orders_keys task lvl_var lmp node.landmark st.forward_orders p hp
        with hk | hk
      · rw [hk, ← hnid]
        exact h1.2 node hnm
      · obtain ⟨q, hq, hqp⟩ := List.mem_map.mp hk
        rw [← hqp]
        exact h2 q hq
    · intro n hn f hf
      rcases (mem_find_forward_orders task lvl_var lmp node.landmark st.forward_orders
        n.id f).mp hf with hold | ⟨hid, _, _, hnot, _⟩
      · exact h3 n hn f hold
      · have : n = node := eq_of_mem_of_id_eq h1 hn hnm (hid.trans hnid.symm)
        rw [this]
        exact hnot
  · intro st bp c h
    obtain ⟨h1, h2, h3⟩ := h
    refine ⟨handles_distinct_set_cost _ bp c h1, h2, ?_⟩
    intro n' hn' f hf
    obtain ⟨n, hn, hid, hfacts, _⟩ := mem_nodes_set_cost hn'
    rw [hfacts]
    rw [hid] at hf
    exact h3 n hn f hf

lemma pending_invariant_seed (task : Task) :
    pending_invariant (generate_relaxed_landmarks_seed task FactoryState.empty) := by
  have hfo : (generate_relaxed_landmarks_seed task FactoryState.empty).forward_orders = [] :=
    (seed_fold_worklist task.goals FactoryState.empty).1
  refine ⟨handles_distinct_seed task, ?_, ?_⟩
  · intro p hp
    rw [hfo] at hp
    cases hp
  · intro n _ f hf
    rw [hfo] at hf
    cases hf

/-- In a state with the pending invariant the flush requests no edge from a node
to itself : a fact pending for a node is not the simple landmark of that node. -/
lemma pending_invariant_no_self (st : FactoryState) (h : pending_invariant st)
    (x : Nat) (hx : x ∈ st.lm_graph.handles) (f : FactPair)
    (hf : f ∈ forward_orders_get st.forward_orders x) :
    st.lm_graph.simple_landmark_id f ≠ some x := by
  intro hs
  obtain ⟨n, hn, hid⟩ := List.mem_map.mp hx
  unfold LandmarkGraph.simple_landmark_id at hs
  cases hg : st.lm_graph.get_simple_landmark f with
  | none => rw [hg] at hs; cases hs
  | some m =>
    rw [hg] at hs
    simp only [Option.map_some', Option.some.injEq] at hs
    obtain ⟨hm, _, hfm⟩ := mem_of_get_simple_landmark hg
    have : m = n := eq_of_mem_of_id_eq h.1 hm hn (hs.trans hid.symm)
    rw [this] at hfm
    rw [← hid] at hf
    exact h.2.2 n hn f hf hfm

/-- C33: (1) after `find_forward_orders` for the node `lmp` with landmark `L`, a
fact `f` is in the pending set of a node `n` if and only if it was there before,
or `n = lmp`, `f` is a fact of the task whose level is `INT_MAX`, `f` is not a
fact of `L`, and no operator id occurs both in `get_operators_including_eff(f)`
and in `get_operators_including_eff(l)` for a fact `l` of `L`. (2) After the
seeding and any number of iterations of the worklist loop the state exists, no
fact pending for a node of the graph is a fact of the landmark of that node, and
no fact pending for a node is the simple landmark held by that node : the flush
`add_lm_forward_orders` requests no edge from a node to itself. (3) The same
holds for the state that the loop returns, on which the flush runs. -/
theorem find_forward_orders_spec (task : Task) :
    (∀ (lvl_var : LvlVar) (forward_orders : List (Nat × List FactPair)) (lmp : Nat)
      (landmark : Landmark) (n : Nat) (f : FactPair),
      f ∈ forward_orders_get
          (find_forward_orders task lvl_var forward_orders lmp landmark) n ↔
        f ∈ forward_orders_get forward_orders n ∨
        (n = lmp ∧ f ∈ all_facts task.vars ∧
          lvl_var_get lvl_var f.var f.value = INT_MAX ∧ f ∉ landmark.facts ∧
          ∀ l ∈ landmark.facts, ∀ id, ¬ (id ∈ get_operators_including_eff task f ∧
            id ∈ get_operators_including_eff task l))) ∧
    (∀ (relaxed_task_solvable : LevelOracle) (_possibly_reaches_lm : ReachOracle)
      (dtg_successors : DtgSuccessors) (disjunction_classes : DisjunctionClasses) (n : Nat),
      ∃ st, generate_relaxed_landmarks_iterate task relaxed_task_solvable
          _possibly_reaches_lm dtg_successors disjunction_classes n
          (generate_relaxed_landmarks_seed task FactoryState.empty) = some st ∧
        ∀ node ∈ st.lm_graph.nodes, ∀ f ∈ forward_orders_get st.forward_orders node.id,
          f ∉ node.landmark.facts ∧ st.lm_graph.simple_landmark_id f ≠ some node.id) ∧
    (∀ (relaxed_task_solvable : LevelOracle) (_possibly_reaches_lm : ReachOracle)
      (dtg_successors : DtgSuccessors) (disjunction_classes : DisjunctionClasses)
      (fuel : Nat) (st : FactoryState),
      generate_relaxed_landmarks_loop task relaxed_task_solvable _possibly_reaches_lm
          dtg_successors disjunction_classes fuel
          (generate_relaxed_landmarks_seed task FactoryState.empty) = some st →
      ∀ x y, x ∈ st.lm_graph.handles →
        (∃ f ∈ forward_orders_get st.forward_orders x,
          st.lm_graph.simple_landmark_id f = some y) → x ≠ y) := by
  refine ⟨fun lvl_var fo lmp landmark n f =>
    mem_find_forward_orders task lvl_var lmp landmark fo n f, ?_, ?_⟩
  · intro o pr dtg dc n
    obtain ⟨st, hst, hinv⟩ := run_invariant_iterate (pending_invariant_run_invariant task)
      (run_facts_trivial task)
      (fun st bp rest h _ => (⟨h.1, h.2.1, h.2.2⟩ : pending_invariant
        { st with open_landmarks := rest }))
      o pr dtg dc n _ (pending_invariant_seed task)
    refine ⟨st, hst, ?_⟩
    intro node hnode f hf
    exact ⟨hinv.2.2 node hnode f hf,
      pending_invariant_no_self st hinv node.id (List.mem_map.mpr ⟨node, hnode, rfl⟩) f hf⟩
  · intro o pr dtg dc fuel st hloop x y hx ⟨f, hf, hs⟩ hxy
    obtain ⟨st', hst', hinv⟩ := run_invariant_iterate (pending_invariant_run_invariant task)
      (run_facts_trivial task)
      (fun st bp rest h _ => (⟨h.1, h.2.1, h.2.2⟩ : pending_invariant
        { st with open_landmarks := rest }))
      o pr dtg dc fuel _ (pending_invariant_seed task)
    rw [generate_relaxed_landmarks_loop_eq_iterate task o pr dtg dc fuel _ st hloop] at hst'
    cases hst'
    subst hxy
    exact pending_invariant_no_self st hinv x hx f hf hs

/-! ## The facts handed to the node creation functions -/

lemma exists_effect_of_lm_props_achievable {landmark : Landmark} {es : List Effect} {j : Nat}
    (h : j ∈ lm_props_achievable landmark es) :
    ∃ e ∈ es, e.fact ∈ landmark.facts := by
  unfold lm_props_achievable at h
  obtain ⟨hj, hany⟩ := List.mem_filter.mp h
  rw [List.any_eq_true] at hany
  obtain ⟨e, he, heq⟩ := hany
  refine ⟨e, he, ?_⟩
  rw [← beq_iff_eq.mp heq, List.getD_eq_getElem _ _ (List.mem_range.mp hj)]
  exact List.getElem_mem _

lemma greedy_intersection_nil_of_no_props (landmark : Landmark) (es : List Effect)
    (h : lm_props_achievable landmark es = []) : greedy_intersection landmark es = [] := by
  unfold greedy_intersection
  rw [h]
  rfl

lemma mem_greedy_intersection_exists (landmark : Landmark) (es : List Effect) (p : Nat × Nat)
    (hp : p ∈ greedy_intersection landmark es) :
    ∃ e ∈ es, (⟨p.1, p.2⟩ : FactPair) ∈ e.conditions := by
  cases hprops : lm_props_achievable landmark es with
  | nil =>
    rw [greedy_intersection_nil_of_no_props landmark es hprops] at hp
    cases hp
  | cons j js =>
    obtain ⟨e, he, hf⟩ := @exists_effect_of_lm_props_achievable landmark es j
      (by rw [hprops]; exact List.mem_cons_self _ _)
    exact ⟨e, he, mem_greedy_intersection landmark es p hp e he hf⟩

lemma greedy_preconditions_in_domain (task : Task) (hwf : task.facts_in_domain)
    (landmark : Landmark) (op : Operator) (hop : op ∈ task.operators) (p : Nat × Nat)
    (hp : p ∈ get_greedy_preconditions_for_lm task landmark op []) :
    (⟨p.1, p.2⟩ : FactPair) ∈ all_facts task.vars := by
  obtain ⟨_, _, hinit, hops⟩ := hwf
  obtain ⟨hpre, hcond⟩ := hops op hop
  unfold get_greedy_preconditions_for_lm at hp
  rcases mem_insert_all _ _ p hp with h | h
  · rcases mem_greedy_infer_fold task landmark _ op.effects _ p h with h | ⟨e, _, hpe, _, hdom, _⟩
    · rcases mem_emplace_facts op.preconditions [] p h with h | h
      · cases h
      · exact hpre _ h
    · rw [hpe, mem_all_facts]
      have hlt : e.fact.var < task.vars.length := by
        by_contra hge
        unfold get_domain_size at hdom
        rw [List.getD_eq_default _ _ (by omega)] at hdom
        cases hdom
      exact ⟨hlt, hinit _ hlt⟩
  · obtain ⟨e, he, hc⟩ := mem_greedy_intersection_exists landmark op.effects p h
    exact hcond e he _ hc

lemma shared_pre_operators_forall (task : Task) (pr : ReachOracle) (lvl_var : LvlVar)
    (landmark : Landmark) (G : Nat × Nat → Prop) (ids : List Nat)
    (hids : ∀ id ∈ ids, ∀ p ∈ get_greedy_preconditions_for_lm task landmark
      ( get_operator_or_axiom task id) [], G p) :
    ∀ st : Bool × IntMap, (∀ p ∈ st.2, G p) →
    ∀ p ∈ (shared_pre_operators task pr lvl_var landmark ids st).2, G p := by
  induction ids with
  | nil =>
    intro st h
    rw [shared_pre_operators]
    exact h
  | cons id rest ih =>
    intro st h
    obtain ⟨init, sp⟩ := st
    have hrest : ∀ id' ∈ rest, ∀ p ∈ get_greedy_preconditions_for_lm task landmark
        ( get_operator_or_axiom task id') [], G p :=
      fun id' hid' => hids id' (List.mem_cons_of_mem _ hid')
    rw [shared_pre_operators]
    split
    · exact h
    · split
      · apply ih hrest
        intro p hp
        simp only [] at hp
        split at hp
        · exact hids id (List.mem_cons_self _ _) p hp
        · exact h p ((mem_intersect _ _ p).mp hp).1
      · exact ih hrest _ h

lemma compute_shared_preconditions_in_domain (task : Task) (hwf : task.facts_in_domain)
    (pr : ReachOracle) (lvl_var : LvlVar) (landmark : Landmark) (p : Nat × Nat)
    (hp : p ∈ compute_shared_preconditions task pr [] lvl_var landmark) :
    (⟨p.1, p.2⟩ : FactPair) ∈ all_facts task.vars := by
  unfold compute_shared_preconditions at hp
  have key : ∀ (facts : List FactPair) (st : Bool × IntMap),
      (∀ q ∈ st.2, (⟨q.1, q.2⟩ : FactPair) ∈ all_facts task.vars) →
      ∀ q ∈ (facts.foldl
        (fun st lm_fact =>
          shared_pre_operators task pr lvl_var landmark
            (get_operators_including_eff task lm_fact) st) st).2,
        (⟨q.1, q.2⟩ : FactPair) ∈ all_facts task.vars := by
    intro facts
    induction facts with
    | nil => intro st h; exact h
    | cons f fs ih =>
      intro st h
      rw [List.foldl_cons]
      apply ih
      apply shared_pre_operators_forall task pr lvl_var landmark
        (fun q => (⟨q.1, q.2⟩ : FactPair) ∈ all_facts task.vars) _ _ st h
      intro id hid q hq
      exact greedy_preconditions_in_domain task hwf landmark _
        (get_operator_mem ((mem_get_operators_including_eff task f id).mp hid).1) q hq
  exact key landmark.facts (true, []) (fun q hq => by cases hq) p hp

lemma bucket_update_forall {β : Type} (Q : List β → Prop) (f : List β → List β)
    (hf : ∀ xs, Q xs → Q (f xs)) (hnil : Q []) (k : Int) :
    ∀ (m : List (Int × List β)), (∀ q ∈ m, Q q.2) → ∀ q ∈ bucket_update m k f, Q q.2 := by
  intro m
  induction m with
  | nil =>
    intro _ q hq
    unfold bucket_update at hq
    rw [List.mem_singleton] at hq
    rw [hq]
    exact hf [] hnil
  | cons x rest ih =>
    intro h q hq
    obtain ⟨k', xs⟩ := x
    unfold bucket_update at hq
    split at hq
    · rcases List.mem_cons.mp hq with hq | hq
      · rw [hq]
        exact hf xs (h (k', xs) (List.mem_cons_self _ _))
      · exact h q (List.mem_cons_of_mem _ hq)
    · rcases List.mem_cons.mp hq with hq | hq
      · rw [hq]
        exact h (k', xs) (List.mem_cons_self _ _)
      · exact ih (fun q hq => h q (List.mem_cons_of_mem _ hq)) q hq

lemma disj_pre_collect_forall (task : Task) (dc : DisjunctionClasses) (g : LandmarkGraph)
    (i : Nat) (l : List (Nat × Nat))
    (hl : ∀ p ∈ l, (⟨p.1, p.2⟩ : FactPair) ∈ all_facts task.vars) :
    ∀ (st : List (Int × List FactPair) × List (Int × List Nat)),
    (∀ q ∈ st.1, ∀ x ∈ q.2, x ∈ all_facts task.vars) →
    ∀ q ∈ (l.foldl (disj_pre_collect dc g i) st).1, ∀ x ∈ q.2, x ∈ all_facts task.vars := by
  induction l with
  | nil => intro st h; exact h
  | cons p ps ih =>
    intro st h
    rw [List.foldl_cons]
    apply ih (fun p' hp' => hl p' (List.mem_cons_of_mem _ hp'))
    unfold disj_pre_collect
    simp only []
    split
    · exact h
    · split
      · apply bucket_update_forall (fun xs => ∀ x ∈ xs, x ∈ all_facts task.vars) _ _ _ _ _ h
        · intro xs hxs x hx
          rcases List.mem_append.mp hx with hx | hx
          · exact hxs x hx
          · rw [List.mem_singleton.mp hx]
            exact hl p (List.mem_cons_self _ _)
        · intro x hx
          cases hx
      · exact h

lemma disj_pre_operators_forall (task : Task) (hwf : task.facts_in_domain)
    (pr : ReachOracle) (dc : DisjunctionClasses) (g : LandmarkGraph) (lvl_var : LvlVar)
    (landmark : Landmark) (ids : List Nat) (hids : ∀ id ∈ ids, id < task.operators.length) :
    ∀ (i : Nat) (st : Nat × List (Int × List FactPair) × List (Int × List Nat)),
    (∀ q ∈ st.2.1, ∀ x ∈ q.2, x ∈ all_facts task.vars) →
    ∀ q ∈ (disj_pre_operators task pr dc g lvl_var landmark ids i st).2.1,
      ∀ x ∈ q.2, x ∈ all_facts task.vars := by
  induction ids with
  | nil =>
    intro i st h
    rw [disj_pre_operators]
    exact h
  | cons id rest ih =>
    intro i st h
    obtain ⟨num_ops, preconditions, used_operators⟩ := st
    have hrest : ∀ id' ∈ rest, id' < task.operators.length :=
      fun id' hid' => hids id' (List.mem_cons_of_mem _ hid')
    rw [disj_pre_operators]
    split
    · apply ih hrest
      exact disj_pre_collect_forall task dc g i _
        (fun p hp => greedy_preconditions_in_domain task hwf landmark _
          (get_operator_mem (hids id (List.mem_cons_self _ _))) p hp) _ h
    · exact ih hrest _ _ h

lemma compute_disjunctive_preconditions_in_domain (task : Task) (hwf : task.facts_in_domain)
    (pr : ReachOracle) (dc : DisjunctionClasses) (g : LandmarkGraph) (lvl_var : LvlVar)
    (landmark : Landmark) (a : List FactPair)
    (ha : a ∈ compute_disjunctive_preconditions task pr dc g [] lvl_var landmark) :
    ∀ x ∈ a, x ∈ all_facts task.vars := by
  unfold compute_disjunctive_preconditions at ha
  simp only [] at ha
  rcases mem_select_fold _ _ _ [] a ha with h | ⟨pre, hpre, _, hS, _⟩
  · cases h
  · intro x hx
    rw [hS, mem_fact_set] at hx
    apply disj_pre_operators_forall task hwf pr dc g lvl_var landmark (achiever_ids task landmark)
      (fun id hid => ((mem_achiever_ids task landmark id).mp hid).1) 0 (0, [], [])
      (fun q hq => by cases hq) pre hpre x hx

lemma run_facts_in_domain (task : Task) (hwf : task.facts_in_domain) :
    RunFacts task (fun f => f ∈ all_facts task.vars) (small_fact_set task) := by
  refine ⟨?_, ?_, ?_⟩
  · intro pr lvl_var landmark pre hpre
    exact compute_shared_preconditions_in_domain task hwf pr lvl_var landmark pre hpre
  · intro v x hx
    rw [mem_all_facts]
    refine ⟨?_, hx⟩
    show v < task.vars.length
    by_contra hge
    unfold get_domain_size at hx
    rw [List.getD_eq_default _ _ (by omega)] at hx
    simp at hx
  · intro pr dc g lvl_var landmark a ha hlen
    obtain ⟨h1, h2, _, _⟩ := compute_disjunctive_preconditions_sets task pr dc g lvl_var
      landmark a ha
    exact ⟨h1, by omega, by omega,
      compute_disjunctive_preconditions_in_domain task hwf pr dc g lvl_var landmark a ha⟩

/-! ## The measure of the worklist loop -/

lemma creatable_iff (g : LandmarkGraph) (s : Finset FactPair) :
    creatable g s = true ↔
      (∀ f ∈ s, g.contains_simple_landmark f = false) ∧
      ∀ n ∈ g.nodes, n.landmark.disjunctive = true → n.landmark.facts.toFinset ≠ s := by
  unfold creatable
  simp only [Bool.and_eq_true, decide_eq_true_eq, List.all_eq_true, Bool.not_eq_true',
    Bool.and_eq_false_iff, decide_eq_false_iff_not]
  constructor
  · rintro ⟨h1, h2⟩
    refine ⟨h1, fun n hn hd heq => ?_⟩
    rcases h2 n hn with h | h
    · rw [hd] at h
      cases h
    · exact h heq
  · rintro ⟨h1, h2⟩
    refine ⟨h1, fun n hn => ?_⟩
    cases hd : n.landmark.disjunctive
    · exact Or.inl rfl
    · exact Or.inr (h2 n hn hd)

lemma graph_extends_refl (g : LandmarkGraph) : graph_extends g g :=
  ⟨fun _ h => h, fun n hn hd => Or.inl ⟨n, hn, hd, rfl⟩⟩

lemma unfound_facts_subset (task : Task) {g g' : LandmarkGraph} (h : graph_extends g g') :
    unfound_facts task g' ⊆ unfound_facts task g := by
  intro f hf
  unfold unfound_facts at hf ⊢
  rw [Finset.mem_filter] at hf ⊢
  refine ⟨hf.1, ?_⟩
  cases hc : g.contains_simple_landmark f
  · rfl
  · rw [h.1 f hc] at hf
    exact absurd hf.2 (by simp)

lemma creatable_sets_subset (task : Task) {g g' : LandmarkGraph} (h : graph_extends g g') :
    creatable_sets task g' ⊆ creatable_sets task g := by
  intro s hs
  unfold creatable_sets at hs ⊢
  rw [Finset.mem_filter] at hs ⊢
  refine ⟨hs.1, ?_⟩
  obtain ⟨h1, h2⟩ := (creatable_iff g' s).mp hs.2
  rw [creatable_iff]
  constructor
  · intro f hf
    cases hc : g.contains_simple_landmark f
    · rfl
    · have := h1 f hf
      rw [h.1 f hc] at this
      cases this
  · intro n hn hd heq
    rcases h.2 n hn hd with ⟨n', hn', hd', hfacts⟩ | ⟨f, hf, hc⟩
    · exact h2 n' hn' hd' (by rw [hfacts]; exact heq)
    · have hfs : f ∈ s := by
        rw [← heq]
        exact List.mem_toFinset.mpr hf
      rw [h1 f hfs] at hc
      cases hc

lemma run_measure_le_of_extends (task : Task) (st st' : FactoryState)
    (hext : graph_extends st.lm_graph st'.lm_graph)
    (hopen : st'.open_landmarks.length ≤ st.open_landmarks.length) :
    run_measure task st' ≤ run_measure task st := by
  unfold run_measure
  have h1 := Finset.card_le_card (unfound_facts_subset task hext)
  have h2 := Finset.card_le_card (creatable_sets_subset task hext)
  omega

lemma run_measure_le_of_new_simple (task : Task) (st st' : FactoryState) (f : FactPair)
    (hext : graph_extends st.lm_graph st'.lm_graph)
    (hopen : st'.open_landmarks.length ≤ st.open_landmarks.length + 1)
    (hf : f ∈ all_facts task.vars)
    (hold : st.lm_graph.contains_simple_landmark f = false)
    (hnew : st'.lm_graph.contains_simple_landmark f = true) :
    run_measure task st' ≤ run_measure task st := by
  unfold run_measure
  have hsub : unfound_facts task st'.lm_graph ⊆ (unfound_facts task st.lm_graph).erase f := by
    intro x hx
    rw [Finset.mem_erase]
    refine ⟨?_, unfound_facts_subset task hext hx⟩
    intro hxf
    subst hxf
    unfold unfound_facts at hx
    rw [Finset.mem_filter, hnew] at hx
    exact absurd hx.2 (by simp)
  have hmem : f ∈ unfound_facts task st.lm_graph := by
    unfold unfound_facts
    rw [Finset.mem_filter]
    exact ⟨List.mem_toFinset.mpr hf, hold⟩
  have h1 := Finset.card_le_card hsub
  rw [Finset.card_erase_of_mem hmem] at h1
  have h0 : 0 < (unfound_facts task st.lm_graph).card := Finset.card_pos.mpr ⟨f, hmem⟩
  have h2 := Finset.card_le_card (creatable_sets_subset task hext)
  omega

lemma run_measure_le_of_new_disj (task : Task) (st st' : FactoryState) (s : Finset FactPair)
    (hext : graph_extends st.lm_graph st'.lm_graph)
    (hopen : st'.open_landmarks.length ≤ st.open_landmarks.length + 1)
    (hold : s ∈ creatable_sets task st.lm_graph)
    (hnew : s ∉ creatable_sets task st'.lm_graph) :
    run_measure task st' ≤ run_measure task st := by
  unfold run_measure
  have hsub : creatable_sets task st'.lm_graph ⊆ (creatable_sets task st.lm_graph).erase s := by
    intro x hx
    rw [Finset.mem_erase]
    refine ⟨?_, creatable_sets_subset task hext hx⟩
    intro hxs
    subst hxs
    exact hnew hx
  have h1 := Finset.card_le_card hsub
  rw [Finset.card_erase_of_mem hold] at h1
  have h0 : 0 < (creatable_sets task st.lm_graph).card := Finset.card_pos.mpr ⟨s, hold⟩
  have h2 := Finset.card_le_card (unfound_facts_subset task hext)
  omega

lemma survives_edge_add (g : LandmarkGraph) (a c : Nat) (ty : EdgeType) (n : LandmarkNode)
    (hn : n ∈ g.nodes) : ∃ n' ∈ (edge_add g a c ty).nodes, n'.landmark = n.landmark := by
  unfold edge_add
  split
  · exact ⟨n, hn, rfl⟩
  · refine ⟨_, List.mem_map.mpr ⟨n, hn, rfl⟩, ?_⟩
    split
    · rfl
    · split <;> rfl

lemma survives_edge_add_fold (new : Nat) (ty : EdgeType) (preds : List Nat) :
    ∀ (g : LandmarkGraph) (n : LandmarkNode), n ∈ g.nodes →
    ∃ n' ∈ (preds.foldl (fun g p => edge_add g p new ty) g).nodes,
      n'.landmark = n.landmark := by
  induction preds with
  | nil => intro g n hn; exact ⟨n, hn, rfl⟩
  | cons p ps ih =>
    intro g n hn
    rw [List.foldl_cons]
    obtain ⟨n1, hn1, hl1⟩ := survives_edge_add g p new ty n hn
    obtain ⟨n2, hn2, hl2⟩ := ih _ n1 hn1
    exact ⟨n2, hn2, hl2.trans hl1⟩

lemma survives_remove_node (g : LandmarkGraph) (d : Nat) (n : LandmarkNode)
    (hn : n ∈ g.nodes) (hd : n.id ≠ d) :
    ∃ n' ∈ (g.remove_node d).nodes, n'.landmark = n.landmark := by
  unfold LandmarkGraph.remove_node
  refine ⟨_, List.mem_map.mpr ⟨n, List.mem_filter.mpr ⟨hn, by simpa using hd⟩, rfl⟩, rfl⟩

lemma survives_add_landmark (g : LandmarkGraph) (lm : Landmark) (n : LandmarkNode)
    (hn : n ∈ g.nodes) : n ∈ (g.add_landmark lm).1.nodes := by
  unfold LandmarkGraph.add_landmark
  exact List.mem_append_left _ hn

lemma graph_extends_found_simple (st : FactoryState) (f : FactPair) (b : Nat) (t : EdgeType)
    (hg : handles_distinct st.lm_graph) :
    graph_extends st.lm_graph (found_simple_lm_and_order st f b t).lm_graph := by
  refine ⟨fun x hx => contains_simple_found_simple_mono st f b t x hg hx, ?_⟩
  intro n hn hd
  cases hs : st.lm_graph.get_simple_landmark f with
  | some s =>
    left
    rw [found_simple_eq_of_simple st f b t s hs]
    obtain ⟨n', hn', hl⟩ := survives_edge_add st.lm_graph s.id b t n hn
    exact ⟨n', hn', by rw [hl]; exact hd, by rw [hl]⟩
  | none =>
    cases hdl : st.lm_graph.get_disjunctive_landmark f with
    | some d =>
      obtain ⟨hdm, _, hdf⟩ := mem_of_get_disjunctive_landmark hdl
      by_cases hnd : n.id = d.id
      · right
        have : n = d := eq_of_mem_of_id_eq hg hn hdm hnd
        rw [this]
        exact ⟨f, hdf, contains_simple_found_simple st f b t⟩
      · left
        rw [found_simple_eq_of_disj st f b t d hs hdl]
        obtain ⟨n1, hn1, hl1⟩ := survives_remove_node st.lm_graph d.id n hn hnd
        have hn2 := survives_add_landmark (st.lm_graph.remove_node d.id)
          (Landmark.new [f] false false false) n1 hn1
        obtain ⟨n3, hn3, hl3⟩ := survives_edge_add _ st.lm_graph.next_id b t n1 hn2
        obtain ⟨n4, hn4, hl4⟩ := survives_edge_add_fold st.lm_graph.next_id EdgeType.NATURAL
          (d.parents.map (fun pred => pred.1)) _ n3 hn3
        have hl : n4.landmark = n.landmark := hl4.trans (hl3.trans hl1)
        exact ⟨n4, hn4, by rw [hl]; exact hd, by rw [hl]⟩
    | none =>
      left
      rw [found_simple_eq_of_none st f b t hs hdl]
      have hn2 := survives_add_landmark st.lm_graph (Landmark.new [f] false false false) n hn
      obtain ⟨n3, hn3, hl3⟩ := survives_edge_add _ st.lm_graph.next_id b t n hn2
      exact ⟨n3, hn3, by rw [hl3]; exact hd, by rw [hl3]⟩

lemma survives_found_disj (task : Task) (st : FactoryState) (a : List FactPair) (b : Nat)
    (t : EdgeType) (n : LandmarkNode) (hn : n ∈ st.lm_graph.nodes) :
    ∃ n' ∈ (found_disj_lm_and_order task st a b t).lm_graph.nodes,
      n'.landmark = n.landmark := by
  unfold found_disj_lm_and_order
  cases found_disj_scan task st.lm_graph a with
  | some r => exact ⟨n, hn, rfl⟩
  | none =>
    simp only []
    split
    · split
      · split
        · exact survives_edge_add _ _ _ _ n hn
        · exact ⟨n, hn, rfl⟩
      · exact ⟨n, hn, rfl⟩
    · exact survives_edge_add _ _ _ _ n (survives_add_landmark _ _ n hn)

lemma graph_extends_found_disj (task : Task) (st : FactoryState) (a : List FactPair)
    (b : Nat) (t : EdgeType) :
    graph_extends st.lm_graph (found_disj_lm_and_order task st a b t).lm_graph := by
  refine ⟨fun x hx => contains_simple_found_disj_mono task st a b t x hx, ?_⟩
  intro n hn hd
  left
  obtain ⟨n', hn', hl⟩ := survives_found_disj task st a b t n hn
  exact ⟨n', hn', by rw [hl]; exact hd, by rw [hl]⟩

lemma graph_extends_set_cost (g : LandmarkGraph) (bp : Nat) (c : Int) :
    graph_extends g (g.set_cost bp c) := by
  refine ⟨fun x hx => contains_simple_set_cost g bp c x hx, ?_⟩
  intro n hn hd
  left
  unfold LandmarkGraph.set_cost
  refine ⟨_, List.mem_map.mpr ⟨n, hn, rfl⟩, ?_, ?_⟩
  · split
    · exact hd
    · exact hd
  · split <;> rfl

lemma run_measure_found_simple (task : Task) (st : FactoryState) (f : FactPair) (b : Nat)
    (t : EdgeType) (hg : handles_distinct st.lm_graph) (hf : f ∈ all_facts task.vars) :
    run_measure task (found_simple_lm_and_order st f b t) ≤ run_measure task st := by
  have hext := graph_extends_found_simple st f b t hg
  have hnone : st.lm_graph.get_simple_landmark f = none →
      st.lm_graph.contains_simple_landmark f = false := by
    intro h
    unfold LandmarkGraph.contains_simple_landmark
    rw [h]
    rfl
  rcases found_simple_cases st f b t with ⟨_, _, _, _, e3, _⟩ |
    ⟨hs, d, _, _, _, e3, _⟩ | ⟨hs, _, _, _, e3, _⟩
  · exact run_measure_le_of_extends task st _ hext (by rw [e3])
  · apply run_measure_le_of_new_simple task st _ f hext _ hf (hnone hs)
      (contains_simple_found_simple st f b t)
    rw [e3, List.length_append, List.length_singleton]
    have := List.length_erase_le d.id st.open_landmarks
    omega
  · apply run_measure_le_of_new_simple task st _ f hext _ hf (hnone hs)
      (contains_simple_found_simple st f b t)
    rw [e3, List.length_append, List.length_singleton]

lemma mem_fact_sets_of_small (task : Task) (a : List FactPair) (ha : small_fact_set task a) :
    a.toFinset ∈ fact_sets task := by
  obtain ⟨hnd, h2, h4, hsub⟩ := ha
  have hcard : a.toFinset.card = a.length := List.toFinset_card_of_nodup hnd
  have hss : a.toFinset ⊆ (all_facts task.vars).toFinset := by
    intro x hx
    exact List.mem_toFinset.mpr (hsub x (List.mem_toFinset.mp hx))
  unfold fact_sets
  simp only [Finset.mem_union, Finset.mem_powersetCard]
  have : a.length = 2 ∨ a.length = 3 ∨ a.length = 4 := by omega
  rcases this with h | h | h
  · exact Or.inl (Or.inl ⟨hss, by rw [hcard, h]⟩)
  · exact Or.inl (Or.inr ⟨hss, by rw [hcard, h]⟩)
  · exact Or.inr ⟨hss, by rw [hcard, h]⟩

lemma run_measure_found_disj (task : Task) (st : FactoryState) (a : List FactPair) (b : Nat)
    (t : EdgeType) (ha : small_fact_set task a) :
    run_measure task (found_disj_lm_and_order task st a b t) ≤ run_measure task st := by
  have hext := graph_extends_found_disj task st a b t
  rcases found_disj_cases task st a b t with ⟨_, _, e3, _⟩ | ⟨hscan, hov, _, _, e3, _⟩
  · exact run_measure_le_of_extends task st _ hext (by rw [e3])
  · apply run_measure_le_of_new_disj task st _ a.toFinset hext
    · rw [e3, List.length_append, List.length_singleton]
    · unfold creatable_sets
      rw [Finset.mem_filter, creatable_iff]
      refine ⟨mem_fact_sets_of_small task a ha, ?_, ?_⟩
      · intro f hf
        exact (found_disj_scan_eq_none task st.lm_graph a hscan f (List.mem_toFinset.mp hf)).2
      · intro n hn hd heq
        obtain ⟨_, h2, _, _⟩ := ha
        obtain ⟨f0, rest, hcons⟩ : ∃ f0 rest, a = f0 :: rest := by
          cases a with
          | nil => simp at h2
          | cons f0 rest => exact ⟨f0, rest, rfl⟩
        have hf0a : f0 ∈ a := by rw [hcons]; exact List.mem_cons_self _ _
        have hf0n : f0 ∈ n.landmark.facts := by
          have : f0 ∈ n.landmark.facts.toFinset := by
            rw [heq]
            exact List.mem_toFinset.mpr hf0a
          exact List.mem_toFinset.mp this
        have : st.lm_graph.contains_overlapping_disjunctive_landmark a = true := by
          unfold LandmarkGraph.contains_overlapping_disjunctive_landmark
          rw [List.any_eq_true]
          exact ⟨f0, hf0a, contains_disjunctive_of_mem hn hd hf0n⟩
        rw [this] at hov
        cases hov
    · intro hmem
      unfold creatable_sets at hmem
      rw [Finset.mem_filter, creatable_iff] at hmem
      obtain ⟨_, _, hnodes⟩ := hmem
      rw [found_disj_eq_of_new task st a b t hscan hov] at hnodes
      have hnew : (⟨st.lm_graph.next_id, Landmark.new a true false false, [], []⟩ :
          LandmarkNode) ∈
          (st.lm_graph.add_landmark (Landmark.new a true false false)).1.nodes := by
        unfold LandmarkGraph.add_landmark
        exact List.mem_append_right _ (List.mem_singleton_self _)
      obtain ⟨n', hn', hl⟩ := survives_edge_add _ st.lm_graph.next_id b t _ hnew
      exact hnodes n' hn' (by rw [hl]; rfl) (by rw [hl]; rfl)

lemma run_measure_run_invariant (task : Task) (k : Nat) :
    RunInvariant task (fun f => f ∈ all_facts task.vars) (small_fact_set task)
      (fun st => handles_distinct st.lm_graph ∧ run_measure task st ≤ k) := by
  refine ⟨?_, ?_, ?_, ?_⟩
  · intro st f b t hf h
    exact ⟨handles_distinct_found_simple st f b t h.1,
      Nat.le_trans (run_measure_found_simple task st f b t h.1 hf) h.2⟩
  · intro st a b t ha h
    exact ⟨handles_distinct_found_disj task st a b t h.1,
      Nat.le_trans (run_measure_found_disj task st a b t ha) h.2⟩
  · intro st lvl_var lmp node _ h
    exact h
  · intro st bp c h
    refine ⟨handles_distinct_set_cost _ bp c h.1, Nat.le_trans ?_ h.2⟩
    exact run_measure_le_of_extends task st _ (graph_extends_set_cost _ bp c) (Nat.le_refl _)

/-- With fuel `k` the worklist loop returns a state when started in a state whose
measure is at most `k`. -/
lemma generate_relaxed_landmarks_loop_some (task : Task) (hwf : task.facts_in_domain)
    (o : LevelOracle) (pr : ReachOracle) (dtg : DtgSuccessors) (dc : DisjunctionClasses)
    (k : Nat) : ∀ st : FactoryState, handles_distinct st.lm_graph →
    run_measure task st ≤ k →
    ∃ st', generate_relaxed_landmarks_loop task o pr dtg dc k st = some st' := by
  induction k with
  | zero =>
    intro st _ hm
    have : st.open_landmarks = [] := by
      unfold run_measure at hm
      exact List.length_eq_zero.mp (by omega)
    rw [generate_relaxed_landmarks_loop, this]
    exact ⟨st, rfl⟩
  | succ k ih =>
    intro st hg hm
    rw [generate_relaxed_landmarks_loop]
    cases hopen : st.open_landmarks with
    | nil => exact ⟨st, rfl⟩
    | cons bp rest =>
      simp only [List.isEmpty_cons, Bool.false_eq_true, if_false]
      obtain ⟨st1, hstep⟩ := generate_relaxed_landmarks_step_some task o pr dtg dc st
      rw [hstep]
      have hpop : handles_distinct st.lm_graph ∧
          run_measure task { st with open_landmarks := rest } ≤ k := by
        refine ⟨hg, ?_⟩
        unfold run_measure at hm ⊢
        rw [hopen] at hm
        simp only [List.length_cons] at hm
        simp only []
        omega
      obtain ⟨hg1, hm1⟩ := run_invariant_step (run_measure_run_invariant task k)
        (run_facts_in_domain task hwf) o pr dtg dc st st1 bp rest hopen hpop hstep
      exact ih st1 hg1 hm1

lemma seed_open_length (task : Task) :
    (generate_relaxed_landmarks_seed task FactoryState.empty).open_landmarks.length =
      task.goals.length := by
  have hopen : (generate_relaxed_landmarks_seed task FactoryState.empty).open_landmarks =
      (generate_relaxed_landmarks_seed task FactoryState.empty).lm_graph.handles :=
    (seed_fold_worklist task.goals FactoryState.empty).2 rfl
  have hnodes := seed_fold_nodes task.goals FactoryState.empty
  have hlen := congrArg List.length hnodes
  simp only [FactoryState.empty, List.map_nil, List.nil_append, List.length_map] at hlen
  rw [hopen]
  unfold LandmarkGraph.handles
  rw [List.length_map]
  exact hlen

lemma card_fact_sets_le (task : Task) :
    (fact_sets task).card ≤ (all_facts task.vars).length.choose 2 +
      (all_facts task.vars).length.choose 3 + (all_facts task.vars).length.choose 4 := by
  have hc : (all_facts task.vars).toFinset.card ≤ (all_facts task.vars).length :=
    List.toFinset_card_le _
  unfold fact_sets
  have h1 := Finset.card_union_le
    (Finset.powersetCard 2 (all_facts task.vars).toFinset ∪
      Finset.powersetCard 3 (all_facts task.vars).toFinset)
    (Finset.powersetCard 4 (all_facts task.vars).toFinset)
  have h2 := Finset.card_union_le
    (Finset.powersetCard 2 (all_facts task.vars).toFinset)
    (Finset.powersetCard 3 (all_facts task.vars).toFinset)
  rw [Finset.card_powersetCard] at h1 h2
  rw [Finset.card_powersetCard] at h2
  have c2 := Nat.choose_le_choose 2 hc
  have c3 := Nat.choose_le_choose 3 hc
  have c4 := Nat.choose_le_choose 4 hc
  omega

lemma run_measure_seed (task : Task) (hwf : task.facts_in_domain) :
    run_measure task (generate_relaxed_landmarks_seed task FactoryState.empty) ≤
      iteration_bound task := by
  obtain ⟨hgoals, hnd, _, _⟩ := hwf
  unfold run_measure iteration_bound
  rw [seed_open_length]
  have hsimple := (goal_invariant_seed task).2.1
  have hsub : unfound_facts task
      (generate_relaxed_landmarks_seed task FactoryState.empty).lm_graph ⊆
      (all_facts task.vars).toFinset \ task.goals.toFinset := by
    intro f hf
    unfold unfound_facts at hf
    rw [Finset.mem_filter] at hf
    rw [Finset.mem_sdiff]
    refine ⟨hf.1, fun hg => ?_⟩
    rw [hsimple f (List.mem_toFinset.mp hg)] at hf
    exact absurd hf.2 (by simp)
  have hgsub : task.goals.toFinset ⊆ (all_facts task.vars).toFinset := by
    intro f hf
    exact List.mem_toFinset.mpr (hgoals f (List.mem_toFinset.mp hf))
  have h1 := Finset.card_le_card hsub
  rw [Finset.card_sdiff hgsub, List.toFinset_card_of_nodup hnd] at h1
  have h2 := Finset.card_le_card hgsub
  rw [List.toFinset_card_of_nodup hnd] at h2
  have h3 : (all_facts task.vars).toFinset.card ≤ (all_facts task.vars).length :=
    List.toFinset_card_le _
  have h4 : (creatable_sets task
      (generate_relaxed_landmarks_seed task FactoryState.empty).lm_graph).card ≤
      (fact_sets task).card := by
    unfold creatable_sets
    exact Finset.card_filter_le _ _
  have h5 := card_fact_sets_le task
  omega

/-- One iteration of the worklist loop on a non-empty worklist decreases the
measure. -/
lemma run_measure_step_lt (task : Task) (hwf : task.facts_in_domain) (o : LevelOracle)
    (pr : ReachOracle) (dtg : DtgSuccessors) (dc : DisjunctionClasses)
    (st st' : FactoryState) (hg : handles_distinct st.lm_graph)
    (hopen : st.open_landmarks ≠ [])
    (hstep : generate_relaxed_landmarks_step task o pr dtg dc st = some st') :
    run_measure task st' < run_measure task st := by
  obtain ⟨bp, rest, hcons⟩ := List.exists_cons_of_ne_nil hopen
  have hpos : 0 < run_measure task st := by
    unfold run_measure
    rw [hcons]
    simp only [List.length_cons]
    omega
  have hpop : handles_distinct st.lm_graph ∧
      run_measure task { st with open_landmarks := rest } ≤ run_measure task st - 1 := by
    refine ⟨hg, ?_⟩
    unfold run_measure
    rw [hcons]
    simp only [List.length_cons]
    omega
  have := (run_invariant_step (run_measure_run_invariant task (run_measure task st - 1))
    (run_facts_in_domain task hwf) o pr dtg dc st st' bp rest hcons hpop hstep).2
  omega

lemma found_disj_of_simple_fact (task : Task) (st : FactoryState) (a : List FactPair)
    (b : Nat) (t : EdgeType)
    (h : ∃ f ∈ a, st.lm_graph.contains_simple_landmark f = true) :
    found_disj_lm_and_order task st a b t = st := by
  obtain ⟨r, hr⟩ := found_disj_scan_some task st.lm_graph a (Or.inr h)
  unfold found_disj_lm_and_order
  rw [hr]

lemma simple_landmark_kept (task : Task) (f : FactPair) :
    LoopInvariant task (fun st => handles_distinct st.lm_graph ∧
      st.lm_graph.contains_simple_landmark f = true) :=
  loop_invariant_of_graph task
    (fun g => handles_distinct g ∧ g.contains_simple_landmark f = true)
    (fun st x b t h => ⟨handles_distinct_found_simple st x b t h.1,
      contains_simple_found_simple_mono st x b t f h.1 h.2⟩)
    (fun st a b t h => ⟨handles_distinct_found_disj task st a b t h.1,
      contains_simple_found_disj_mono task st a b t f h.2⟩)
    (fun g bp c h => ⟨handles_distinct_set_cost g bp c h.1,
      contains_simple_set_cost g bp c f h.2⟩)

lemma handles_distinct_iterate (task : Task) (o : LevelOracle) (pr : ReachOracle)
    (dtg : DtgSuccessors) (dc : DisjunctionClasses) (n : Nat) (st : FactoryState)
    (hst : generate_relaxed_landmarks_iterate task o pr dtg dc n
      (generate_relaxed_landmarks_seed task FactoryState.empty) = some st) :
    handles_distinct st.lm_graph :=
  loop_invariant_iterate (handles_distinct_loop_invariant task) o pr dtg dc n _ st
    (handles_distinct_seed task) hst

/-- C31: for a task all of whose facts are facts of its variables and whose goal
facts are pairwise distinct, and for every oracle, domain transition graph and
class table : (1) the worklist loop with fuel `iteration_bound task` (the number
of facts plus the number of fact sets of size 2, 3 and 4) returns a state, with
an empty worklist, and so does the loop with any larger fuel : the loop stops
after at most that many iterations; (2) `generate_relaxed_landmarks` with at
least that much fuel does not run out of fuel; (3) every iteration on a non-empty
worklist decreases `run_measure` (worklist length + facts that are not simple
landmarks + fact sets that can still become a disjunctive node); (4) a simple
landmark of the graph stays one in all later iterations; (5)
`found_disj_lm_and_order` leaves the state unchanged for a set one of whose facts
is a simple landmark. -/
theorem generate_relaxed_landmarks_terminates (task : Task) (hwf : task.facts_in_domain)
    (relaxed_task_solvable : LevelOracle) (_possibly_reaches_lm : ReachOracle)
    (dtg_successors : DtgSuccessors) (disjunction_classes : DisjunctionClasses) :
    (∃ st, generate_relaxed_landmarks_loop task relaxed_task_solvable _possibly_reaches_lm
        dtg_successors disjunction_classes (iteration_bound task)
        (generate_relaxed_landmarks_seed task FactoryState.empty) = some st ∧
      st.open_landmarks = [] ∧
      ∀ fuel, iteration_bound task ≤ fuel →
        generate_relaxed_landmarks_loop task relaxed_task_solvable _possibly_reaches_lm
          dtg_successors disjunction_classes fuel
          (generate_relaxed_landmarks_seed task FactoryState.empty) = some st) ∧
    (∀ (options : FactoryOptions) (discard_noncausal_landmarks : LandmarkGraph → LandmarkGraph)
      (fuel : Nat), iteration_bound task ≤ fuel →
      (∃ code, generate_relaxed_landmarks task options relaxed_task_solvable
        _possibly_reaches_lm discard_noncausal_landmarks fuel = Except.error code) ∨
      (∃ st, generate_relaxed_landmarks task options relaxed_task_solvable
        _possibly_reaches_lm discard_noncausal_landmarks fuel = Except.ok (some st))) ∧
    (∀ (n : Nat) (st st' : FactoryState),
      generate_relaxed_landmarks_iterate task relaxed_task_solvable _possibly_reaches_lm
        dtg_successors disjunction_classes n
        (generate_relaxed_landmarks_seed task FactoryState.empty) = some st →
      st.open_landmarks ≠ [] →
      generate_relaxed_landmarks_step task relaxed_task_solvable _possibly_reaches_lm
        dtg_successors disjunction_classes st = some st' →
      run_measure task st' < run_measure task st) ∧
    (∀ (n m : Nat) (st st' : FactoryState) (f : FactPair),
      generate_relaxed_landmarks_iterate task relaxed_task_solvable _possibly_reaches_lm
        dtg_successors disjunction_classes n
        (generate_relaxed_landmarks_seed task FactoryState.empty) = some st →
      generate_relaxed_landmarks_iterate task relaxed_task_solvable _possibly_reaches_lm
        dtg_successors disjunction_classes m st = some st' →
      st.lm_graph.contains_simple_landmark f = true →
      st'.lm_graph.contains_simple_landmark f = true) ∧
    (∀ (st : FactoryState) (a : List FactPair) (b : Nat) (t : EdgeType),
      (∃ f ∈ a, st.lm_graph.contains_simple_landmark f = true) →
      found_disj_lm_and_order task st a b t = st) := by
  have hloop : ∀ (o : LevelOracle) (pr : ReachOracle) (dtg : DtgSuccessors)
      (dc : DisjunctionClasses),
      ∃ st, generate_relaxed_landmarks_loop task o pr dtg dc (iteration_bound task)
        (generate_relaxed_landmarks_seed task FactoryState.empty) = some st :=
    fun o pr dtg dc => generate_relaxed_landmarks_loop_some task hwf o pr dtg dc
      (iteration_bound task) _ (handles_distinct_seed task) (run_measure_seed task hwf)
  refine ⟨?_, ?_, ?_, ?_, ?_⟩
  · obtain ⟨st, hst⟩ := hloop relaxed_task_solvable _possibly_reaches_lm dtg_successors
      disjunction_classes
    exact ⟨st, hst, generate_relaxed_landmarks_loop_empty _ _ _ _ _ _ _ st hst,
      fun fuel hfuel => generate_relaxed_landmarks_loop_mono _ _ _ _ _ _ _ st fuel hfuel hst⟩
  · intro options discard_noncausal_landmarks fuel hfuel
    unfold generate_relaxed_landmarks
    simp only []
    cases build_disjunction_classes task with
    | error code => exact Or.inl ⟨code, rfl⟩
    | ok dc =>
      right
      obtain ⟨st, hst⟩ := hloop relaxed_task_solvable _possibly_reaches_lm
        (build_dtg_successors task) dc
      simp only []
      rw [generate_relaxed_landmarks_loop_mono _ _ _ _ _ _ _ st fuel hfuel hst]
      exact ⟨_, rfl⟩
  · intro n st st' hst hopen hstep
    exact run_measure_step_lt task hwf _ _ _ _ st st'
      (handles_distinct_iterate task _ _ _ _ n st hst) hopen hstep
  · intro n m st st' f hst hst' hf
    exact (loop_invariant_iterate (simple_landmark_kept task f) _ _ _ _ m st st'
      ⟨handles_distinct_iterate task _ _ _ _ n st hst, hf⟩ hst').2
  · intro st a b t h
    exact found_disj_of_simple_fact task st a b t h

/-- C31 (witness): `sample_chain_task` has three facts, its bound is
`3 + 3 + 1 + 0 = 7`, and the worklist loop returns within seven iterations. -/
theorem generate_relaxed_landmarks_terminates_witness :
    sample_chain_task.facts_in_domain ∧ iteration_bound sample_chain_task = 7 ∧
    ∃ st, generate_relaxed_landmarks_loop sample_chain_task (fun _ => [[0, 1, 2]])
        (fun _ _ _ => true) (build_dtg_successors sample_chain_task) [] 7
        (generate_relaxed_landmarks_seed sample_chain_task FactoryState.empty) = some st ∧
      st.open_landmarks = [] :=
  ⟨by unfold Task.facts_in_domain; decide, by decide,
   match (generate_relaxed_landmarks_terminates sample_chain_task
     (by unfold Task.facts_in_domain; decide) (fun _ => [[0, 1, 2]]) (fun _ _ _ => true)
     (build_dtg_successors sample_chain_task) []).1 with
   | ⟨st, h1, h2, _⟩ => ⟨st, h1, h2⟩⟩

end Downward
